import Mathlib

/-!
# Horizon-Mapping: scene graph, transform propagation and frustum culling

A shallow embedding of `Code/World.cpp`, `Code/World.h` and `Code/Graphics.h`.

Scalars (`float` in the source) are elements of an arbitrary linear ordered
field `K`; the concrete evaluations are carried out over `ℚ`.  Rounding,
infinities and NaN are therefore outside the model: every statement below is
about the arithmetic the code writes down, carried out exactly.

The scene tree (`Tree<Node>` in the source) is an inductive tree whose
subnodes are kept in a list, first subnode first.

The world manager holds pointers into the tree.  A pointer to a node is the
position of the node among the proper descendants of the root in depth-first
pre-order, and a pointer to a controller is the pointer to the node that holds
it.  The controller hooks and the functions of the graphics layer that
`PreprocessWorld` and `RenderWorld` call are recorded, in the order of the
calls, as a list of events.
-/

namespace Framework

/-! ## Vectors, points, planes and affine transforms -/

/-- A direction vector (`Vector3D`). -/
structure Vector3D (K : Type) where
  x : K
  y : K
  z : K

/-- A position (`Point3D`): a vector whose implicit fourth coordinate is one. -/
structure Point3D (K : Type) where
  x : K
  y : K
  z : K

/-- A plane `(x, y, z, w)`, used as a row vector (`Plane`). -/
structure Plane (K : Type) where
  x : K
  y : K
  z : K
  w : K

/-- A 4x4 matrix whose fourth row is `(0, 0, 0, 1)`; the entry `nij` is row
`i`, column `j` (`Transform4D`). -/
structure Transform4D (K : Type) where
  n00 : K
  n01 : K
  n02 : K
  n03 : K
  n10 : K
  n11 : K
  n12 : K
  n13 : K
  n20 : K
  n21 : K
  n22 : K
  n23 : K

section Algebra

variable {K : Type} [LinearOrderedField K]

/-- Modelled from the spec: `Vector3D * float` (TSVector3D.h, not under src/),
the vector scaled by `t`. -/
def Vector3D.scale (v : Vector3D K) (t : K) : Vector3D K :=
  ⟨v.x * t, v.y * t, v.z * t⟩

/-- Modelled from the spec: `Point3D + Vector3D` (TSVector3D.h, not under
src/), the point moved by `v`. -/
def Point3D.add (p : Point3D K) (v : Vector3D K) : Point3D K :=
  ⟨p.x + v.x, p.y + v.y, p.z + v.z⟩

/-- Modelled from the spec: `Dot(a, b)` of two vectors (TSVector3D.h, not
under src/). -/
def Vector3D.Dot (a b : Vector3D K) : K :=
  a.x * b.x + a.y * b.y + a.z * b.z

/-- Modelled from the spec: `Cross(a, b)` of two vectors (TSVector3D.h, not
under src/). -/
def Vector3D.Cross (a b : Vector3D K) : Vector3D K :=
  ⟨a.y * b.z - a.z * b.y, a.z * b.x - a.x * b.z, a.x * b.y - a.y * b.x⟩

/-- Modelled from the spec: `Dot(plane, vector)` (TSPlane.h, not under src/):
the plane normal dotted with a direction; the `w` coordinate takes no part. -/
def Plane.DotVector (f : Plane K) (v : Vector3D K) : K :=
  f.x * v.x + f.y * v.y + f.z * v.z

/-- Modelled from the spec: `Dot(plane, point)` (TSPlane.h, not under src/):
the signed distance from the plane to the point, scaled by the length of the
plane normal. -/
def Plane.DotPoint (f : Plane K) (p : Point3D K) : K :=
  f.x * p.x + f.y * p.y + f.z * p.z + f.w

/-- Column `j` of the upper 3x4 part, `transform[j]` in the source, as a
vector; any `j` above two reads the fourth column. -/
def Transform4D.col (m : Transform4D K) (j : Nat) : Vector3D K :=
  match j with
  | 0 => ⟨m.n00, m.n10, m.n20⟩
  | 1 => ⟨m.n01, m.n11, m.n21⟩
  | 2 => ⟨m.n02, m.n12, m.n22⟩
  | _ => ⟨m.n03, m.n13, m.n23⟩

/-- The fourth column as a point (`Transform4D::GetTranslation`). -/
def Transform4D.GetTranslation (m : Transform4D K) : Point3D K :=
  ⟨m.n03, m.n13, m.n23⟩

/-- The identity transform (`Transform4D::SetIdentity`). -/
def Transform4D.identity : Transform4D K :=
  ⟨1, 0, 0, 0, 0, 1, 0, 0, 0, 0, 1, 0⟩

/-- Modelled from the spec: `Transform4D * Transform4D` (TSMatrix4D.h, not
under src/), the composition of two affine transforms. -/
def Transform4D.mul (a b : Transform4D K) : Transform4D K :=
  ⟨a.n00 * b.n00 + a.n01 * b.n10 + a.n02 * b.n20,
   a.n00 * b.n01 + a.n01 * b.n11 + a.n02 * b.n21,
   a.n00 * b.n02 + a.n01 * b.n12 + a.n02 * b.n22,
   a.n00 * b.n03 + a.n01 * b.n13 + a.n02 * b.n23 + a.n03,
   a.n10 * b.n00 + a.n11 * b.n10 + a.n12 * b.n20,
   a.n10 * b.n01 + a.n11 * b.n11 + a.n12 * b.n21,
   a.n10 * b.n02 + a.n11 * b.n12 + a.n12 * b.n22,
   a.n10 * b.n03 + a.n11 * b.n13 + a.n12 * b.n23 + a.n13,
   a.n20 * b.n00 + a.n21 * b.n10 + a.n22 * b.n20,
   a.n20 * b.n01 + a.n21 * b.n11 + a.n22 * b.n21,
   a.n20 * b.n02 + a.n21 * b.n12 + a.n22 * b.n22,
   a.n20 * b.n03 + a.n21 * b.n13 + a.n22 * b.n23 + a.n23⟩

/-- Modelled from the spec: `Transform4D * Point3D` (TSMatrix4D.h, not under
src/), the image of a point. -/
def Transform4D.mulPoint (m : Transform4D K) (p : Point3D K) : Point3D K :=
  ⟨m.n00 * p.x + m.n01 * p.y + m.n02 * p.z + m.n03,
   m.n10 * p.x + m.n11 * p.y + m.n12 * p.z + m.n13,
   m.n20 * p.x + m.n21 * p.y + m.n22 * p.z + m.n23⟩

/-- Modelled from the spec: `Plane * Transform4D` (TSPlane.h, not under
src/): the plane, a row vector, multiplied on the right by the matrix. -/
def Plane.mulTransform (f : Plane K) (m : Transform4D K) : Plane K :=
  ⟨f.x * m.n00 + f.y * m.n10 + f.z * m.n20,
   f.x * m.n01 + f.y * m.n11 + f.z * m.n21,
   f.x * m.n02 + f.y * m.n12 + f.z * m.n22,
   f.x * m.n03 + f.y * m.n13 + f.z * m.n23 + f.w⟩

/-- The determinant of the upper-left 3x3 part, `Dot(Cross(a, b), c)` on the
columns `a`, `b`, `c`. -/
def Transform4D.det (m : Transform4D K) : K :=
  ((m.col 0).Cross (m.col 1)).Dot (m.col 2)

/-- Modelled from the spec: `Inverse(Transform4D)` (TSMatrix4D.h, not under
src/).  The rows of the inverse are cross products of the columns `a`, `b`,
`c`, `d` of the matrix, scaled by the reciprocal of the determinant.  For a
singular matrix the source divides by zero; here the reciprocal of zero is
zero, and nothing below relies on that case. -/
def Transform4D.Inverse (m : Transform4D K) : Transform4D K :=
  let a := m.col 0
  let b := m.col 1
  let c := m.col 2
  let d := m.col 3
  let invDet := 1 / (a.Cross b).Dot c
  let s := (a.Cross b).scale invDet
  let t := (c.Cross d).scale invDet
  let v := c.scale invDet
  let r0 := b.Cross v
  let r1 := v.Cross a
  ⟨r0.x, r0.y, r0.z, -(b.Dot t),
   r1.x, r1.y, r1.z, a.Dot t,
   s.x, s.y, s.z, -(d.Dot s)⟩

end Algebra

/-! ## Nodes -/

/-- The world transform and its cached inverse (`Transformable`). -/
structure Transformable (K : Type) where
  worldTransform : Transform4D K
  inverseWorldTransform : Transform4D K

/-- The state a `FrustumCamera` adds to a node: `g`, `s`, `n` and the five
world-space planes (left, right, top, bottom, near). -/
structure FrustumCamera (K : Type) where
  projectionDistance : K
  aspectRatio : K
  nearDepth : K
  worldFrustumPlane : Fin 5 → Plane K

/-- The state an `OccluderNode` adds to a node: its size, the number of
occluder planes and the planes. -/
structure OccluderNode (K : Type) where
  occluderSize : Vector3D K
  planeCount : Int
  planeArray : Fin 9 → Plane K

/-- The dynamic class of a controller.  `controller` has the hooks of
`Controller` itself, which do nothing.  `userController` stands for a subclass
defined outside `World.cpp`: its `MoveController` and `UpdateController`
bodies leave the update flag at the value the two functions give for the
value they find. -/
inductive ControllerClass (K : Type) where
  | controller
  | lightController (revolutionAxis : Vector3D K)
  | skinController
  | userController (moveController : Bool → Bool) (updateController : Bool → Bool)

/-- A controller (`Controller`): its class and its `updateFlag`.  The target
node is the node that holds the controller in `nodeController`. -/
structure Controller (K : Type) where
  controllerClass : ControllerClass K
  updateFlag : Bool

/-- The dynamic class of a node together with the state that class adds.
`node t` is a node built by `Node(t)` itself, such as the root `Node(0)`. -/
inductive NodeClass (K : Type) where
  | node (nodeType : Nat)
  | frustumCamera (camera : FrustumCamera K)
  | orthoCamera (orthoWidth orthoHeight : K)
  | infiniteLight
  | pointLight (lightRange : K)
  | fogNode
  | occluderNode (occluder : OccluderNode K)
  | boneNode
  | meshGeometry
  | sphereGeometry (sphereRadius : K)
  | boxGeometry (boxSize : Vector3D K)
  | textGeometry

/-- A node of the scene tree with the subtree below it: its class, name,
local transform, controller (`none` is the null pointer), world transform pair
and subnodes in sibling order. -/
inductive Node (K : Type) where
  | mk (nodeClass : NodeClass K) (nodeName : String) (nodeTransform : Transform4D K)
      (nodeController : Option (Controller K)) (transformable : Transformable K)
      (subnodes : List (Node K))

section Nodes

variable {K : Type}

/-- The class of the node. -/
def Node.nodeClass : Node K → NodeClass K
  | .mk c _ _ _ _ _ => c

/-- The name of the node (`nodeName`). -/
def Node.nodeName : Node K → String
  | .mk _ s _ _ _ _ => s

/-- The local transform of the node (`nodeTransform`). -/
def Node.nodeTransform : Node K → Transform4D K
  | .mk _ _ t _ _ _ => t

/-- The controller of the node (`nodeController`). -/
def Node.nodeController : Node K → Option (Controller K)
  | .mk _ _ _ ctrl _ _ => ctrl

/-- The subnodes of the node, first subnode first. -/
def Node.subnodes : Node K → List (Node K)
  | .mk _ _ _ _ _ l => l

/-- The world transform of the node (`Transformable::GetWorldTransform`). -/
def Node.GetWorldTransform : Node K → Transform4D K
  | .mk _ _ _ _ w _ => w.worldTransform

/-- The inverse world transform of the node
(`Transformable::GetInverseWorldTransform`). -/
def Node.GetInverseWorldTransform : Node K → Transform4D K
  | .mk _ _ _ _ w _ => w.inverseWorldTransform

/-- The world position of the node (`Transformable::GetWorldPosition`). -/
def Node.GetWorldPosition (node : Node K) : Point3D K :=
  node.GetWorldTransform.GetTranslation

/-! ## The links of the tree -/

mutual

/-- Every pair (super node, subnode) of the tree rooted at the node, the
pairs of the node itself first. -/
def Node.links : Node K → List (Node K × Node K)
  | .mk c name t ctrl w subs =>
    subs.map (fun sub => (Node.mk c name t ctrl w subs, sub)) ++ Node.linksOfList subs

/-- The links of the trees rooted at the nodes of a list. -/
def Node.linksOfList : List (Node K) → List (Node K × Node K)
  | [] => []
  | node :: rest => node.links ++ Node.linksOfList rest

end

variable [LinearOrderedField K]

/-- The world transform `UpdateNode` stores in a node: the product with the
super node's world transform, or the local transform without a super node. -/
def Node.expectedWorld (superNode : Option (Transform4D K)) (t : Transform4D K) :
    Transform4D K :=
  match superNode with
  | some sw => sw.mul t
  | none => t

/-- Storing a world transform also stores its inverse
(`Transformable::SetWorldTransform`). -/
def Transformable.SetWorldTransform (transform : Transform4D K) : Transformable K :=
  ⟨transform, transform.Inverse⟩

/-! ## Frustum camera -/

/-- The five camera-space planes built from `g`, `s` and `n` in
`FrustumCamera::UpdateNode`: left, right, top, bottom, near.  `InverseSqrt`
(TSMath.h, not under src/) is a parameter. -/
def FrustumCamera.cameraPlane (InverseSqrt : K → K) (camera : FrustumCamera K) :
    Fin 5 → Plane K :=
  let g := camera.projectionDistance
  let s := camera.aspectRatio
  let rx := InverseSqrt (g * g + s * s)
  let ry := InverseSqrt (g * g + 1)
  ![⟨g * rx, 0, s * rx, 0⟩,
    ⟨-g * rx, 0, s * rx, 0⟩,
    ⟨0, g * ry, ry, 0⟩,
    ⟨0, -g * ry, ry, 0⟩,
    ⟨0, 0, 1, -camera.nearDepth⟩]

/-- The part of `FrustumCamera::UpdateNode` after the base update: the
camera-space planes are multiplied on the right by the inverse world
transform `transform` and stored. -/
def FrustumCamera.UpdatePlanes (InverseSqrt : K → K) (camera : FrustumCamera K)
    (transform : Transform4D K) : FrustumCamera K :=
  { camera with
    worldFrustumPlane := fun k => (camera.cameraPlane InverseSqrt k).mulTransform transform }

/-- The loop of `FrustumCamera::SphereVisible` from plane `k` on. -/
def FrustumCamera.SphereVisible.loop (camera : FrustumCamera K) (center : Point3D K)
    (radius : K) (k : Nat) : Bool :=
  if h : k < 5 then
    if (camera.worldFrustumPlane ⟨k, h⟩).DotPoint center < -radius then false
    else FrustumCamera.SphereVisible.loop camera center radius (k + 1)
  else true
termination_by 5 - k

/-- The sphere test `FrustumCamera::SphereVisible`. -/
def FrustumCamera.SphereVisible (camera : FrustumCamera K) (center : Point3D K)
    (radius : K) : Bool :=
  FrustumCamera.SphereVisible.loop camera center radius 0

/-- The local `halfAxisX` of `FrustumCamera::BoxVisible`; `0.5F` is one half. -/
def FrustumCamera.BoxVisible.halfAxisX (transform : Transform4D K) (size : Vector3D K) :
    Vector3D K :=
  (transform.col 0).scale (size.x * (1 / 2))

/-- The local `halfAxisY` of `FrustumCamera::BoxVisible`. -/
def FrustumCamera.BoxVisible.halfAxisY (transform : Transform4D K) (size : Vector3D K) :
    Vector3D K :=
  (transform.col 1).scale (size.y * (1 / 2))

/-- The local `halfAxisZ` of `FrustumCamera::BoxVisible`. -/
def FrustumCamera.BoxVisible.halfAxisZ (transform : Transform4D K) (size : Vector3D K) :
    Vector3D K :=
  (transform.col 2).scale (size.z * (1 / 2))

/-- The local `center` of `FrustumCamera::BoxVisible`: the translation, which
is the minimal corner of the box, moved by the three half axes. -/
def FrustumCamera.BoxVisible.center (transform : Transform4D K) (size : Vector3D K) :
    Point3D K :=
  ((transform.GetTranslation.add (FrustumCamera.BoxVisible.halfAxisX transform size)).add
    (FrustumCamera.BoxVisible.halfAxisY transform size)).add
    (FrustumCamera.BoxVisible.halfAxisZ transform size)

/-- The local `rg` of `FrustumCamera::BoxVisible`, the effective radius of the
box with respect to a plane. -/
def FrustumCamera.BoxVisible.rg (plane : Plane K) (transform : Transform4D K)
    (size : Vector3D K) : K :=
  |plane.DotVector (FrustumCamera.BoxVisible.halfAxisX transform size)|
    + |plane.DotVector (FrustumCamera.BoxVisible.halfAxisY transform size)|
    + |plane.DotVector (FrustumCamera.BoxVisible.halfAxisZ transform size)|

/-- The loop of `FrustumCamera::BoxVisible` from plane `k` on. -/
def FrustumCamera.BoxVisible.loop (camera : FrustumCamera K) (transform : Transform4D K)
    (size : Vector3D K) (k : Nat) : Bool :=
  if h : k < 5 then
    let plane := camera.worldFrustumPlane ⟨k, h⟩
    if plane.DotPoint (FrustumCamera.BoxVisible.center transform size)
        ≤ -FrustumCamera.BoxVisible.rg plane transform size then false
    else FrustumCamera.BoxVisible.loop camera transform size (k + 1)
  else true
termination_by 5 - k

/-- The box test `FrustumCamera::BoxVisible`. -/
def FrustumCamera.BoxVisible (camera : FrustumCamera K) (transform : Transform4D K)
    (size : Vector3D K) : Bool :=
  FrustumCamera.BoxVisible.loop camera transform size 0

/-! ## Transform propagation -/

mutual

/-- The virtual call `node->UpdateNode()`.  `superNode` is the world transform
of the super node, or `none` when the node has no super node.  The body of
`Node::UpdateNode` stores the world transform and updates the subnodes; for a
frustum camera, `FrustumCamera::UpdateNode` then recomputes the planes from
the inverse world transform just stored. -/
def Node.UpdateNode (InverseSqrt : K → K) (superNode : Option (Transform4D K)) :
    Node K → Node K
  | .mk c name t ctrl _ subs =>
    let w : Transformable K :=
      match superNode with
      | some sw => Transformable.SetWorldTransform (sw.mul t)
      | none => Transformable.SetWorldTransform t
    let subs' := Node.UpdateSubnodes InverseSqrt w.worldTransform subs
    match c with
    | .frustumCamera camera =>
      .mk (.frustumCamera (camera.UpdatePlanes InverseSqrt w.inverseWorldTransform))
        name t ctrl w subs'
    | c => .mk c name t ctrl w subs'

/-- The loop `while (node) { node->UpdateNode(); node = node->GetNextSubnode(); }`
over the subnodes of a node whose world transform is `superWorld`. -/
def Node.UpdateSubnodes (InverseSqrt : K → K) (superWorld : Transform4D K) :
    List (Node K) → List (Node K)
  | [] => []
  | node :: rest =>
    Node.UpdateNode InverseSqrt (some superWorld) node
      :: Node.UpdateSubnodes InverseSqrt superWorld rest

end

/-! ## Lights -/

/-- The base `LightNode::LightVisible`, which `InfiniteLight` inherits. -/
def LightNode.LightVisible (_light : Node K) (_camera : FrustumCamera K) : Bool :=
  true

/-- The override `PointLight::LightVisible` of a point light of range
`lightRange`. -/
def PointLight.LightVisible (light : Node K) (lightRange : K) (camera : FrustumCamera K) :
    Bool :=
  camera.SphereVisible light.GetWorldPosition lightRange

/-- The virtual call `lightNode->LightVisible(camera)`: a point light runs
its override, every other node the base function. -/
def Node.LightVisible (light : Node K) (camera : FrustumCamera K) : Bool :=
  match light.nodeClass with
  | .pointLight lightRange => PointLight.LightVisible light lightRange camera
  | _ => LightNode.LightVisible light camera

end Nodes

/-! ## Notions used to state the properties -/

section Notions

variable {K : Type} [LinearOrderedField K]

/-- Modelled from the spec: `Point3D - Point3D` (TSVector3D.h, not under
src/), the vector from `q` to `p`. -/
def Point3D.sub (p q : Point3D K) : Vector3D K :=
  ⟨p.x - q.x, p.y - q.y, p.z - q.z⟩

/-- The squared length of the normal of a plane. -/
def Plane.normalSq (f : Plane K) : K :=
  f.x * f.x + f.y * f.y + f.z * f.z

/-- The three axes `m[0]`, `m[1]`, `m[2]` of the transform are unit vectors at
right angles to one another: the transform is rigid (a rotation or reflection
followed by a translation). -/
def Transform4D.Orthonormal (m : Transform4D K) : Prop :=
  (m.col 0).Dot (m.col 0) = 1 ∧ (m.col 1).Dot (m.col 1) = 1 ∧ (m.col 2).Dot (m.col 2) = 1 ∧
  (m.col 0).Dot (m.col 1) = 0 ∧ (m.col 0).Dot (m.col 2) = 0 ∧ (m.col 1).Dot (m.col 2) = 0

instance Transform4D.decidableOrthonormal (m : Transform4D K) : Decidable m.Orthonormal := by
  unfold Transform4D.Orthonormal
  infer_instance

/-- The point `T.translation + u * size.x * T[0] + v * size.y * T[1] + w * size.z * T[2]`
of the box with transform `T` and size `size`; the box is the set of these
points for `u`, `v`, `w` between zero and one. -/
def boxPoint (T : Transform4D K) (size : Vector3D K) (u v w : K) : Point3D K :=
  ((T.GetTranslation.add ((T.col 0).scale (u * size.x))).add
    ((T.col 1).scale (v * size.y))).add ((T.col 2).scale (w * size.z))

end Notions

/-! ## Concrete scenes over the rationals -/

/-- Modelled from the spec: `InverseSqrt` (TSMath.h, not under src/) on
rational numbers: the reciprocal of the rational square root, which is exact
on the square of a rational. -/
def InverseSqrtRat (x : ℚ) : ℚ :=
  1 / Rat.sqrt x

/-- The uniform scaling by one half. -/
def halfScale : Transform4D ℚ :=
  ⟨1 / 2, 0, 0, 0, 0, 1 / 2, 0, 0, 0, 0, 1 / 2, 0⟩

/-- A frustum camera as `FrustumCamera(3/4, 1, 1/8)` builds it, the planes not
yet computed. -/
def sampleCamera : FrustumCamera ℚ :=
  ⟨3 / 4, 1, 1 / 8, fun _ => ⟨0, 0, 0, 0⟩⟩

/-- A tree made of one frustum camera node whose local transform scales by
one half. -/
def scaledCameraNode : Node ℚ :=
  .mk (.frustumCamera sampleCamera) "camera" halfScale none
    ⟨Transform4D.identity, Transform4D.identity⟩ []

/-- A tree made of one frustum camera node with the identity local
transform. -/
def plainCameraNode : Node ℚ :=
  .mk (.frustumCamera sampleCamera) "camera" Transform4D.identity none
    ⟨Transform4D.identity, Transform4D.identity⟩ []

/-- The camera of `scaledCameraNode` after `UpdateNode` on that tree. -/
def updatedScaledCamera : FrustumCamera ℚ :=
  sampleCamera.UpdatePlanes InverseSqrtRat halfScale.Inverse

/-- The camera of `plainCameraNode` after `UpdateNode` on that tree. -/
def updatedPlainCamera : FrustumCamera ℚ :=
  sampleCamera.UpdatePlanes InverseSqrtRat (Transform4D.identity (K := ℚ)).Inverse

/-- The translation by `(x, y, z)`. -/
def translation (x y z : ℚ) : Transform4D ℚ :=
  ⟨1, 0, 0, x, 0, 1, 0, y, 0, 0, 1, z⟩


/-- The half turn about the x axis: it maps the camera's view axis `+z` to
the world direction `-z` and keeps the origin. -/
def lookDownNegZ : Transform4D ℚ :=
  ⟨1, 0, 0, 0, 0, -1, 0, 0, 0, 0, -1, 0⟩

/-- A frustum camera as `FrustumCamera(1, 1, 1/10)` builds it, the planes not
yet computed. -/
def unitCamera : FrustumCamera ℚ :=
  ⟨1, 1, 1 / 10, fun _ => ⟨0, 0, 0, 0⟩⟩


/-! ## Tree traversal and `FindNode` -/

section Traversal

variable {K : Type}

/-- A node pointer during a traversal below a fixed node `this`: the node
pointed to, and for every level from that of the node up to the level of the
subnodes of `this`, the nodes that follow on that level (the `GetNextSubnode`
chain of the node, of its super node, and so on).  The pointer is `this`
itself exactly when the list of levels is empty. -/
structure TreeCursor (K : Type) where
  node : Node K
  following : List (List (Node K))

/-- Modelled from the spec: `Tree::GetFirstSubnode` (TSTree.h, not under
src/), the first subnode or null. -/
def TreeCursor.GetFirstSubnode (c : TreeCursor K) : Option (TreeCursor K) :=
  match c.node.subnodes with
  | [] => none
  | sub :: rest => some ⟨sub, rest :: c.following⟩

/-- Modelled from the spec: the upward loop of `Tree::GetNextTreeNode`
(TSTree.h, not under src/).  Starting from a node without subnodes: stop with
null at `this`, otherwise move to the next node on the level if there is one,
otherwise continue from the super node. -/
def TreeCursor.climb : List (List (Node K)) → Option (TreeCursor K)
  | [] => none
  | [] :: up => TreeCursor.climb up
  | (next :: rest) :: up => some ⟨next, rest :: up⟩

/-- Modelled from the spec: `Tree::GetNextTreeNode` (TSTree.h, not under
src/), the step of a depth-first pre-order traversal of the subtree of
`this`: the first subnode if there is one, otherwise the result of the
upward loop. -/
def TreeCursor.GetNextTreeNode (c : TreeCursor K) : Option (TreeCursor K) :=
  match c.node.subnodes with
  | sub :: rest => some ⟨sub, rest :: c.following⟩
  | [] => TreeCursor.climb c.following

mutual

/-- The proper descendants of a node in depth-first pre-order. -/
def Node.descendants : Node K → List (Node K)
  | .mk _ _ _ _ _ subs => Node.preorderOfList subs

/-- The nodes of the trees rooted at the nodes of a list, in depth-first
pre-order. -/
def Node.preorderOfList : List (Node K) → List (Node K)
  | [] => []
  | node :: rest => node :: (node.descendants ++ Node.preorderOfList rest)

end

/-- The loop of `Node::FindNode`, run for at most `fuel` nodes. -/
def Node.FindNode.loop (name : String) : Nat → Option (TreeCursor K) → Option (Node K)
  | _, none => none
  | 0, some _ => none
  | fuel + 1, some c =>
    if c.node.nodeName = name then some c.node
    else Node.FindNode.loop name fuel c.GetNextTreeNode

/-- The search `Node::FindNode`; `none` is the null pointer.  The loop visits
every proper descendant at most once, so the number of proper descendants is
fuel enough. -/
def Node.FindNode (this : Node K) (name : String) : Option (Node K) :=
  Node.FindNode.loop name this.descendants.length
    (TreeCursor.GetFirstSubnode ⟨this, []⟩)

/-- The nodes that follow a pointer with the given levels in the traversal. -/
def TreeCursor.after : List (List (Node K)) → List (Node K)
  | [] => []
  | level :: up => Node.preorderOfList level ++ TreeCursor.after up

/-- The nodes a traversal still visits from a pointer on; none from null. -/
def TreeCursor.remaining : Option (TreeCursor K) → List (Node K)
  | none => []
  | some c => c.node :: (c.node.descendants ++ TreeCursor.after c.following)

end Traversal

/-- A tree over the rationals: a root with the subnodes `a` and `b`, where `a`
has the subnodes `c` and `b`; the second `b` has a subnode `d`. -/
def sampleTree : Node ℚ :=
  .mk (.node 0) "root" Transform4D.identity none ⟨Transform4D.identity, Transform4D.identity⟩
    [.mk .boneNode "a" Transform4D.identity none ⟨Transform4D.identity, Transform4D.identity⟩
      [.mk .boneNode "c" Transform4D.identity none ⟨Transform4D.identity, Transform4D.identity⟩ [],
       .mk .fogNode "b" Transform4D.identity none ⟨Transform4D.identity, Transform4D.identity⟩ []],
     .mk .boneNode "b" Transform4D.identity none ⟨Transform4D.identity, Transform4D.identity⟩
      [.mk .boneNode "d" Transform4D.identity none ⟨Transform4D.identity, Transform4D.identity⟩ []]]


/-- A tree whose root, moved by `(1, 2, 3)`, has `scaledCameraNode` as its
only subnode. -/
def cameraScene : Node ℚ :=
  .mk (.node 0) "root" (translation 1 2 3) none ⟨Transform4D.identity, Transform4D.identity⟩
    [scaledCameraNode]


/-! ## Nodes without their tree links, and pointers to nodes -/

/-- The members of a node apart from its tree links: class, name, local
transform, controller and world transform pair. -/
structure NodeData (K : Type) where
  nodeClass : NodeClass K
  nodeName : String
  nodeTransform : Transform4D K
  nodeController : Option (Controller K)
  transformable : Transformable K

section Pointers

variable {K : Type}

/-- The members of the node. -/
def Node.data : Node K → NodeData K
  | .mk c name t ctrl w _ => ⟨c, name, t, ctrl, w⟩

/-- The node with its members replaced and its subnodes kept. -/
def Node.setData (d : NodeData K) : Node K → Node K
  | .mk _ _ _ _ _ subs => .mk d.nodeClass d.nodeName d.nodeTransform d.nodeController
      d.transformable subs

/-- The members of the proper descendants of a node, in depth-first
pre-order.  A pointer to a node of the tree below `root` is the position of
the node in this list. -/
def Node.dataList (root : Node K) : List (NodeData K) :=
  root.descendants.map Node.data

/-- The members read through a pointer; `none` when the pointer refers to no
node of the tree. -/
def Node.dataAt (root : Node K) (pointer : Nat) : Option (NodeData K) :=
  root.dataList[pointer]?

mutual

/-- The tree after a write through a pointer: the members of the node the
pointer refers to are replaced by `g` of them; a pointer that refers to no
node leaves the tree as it is. -/
def Node.modifyDescendant (g : NodeData K → NodeData K) : Nat → Node K → Node K
  | pointer, .mk c name t ctrl w subs =>
    .mk c name t ctrl w (Node.modifyInList g pointer subs)

/-- The write through a pointer into the trees rooted at the nodes of a list,
which are numbered in pre-order one after the other. -/
def Node.modifyInList (g : NodeData K → NodeData K) : Nat → List (Node K) → List (Node K)
  | _, [] => []
  | 0, node :: rest => node.setData (g node.data) :: rest
  | pointer + 1, node :: rest =>
    if pointer < node.descendants.length then
      Node.modifyDescendant g pointer node :: rest
    else
      node :: Node.modifyInList g (pointer - node.descendants.length) rest

end

end Pointers


/-! ## Node types, occluders and the predicates of geometry nodes -/

/-- The node type `kNodeCamera`, the four-character code `'CAMR'`. -/
def kNodeCamera : Nat := 0x43414D52

/-- The node type `kNodeLight`, the four-character code `'LITE'`. -/
def kNodeLight : Nat := 0x4C495445

/-- The node type `kNodeFog`, the four-character code `'FOG '`. -/
def kNodeFog : Nat := 0x464F4720

/-- The node type `kNodeOccluder`, the four-character code `'OCCL'`. -/
def kNodeOccluder : Nat := 0x4F43434C

/-- The node type `kNodeBone`, the four-character code `'BONE'`. -/
def kNodeBone : Nat := 0x424F4E45

/-- The node type `kNodeGeometry`, the four-character code `'GEOM'`. -/
def kNodeGeometry : Nat := 0x47454F4D

/-- The camera type `kCameraFrustum`, the four-character code `'FRUS'`. -/
def kCameraFrustum : Nat := 0x46525553

/-- The camera type `kCameraOrtho`, the four-character code `'ORTH'`. -/
def kCameraOrtho : Nat := 0x4F525448

/-- The light type `kLightInfinite`, the four-character code `'INFT'`. -/
def kLightInfinite : Nat := 0x494E4654

/-- The light type `kLightPoint`, the four-character code `'PONT'`. -/
def kLightPoint : Nat := 0x504F4E54

section Classes

variable {K : Type}

/-- The type tag the constructor of the class passes to `Node(type)`
(`Node::GetNodeType`). -/
def NodeClass.GetNodeType : NodeClass K → Nat
  | .node nodeType => nodeType
  | .frustumCamera _ => kNodeCamera
  | .orthoCamera _ _ => kNodeCamera
  | .infiniteLight => kNodeLight
  | .pointLight _ => kNodeLight
  | .fogNode => kNodeFog
  | .occluderNode _ => kNodeOccluder
  | .boneNode => kNodeBone
  | .meshGeometry => kNodeGeometry
  | .sphereGeometry _ => kNodeGeometry
  | .boxGeometry _ => kNodeGeometry
  | .textGeometry => kNodeGeometry

/-- The camera type of a camera (`CameraNode::GetCameraType`).  The source
reads it through a cast of the node pointer; for a node that is no camera the
cast is invalid and the value here is zero, which is neither camera type. -/
def NodeClass.GetCameraType : NodeClass K → Nat
  | .frustumCamera _ => kCameraFrustum
  | .orthoCamera _ _ => kCameraOrtho
  | _ => 0

/-- The light type of a light (`LightNode::GetLightType`); zero, which is
neither light type, for a node that is no light. -/
def NodeClass.GetLightType : NodeClass K → Nat
  | .infiniteLight => kLightInfinite
  | .pointLight _ => kLightPoint
  | _ => 0

/-- The type tag of a node (`Node::GetNodeType`). -/
def Node.GetNodeType (node : Node K) : Nat :=
  node.nodeClass.GetNodeType

/-- The camera type of a node (`CameraNode::GetCameraType`). -/
def Node.GetCameraType (node : Node K) : Nat :=
  node.nodeClass.GetCameraType

/-- The stub `OccluderNode::CalculateOccluderPlanes`: it stores the plane
count zero and reads nothing of the camera. -/
def OccluderNode.CalculateOccluderPlanes (occluder : OccluderNode K)
    (_cameraNode : FrustumCamera K) : OccluderNode K :=
  { occluder with planeCount := 0 }

/-- The stub `OccluderNode::SphereOccluded`. -/
def OccluderNode.SphereOccluded (_occluder : OccluderNode K) (_center : Point3D K)
    (_radius : K) : Bool :=
  false

/-- The stub `OccluderNode::BoxOccluded`. -/
def OccluderNode.BoxOccluded (_occluder : OccluderNode K) (_transform : Transform4D K)
    (_size : Vector3D K) : Bool :=
  false

/-- The placeholder `PointLight::SphereIlluminated`. -/
def PointLight.SphereIlluminated (_light : NodeData K) (_center : Point3D K) (_radius : K) :
    Bool :=
  true

/-- The placeholder `PointLight::BoxIlluminated`. -/
def PointLight.BoxIlluminated (_light : NodeData K) (_transform : Transform4D K)
    (_size : Vector3D K) : Bool :=
  true

/-- The world transform of a node given by its members. -/
def NodeData.GetWorldTransform (d : NodeData K) : Transform4D K :=
  d.transformable.worldTransform

/-- The world position of a node given by its members. -/
def NodeData.GetWorldPosition (d : NodeData K) : Point3D K :=
  d.transformable.worldTransform.GetTranslation

/-- The base `GeometryNode::GeometryVisible`, which mesh and text geometry
inherit. -/
def GeometryNode.GeometryVisible (_geometry : NodeData K) (_camera : FrustumCamera K) : Bool :=
  true

/-- The base `GeometryNode::GeometryOccluded`. -/
def GeometryNode.GeometryOccluded (_geometry : NodeData K) (_occluder : OccluderNode K) :
    Bool :=
  false

/-- The base `GeometryNode::GeometryIlluminated`. -/
def GeometryNode.GeometryIlluminated (_geometry : NodeData K) (_light : NodeData K) : Bool :=
  true

variable [LinearOrderedField K]

/-- The override `SphereGeometry::GeometryVisible`. -/
def SphereGeometry.GeometryVisible (geometry : NodeData K) (sphereRadius : K)
    (camera : FrustumCamera K) : Bool :=
  camera.SphereVisible geometry.GetWorldPosition sphereRadius

/-- The override `SphereGeometry::GeometryOccluded`. -/
def SphereGeometry.GeometryOccluded (geometry : NodeData K) (sphereRadius : K)
    (occluder : OccluderNode K) : Bool :=
  occluder.SphereOccluded geometry.GetWorldPosition sphereRadius

/-- The override `SphereGeometry::GeometryIlluminated`. -/
def SphereGeometry.GeometryIlluminated (geometry : NodeData K) (sphereRadius : K)
    (light : NodeData K) : Bool :=
  PointLight.SphereIlluminated light geometry.GetWorldPosition sphereRadius

/-- The override `BoxGeometry::GeometryVisible`. -/
def BoxGeometry.GeometryVisible (geometry : NodeData K) (boxSize : Vector3D K)
    (camera : FrustumCamera K) : Bool :=
  camera.BoxVisible geometry.GetWorldTransform boxSize

/-- The override `BoxGeometry::GeometryOccluded`. -/
def BoxGeometry.GeometryOccluded (geometry : NodeData K) (boxSize : Vector3D K)
    (occluder : OccluderNode K) : Bool :=
  occluder.BoxOccluded geometry.GetWorldTransform boxSize

/-- The override `BoxGeometry::GeometryIlluminated`. -/
def BoxGeometry.GeometryIlluminated (geometry : NodeData K) (boxSize : Vector3D K)
    (light : NodeData K) : Bool :=
  PointLight.BoxIlluminated light geometry.GetWorldTransform boxSize

/-- The virtual call `geometryNode->GeometryVisible(camera)`: sphere and box
geometry run their overrides, every other node the base function. -/
def NodeData.GeometryVisible (geometry : NodeData K) (camera : FrustumCamera K) : Bool :=
  match geometry.nodeClass with
  | .sphereGeometry sphereRadius => SphereGeometry.GeometryVisible geometry sphereRadius camera
  | .boxGeometry boxSize => BoxGeometry.GeometryVisible geometry boxSize camera
  | _ => GeometryNode.GeometryVisible geometry camera

/-- The virtual call `geometryNode->GeometryOccluded(occluder)`. -/
def NodeData.GeometryOccluded (geometry : NodeData K) (occluder : OccluderNode K) : Bool :=
  match geometry.nodeClass with
  | .sphereGeometry sphereRadius =>
    SphereGeometry.GeometryOccluded geometry sphereRadius occluder
  | .boxGeometry boxSize => BoxGeometry.GeometryOccluded geometry boxSize occluder
  | _ => GeometryNode.GeometryOccluded geometry occluder

/-- The virtual call `geometryNode->GeometryIlluminated(light)`. -/
def NodeData.GeometryIlluminated (geometry : NodeData K) (light : NodeData K) : Bool :=
  match geometry.nodeClass with
  | .sphereGeometry sphereRadius =>
    SphereGeometry.GeometryIlluminated geometry sphereRadius light
  | .boxGeometry boxSize => BoxGeometry.GeometryIlluminated geometry boxSize light
  | _ => GeometryNode.GeometryIlluminated geometry light

/-- The virtual call `lightNode->LightVisible(camera)` on the members of a
light: a point light tests the sphere of its range around its world position,
every other node runs the base function, which returns true. -/
def NodeData.LightVisible (light : NodeData K) (camera : FrustumCamera K) : Bool :=
  match light.nodeClass with
  | .pointLight lightRange => camera.SphereVisible light.GetWorldPosition lightRange
  | _ => true

end Classes


/-! ## The world manager -/

/-- A 3x3 matrix; the entry `mij` is row `i`, column `j` (`Matrix3D`). -/
structure Matrix3D (K : Type) where
  m00 : K
  m01 : K
  m02 : K
  m10 : K
  m11 : K
  m12 : K
  m20 : K
  m21 : K
  m22 : K

/-- A call of a controller hook or of a function of the graphics layer, which
is outside the model.  Nodes and controllers are named by their pointers. -/
inductive Event where
  | PreprocessController (controller : Nat)
  | MoveController (controller : Nat)
  | UpdateController (controller : Nat)
  | CalculateOccluderPlanes (occluder : Nat)
  | PrepareToRender (geometry : Nat)
  | Render (geometry : Nat) (programIndex : Nat)
  deriving DecidableEq

/-- The state of the `WorldManager`.  A pointer to a node of the tree is the
position of the node among the proper descendants of the root in depth-first
pre-order, a pointer to a controller is the pointer to the node that holds
it, `none` is the null pointer, and each list holds the pointers of its
elements from first to last.  The overlay camera and the overlay geometry
nodes are outside the tree and are kept as nodes.  The ambient color, which
is only handed to the graphics layer, is left out. -/
structure WorldManager (K : Type) where
  rootNode : Node K
  cameraNode : Option Nat
  fogNode : Option Nat
  lightList : List Nat
  occluderList : List Nat
  geometryList : List Nat
  controllerList : List Nat
  overlayCameraNode : Option (Node K)
  overlayGeometryList : List (Node K)

/-- What a call of `RenderWorld` leaves behind: the state of the world
manager, the local array `visibleGeometryArray` as it stands at the end, the
three counts written through the arguments, and the hooks and graphics
functions called, in the order of the calls. -/
structure RenderResult (K : Type) where
  world : WorldManager K
  visibleGeometryArray : List Nat
  ambientDrawCount : Nat
  lightDrawCount : Nat
  lightSourceCount : Nat
  trace : List Event

/-- Modelled from the spec: `List::AppendListElement` (TSList.h, not under
src/).  The links of a list are stored in the element (`ListElement` is a base
class of the node and controller classes), so an element is in a list at most
once: an element that is already in the list is unlinked first and then
added at the end. -/
def AppendListElement (list : List Nat) (element : Nat) : List Nat :=
  list.filter (fun e => e != element) ++ [element]

section World

variable {K : Type}

/-- The state the constructor `WorldManager::WorldManager` leaves, with the
tree `root` below the root node: no camera, no fog, empty lists. -/
def WorldManager.new (root : Node K) : WorldManager K :=
  ⟨root, none, none, [], [], [], [], none, []⟩

/-- The body of the loop of `WorldManager::PreprocessWorld` for the node
`node`, whose pointer is `pointer`: the node is filed by its type tag, and a
controller it holds is registered and preprocessed. -/
def WorldManager.PreprocessWorld.body (state : WorldManager K × List Event) (pointer : Nat)
    (node : Node K) : WorldManager K × List Event :=
  let w := state.1
  let type := node.GetNodeType
  let w1 : WorldManager K :=
    if type = kNodeGeometry then
      { w with geometryList := AppendListElement w.geometryList pointer }
    else if type = kNodeLight then
      { w with lightList := AppendListElement w.lightList pointer }
    else if type = kNodeCamera then
      if w.cameraNode.isNone then
        if node.GetCameraType = kCameraFrustum then { w with cameraNode := some pointer }
        else w
      else w
    else if type = kNodeFog then
      { w with fogNode := some pointer }
    else if type = kNodeOccluder then
      { w with occluderList := AppendListElement w.occluderList pointer }
    else w
  match node.nodeController with
  | some _ =>
    ({ w1 with controllerList := AppendListElement w1.controllerList pointer },
      state.2 ++ [Event.PreprocessController pointer])
  | none => (w1, state.2)

/-- The loop of `WorldManager::PreprocessWorld` from the node pointer `c`,
whose pointer number is `pointer`, run for at most `fuel` nodes. -/
def WorldManager.PreprocessWorld.loop :
    Nat → Option (TreeCursor K) → Nat → WorldManager K × List Event →
      WorldManager K × List Event
  | _, none, _, state => state
  | 0, some _, _, state => state
  | fuel + 1, some c, pointer, state =>
    WorldManager.PreprocessWorld.loop fuel c.GetNextTreeNode (pointer + 1)
      (WorldManager.PreprocessWorld.body state pointer c.node)

end World

section WorldField

variable {K : Type} [LinearOrderedField K]

/-- The node with the world transform `transform` stored
(`Transformable::SetWorldTransform` on a node). -/
def Node.SetWorldTransform (transform : Transform4D K) : Node K → Node K
  | .mk c name t ctrl _ subs => .mk c name t ctrl (Transformable.SetWorldTransform transform) subs

/-- The function `WorldManager::PreprocessWorld`, with the controller hooks
it calls.  The loop visits every proper descendant of the root once, so their
number is fuel enough.  The last loop seeds the world transform of every
overlay geometry node from its local transform. -/
def WorldManager.PreprocessWorld (w : WorldManager K) : WorldManager K × List Event :=
  let state := WorldManager.PreprocessWorld.loop w.rootNode.descendants.length
    (TreeCursor.GetFirstSubnode ⟨w.rootNode, []⟩) 0 (w, [])
  ({ state.1 with
      overlayGeometryList :=
        state.1.overlayGeometryList.map (fun g => g.SetWorldTransform g.nodeTransform) },
    state.2)

end WorldField


/-! ## Notions used to state the properties of the world manager -/

section WorldNotions

variable {K : Type}

/-- The pointers, counted from `start` on, of the nodes of a list that satisfy
`p`, in the order of the list. -/
def Node.pointersWhere (p : Node K → Bool) : Nat → List (Node K) → List Nat
  | _, [] => []
  | start, node :: rest =>
    if p node then start :: Node.pointersWhere p (start + 1) rest
    else Node.pointersWhere p (start + 1) rest

/-- The pointers of the proper descendants of `root` that satisfy `p`, in
depth-first pre-order. -/
def Node.pointers (root : Node K) (p : Node K → Bool) : List Nat :=
  Node.pointersWhere p 0 root.descendants

/-- The body of the loop of `PreprocessWorld` run along a list of nodes whose
pointers count up from `pointer`. -/
def WorldManager.PreprocessWorld.visit :
    List (Node K) → Nat → WorldManager K × List Event → WorldManager K × List Event
  | [], _, state => state
  | node :: rest, pointer, state =>
    WorldManager.PreprocessWorld.visit rest (pointer + 1)
      (WorldManager.PreprocessWorld.body state pointer node)

/-- The controller classes the source defines: the base class, the light
controller and the skin controller. -/
def ControllerClass.shipped : ControllerClass K → Bool
  | .userController _ _ => false
  | _ => true

/-- The geometry of a draw with the program `programIndex`; `none` for every
other call. -/
def Event.draw (programIndex : Nat) : Event → Option Nat
  | .Render geometry index => if index = programIndex then some geometry else none
  | _ => none

/-- The controller of a call of `UpdateController`; `none` for every other
call. -/
def Event.update : Event → Option Nat
  | .UpdateController controller => some controller
  | _ => none

end WorldNotions


/-! ## Controllers and `RenderWorld` -/

section Render

variable {K : Type} [LinearOrderedField K]

/-- Modelled from the spec: `Matrix3D * Point3D` (TSMatrix3D.h, not under
src/), the image of a point under the matrix. -/
def Matrix3D.mulPoint (m : Matrix3D K) (p : Point3D K) : Point3D K :=
  ⟨m.m00 * p.x + m.m01 * p.y + m.m02 * p.z,
   m.m10 * p.x + m.m11 * p.y + m.m12 * p.z,
   m.m20 * p.x + m.m21 * p.y + m.m22 * p.z⟩

/-- The assignment `transform[3] = p`: the fourth column is replaced. -/
def Transform4D.SetTranslation (m : Transform4D K) (p : Point3D K) : Transform4D K :=
  { m with n03 := p.x, n13 := p.y, n23 := p.z }

/-- The virtual call `controller->MoveController()`, as it changes the node
that holds the controller.  `LightController::MoveController` turns the
translation of its target by the rotation about the revolution axis by the
angle `deltaTime * 0.2F`; `Matrix3D::MakeRotation` (TSMatrix3D.h, not under
src/) and the global `deltaTime` are parameters.  The hook of a user
controller changes the update flag as its class says, and the hook of
`Controller`, which the skin controller inherits, does nothing. -/
def NodeData.MoveController (MakeRotation : K → Vector3D K → Matrix3D K) (deltaTime : K)
    (target : NodeData K) : NodeData K :=
  match target.nodeController with
  | some ⟨.lightController revolutionAxis, _⟩ =>
    let angle := deltaTime * (1 / 5)
    { target with
      nodeTransform := target.nodeTransform.SetTranslation
        ((MakeRotation angle revolutionAxis).mulPoint target.nodeTransform.GetTranslation) }
  | some ⟨.userController moveController updateController, updateFlag⟩ =>
    { target with
      nodeController :=
        some ⟨.userController moveController updateController, moveController updateFlag⟩ }
  | _ => target

/-- The virtual call `controller->UpdateController()`, as it changes the
controller: the hook of a user controller changes the update flag as its
class says; the hooks of `Controller`, which the light controller inherits,
and of the skin controller, which copies the bind pose into a vertex buffer
of the graphics layer, leave the controller as it is. -/
def Controller.UpdateController (controller : Controller K) : Controller K :=
  match controller.controllerClass with
  | .userController _ updateController =>
    { controller with updateFlag := updateController controller.updateFlag }
  | _ => controller

/-- The two statements
`controller->updateFlag = false; controller->UpdateController();`
as they change the node that holds the controller. -/
def NodeData.UpdateControllerStep (target : NodeData K) : NodeData K :=
  { target with
    nodeController := target.nodeController.map
      (fun controller => Controller.UpdateController { controller with updateFlag := false }) }

/-- The call `occluderNode->CalculateOccluderPlanes(cameraNode)`, as it
changes the occluder node. -/
def NodeData.CalculateOccluderPlanes (camera : FrustumCamera K) (target : NodeData K) :
    NodeData K :=
  match target.nodeClass with
  | .occluderNode occluder =>
    { target with nodeClass := .occluderNode (occluder.CalculateOccluderPlanes camera) }
  | _ => target

/-- The controller read through a pointer; `none` when the pointer refers to
no node or to a node without controller. -/
def Node.controllerAt (root : Node K) (controller : Nat) : Option (Controller K) :=
  (root.dataAt controller).bind NodeData.nodeController

/-- The read `controller->updateFlag`; false when there is no controller. -/
def Node.updateFlagAt (root : Node K) (controller : Nat) : Bool :=
  match root.controllerAt controller with
  | some c => c.updateFlag
  | none => false

/-- The call `geometryNode->GeometryVisible(camera)` through a pointer; false
when the pointer refers to no node. -/
def Node.GeometryVisibleAt (root : Node K) (camera : FrustumCamera K) (geometry : Nat) :
    Bool :=
  match root.dataAt geometry with
  | some d => d.GeometryVisible camera
  | none => false

/-- The test of the light loop of `RenderWorld` through a pointer: the light
type is `kLightPoint` and `LightVisible(camera)` is true; false when the
pointer refers to no node. -/
def Node.PointLightVisibleAt (root : Node K) (camera : FrustumCamera K) (light : Nat) :
    Bool :=
  match root.dataAt light with
  | some d => decide (d.nodeClass.GetLightType = kLightPoint) && d.LightVisible camera
  | none => false

/-- The call `geometryNode->GeometryIlluminated(pointLight)` through the two
pointers; false when one of them refers to no node. -/
def Node.GeometryIlluminatedAt (root : Node K) (light geometry : Nat) : Bool :=
  match root.dataAt light, root.dataAt geometry with
  | some l, some g => g.GeometryIlluminated l
  | _, _ => false

/-- The first loop of `RenderWorld`: `MoveController` for every controller of
the list. -/
def WorldManager.RenderWorld.MoveControllers (MakeRotation : K → Vector3D K → Matrix3D K)
    (deltaTime : K) : List Nat → Node K × List Event → Node K × List Event
  | [], state => state
  | controller :: rest, state =>
    WorldManager.RenderWorld.MoveControllers MakeRotation deltaTime rest
      (Node.modifyDescendant (NodeData.MoveController MakeRotation deltaTime) controller state.1,
        state.2 ++ [Event.MoveController controller])

/-- The loop of `RenderWorld` over the controllers that follows
`rootNode->UpdateNode()`: a controller whose update flag is set has the flag
cleared and then `UpdateController` called. -/
def WorldManager.RenderWorld.UpdateControllers :
    List Nat → Node K × List Event → Node K × List Event
  | [], state => state
  | controller :: rest, state =>
    if state.1.updateFlagAt controller then
      WorldManager.RenderWorld.UpdateControllers rest
        (Node.modifyDescendant NodeData.UpdateControllerStep controller state.1,
          state.2 ++ [Event.UpdateController controller])
    else WorldManager.RenderWorld.UpdateControllers rest state

/-- The loop of `RenderWorld` over the occluders. -/
def WorldManager.RenderWorld.CalculateOccluderPlanes (camera : FrustumCamera K) :
    List Nat → Node K × List Event → Node K × List Event
  | [], state => state
  | occluder :: rest, state =>
    WorldManager.RenderWorld.CalculateOccluderPlanes camera rest
      (Node.modifyDescendant (NodeData.CalculateOccluderPlanes camera) occluder state.1,
        state.2 ++ [Event.CalculateOccluderPlanes occluder])

/-- The ambient pass of `RenderWorld`; the state is `visibleGeometryArray`
and the calls made so far. -/
def WorldManager.RenderWorld.AmbientPass (root : Node K) (camera : FrustumCamera K) :
    List Nat → List Nat × List Event → List Nat × List Event
  | [], state => state
  | geometry :: rest, state =>
    if root.GeometryVisibleAt camera geometry then
      WorldManager.RenderWorld.AmbientPass root camera rest
        (state.1 ++ [geometry],
          state.2 ++ [Event.PrepareToRender geometry, Event.Render geometry 0])
    else WorldManager.RenderWorld.AmbientPass root camera rest state

/-- The inner loop of the light passes, over `visibleGeometryArray`, for the
light `light`; the state is `illuminatedCount` and the calls made so far. -/
def WorldManager.RenderWorld.LightDraws (root : Node K) (light : Nat) :
    List Nat → Nat × List Event → Nat × List Event
  | [], state => state
  | geometry :: rest, state =>
    if root.GeometryIlluminatedAt light geometry then
      WorldManager.RenderWorld.LightDraws root light rest
        (state.1 + 1, state.2 ++ [Event.PrepareToRender geometry, Event.Render geometry 1])
    else WorldManager.RenderWorld.LightDraws root light rest state

/-- The light passes of `RenderWorld`; the state is `illuminatedCount`,
`pointLightCount` and the calls made so far. -/
def WorldManager.RenderWorld.LightPasses (root : Node K) (camera : FrustumCamera K)
    (visibleGeometryArray : List Nat) :
    List Nat → Nat × Nat × List Event → Nat × Nat × List Event
  | [], state => state
  | light :: rest, state =>
    if root.PointLightVisibleAt camera light then
      let draws := WorldManager.RenderWorld.LightDraws root light visibleGeometryArray
        (state.1, state.2.2)
      WorldManager.RenderWorld.LightPasses root camera visibleGeometryArray rest
        (draws.1, state.2.1 + 1, draws.2)
    else WorldManager.RenderWorld.LightPasses root camera visibleGeometryArray rest state

/-- The tree and the calls made after the first loop of `RenderWorld`. -/
def WorldManager.RenderWorld.moved (MakeRotation : K → Vector3D K → Matrix3D K)
    (deltaTime : K) (w : WorldManager K) : Node K × List Event :=
  WorldManager.RenderWorld.MoveControllers MakeRotation deltaTime w.controllerList
    (w.rootNode, [])

/-- The tree after `rootNode->UpdateNode()` in `RenderWorld`. -/
def WorldManager.RenderWorld.propagated (InverseSqrt : K → K)
    (MakeRotation : K → Vector3D K → Matrix3D K) (deltaTime : K) (w : WorldManager K) :
    Node K :=
  Node.UpdateNode InverseSqrt none (WorldManager.RenderWorld.moved MakeRotation deltaTime w).1

/-- The tree and the calls made after the loop of `RenderWorld` that updates
the controllers. -/
def WorldManager.RenderWorld.updated (InverseSqrt : K → K)
    (MakeRotation : K → Vector3D K → Matrix3D K) (deltaTime : K) (w : WorldManager K) :
    Node K × List Event :=
  WorldManager.RenderWorld.UpdateControllers w.controllerList
    (WorldManager.RenderWorld.propagated InverseSqrt MakeRotation deltaTime w,
      (WorldManager.RenderWorld.moved MakeRotation deltaTime w).2)

/-- The function `WorldManager::RenderWorld`.  Without an active camera
nothing happens.  The camera is read through `cameraNode` after the
controllers are updated; a pointer that refers to no frustum camera is a
dangling pointer in the source, and the model then ends the frame without a
draw.  The counts are natural numbers; the `int32` of the source holds them
as long as they stay below `2^31`. -/
def WorldManager.RenderWorld (InverseSqrt : K → K)
    (MakeRotation : K → Vector3D K → Matrix3D K) (deltaTime : K) (w : WorldManager K) :
    RenderResult K :=
  match w.cameraNode with
  | none => ⟨w, [], 0, 0, 0, []⟩
  | some cameraNode =>
    let updated := WorldManager.RenderWorld.updated InverseSqrt MakeRotation deltaTime w
    match (updated.1.dataAt cameraNode).map NodeData.nodeClass with
    | some (.frustumCamera camera) =>
      let occluded := WorldManager.RenderWorld.CalculateOccluderPlanes camera w.occluderList
        updated
      let ambient := WorldManager.RenderWorld.AmbientPass occluded.1 camera w.geometryList
        ([], occluded.2)
      let light := WorldManager.RenderWorld.LightPasses occluded.1 camera ambient.1
        w.lightList (0, 0, ambient.2)
      ⟨{ w with rootNode := occluded.1 }, ambient.1, ambient.1.length, light.1, light.2.1,
        light.2.2⟩
    | _ => ⟨{ w with rootNode := updated.1 }, [], 0, 0, 0, updated.2⟩

/-- The state of the world manager after `count` calls of `RenderWorld` in a
row, with nothing else changing the state between the calls. -/
def WorldManager.RenderWorldFrames (InverseSqrt : K → K)
    (MakeRotation : K → Vector3D K → Matrix3D K) (deltaTime : K) :
    Nat → WorldManager K → WorldManager K
  | 0, w => w
  | count + 1, w =>
    WorldManager.RenderWorldFrames InverseSqrt MakeRotation deltaTime count
      (WorldManager.RenderWorld InverseSqrt MakeRotation deltaTime w).world

end Render


section RenderNotions

variable {K : Type} [LinearOrderedField K]

/-- The pairs of a light and a geometry node that the light passes draw: the
light is a point light of `lights` for which `LightVisible(camera)` is true,
the geometry node is a member of `visible` for which `GeometryIlluminated` of
that light is true; the pairs of a light stand together, lights and geometry
nodes in the order of their lists. -/
def Node.illuminatedPairs (root : Node K) (camera : FrustumCamera K)
    (lights visible : List Nat) : List (Nat × Nat) :=
  (lights.filter (fun light => root.PointLightVisibleAt camera light)).flatMap
    (fun light =>
      (visible.filter (fun geometry => root.GeometryIlluminatedAt light geometry)).map
        (fun geometry => (light, geometry)))

end RenderNotions


/-! ## Concrete worlds over the rationals -/

/-- Modelled from the spec: `Matrix3D::MakeRotation` (TSMatrix3D.h, not under
src/) at the angle zero, where the rotation about any axis is the identity.
The concrete worlds are rendered with `deltaTime = 0`, so the angle
`deltaTime * 0.2F` is zero. -/
def MakeRotationZero (_angle : ℚ) (_axis : Vector3D ℚ) : Matrix3D ℚ :=
  ⟨1, 0, 0, 0, 1, 0, 0, 0, 1⟩

/-- A world transform pair as the constructor of a node leaves it. -/
def freshTransformable : Transformable ℚ :=
  ⟨Transform4D.identity, Transform4D.identity⟩

/-- A tree with every kind of node.  In depth-first pre-order, with their
pointers: 0 an orthographic camera, 1 a bone, 2 a frustum camera below the
bone, 3 a second frustum camera, 4 a mesh with a skin controller as its
constructor leaves it, 5 a point light with a light controller, 6 an infinite
light, 7 an occluder, 8 a fog node, 9 a sphere in front of the camera, 10 a
sphere behind the camera, 11 a text geometry. -/
def worldScene : Node ℚ :=
  .mk (.node 0) "root" Transform4D.identity none freshTransformable
    [.mk (.orthoCamera 2 2) "overlay" Transform4D.identity none freshTransformable [],
     .mk .boneNode "rig" Transform4D.identity none freshTransformable
      [.mk (.frustumCamera sampleCamera) "main" Transform4D.identity none freshTransformable []],
     .mk (.frustumCamera unitCamera) "second" Transform4D.identity none freshTransformable [],
     .mk .meshGeometry "goblin" (translation 0 0 3) (some ⟨.skinController, true⟩)
      freshTransformable [],
     .mk (.pointLight 1) "lamp" (translation 0 0 2)
      (some ⟨.lightController ⟨0, 0, 1⟩, false⟩) freshTransformable [],
     .mk .infiniteLight "sun" Transform4D.identity none freshTransformable [],
     .mk (.occluderNode ⟨⟨1, 1, 1⟩, 3, fun _ => ⟨0, 0, 0, 0⟩⟩) "wall" (translation 0 0 5) none
      freshTransformable [],
     .mk .fogNode "fog" Transform4D.identity none freshTransformable [],
     .mk (.sphereGeometry 1) "ball" (translation 0 0 4) none freshTransformable [],
     .mk (.sphereGeometry 1) "behind" (translation 0 0 (-4)) none freshTransformable [],
     .mk .textGeometry "label" Transform4D.identity none freshTransformable []]

/-- The world manager of `worldScene` after `PreprocessWorld`. -/
def preprocessedWorld : WorldManager ℚ :=
  (WorldManager.PreprocessWorld (WorldManager.new worldScene)).1

/-- A tree made of a frustum camera, pointer 0, and a mesh, pointer 1, that
holds a skin controller as its constructor leaves it, the update flag set. -/
def skinScene : Node ℚ :=
  .mk (.node 0) "root" Transform4D.identity none freshTransformable
    [plainCameraNode,
     .mk .meshGeometry "goblin" (translation 0 0 3) (some ⟨.skinController, true⟩)
      freshTransformable []]

/-- The world manager of `skinScene` after `PreprocessWorld`. -/
def skinWorld : WorldManager ℚ :=
  (WorldManager.PreprocessWorld (WorldManager.new skinScene)).1

/-- A tree made of a frustum camera, pointer 0, and a bone, pointer 1, that
holds a controller of a class defined outside `World.cpp`: its
`MoveController` leaves the update flag as it is, its `UpdateController` sets
the update flag.  The update flag is set. -/
def flagScene : Node ℚ :=
  .mk (.node 0) "root" Transform4D.identity none freshTransformable
    [plainCameraNode,
     .mk .boneNode "spinner" Transform4D.identity
      (some ⟨.userController (fun flag => flag) (fun _ => true), true⟩) freshTransformable []]

/-- The world manager of `flagScene` after `PreprocessWorld`. -/
def flagWorld : WorldManager ℚ :=
  (WorldManager.PreprocessWorld (WorldManager.new flagScene)).1


/-- The camera `main` of `worldScene` after transform propagation: the node is
below the bone `rig` below the root, all three with the identity as local
transform. -/
def mainCamera : FrustumCamera ℚ :=
  sampleCamera.UpdatePlanes InverseSqrtRat
    ((Transform4D.identity.mul Transform4D.identity).mul Transform4D.identity).Inverse


/-! ## Vertex parameters and projection matrices -/

/-- A four-component vector (`Vector4D`). -/
structure Vector4D (K : Type) where
  x : K
  y : K
  z : K
  w : K

/-- A 4x4 matrix; the entry `mij` is row `i`, column `j`, `matrix(i,j)` in the
source (`Matrix4D`). -/
structure Matrix4D (K : Type) where
  m00 : K
  m01 : K
  m02 : K
  m03 : K
  m10 : K
  m11 : K
  m12 : K
  m13 : K
  m20 : K
  m21 : K
  m22 : K
  m23 : K
  m30 : K
  m31 : K
  m32 : K
  m33 : K

/-- The state of the `Renderable` base class that `PrepareToRender` writes:
the number of vertex parameters and the `kMaxVertexParamCount = 16` parameter
slots. -/
structure Renderable (K : Type) where
  vertexParamCount : Int
  vertexParam : Fin 16 → Vector4D K

/-- A geometry node as an object that is both a node and a `Renderable`: the
members of the node and the state of the `Renderable` base. -/
structure Geometry (K : Type) where
  node : NodeData K
  renderable : Renderable K

section VertexParams

variable {K : Type} [LinearOrderedField K]

/-- Modelled from the spec: row `i` of a `Matrix4D` as a four-component
vector, `!matrix.row0` to `!matrix.row3` in the source (TSMatrix4D.h, not
under src/); the operator `!` keeps the four components. -/
def Matrix4D.row (m : Matrix4D K) : Fin 4 → Vector4D K :=
  ![⟨m.m00, m.m01, m.m02, m.m03⟩, ⟨m.m10, m.m11, m.m12, m.m13⟩,
    ⟨m.m20, m.m21, m.m22, m.m23⟩, ⟨m.m30, m.m31, m.m32, m.m33⟩]

/-- Modelled from the spec: row `i` of a `Transform4D` as a four-component
vector, `!transform.row0` to `!transform.row2` in the source (TSMatrix4D.h,
not under src/). -/
def Transform4D.row (t : Transform4D K) : Fin 3 → Vector4D K :=
  ![⟨t.n00, t.n01, t.n02, t.n03⟩, ⟨t.n10, t.n11, t.n12, t.n13⟩,
    ⟨t.n20, t.n21, t.n22, t.n23⟩]

/-- Modelled from the spec: `Matrix4D * Transform4D` (TSMatrix4D.h, not under
src/), the matrix product with the fourth row of the transform being
`(0, 0, 0, 1)`. -/
def Matrix4D.mulTransform (m : Matrix4D K) (t : Transform4D K) : Matrix4D K :=
  ⟨m.m00 * t.n00 + m.m01 * t.n10 + m.m02 * t.n20,
   m.m00 * t.n01 + m.m01 * t.n11 + m.m02 * t.n21,
   m.m00 * t.n02 + m.m01 * t.n12 + m.m02 * t.n22,
   m.m00 * t.n03 + m.m01 * t.n13 + m.m02 * t.n23 + m.m03,
   m.m10 * t.n00 + m.m11 * t.n10 + m.m12 * t.n20,
   m.m10 * t.n01 + m.m11 * t.n11 + m.m12 * t.n21,
   m.m10 * t.n02 + m.m11 * t.n12 + m.m12 * t.n22,
   m.m10 * t.n03 + m.m11 * t.n13 + m.m12 * t.n23 + m.m13,
   m.m20 * t.n00 + m.m21 * t.n10 + m.m22 * t.n20,
   m.m20 * t.n01 + m.m21 * t.n11 + m.m22 * t.n21,
   m.m20 * t.n02 + m.m21 * t.n12 + m.m22 * t.n22,
   m.m20 * t.n03 + m.m21 * t.n13 + m.m22 * t.n23 + m.m23,
   m.m30 * t.n00 + m.m31 * t.n10 + m.m32 * t.n20,
   m.m30 * t.n01 + m.m31 * t.n11 + m.m32 * t.n21,
   m.m30 * t.n02 + m.m31 * t.n12 + m.m32 * t.n22,
   m.m30 * t.n03 + m.m31 * t.n13 + m.m32 * t.n23 + m.m33⟩

/-- Modelled from the spec: `Matrix4D * Vector4D` (TSMatrix4D.h, not under
src/), the image of a column vector. -/
def Matrix4D.mulVector (m : Matrix4D K) (v : Vector4D K) : Vector4D K :=
  ⟨m.m00 * v.x + m.m01 * v.y + m.m02 * v.z + m.m03 * v.w,
   m.m10 * v.x + m.m11 * v.y + m.m12 * v.z + m.m13 * v.w,
   m.m20 * v.x + m.m21 * v.y + m.m22 * v.z + m.m23 * v.w,
   m.m30 * v.x + m.m31 * v.y + m.m32 * v.z + m.m33 * v.w⟩

/-- The assignment `vertexParam[slot] = value`. -/
def Renderable.setVertexParam (r : Renderable K) (slot : Fin 16) (value : Vector4D K) :
    Renderable K :=
  { r with vertexParam := fun k => if k = slot then value else r.vertexParam k }

/-- The function `Renderable::SetVertexParamCount`. -/
def Renderable.SetVertexParamCount (r : Renderable K) (count : Int) : Renderable K :=
  { r with vertexParamCount := count }

/-- The function `GeometryNode::PrepareToRender`: the four rows of
`viewProjectionMatrix * GetWorldTransform()` and the three rows of the world
transform are stored in the slots 0 to 6, and the count is set to 7. -/
def GeometryNode.PrepareToRender (viewProjectionMatrix : Matrix4D K) (geometry : Geometry K) :
    Geometry K :=
  let mvp := viewProjectionMatrix.mulTransform geometry.node.GetWorldTransform
  let r0 := geometry.renderable.setVertexParam 0 (mvp.row 0)
  let r1 := r0.setVertexParam 1 (mvp.row 1)
  let r2 := r1.setVertexParam 2 (mvp.row 2)
  let r3 := r2.setVertexParam 3 (mvp.row 3)
  let r4 := r3.setVertexParam 4 (geometry.node.GetWorldTransform.row 0)
  let r5 := r4.setVertexParam 5 (geometry.node.GetWorldTransform.row 1)
  let r6 := r5.setVertexParam 6 (geometry.node.GetWorldTransform.row 2)
  { geometry with renderable := r6.SetVertexParamCount 7 }

/-- The override `TextGeometry::PrepareToRender`: after the base function, the
slot 4 is set to the viewport size and the count is set to 5.  The viewport
size, `graphicsManager->GetViewportWidth()` and `GetViewportHeight()`, is a
parameter. -/
def TextGeometry.PrepareToRender (viewportWidth viewportHeight : K)
    (viewProjectionMatrix : Matrix4D K) (geometry : Geometry K) : Geometry K :=
  let base := GeometryNode.PrepareToRender viewProjectionMatrix geometry
  { base with
    renderable :=
      (base.renderable.setVertexParam 4 ⟨viewportWidth, viewportHeight, 0, 0⟩).SetVertexParamCount
        5 }

/-- The virtual call `geometryNode->PrepareToRender(viewProjectionMatrix)`:
text geometry runs its override, every other node the base function. -/
def Geometry.PrepareToRender (viewportWidth viewportHeight : K)
    (viewProjectionMatrix : Matrix4D K) (geometry : Geometry K) : Geometry K :=
  match geometry.node.nodeClass with
  | .textGeometry =>
    TextGeometry.PrepareToRender viewportWidth viewportHeight viewProjectionMatrix geometry
  | _ => GeometryNode.PrepareToRender viewProjectionMatrix geometry

/-- The constant `kFrustumEpsilon = 1.0F / 524288.0F`. -/
def kFrustumEpsilon : K :=
  1 / 524288

/-- The function `FrustumCamera::CalculateProjectionMatrix`. -/
def FrustumCamera.CalculateProjectionMatrix (camera : FrustumCamera K) : Matrix4D K :=
  { m01 := 0, m02 := 0, m03 := 0, m10 := 0, m12 := 0, m13 := 0, m20 := 0, m21 := 0,
    m30 := 0, m31 := 0, m33 := 0,
    m32 := 1,
    m00 := camera.projectionDistance / camera.aspectRatio,
    m11 := -camera.projectionDistance,
    m22 := 1 - kFrustumEpsilon,
    m23 := -camera.nearDepth * (1 - kFrustumEpsilon) }

/-- The function `OrthoCamera::CalculateProjectionMatrix`. -/
def OrthoCamera.CalculateProjectionMatrix (orthoWidth orthoHeight : K) : Matrix4D K :=
  { m01 := 0, m02 := 0, m10 := 0, m12 := 0, m20 := 0, m21 := 0, m23 := 0, m30 := 0,
    m31 := 0, m32 := 0,
    m22 := 1, m33 := 1,
    m00 := 2 / orthoWidth,
    m03 := -1,
    m11 := -2 / orthoHeight,
    m13 := 1 }

end VertexParams


/-- A text geometry node over the rationals with the world transform moved to
`(1, 2, 3)`, no vertex parameter written yet. -/
def sampleText : Geometry ℚ :=
  ⟨⟨.textGeometry, "label", translation 1 2 3, none,
      ⟨translation 1 2 3, translation (-1) (-2) (-3)⟩⟩,
    ⟨0, fun _ => ⟨0, 0, 0, 0⟩⟩⟩

/-- A frustum camera as `FrustumCamera(3/4, 9/5, 1/8)` builds it: the camera
`sampleCamera` with another aspect ratio. -/
def wideCamera : FrustumCamera ℚ :=
  ⟨3 / 4, 9 / 5, 1 / 8, fun _ => ⟨0, 0, 0, 0⟩⟩


/-! ## The overlay pass and nodes added to the tree -/

/-- A call that `RenderOverlay` makes on an overlay geometry node; the nodes
are named by their position in the overlay geometry list. -/
inductive OverlayEvent where
  | PrepareToRender (geometry : Nat)
  | Render (geometry : Nat) (programIndex : Nat)
  deriving DecidableEq

section Overlay

variable {K : Type}

/-- The function `WorldManager::RenderOverlay`: with an overlay camera, every
overlay geometry node is prepared and drawn with program 0, in the order of
the list.  The vertex parameters that `PrepareToRender` writes belong to the
`Renderable` base of the overlay nodes, which the world manager state does not
hold, so the state of the world manager is returned as it was. -/
def WorldManager.RenderOverlay (w : WorldManager K) : WorldManager K × List OverlayEvent :=
  match w.overlayCameraNode with
  | some _ =>
    (w, (List.range w.overlayGeometryList.length).flatMap
      (fun geometry => [OverlayEvent.PrepareToRender geometry, OverlayEvent.Render geometry 0]))
  | none => (w, [])

/-- Modelled from the spec: `Tree::AppendSubnode` (TSTree.h, not under src/):
the node is added as the last subnode. -/
def Node.AppendSubnode (this : Node K) (node : Node K) : Node K :=
  match this with
  | .mk c name t ctrl w subs => .mk c name t ctrl w (subs ++ [node])

end Overlay


/-! ## The world of the box example -/

section BoxExample

variable {K : Type} [LinearOrderedField K]

/-- The translation by `(x, y, z)`. -/
def Transform4D.translate (x y z : K) : Transform4D K :=
  ⟨1, 0, 0, x, 0, 1, 0, y, 0, 0, 1, z⟩

/-- A write of code outside the world manager: the node is moved by
`(x, y, z)`, its local transform becoming the translation times the local
transform. -/
def NodeData.move (x y z : K) (d : NodeData K) : NodeData K :=
  { d with nodeTransform := (Transform4D.translate x y z).mul d.nodeTransform }

/-- A tree with one frustum camera, pointer 0, one box geometry, pointer 1, and
one point light, pointer 2, below a root; the root and the camera have the
identity as local transform.  The nodes are as their constructors leave them,
the world transforms not yet computed. -/
def exampleScene (camera : FrustumCamera K) (boxTransform : Transform4D K)
    (boxSize : Vector3D K) (lightTransform : Transform4D K) (lightRange : K) : Node K :=
  .mk (.node 0) "root" Transform4D.identity none ⟨Transform4D.identity, Transform4D.identity⟩
    [.mk (.frustumCamera camera) "camera" Transform4D.identity none
      ⟨Transform4D.identity, Transform4D.identity⟩ [],
     .mk (.boxGeometry boxSize) "box" boxTransform none
      ⟨Transform4D.identity, Transform4D.identity⟩ [],
     .mk (.pointLight lightRange) "light" lightTransform none
      ⟨Transform4D.identity, Transform4D.identity⟩ []]

/-- The world manager of `exampleScene` after `PreprocessWorld`. -/
def exampleWorld (camera : FrustumCamera K) (boxTransform : Transform4D K)
    (boxSize : Vector3D K) (lightTransform : Transform4D K) (lightRange : K) :
    WorldManager K :=
  (WorldManager.PreprocessWorld
    (WorldManager.new (exampleScene camera boxTransform boxSize lightTransform lightRange))).1

/-- The state of the world manager after code outside of it has moved the
node `pointer` by `(x, y, z)`. -/
def WorldManager.moveNode (x y z : K) (pointer : Nat) (w : WorldManager K) : WorldManager K :=
  { w with rootNode := Node.modifyDescendant (NodeData.move x y z) pointer w.rootNode }

/-- The world manager of `exampleScene` after `PreprocessWorld`, one call of
`RenderWorld`, and the box then moved by `(x, y, z)`. -/
def movedExampleWorld (InverseSqrt : K → K) (MakeRotation : K → Vector3D K → Matrix3D K)
    (deltaTime : K) (camera : FrustumCamera K) (boxTransform : Transform4D K)
    (boxSize : Vector3D K) (lightTransform : Transform4D K) (lightRange : K) (x y z : K) :
    WorldManager K :=
  WorldManager.moveNode x y z 1
    (WorldManager.RenderWorld InverseSqrt MakeRotation deltaTime
      (exampleWorld camera boxTransform boxSize lightTransform lightRange)).world

/-- The world of the box example after `PreprocessWorld`: one frustum camera
at the origin, one box geometry of size `(1, 1, 1)` centered at the origin and
one point light of range 10 at `(0, 0, 5)`.  The origin of a box node is the
minimal corner of the box, so the box centered at the origin has the local
transform that moves by `(-1/2, -1/2, -1/2)`. -/
def boxWorld (camera : FrustumCamera K) : WorldManager K :=
  exampleWorld camera (Transform4D.translate (-(1 / 2)) (-(1 / 2)) (-(1 / 2))) ⟨1, 1, 1⟩
    (Transform4D.translate 0 0 5) 10

/-- The world of the box example after `PreprocessWorld`, one call of
`RenderWorld`, and the box then moved 1000 units along the x axis. -/
def movedBoxWorld (InverseSqrt : K → K) (MakeRotation : K → Vector3D K → Matrix3D K)
    (deltaTime : K) (camera : FrustumCamera K) : WorldManager K :=
  movedExampleWorld InverseSqrt MakeRotation deltaTime camera
    (Transform4D.translate (-(1 / 2)) (-(1 / 2)) (-(1 / 2))) ⟨1, 1, 1⟩
    (Transform4D.translate 0 0 5) 10 1000 0 0

end BoxExample

/-- A frustum camera as `FrustumCamera(3/4, 1, 1)` builds it: the near depth
is one. -/
def nearCamera : FrustumCamera ℚ :=
  ⟨3 / 4, 1, 1, fun _ => ⟨0, 0, 0, 0⟩⟩


/-! ## Meshes -/

/-- A texture coordinate (`Point2D`). -/
structure Point2D (K : Type) where
  x : K
  y : K

/-- One vertex of a mesh (`Vertex`, Graphics.h). -/
structure Vertex (K : Type) where
  position : Point3D K
  normal : Vector3D K
  tangent : Vector4D K
  texcoord : Point2D K

/-- One triangle of a mesh (`Triangle`, Graphics.h): three indices into the
vertex array, of type `uint16`. -/
structure Triangle where
  index : Fin 3 → Nat

section Meshes

variable {K : Type} [LinearOrderedField K]

/-- The array `boxVertex` as the constructor `BoxGeometry::BoxGeometry(size)`
leaves it: four vertices for each of the sides positive x, positive y,
negative x, negative y, positive z and negative z, in this order. -/
def BoxGeometry.boxVertex (size : Vector3D K) : Fin 24 → Vertex K :=
  ![⟨⟨size.x, 0, 0⟩, ⟨1, 0, 0⟩, ⟨0, 1, 0, 1⟩, ⟨0, 0⟩⟩,
    ⟨⟨size.x, size.y, 0⟩, ⟨1, 0, 0⟩, ⟨0, 1, 0, 1⟩, ⟨size.y, 0⟩⟩,
    ⟨⟨size.x, size.y, size.z⟩, ⟨1, 0, 0⟩, ⟨0, 1, 0, 1⟩, ⟨size.y, size.z⟩⟩,
    ⟨⟨size.x, 0, size.z⟩, ⟨1, 0, 0⟩, ⟨0, 1, 0, 1⟩, ⟨0, size.z⟩⟩,
    ⟨⟨size.x, size.y, 0⟩, ⟨0, 1, 0⟩, ⟨-1, 0, 0, 1⟩, ⟨0, 0⟩⟩,
    ⟨⟨0, size.y, 0⟩, ⟨0, 1, 0⟩, ⟨-1, 0, 0, 1⟩, ⟨size.x, 0⟩⟩,
    ⟨⟨0, size.y, size.z⟩, ⟨0, 1, 0⟩, ⟨-1, 0, 0, 1⟩, ⟨size.x, size.z⟩⟩,
    ⟨⟨size.x, size.y, size.z⟩, ⟨0, 1, 0⟩, ⟨-1, 0, 0, 1⟩, ⟨0, size.z⟩⟩,
    ⟨⟨0, size.y, 0⟩, ⟨-1, 0, 0⟩, ⟨0, -1, 0, 1⟩, ⟨0, 0⟩⟩,
    ⟨⟨0, 0, 0⟩, ⟨-1, 0, 0⟩, ⟨0, -1, 0, 1⟩, ⟨size.y, 0⟩⟩,
    ⟨⟨0, 0, size.z⟩, ⟨-1, 0, 0⟩, ⟨0, -1, 0, 1⟩, ⟨size.y, size.z⟩⟩,
    ⟨⟨0, size.y, size.z⟩, ⟨-1, 0, 0⟩, ⟨0, -1, 0, 1⟩, ⟨0, size.z⟩⟩,
    ⟨⟨0, 0, 0⟩, ⟨0, -1, 0⟩, ⟨1, 0, 0, 1⟩, ⟨0, 0⟩⟩,
    ⟨⟨size.x, 0, 0⟩, ⟨0, -1, 0⟩, ⟨1, 0, 0, 1⟩, ⟨size.x, 0⟩⟩,
    ⟨⟨size.x, 0, size.z⟩, ⟨0, -1, 0⟩, ⟨1, 0, 0, 1⟩, ⟨size.x, size.z⟩⟩,
    ⟨⟨0, 0, size.z⟩, ⟨0, -1, 0⟩, ⟨1, 0, 0, 1⟩, ⟨0, size.z⟩⟩,
    ⟨⟨0, 0, size.z⟩, ⟨0, 0, 1⟩, ⟨1, 0, 0, 1⟩, ⟨0, 0⟩⟩,
    ⟨⟨size.x, 0, size.z⟩, ⟨0, 0, 1⟩, ⟨1, 0, 0, 1⟩, ⟨size.x, 0⟩⟩,
    ⟨⟨size.x, size.y, size.z⟩, ⟨0, 0, 1⟩, ⟨1, 0, 0, 1⟩, ⟨size.x, size.y⟩⟩,
    ⟨⟨0, size.y, size.z⟩, ⟨0, 0, 1⟩, ⟨1, 0, 0, 1⟩, ⟨0, size.y⟩⟩,
    ⟨⟨size.x, 0, 0⟩, ⟨0, 0, -1⟩, ⟨-1, 0, 0, 1⟩, ⟨0, 0⟩⟩,
    ⟨⟨0, 0, 0⟩, ⟨0, 0, -1⟩, ⟨-1, 0, 0, 1⟩, ⟨size.x, 0⟩⟩,
    ⟨⟨0, size.y, 0⟩, ⟨0, 0, -1⟩, ⟨-1, 0, 0, 1⟩, ⟨size.x, size.y⟩⟩,
    ⟨⟨size.x, size.y, 0⟩, ⟨0, 0, -1⟩, ⟨-1, 0, 0, 1⟩, ⟨0, size.y⟩⟩]

/-- The array `boxTriangle` as the constructor `BoxGeometry::BoxGeometry`
leaves it: two triangles for each side. -/
def BoxGeometry.boxTriangle : Fin 12 → Triangle :=
  ![⟨![0, 1, 2]⟩,
    ⟨![0, 2, 3]⟩,
    ⟨![4, 5, 6]⟩,
    ⟨![4, 6, 7]⟩,
    ⟨![8, 9, 10]⟩,
    ⟨![8, 10, 11]⟩,
    ⟨![12, 13, 14]⟩,
    ⟨![12, 14, 15]⟩,
    ⟨![16, 17, 18]⟩,
    ⟨![16, 18, 19]⟩,
    ⟨![20, 21, 22]⟩,
    ⟨![20, 22, 23]⟩]

/-- The read `boxVertex[index]` through an index stored in a triangle; `none`
when the index is outside of the array. -/
def BoxGeometry.vertexAt (size : Vector3D K) (index : Nat) : Option (Vertex K) :=
  if h : index < 24 then some (BoxGeometry.boxVertex size ⟨index, h⟩) else none

end Meshes


/-! ## The mesh of a sphere -/

/-- A vector of the plane (`Vector2D`). -/
structure Vector2D (K : Type) where
  x : K
  y : K

/-- The conversion of an integer to `int32`, by wrapping. -/
def toInt32 (value : Int) : Int :=
  (value + 2 ^ 31) % 2 ^ 32 - 2 ^ 31

/-- The conversion of an integer to `uint32`, by wrapping. -/
def toUInt32 (value : Int) : Nat :=
  (value % 2 ^ 32).toNat

/-- The conversion of an unsigned integer to `uint16`, which keeps the low 16
bits. -/
def toUInt16 (value : Nat) : Nat :=
  value % 2 ^ 16

/-- The function `Triangle::Set(uint32 i0, uint32 i1, uint32 i2)`, called with
signed integers: each argument is converted to `uint32` at the call and to
`uint16` by the function. -/
def Triangle.Set (i0 i1 i2 : Int) : Triangle :=
  ⟨![toUInt16 (toUInt32 i0), toUInt16 (toUInt32 i1), toUInt16 (toUInt32 i2)]⟩

/-- A loop `for (machine j = start; j < stop; j++)` whose body may fail;
`body j state` is the state after the body has run for `j` from `state`. -/
def forLoop {σ : Type} (start stop : Nat) (body : Nat → σ → Option σ) (state : σ) : Option σ :=
  (List.range' start (stop - start)).foldlM (fun s j => body j s) state

/-- The enum constant `xdiv` of `SphereGeometry` (World.h). -/
def SphereGeometry.xdiv : Nat := 32

/-- The enum constant `zdiv` of `SphereGeometry` (World.h). -/
def SphereGeometry.zdiv : Nat := 16

/-- The enum constant `kSphereVertexCount`, the length of `sphereVertex`. -/
def SphereGeometry.kSphereVertexCount : Nat :=
  (SphereGeometry.xdiv + 1) * (SphereGeometry.zdiv + 1) - 2

/-- The enum constant `kSphereTriangleCount`, the length of `sphereTriangle`. -/
def SphereGeometry.kSphereTriangleCount : Nat :=
  SphereGeometry.xdiv * (SphereGeometry.zdiv - 1) * 2

/-- The array `sphereVertex` while the constructor fills it: the pointer
`vertex`, as an offset from the start of the array, and the writes made so
far, each with the offset it went to, in the order they were made. -/
structure SphereGeometry.VertexState (K : Type) where
  vertex : Nat
  written : List (Nat × Vertex K)

/-- The array `sphereTriangle` while the constructor fills it: the pointer
`triangle`, as an offset from the start of the array, and the calls of
`Triangle::Set` made so far, each with the offset of the element it was called
on and its three arguments, in the order they were made. -/
structure SphereGeometry.TriangleState where
  triangle : Nat
  calls : List (Nat × Int × Int × Int)

/-- The four writes to `*vertex` followed by `vertex++`; a write outside of
the array fails. -/
def SphereGeometry.VertexState.put {K : Type} (value : Vertex K)
    (state : SphereGeometry.VertexState K) : Option (SphereGeometry.VertexState K) :=
  if state.vertex < SphereGeometry.kSphereVertexCount then
    some ⟨state.vertex + 1, state.written ++ [(state.vertex, value)]⟩
  else none

/-- The read `sphereVertex[index]`: the vertex last written to the offset
`index`; a read of an element that was not written fails. -/
def SphereGeometry.VertexState.read {K : Type} (index : Nat)
    (state : SphereGeometry.VertexState K) : Option (Vertex K) :=
  (state.written.reverse.find? (fun entry => entry.1 == index)).map Prod.snd

/-- The call `triangle[shift].Set(i0, i1, i2)`; a call on an element outside
of the array fails. -/
def SphereGeometry.TriangleState.Set (shift : Nat) (i0 i1 i2 : Int)
    (state : SphereGeometry.TriangleState) : Option SphereGeometry.TriangleState :=
  if state.triangle + shift < SphereGeometry.kSphereTriangleCount then
    some ⟨state.triangle, state.calls ++ [(state.triangle + shift, i0, i1, i2)]⟩
  else none

/-- The step `triangle += count`. -/
def SphereGeometry.TriangleState.advance (count : Nat) (state : SphereGeometry.TriangleState) :
    SphereGeometry.TriangleState :=
  ⟨state.triangle + count, state.calls⟩

/-- The body of the loop over `j` that fills `sphereTriangle` in the
constructor of `SphereGeometry`: the two triangles of one quad of the meridian
strip `i`, whose first vertex has the index `k`, split along the diagonal that
the parity of `i + j` selects. -/
def SphereGeometry.quadBody (i : Nat) (k : Int) (j : Nat)
    (state : SphereGeometry.TriangleState) : Option SphereGeometry.TriangleState := do
  let zdiv : Int := SphereGeometry.zdiv
  let state ←
    if (i + j) &&& 1 = 0 then do
      let state ← state.Set 0 (k + j) (k + j + zdiv + 1) (k + j + 1)
      state.Set 1 (k + j + 1) (k + j + zdiv + 1) (k + j + zdiv + 2)
    else do
      let state ← state.Set 0 (k + j) (k + j + zdiv + 1) (k + j + zdiv + 2)
      state.Set 1 (k + j) (k + j + zdiv + 2) (k + j + 1)
  pure (state.advance 2)

/-- The body of the loop over `i` that fills `sphereTriangle` in the
constructor of `SphereGeometry`: the triangle at the south pole, the quads of
the strip, and the triangle at the north pole. -/
def SphereGeometry.triangleBody (i : Nat) (state : SphereGeometry.TriangleState) :
    Option SphereGeometry.TriangleState := do
  let zdiv : Int := SphereGeometry.zdiv
  let k : Int := toInt32 (i * (zdiv + 1))
  let state ← state.Set 0 (k + zdiv - 1) (k + zdiv + 1) k
  let state := state.advance 1
  let state ← forLoop 0 (SphereGeometry.zdiv - 2) (SphereGeometry.quadBody i k) state
  let state ← state.Set 0 (k + zdiv - 2) (k + zdiv * 2 - 1) (k + zdiv)
  pure (state.advance 1)

/-- The part of the constructor of `SphereGeometry` that fills
`sphereTriangle`. -/
def SphereGeometry.fillTriangles : Option SphereGeometry.TriangleState :=
  forLoop 0 SphereGeometry.xdiv SphereGeometry.triangleBody ⟨0, []⟩

section SphereMesh

variable {K : Type} [LinearOrderedField K]

/-- The vertex that the loop over `j` in the constructor of `SphereGeometry`
writes for the meridian of longitude `s`, whose direction in the plane is `v`.
`CosSin` and `Math::tau_over_2` (TSMath.h, not under src/) are parameters;
`kTexcoordScaleS` is 4 and `kTexcoordScaleT` is 2. -/
def SphereGeometry.ringVertex (CosSin : K → Vector2D K) (tau_over_2 radius s : K)
    (v : Vector2D K) (j : Nat) : Vertex K :=
  let dz : K := 1 / (SphereGeometry.zdiv : K)
  let t : K := (j : K) * dz
  let u := CosSin ((1 - t) * tau_over_2)
  let x := v.x * u.y
  let y := v.y * u.y
  let z := u.x
  ⟨⟨x * radius, y * radius, z * radius⟩, ⟨x, y, z⟩, ⟨-y, x, z, 1⟩, ⟨s * 4, t * 2⟩⟩

/-- The body of the first loop over `i` in the constructor of
`SphereGeometry`: fifteen vertices of the meridian `i` and its two poles.
`CosSin`, `Math::tau` and `Math::tau_over_2` (TSMath.h, not under src/) are
parameters. -/
def SphereGeometry.vertexBody (CosSin : K → Vector2D K) (tau tau_over_2 radius : K) (i : Nat)
    (state : SphereGeometry.VertexState K) : Option (SphereGeometry.VertexState K) := do
  let dx : K := 1 / (SphereGeometry.xdiv : K)
  let s : K := (i : K) * dx
  let v := CosSin (s * tau)
  let state ← forLoop 1 SphereGeometry.zdiv
    (fun j state => state.put (SphereGeometry.ringVertex CosSin tau_over_2 radius s v j)) state
  let state ← state.put ⟨⟨0, 0, -radius⟩, ⟨0, 0, -1⟩, ⟨-v.y, v.x, 0, 1⟩, ⟨s * 4, 0⟩⟩
  state.put ⟨⟨0, 0, radius⟩, ⟨0, 0, 1⟩, ⟨-v.y, v.x, 0, 1⟩, ⟨s * 4, 2⟩⟩

/-- The body of the loop over `j` in the constructor of `SphereGeometry` that
copies the first meridian, with new texture coordinates. -/
def SphereGeometry.seamBody (j : Nat) (state : SphereGeometry.VertexState K) :
    Option (SphereGeometry.VertexState K) := do
  let dz : K := 1 / (SphereGeometry.zdiv : K)
  let source ← state.read j
  state.put ⟨source.position, source.normal, source.tangent,
    ⟨4, ((j + 1 : Nat) : K) * dz * 2⟩⟩

/-- The part of the constructor of `SphereGeometry` that fills
`sphereVertex`. -/
def SphereGeometry.fillVertices (CosSin : K → Vector2D K) (tau tau_over_2 radius : K) :
    Option (SphereGeometry.VertexState K) := do
  let state ← forLoop 0 SphereGeometry.xdiv
    (SphereGeometry.vertexBody CosSin tau tau_over_2 radius) ⟨0, []⟩
  forLoop 0 (SphereGeometry.zdiv - 1) SphereGeometry.seamBody state

end SphereMesh


/-! ## Notions used to state the properties of the sphere mesh -/

/-- The three arguments of a call of `Triangle::Set` are indices of
`sphereVertex`. -/
def SphereGeometry.validCall (call : Nat × Int × Int × Int) : Prop :=
  (0 ≤ call.2.1 ∧ call.2.1 < SphereGeometry.kSphereVertexCount) ∧
  (0 ≤ call.2.2.1 ∧ call.2.2.1 < SphereGeometry.kSphereVertexCount) ∧
  (0 ≤ call.2.2.2 ∧ call.2.2.2 < SphereGeometry.kSphereVertexCount)

/-- The calls made so far went to the offsets `0`, ..., `count - 1`, one call
for each offset and in this order, and all of them were valid. -/
def SphereGeometry.TriangleState.filled (count : Nat) (state : SphereGeometry.TriangleState) :
    Prop :=
  state.calls.map Prod.fst = List.range count ∧ ∀ call ∈ state.calls, SphereGeometry.validCall call

/-- The writes made so far went to the offsets `0`, ..., `count - 1`, one
write for each offset and in this order, and the pointer `vertex` is at the
offset `count`. -/
def SphereGeometry.VertexState.filled {K : Type} (count : Nat)
    (state : SphereGeometry.VertexState K) : Prop :=
  state.vertex = count ∧ state.written.map Prod.fst = List.range count


/-! ## The horizon map -/

/-- A color of four `uint8` channels (`Color4U`, TSColor.h). -/
structure Color4U where
  red : Nat
  green : Nat
  blue : Nat
  alpha : Nat
deriving DecidableEq

/-- A color of four `float` channels (`ColorRgba`, TSColor.h). -/
structure ColorRgba (K : Type) where
  red : K
  green : K
  blue : K
  alpha : K

/-- The operator `&` on two values of type `int32`: the bitwise and of the two
bit patterns of 32 bits. -/
def andInt32 (a b : Int) : Int :=
  toInt32 ((toUInt32 a &&& toUInt32 b : Nat) : Int)

/-- The read `array[index]` through a signed index; a read outside of the
array fails. -/
def readAt {α : Type} (array : List α) (index : Int) : Option α :=
  if 0 ≤ index then array[index.toNat]? else none

/-- The write `array[index] = value` through a signed index; a write outside
of the array fails. -/
def writeAt {α : Type} (array : List α) (index : Int) (value : α) : Option (List α) :=
  if 0 ≤ index ∧ index.toNat < array.length then some (array.set index.toNat value) else none

/-- A loop `for (int32 j = start; j < stop; j++)` whose body may fail. -/
def forLoopInt {σ : Type} (start stop : Int) (body : Int → σ → Option σ) (state : σ) :
    Option σ :=
  forLoop 0 (stop - start).toNat (fun t s => body (start + t) s) state

/-- The constant `kAngleCount` of `ConstructHorizonMap`. -/
def WorldManager.ConstructHorizonMap.kAngleCount : Int := 32

/-- The constant `kHorizonRadius` of `ConstructHorizonMap`. -/
def WorldManager.ConstructHorizonMap.kHorizonRadius : Int := 16

section HorizonMap

variable {K : Type} [LinearOrderedField K]

/-- The operator `ColorRgba / float` (TSColor.h): the channels times the
reciprocal of `s`. -/
def ColorRgba.div (c : ColorRgba K) (s : K) : ColorRgba K :=
  ⟨c.red * (1 / s), c.green * (1 / s), c.blue * (1 / s), c.alpha * (1 / s)⟩

/-- The operator `Color4U::operator =(const ColorRgba&)` (TSColor.h): each
channel times 255, converted to `uint8`.  The conversion `uint8(float)` is the
parameter `truncate`. -/
def Color4U.ofColorRgba (truncate : K → Nat) (c : ColorRgba K) : Color4U :=
  ⟨truncate (c.red * 255), truncate (c.green * 255), truncate (c.blue * 255),
    truncate (c.alpha * 255)⟩

/-- The constant `kAngleIndex` of `ConstructHorizonMap`,
`float(kAngleCount) / float(2*3.14519)`. -/
def WorldManager.ConstructHorizonMap.kAngleIndex : K :=
  32 / (2 * (314519 / 100000))

/-- The body of the loop over `n` in `ConstructHorizonMap`:
`maxTan2[n & (kAngleCount - 1)]` becomes the maximum of itself and `t`. -/
def WorldManager.ConstructHorizonMap.mark (t : K) (n : Int) (maxTan2 : List K) :
    Option (List K) := do
  let m := andInt32 n (WorldManager.ConstructHorizonMap.kAngleCount - 1)
  let old ← readAt maxTan2 m
  writeAt maxTan2 m (max old t)

/-- The body of the loop over `i` in `ConstructHorizonMap` for the texel
`(x, y)` and the row offset `j`; `row` is the offset of the pointer `row` from
`heightMap`.  The functions `atan2`, `atan` and `sqrt` and the conversions
`int32(floor(.))` and `int32(ceil(.))` are parameters.  The counter `n` of the
innermost loop is an integer without a bound here; in the source it stays
inside of `int32` unless `maxIndex` is `2^31 - 1`. -/
def WorldManager.ConstructHorizonMap.neighbor (atan2 : K → K → K) (atan sqrt : K → K)
    (floorInt32 ceilInt32 : K → Int) (heightMap : List Color4U) (width : Int) (h0 : K)
    (x j row i : Int) (maxTan2 : List K) : Option (List K) := do
  let kHorizonRadius := WorldManager.ConstructHorizonMap.kHorizonRadius
  let r2 : Int := toInt32 (toInt32 (i * i) + toInt32 (j * j))
  if r2 < toInt32 (kHorizonRadius * kHorizonRadius) ∧ r2 ≠ 0 then do
    let texel ← readAt heightMap (row + andInt32 (toInt32 (x + i)) (toInt32 (width - 1)))
    let dh : K := (texel.red : K) - h0
    if dh > 0 then do
      let direction := atan2 (j : K) (i : K)
      let delta := atan ((7071 / 10000) / sqrt (r2 : K))
      let minIndex := floorInt32 ((direction - delta) * WorldManager.ConstructHorizonMap.kAngleIndex)
      let maxIndex := ceilInt32 ((direction + delta) * WorldManager.ConstructHorizonMap.kAngleIndex)
      let t : K := dh * dh / (r2 : K)
      forLoopInt minIndex (maxIndex + 1) (WorldManager.ConstructHorizonMap.mark t) maxTan2
    else pure maxTan2
  else pure maxTan2

/-- The search of the neighborhood of the texel `(x, y)` in
`ConstructHorizonMap`: the array `maxTan2`, which starts with 32 zeros, after
the loops over `j` and `i`. -/
def WorldManager.ConstructHorizonMap.search (atan2 : K → K → K) (atan sqrt : K → K)
    (floorInt32 ceilInt32 : K → Int) (heightMap : List Color4U) (width height : Int) (h0 : K)
    (x y : Int) : Option (List K) :=
  let kHorizonRadius := WorldManager.ConstructHorizonMap.kHorizonRadius
  forLoopInt (-kHorizonRadius + 1) kHorizonRadius (fun j maxTan2 =>
    let row : Int := toInt32 (andInt32 (toInt32 (y + j)) (toInt32 (height - 1)) * width)
    forLoopInt (-kHorizonRadius + 1) kHorizonRadius
      (WorldManager.ConstructHorizonMap.neighbor atan2 atan sqrt floorInt32 ceilInt32 heightMap
        width h0 x j row) maxTan2)
    (List.replicate 32 0)

/-- The body of the loop over `index` in `ConstructHorizonMap`: four reads of
`maxTan2` and their contributions to the four channels of `color`. -/
def WorldManager.ConstructHorizonMap.channels (sqrt : K → K) (maxTan2 : List K) (index : Int)
    (color : ColorRgba K) : Option (ColorRgba K) := do
  let kAngleCount := WorldManager.ConstructHorizonMap.kAngleCount
  let tr ← readAt maxTan2 (andInt32 (toInt32 (index - kAngleCount / 8)) (kAngleCount - 1))
  let tg ← readAt maxTan2 index
  let tb ← readAt maxTan2 (toInt32 (index + kAngleCount / 8))
  let ta ← readAt maxTan2 (andInt32 (toInt32 (index + kAngleCount / 4)) (kAngleCount - 1))
  pure ⟨color.red + sqrt (tr / (tr + 1)), color.green + sqrt (tg / (tg + 1)),
    color.blue + sqrt (tb / (tb + 1)), color.alpha + sqrt (ta / (ta + 1))⟩

/-- The body of the loop over `layer` in `ConstructHorizonMap` for the texel
of column `x`; the state is the output array and the offset of the pointer
`layerData` from the start of the output array. -/
def WorldManager.ConstructHorizonMap.layerBody (sqrt : K → K) (truncate : K → Nat)
    (width height x : Int) (maxTan2 : List K) (layer : Nat) (state : List Color4U × Int) :
    Option (List Color4U × Int) := do
  let kAngleCount := WorldManager.ConstructHorizonMap.kAngleCount
  let firstIndex : Int := toInt32 (kAngleCount / 16 + toInt32 (layer * (kAngleCount / 2)))
  let lastIndex : Int := toInt32 (firstIndex + kAngleCount / 8)
  let color ← forLoopInt firstIndex (lastIndex + 1)
    (WorldManager.ConstructHorizonMap.channels sqrt maxTan2) ⟨0, 0, 0, 0⟩
  let horizonMap ← writeAt state.1 (state.2 + x)
    (Color4U.ofColorRgba truncate (color.div ((toInt32 (kAngleCount / 8 + 1) : Int) : K)))
  pure (horizonMap, state.2 + toInt32 (width * height))

/-- The body of the loop over `x` in `ConstructHorizonMap`: the texel
`(x, y)`.  `rowOffset` is the offset of the pointer `horizonMap`, which moves
on by `width` after every row, from the start of the output array; the state
is the output array.  The loop at the end, which sums up the ambient light
factor and stores nothing, reads all of `maxTan2`. -/
def WorldManager.ConstructHorizonMap.texelBody (atan2 : K → K → K) (atan sqrt : K → K)
    (floorInt32 ceilInt32 : K → Int) (truncate : K → Nat) (heightMap : List Color4U)
    (width height y rowOffset x : Int) (horizonMap : List Color4U) :
    Option (List Color4U) := do
  let kAngleCount := WorldManager.ConstructHorizonMap.kAngleCount
  let center ← readAt heightMap (toInt32 (y * width) + x)
  let h0 : K := (center.red : K)
  let maxTan2 ← WorldManager.ConstructHorizonMap.search atan2 atan sqrt floorInt32 ceilInt32
    heightMap width height h0 x y
  let state ← forLoop 0 2
    (WorldManager.ConstructHorizonMap.layerBody sqrt truncate width height x maxTan2)
    (horizonMap, rowOffset)
  let _sum ← forLoopInt 0 kAngleCount (fun k (sum : K) => do
    let value ← readAt maxTan2 k
    pure (sum + 1 / sqrt (value + 1))) 0
  pure state.1

/-- The function `WorldManager::ConstructHorizonMap`.  `heightMap` is the
array the first argument points to and `horizonMap` the array the second
argument points to, with the contents it has before the call; the result is
the array `horizonMap` after the call, or `none` when an access went outside
of an array.  The argument `scale` is not read. -/
def WorldManager.ConstructHorizonMap (atan2 : K → K → K) (atan sqrt : K → K)
    (floorInt32 ceilInt32 : K → Int) (truncate : K → Nat) (heightMap horizonMap : List Color4U)
    (width height : Int) : Option (List Color4U) :=
  (forLoopInt 0 height (fun y (state : List Color4U × Int) => do
    let horizonMap ← forLoopInt 0 width
      (WorldManager.ConstructHorizonMap.texelBody atan2 atan sqrt floorInt32 ceilInt32 truncate
        heightMap width height y state.2)
      state.1
    pure (horizonMap, state.2 + width)) (horizonMap, 0)).map Prod.fst

end HorizonMap


/-! ## Notions used to state the properties of the horizon map -/

/-- The height map is constant: all of its texels have the same height, which
`ConstructHorizonMap` reads from the red channel. -/
def WorldManager.ConstructHorizonMap.flat (heightMap : List Color4U) : Prop :=
  ∀ a ∈ heightMap, ∀ b ∈ heightMap, a.red = b.red


/-! ## Inputs for the examples of the horizon map -/

/-- A stand-in for `atan2` in the examples.  Over a flat height map
`ConstructHorizonMap` does not call `atan2`. -/
def flatAtan2 (_y _x : ℚ) : ℚ := 0

/-- A stand-in for `atan` and for `sqrt` in the examples: the identity, which
agrees with both functions at zero.  Over a flat height map
`ConstructHorizonMap` does not call `atan`, and it calls `sqrt` at zero
only. -/
def flatRoot (x : ℚ) : ℚ := x

/-- A stand-in for `int32(floor(.))` and `int32(ceil(.))` in the examples.
Over a flat height map `ConstructHorizonMap` calls neither. -/
def flatIndex (_x : ℚ) : Int := 0

/-- The conversion `uint8(float)` on the rationals: the integer part, modulo
256. -/
def truncateRat (x : ℚ) : Nat :=
  (⌊x⌋ % 256).toNat

/-- A flat height map of 2 by 2 texels. -/
def flatHeightMap : List Color4U :=
  List.replicate 4 ⟨7, 7, 7, 255⟩

/-- An output array for a height map of 2 by 2 texels, before the call. -/
def staleHorizonMap : List Color4U :=
  List.replicate 8 ⟨1, 2, 3, 4⟩

/-! ## The tree without its world data -/

section ClearWorld

variable {K : Type} [LinearOrderedField K]

/-- The class of a node without what `UpdateNode` writes into it: the world
planes of a frustum camera are set to zero. -/
def NodeClass.clearWorld : NodeClass K → NodeClass K
  | .frustumCamera camera =>
    .frustumCamera { camera with worldFrustumPlane := fun _ => ⟨0, 0, 0, 0⟩ }
  | c => c

mutual

/-- The tree without what `UpdateNode` writes into it: in every node the world
transform pair is set to the identity and the world planes of a frustum camera
to zero.  Two trees with the same image have the same shape and, node by node,
the same class, name, local transform and controller. -/
def Node.clearWorld : Node K → Node K
  | .mk c name t ctrl _ subs =>
    .mk c.clearWorld name t ctrl ⟨Transform4D.identity, Transform4D.identity⟩
      (Node.clearWorldOfList subs)

/-- The trees of a list without what `UpdateNode` writes into them. -/
def Node.clearWorldOfList : List (Node K) → List (Node K)
  | [] => []
  | node :: rest => node.clearWorld :: Node.clearWorldOfList rest

end

end ClearWorld

/-! ## Insertion of a node into the tree -/

section Insertion

variable {K : Type}

mutual

/-- Modelled from the spec: the call `target->AppendSubnode(node)`
(`Tree::AppendSubnode`, TSTree.h, not under src/) for the proper descendant
`target` of the tree that the pointer refers to; a pointer that refers to no
node leaves the tree as it is. -/
def Node.AppendSubnodeBelow (node : Node K) : Nat → Node K → Node K
  | pointer, .mk c name t ctrl w subs =>
    .mk c name t ctrl w (Node.AppendSubnodeInList node pointer subs)

/-- The call `target->AppendSubnode(node)` through a pointer into the trees
rooted at the nodes of a list, which are numbered in pre-order one after the
other. -/
def Node.AppendSubnodeInList (node : Node K) : Nat → List (Node K) → List (Node K)
  | _, [] => []
  | 0, target :: rest => target.AppendSubnode node :: rest
  | pointer + 1, target :: rest =>
    if pointer < target.descendants.length then
      Node.AppendSubnodeBelow node pointer target :: rest
    else
      target :: Node.AppendSubnodeInList node (pointer - target.descendants.length) rest

end

/-- The tree after `target->AppendSubnode(node)`, where `target` is the root
(`none`) or the proper descendant a pointer refers to, and `node` is the root
of a tree that is not part of the tree before the call. -/
def Node.AppendSubnodeAt (root : Node K) (target : Option Nat) (node : Node K) : Node K :=
  match target with
  | none => root.AppendSubnode node
  | some pointer => Node.AppendSubnodeBelow node pointer root

/-- The position in pre-order at which a node appended below `target` comes to
stand: behind the last proper descendant of `target`. -/
def Node.subnodePointer (root : Node K) (target : Option Nat) : Nat :=
  match target with
  | none => root.descendants.length
  | some pointer =>
    match root.descendants[pointer]? with
    | some node => pointer + 1 + node.descendants.length
    | none => root.descendants.length

/-- The position in pre-order of the node at position `pointer` once `count`
nodes have been inserted at `position`: the nodes from `position` on stand
`count` places further on. -/
def Node.movedPointer (position count pointer : Nat) : Nat :=
  if pointer < position then pointer else pointer + count

/-- Modelled from the spec: the state of the world manager after
`target->AppendSubnode(node)` (`Tree::AppendSubnode`, TSTree.h, not under src/)
on a node of its tree.  The call writes tree links only, so the lists,
`cameraNode` and `fogNode` hold the addresses they held.  In the model a pointer is the position
of its node in pre-order, and the nodes that follow the inserted ones change
position, so every pointer held is replaced by the new position of the node it
refers to. -/
def WorldManager.AppendSubnode (w : WorldManager K) (target : Option Nat) (node : Node K) :
    WorldManager K :=
  { w with
    rootNode := w.rootNode.AppendSubnodeAt target node
    cameraNode := w.cameraNode.map
      (Node.movedPointer (w.rootNode.subnodePointer target) (node.descendants.length + 1))
    fogNode := w.fogNode.map
      (Node.movedPointer (w.rootNode.subnodePointer target) (node.descendants.length + 1))
    lightList := w.lightList.map
      (Node.movedPointer (w.rootNode.subnodePointer target) (node.descendants.length + 1))
    occluderList := w.occluderList.map
      (Node.movedPointer (w.rootNode.subnodePointer target) (node.descendants.length + 1))
    geometryList := w.geometryList.map
      (Node.movedPointer (w.rootNode.subnodePointer target) (node.descendants.length + 1))
    controllerList := w.controllerList.map
      (Node.movedPointer (w.rootNode.subnodePointer target) (node.descendants.length + 1)) }

end Insertion

/-- A sphere of radius one, four units in front of the origin, as a node that
is appended to a tree after `PreprocessWorld`. -/
def lateSphere : Node ℚ :=
  .mk (.sphereGeometry 1) "late" (translation 0 0 4) none freshTransformable []

/-! ## Theorems -/

section TreeTheorems

variable {K : Type}

/-! ### The shape of the tree -/

/-- The links of a node are its own pairs followed by the links below. -/
theorem Node.links_eq (node : Node K) :
    node.links = node.subnodes.map (fun sub => (node, sub)) ++ Node.linksOfList node.subnodes := by
  cases node with
  | mk c name t ctrl w subs => simp [Node.links, Node.subnodes]

/-- The proper descendants of a node are the pre-order of its subnodes. -/
theorem Node.descendants_eq (node : Node K) :
    node.descendants = Node.preorderOfList node.subnodes := by
  cases node with
  | mk c name t ctrl w subs => simp [Node.descendants, Node.subnodes]

end TreeTheorems

section Theorems

variable {K : Type} [LinearOrderedField K]

/-! ### Visibility loops -/

/-- The sphere loop started at plane `k` accepts exactly when no plane from
`k` on rejects. -/
theorem FrustumCamera.SphereVisible_loop_iff (camera : FrustumCamera K) (center : Point3D K)
    (radius : K) (k : Nat) :
    FrustumCamera.SphereVisible.loop camera center radius k = true ↔
      ∀ j : Fin 5, k ≤ j.val → -radius ≤ (camera.worldFrustumPlane j).DotPoint center := by
  generalize hn : 5 - k = n
  induction n generalizing k with
  | zero =>
    have hk : ¬ k < 5 := by omega
    unfold FrustumCamera.SphereVisible.loop
    simp only [hk, dite_false, true_iff]
    intro j hj
    have := j.isLt
    omega
  | succ n ih =>
    have hk : k < 5 := by omega
    unfold FrustumCamera.SphereVisible.loop
    simp only [hk, dite_true]
    by_cases hr : (camera.worldFrustumPlane ⟨k, hk⟩).DotPoint center < -radius
    · simp only [hr, if_true, Bool.false_eq_true, false_iff, not_forall]
      exact ⟨⟨k, hk⟩, le_refl k, not_le.mpr hr⟩
    · simp only [hr, if_false]
      rw [ih (k + 1) (by omega)]
      constructor
      · intro h j hj
        rcases Nat.eq_or_lt_of_le hj with hjk | hjk
        · have : j = ⟨k, hk⟩ := Fin.ext hjk.symm
          rw [this]
          exact not_lt.mp hr
        · exact h j hjk
      · intro h j hj
        exact h j (by omega)

/-- The sphere test accepts exactly when no plane rejects. -/
theorem FrustumCamera.SphereVisible_eq_true_iff (camera : FrustumCamera K) (c : Point3D K)
    (r : K) :
    camera.SphereVisible c r = true ↔
      ∀ k : Fin 5, -r ≤ (camera.worldFrustumPlane k).DotPoint c := by
  unfold FrustumCamera.SphereVisible
  rw [FrustumCamera.SphereVisible_loop_iff]
  exact ⟨fun hj k => hj k (Nat.zero_le _), fun hk j _ => hk j⟩

/-- The sphere test rejects exactly when some plane rejects. -/
theorem FrustumCamera.SphereVisible_eq_false_iff (camera : FrustumCamera K) (c : Point3D K)
    (r : K) :
    camera.SphereVisible c r = false ↔
      ∃ k : Fin 5, (camera.worldFrustumPlane k).DotPoint c < -r := by
  rw [← Bool.not_eq_true, FrustumCamera.SphereVisible_eq_true_iff]
  simp only [not_forall, not_le]

/-- The box loop started at plane `k` accepts exactly when no plane from `k`
on rejects. -/
theorem FrustumCamera.BoxVisible_loop_iff (camera : FrustumCamera K) (T : Transform4D K)
    (size : Vector3D K) (k : Nat) :
    FrustumCamera.BoxVisible.loop camera T size k = true ↔
      ∀ j : Fin 5, k ≤ j.val →
        -FrustumCamera.BoxVisible.rg (camera.worldFrustumPlane j) T size
          < (camera.worldFrustumPlane j).DotPoint (FrustumCamera.BoxVisible.center T size) := by
  generalize hn : 5 - k = n
  induction n generalizing k with
  | zero =>
    have hk : ¬ k < 5 := by omega
    unfold FrustumCamera.BoxVisible.loop
    simp only [hk, dite_false, true_iff]
    intro j hj
    have := j.isLt
    omega
  | succ n ih =>
    have hk : k < 5 := by omega
    unfold FrustumCamera.BoxVisible.loop
    simp only [hk, dite_true]
    by_cases hr : (camera.worldFrustumPlane ⟨k, hk⟩).DotPoint (FrustumCamera.BoxVisible.center T size)
        ≤ -FrustumCamera.BoxVisible.rg (camera.worldFrustumPlane ⟨k, hk⟩) T size
    · simp only [hr, if_true, Bool.false_eq_true, false_iff, not_forall]
      exact ⟨⟨k, hk⟩, le_refl k, not_lt.mpr hr⟩
    · simp only [hr, if_false]
      rw [ih (k + 1) (by omega)]
      constructor
      · intro h j hj
        rcases Nat.eq_or_lt_of_le hj with hjk | hjk
        · have : j = ⟨k, hk⟩ := Fin.ext hjk.symm
          rw [this]
          exact not_le.mp hr
        · exact h j hjk
      · intro h j hj
        exact h j (by omega)

/-- The box test accepts exactly when every plane has the center above minus
the effective radius. -/
theorem FrustumCamera.BoxVisible_iff (camera : FrustumCamera K) (T : Transform4D K)
    (size : Vector3D K) :
    camera.BoxVisible T size = true ↔
      ∀ k : Fin 5, -FrustumCamera.BoxVisible.rg (camera.worldFrustumPlane k) T size
        < (camera.worldFrustumPlane k).DotPoint (FrustumCamera.BoxVisible.center T size) := by
  unfold FrustumCamera.BoxVisible
  rw [FrustumCamera.BoxVisible_loop_iff]
  exact ⟨fun hj k => hj k (Nat.zero_le _), fun hk j _ => hk j⟩

/-- The box test rejects exactly when some plane has the center at or below
minus the effective radius. -/
theorem FrustumCamera.BoxVisible_eq_false (camera : FrustumCamera K) (T : Transform4D K)
    (size : Vector3D K) :
    camera.BoxVisible T size = false ↔
      ∃ k : Fin 5, (camera.worldFrustumPlane k).DotPoint (FrustumCamera.BoxVisible.center T size)
        ≤ -FrustumCamera.BoxVisible.rg (camera.worldFrustumPlane k) T size := by
  rw [← Bool.not_eq_true, FrustumCamera.BoxVisible_iff]
  simp only [not_forall, not_lt]

/-- The effective radius is never negative. -/
theorem FrustumCamera.BoxVisible.rg_nonneg (plane : Plane K) (T : Transform4D K)
    (size : Vector3D K) : 0 ≤ FrustumCamera.BoxVisible.rg plane T size := by
  unfold FrustumCamera.BoxVisible.rg
  exact add_nonneg (add_nonneg (abs_nonneg _) (abs_nonneg _)) (abs_nonneg _)

/-- A point of the box is at most the effective radius above the center,
measured along any plane. -/
theorem FrustumCamera.BoxVisible.DotPoint_boxPoint_le (plane : Plane K) (T : Transform4D K)
    (size : Vector3D K) (u v w : K) (hu0 : 0 ≤ u) (hu1 : u ≤ 1) (hv0 : 0 ≤ v) (hv1 : v ≤ 1)
    (hw0 : 0 ≤ w) (hw1 : w ≤ 1) :
    plane.DotPoint (boxPoint T size u v w)
      ≤ plane.DotPoint (FrustumCamera.BoxVisible.center T size)
        + FrustumCamera.BoxVisible.rg plane T size := by
  have key : plane.DotPoint (boxPoint T size u v w)
      = plane.DotPoint (FrustumCamera.BoxVisible.center T size)
        + ((2 * u - 1) * plane.DotVector (FrustumCamera.BoxVisible.halfAxisX T size)
          + (2 * v - 1) * plane.DotVector (FrustumCamera.BoxVisible.halfAxisY T size)
          + (2 * w - 1) * plane.DotVector (FrustumCamera.BoxVisible.halfAxisZ T size)) := by
    simp only [boxPoint, FrustumCamera.BoxVisible.center, FrustumCamera.BoxVisible.halfAxisX,
      FrustumCamera.BoxVisible.halfAxisY, FrustumCamera.BoxVisible.halfAxisZ, Plane.DotPoint,
      Plane.DotVector, Point3D.add, Vector3D.scale, Transform4D.GetTranslation, Transform4D.col]
    ring
  have bound : ∀ (a e : K), 0 ≤ a → a ≤ 1 → (2 * a - 1) * e ≤ |e| := by
    intro a e ha0 ha1
    have h1 : (2 * a - 1) * e ≤ |(2 * a - 1) * e| := le_abs_self _
    have h2 : |(2 * a - 1) * e| = |2 * a - 1| * |e| := abs_mul _ _
    have h3 : |2 * a - 1| ≤ 1 := abs_le.mpr ⟨by linarith, by linarith⟩
    have h4 : |2 * a - 1| * |e| ≤ 1 * |e| := mul_le_mul_of_nonneg_right h3 (abs_nonneg e)
    linarith
  rw [key, FrustumCamera.BoxVisible.rg]
  have b1 := bound u (plane.DotVector (FrustumCamera.BoxVisible.halfAxisX T size)) hu0 hu1
  have b2 := bound v (plane.DotVector (FrustumCamera.BoxVisible.halfAxisY T size)) hv0 hv1
  have b3 := bound w (plane.DotVector (FrustumCamera.BoxVisible.halfAxisZ T size)) hw0 hw1
  linarith

/-! ### Transform propagation -/

/-- The call `UpdateNode` keeps the local transform. -/
theorem Node.UpdateNode_nodeTransform (InverseSqrt : K → K) (superNode : Option (Transform4D K))
    (node : Node K) :
    (node.UpdateNode InverseSqrt superNode).nodeTransform = node.nodeTransform := by
  cases node with
  | mk c name t ctrl w subs =>
    cases c <;> cases superNode <;> rfl

/-- The call `UpdateNode` stores the expected world transform in the node it is called on. -/
theorem Node.UpdateNode_GetWorldTransform (InverseSqrt : K → K)
    (superNode : Option (Transform4D K)) (node : Node K) :
    (node.UpdateNode InverseSqrt superNode).GetWorldTransform
      = Node.expectedWorld superNode node.nodeTransform := by
  cases node with
  | mk c name t ctrl w subs =>
    cases c <;> cases superNode <;> rfl

/-- The subnodes of an updated node are the updated subnodes. -/
theorem Node.UpdateNode_subnodes (InverseSqrt : K → K) (superNode : Option (Transform4D K))
    (node : Node K) :
    (node.UpdateNode InverseSqrt superNode).subnodes
      = Node.UpdateSubnodes InverseSqrt
          (Node.expectedWorld superNode node.nodeTransform) node.subnodes := by
  cases node with
  | mk c name t ctrl w subs =>
    cases c <;> cases superNode <;> rfl

/-- Every member of an updated list of subnodes carries the product of the
super node's world transform with its own local transform. -/
theorem Node.UpdateSubnodes_world (InverseSqrt : K → K) (superWorld : Transform4D K)
    (subs : List (Node K)) :
    ∀ sub ∈ Node.UpdateSubnodes InverseSqrt superWorld subs,
      sub.GetWorldTransform = superWorld.mul sub.nodeTransform := by
  induction subs with
  | nil => intro sub h; simp [Node.UpdateSubnodes] at h
  | cons node rest ih =>
    intro sub h
    simp only [Node.UpdateSubnodes, List.mem_cons] at h
    rcases h with h | h
    · rw [h, Node.UpdateNode_GetWorldTransform, Node.UpdateNode_nodeTransform]
      rfl
    · exact ih sub h

/-- Every link below an updated list of subnodes satisfies the transform
invariant; by induction on a bound `n` for the number of nodes below the list. -/
theorem Node.UpdateSubnodes_links (InverseSqrt : K → K) (n : Nat) :
    ∀ (subs : List (Node K)), (Node.preorderOfList subs).length ≤ n →
      ∀ (superWorld : Transform4D K) (P N : Node K),
        (P, N) ∈ Node.linksOfList (Node.UpdateSubnodes InverseSqrt superWorld subs) →
        N.GetWorldTransform = P.GetWorldTransform.mul N.nodeTransform := by
  induction n with
  | zero =>
    intro subs hlen superWorld P N h
    cases subs with
    | nil => simp [Node.UpdateSubnodes, Node.linksOfList] at h
    | cons node rest => simp [Node.preorderOfList] at hlen
  | succ n ih =>
    intro subs hlen superWorld P N h
    cases subs with
    | nil => simp [Node.UpdateSubnodes, Node.linksOfList] at h
    | cons node rest =>
      simp only [Node.preorderOfList, List.length_cons, List.length_append] at hlen
      simp only [Node.UpdateSubnodes, Node.linksOfList, List.mem_append] at h
      rcases h with h | h
      · rw [Node.links_eq, Node.UpdateNode_subnodes] at h
        simp only [List.mem_append, List.mem_map, Prod.mk.injEq] at h
        rcases h with ⟨sub, hsub, hP, hN⟩ | h
        · subst hP hN
          rw [Node.UpdateNode_GetWorldTransform]
          exact Node.UpdateSubnodes_world InverseSqrt _ _ _ hsub
        · refine ih node.subnodes ?_ _ P N h
          rw [← Node.descendants_eq]
          omega
      · exact ih rest (by omega) superWorld P N h

/-- Every link below an updated node satisfies the transform invariant. -/
theorem Node.UpdateNode_links (InverseSqrt : K → K) (superNode : Option (Transform4D K))
    (node P N : Node K) (h : (P, N) ∈ (node.UpdateNode InverseSqrt superNode).links) :
    N.GetWorldTransform = P.GetWorldTransform.mul N.nodeTransform := by
  rw [Node.links_eq, Node.UpdateNode_subnodes] at h
  simp only [List.mem_append, List.mem_map, Prod.mk.injEq] at h
  rcases h with ⟨sub, hsub, hP, hN⟩ | h
  · subst hP hN
    rw [Node.UpdateNode_GetWorldTransform]
    exact Node.UpdateSubnodes_world InverseSqrt _ _ _ hsub
  · exact Node.UpdateSubnodes_links InverseSqrt _ node.subnodes (le_refl _) _ P N h

/-- The call `UpdateNode` keeps the name. -/
theorem Node.UpdateNode_nodeName (InverseSqrt : K → K) (superNode : Option (Transform4D K))
    (node : Node K) :
    (node.UpdateNode InverseSqrt superNode).nodeName = node.nodeName := by
  cases node with
  | mk c name t ctrl w subs =>
    cases c <;> cases superNode <;> rfl

/-- The loop `UpdateSubnodes` keeps the names and local transforms of the nodes
of the trees of the list, in pre-order; by induction on a bound `n` for the
number of those nodes. -/
theorem Node.UpdateSubnodes_preorderOfList (InverseSqrt : K → K) (n : Nat) :
    ∀ (subs : List (Node K)), (Node.preorderOfList subs).length ≤ n →
      ∀ (superWorld : Transform4D K),
        (Node.preorderOfList (Node.UpdateSubnodes InverseSqrt superWorld subs)).map
            (fun m => (m.nodeName, m.nodeTransform))
          = (Node.preorderOfList subs).map (fun m => (m.nodeName, m.nodeTransform)) := by
  induction n with
  | zero =>
    intro subs hlen superWorld
    cases subs with
    | nil => rfl
    | cons node rest => simp [Node.preorderOfList] at hlen
  | succ n ih =>
    intro subs hlen superWorld
    cases subs with
    | nil => rfl
    | cons node rest =>
      simp only [Node.preorderOfList, List.length_cons, List.length_append] at hlen
      have h1 := ih node.subnodes (by rw [← Node.descendants_eq]; omega)
        (Node.expectedWorld (some superWorld) node.nodeTransform)
      have h2 := ih rest (by omega) superWorld
      simp only [Node.UpdateSubnodes, Node.preorderOfList, List.map_cons, List.map_append,
        Node.UpdateNode_nodeName, Node.UpdateNode_nodeTransform]
      rw [Node.descendants_eq (Node.UpdateNode InverseSqrt (some superWorld) node),
        Node.UpdateNode_subnodes, h1, h2, ← Node.descendants_eq]

/-- The call `UpdateNode` keeps the shape of the tree: the names and local
transforms of the proper descendants, in pre-order, are unchanged. -/
theorem Node.UpdateNode_descendants (InverseSqrt : K → K)
    (superNode : Option (Transform4D K)) (node : Node K) :
    (node.UpdateNode InverseSqrt superNode).descendants.map
        (fun m => (m.nodeName, m.nodeTransform))
      = node.descendants.map (fun m => (m.nodeName, m.nodeTransform)) := by
  rw [Node.descendants_eq, Node.UpdateNode_subnodes, Node.descendants_eq]
  exact Node.UpdateSubnodes_preorderOfList InverseSqrt _ node.subnodes (le_refl _) _

/-! ### Planes and the inverse transform -/

/-- A plane multiplied on the right by a matrix, evaluated at a point, is the
plane evaluated at the image of the point. -/
theorem Plane.mulTransform_DotPoint (f : Plane K) (m : Transform4D K) (p : Point3D K) :
    (f.mulTransform m).DotPoint p = f.DotPoint (m.mulPoint p) := by
  simp only [Plane.mulTransform, Plane.DotPoint, Transform4D.mulPoint]
  ring

/-- The modelled `Inverse` undoes a transform of non-zero determinant. -/
theorem Transform4D.Inverse_mulPoint_mulPoint (m : Transform4D K) (h : m.det ≠ 0)
    (q : Point3D K) : m.Inverse.mulPoint (m.mulPoint q) = q := by
  have hi : 1 / m.det * m.det = 1 := one_div_mul_cancel h
  unfold Transform4D.Inverse
  simp only [show ((m.col 0).Cross (m.col 1)).Dot (m.col 2) = m.det from rfl]
  generalize 1 / m.det = i at hi ⊢
  obtain ⟨qx, qy, qz⟩ := q
  obtain ⟨n00, n01, n02, n03, n10, n11, n12, n13, n20, n21, n22, n23⟩ := m
  simp only [Transform4D.det, Transform4D.mulPoint, Transform4D.col, Vector3D.Cross,
    Vector3D.Dot, Vector3D.scale, Point3D.mk.injEq] at hi ⊢
  refine ⟨?_, ?_, ?_⟩
  · linear_combination qx * hi
  · linear_combination qy * hi
  · linear_combination qz * hi

/-- The modelled `Inverse` is also a right inverse on points. -/
theorem Transform4D.mulPoint_Inverse_mulPoint (m : Transform4D K) (h : m.det ≠ 0)
    (q : Point3D K) : m.mulPoint (m.Inverse.mulPoint q) = q := by
  have hi : 1 / m.det * m.det = 1 := one_div_mul_cancel h
  unfold Transform4D.Inverse
  simp only [show ((m.col 0).Cross (m.col 1)).Dot (m.col 2) = m.det from rfl]
  generalize 1 / m.det = i at hi ⊢
  obtain ⟨qx, qy, qz⟩ := q
  obtain ⟨n00, n01, n02, n03, n10, n11, n12, n13, n20, n21, n22, n23⟩ := m
  simp only [Transform4D.det, Transform4D.mulPoint, Transform4D.col, Vector3D.Cross,
    Vector3D.Dot, Vector3D.scale, Point3D.mk.injEq] at hi ⊢
  refine ⟨?_, ?_, ?_⟩
  · linear_combination (qx - n03) * hi
  · linear_combination (qy - n13) * hi
  · linear_combination (qz - n23) * hi

/-- The frustum camera of an updated camera node: the parameters are kept and
the planes are recomputed from the inverse of the world transform stored by
the same call. -/
theorem FrustumCamera.UpdateNode_nodeClass (InverseSqrt : K → K)
    (superNode : Option (Transform4D K)) (camera : FrustumCamera K) (name : String)
    (t : Transform4D K) (ctrl : Option (Controller K)) (w : Transformable K)
    (subs : List (Node K)) :
    (Node.UpdateNode InverseSqrt superNode (.mk (.frustumCamera camera) name t ctrl w subs)).nodeClass
      = .frustumCamera (camera.UpdatePlanes InverseSqrt
          (Node.UpdateNode InverseSqrt superNode
            (.mk (.frustumCamera camera) name t ctrl w subs)).GetWorldTransform.Inverse) := by
  cases superNode <;> rfl

/-- The camera found in an updated camera node is the old camera with the
planes recomputed from the inverse of the world transform of that call. -/
theorem FrustumCamera.UpdateNode_updated (InverseSqrt : K → K)
    (superNode : Option (Transform4D K)) (camera : FrustumCamera K) (name : String)
    (t : Transform4D K) (ctrl : Option (Controller K)) (w : Transformable K)
    (subs : List (Node K))
    (updated : FrustumCamera K)
    (hclass : (Node.UpdateNode InverseSqrt superNode
      (.mk (.frustumCamera camera) name t ctrl w subs)).nodeClass = .frustumCamera updated) :
    updated = camera.UpdatePlanes InverseSqrt (Node.expectedWorld superNode t).Inverse := by
  rw [FrustumCamera.UpdateNode_nodeClass, Node.UpdateNode_GetWorldTransform] at hclass
  cases hclass
  rfl

/-- After the update of the planes, world plane `k` evaluated at a point is
camera-space plane `k` evaluated at the image of the point under the matrix
the planes were multiplied by. -/
theorem FrustumCamera.UpdatePlanes_DotPoint (InverseSqrt : K → K) (camera : FrustumCamera K)
    (m : Transform4D K) (k : Fin 5) (p : Point3D K) :
    ((camera.UpdatePlanes InverseSqrt m).worldFrustumPlane k).DotPoint p
      = (camera.cameraPlane InverseSqrt k).DotPoint (m.mulPoint p) :=
  Plane.mulTransform_DotPoint _ m p

/-- A point within distance `r` of a point on the non-negative side of a plane
whose normal is at most one long is at signed distance at least `-r`. -/
theorem Plane.DotPoint_ge_neg_radius (f : Plane K) (hf : f.normalSq ≤ 1) (c q : Point3D K) (r : K)
    (hr : 0 ≤ r) (hq : (q.sub c).Dot (q.sub c) ≤ r * r) (h : 0 ≤ f.DotPoint q) :
    -r ≤ f.DotPoint c := by
  obtain ⟨fx, fy, fz, fw⟩ := f
  obtain ⟨cx, cy, cz⟩ := c
  obtain ⟨qx, qy, qz⟩ := q
  simp only [Plane.normalSq, Plane.DotPoint, Point3D.sub, Vector3D.Dot] at *
  set dx := qx - cx with hdx
  set dy := qy - cy with hdy
  set dz := qz - cz with hdz
  have hd0 : 0 ≤ dx * dx + dy * dy + dz * dz :=
    add_nonneg (add_nonneg (mul_self_nonneg _) (mul_self_nonneg _)) (mul_self_nonneg _)
  have cs : (fx * dx + fy * dy + fz * dz) * (fx * dx + fy * dy + fz * dz)
      ≤ (fx * fx + fy * fy + fz * fz) * (dx * dx + dy * dy + dz * dz) := by
    nlinarith [sq_nonneg (fx * dy - fy * dx), sq_nonneg (fx * dz - fz * dx),
      sq_nonneg (fy * dz - fz * dy)]
  have h1 : (fx * fx + fy * fy + fz * fz) * (dx * dx + dy * dy + dz * dz) ≤ 1 * (r * r) :=
    mul_le_mul hf hq hd0 zero_le_one
  have h2 : (fx * dx + fy * dy + fz * dz) * (fx * dx + fy * dy + fz * dz) ≤ r * r := by
    linarith
  have h3 : fx * dx + fy * dy + fz * dz ≤ r := by
    by_contra hcon
    push_neg at hcon
    have := mul_lt_mul'' hcon hcon hr hr
    linarith
  have e : fx * cx + fy * cy + fz * cz + fw
      = (fx * qx + fy * qy + fz * qz + fw) - (fx * dx + fy * dy + fz * dz) := by
    simp only [hdx, hdy, hdz]; ring
  linarith

/-- The determinant of a rigid transform is one or minus one: its square is
the determinant of the matrix of dot products of the axes. -/
theorem Transform4D.Orthonormal.det_mul_det (m : Transform4D K) (h : m.Orthonormal) :
    m.det * m.det = 1 := by
  obtain ⟨haa, hbb, hcc, hab, hac, hbc⟩ := h
  have key : m.det * m.det
      = (m.col 0).Dot (m.col 0)
          * ((m.col 1).Dot (m.col 1) * (m.col 2).Dot (m.col 2)
            - (m.col 1).Dot (m.col 2) * (m.col 1).Dot (m.col 2))
        - (m.col 0).Dot (m.col 1)
          * ((m.col 0).Dot (m.col 1) * (m.col 2).Dot (m.col 2)
            - (m.col 1).Dot (m.col 2) * (m.col 0).Dot (m.col 2))
        + (m.col 0).Dot (m.col 2)
          * ((m.col 0).Dot (m.col 1) * (m.col 1).Dot (m.col 2)
            - (m.col 1).Dot (m.col 1) * (m.col 0).Dot (m.col 2)) := by
    simp only [Transform4D.det, Transform4D.col, Vector3D.Cross, Vector3D.Dot]
    ring
  rw [key, haa, hbb, hcc, hab, hac, hbc]
  ring

/-- The linear part of the inverse of a rigid transform is the transpose. -/
theorem Transform4D.Orthonormal.Inverse_transpose (m : Transform4D K) (h : m.Orthonormal) :
    m.Inverse.n00 = m.n00 ∧ m.Inverse.n01 = m.n10 ∧ m.Inverse.n02 = m.n20 ∧
    m.Inverse.n10 = m.n01 ∧ m.Inverse.n11 = m.n11 ∧ m.Inverse.n12 = m.n21 ∧
    m.Inverse.n20 = m.n02 ∧ m.Inverse.n21 = m.n12 ∧ m.Inverse.n22 = m.n22 := by
  have hdet : m.det ≠ 0 := by
    intro h0
    have := Transform4D.Orthonormal.det_mul_det m h
    rw [h0] at this
    simp at this
  have hi : 1 / m.det * m.det = 1 := one_div_mul_cancel hdet
  unfold Transform4D.Inverse
  simp only [show ((m.col 0).Cross (m.col 1)).Dot (m.col 2) = m.det from rfl]
  generalize 1 / m.det = i at hi ⊢
  obtain ⟨n00, n01, n02, n03, n10, n11, n12, n13, n20, n21, n22, n23⟩ := m
  obtain ⟨haa, hbb, hcc, hab, hac, hbc⟩ := h
  simp only [Transform4D.det, Transform4D.col, Vector3D.Cross, Vector3D.Dot,
    Vector3D.scale] at *
  refine ⟨?_, ?_, ?_, ?_, ?_, ?_, ?_, ?_, ?_⟩
  · linear_combination n00 * hi - i * (n11 * n22 - n21 * n12) * haa
      - i * (n12 * n20 - n22 * n10) * hab - i * (n10 * n21 - n20 * n11) * hac
  · linear_combination n10 * hi - i * (n21 * n02 - n01 * n22) * haa
      - i * (n22 * n00 - n02 * n20) * hab - i * (n20 * n01 - n00 * n21) * hac
  · linear_combination n20 * hi - i * (n01 * n12 - n11 * n02) * haa
      - i * (n02 * n10 - n12 * n00) * hab - i * (n00 * n11 - n10 * n01) * hac
  · linear_combination n01 * hi - i * (n11 * n22 - n21 * n12) * hab
      - i * (n12 * n20 - n22 * n10) * hbb - i * (n10 * n21 - n20 * n11) * hbc
  · linear_combination n11 * hi - i * (n21 * n02 - n01 * n22) * hab
      - i * (n22 * n00 - n02 * n20) * hbb - i * (n20 * n01 - n00 * n21) * hbc
  · linear_combination n21 * hi - i * (n01 * n12 - n11 * n02) * hab
      - i * (n02 * n10 - n12 * n00) * hbb - i * (n00 * n11 - n10 * n01) * hbc
  · linear_combination n02 * hi - i * (n11 * n22 - n21 * n12) * hac
      - i * (n12 * n20 - n22 * n10) * hbc - i * (n10 * n21 - n20 * n11) * hcc
  · linear_combination n12 * hi - i * (n21 * n02 - n01 * n22) * hac
      - i * (n22 * n00 - n02 * n20) * hbc - i * (n20 * n01 - n00 * n21) * hcc
  · linear_combination n22 * hi - i * (n01 * n12 - n11 * n02) * hac
      - i * (n02 * n10 - n12 * n00) * hbc - i * (n00 * n11 - n10 * n01) * hcc

/-- Multiplying a plane by the inverse of a rigid transform keeps the length of
its normal. -/
theorem Transform4D.Orthonormal.normalSq_mulTransform_Inverse (m : Transform4D K)
    (h : m.Orthonormal) (f : Plane K) :
    (f.mulTransform m.Inverse).normalSq = f.normalSq := by
  obtain ⟨e00, e01, e02, e10, e11, e12, e20, e21, e22⟩ :=
    Transform4D.Orthonormal.Inverse_transpose m h
  simp only [Plane.mulTransform, Plane.normalSq, e00, e01, e02, e10, e11, e12, e20, e21, e22]
  obtain ⟨n00, n01, n02, n03, n10, n11, n12, n13, n20, n21, n22, n23⟩ := m
  obtain ⟨haa, hbb, hcc, hab, hac, hbc⟩ := h
  obtain ⟨fx, fy, fz, fw⟩ := f
  simp only [Transform4D.col, Vector3D.Dot] at *
  linear_combination fx * fx * haa + fy * fy * hbb + fz * fz * hcc + 2 * fx * fy * hab
    + 2 * fx * fz * hac + 2 * fy * fz * hbc

/-- The normals of the five camera-space planes are at most one long when the
two values of `InverseSqrt` are no larger than the exact reciprocal roots. -/
theorem FrustumCamera.cameraPlane_normalSq_le (InverseSqrt : K → K) (camera : FrustumCamera K)
    (hrx : InverseSqrt (camera.projectionDistance * camera.projectionDistance
        + camera.aspectRatio * camera.aspectRatio)
      * InverseSqrt (camera.projectionDistance * camera.projectionDistance
        + camera.aspectRatio * camera.aspectRatio)
      * (camera.projectionDistance * camera.projectionDistance
        + camera.aspectRatio * camera.aspectRatio) ≤ 1)
    (hry : InverseSqrt (camera.projectionDistance * camera.projectionDistance + 1)
      * InverseSqrt (camera.projectionDistance * camera.projectionDistance + 1)
      * (camera.projectionDistance * camera.projectionDistance + 1) ≤ 1)
    (k : Fin 5) : (camera.cameraPlane InverseSqrt k).normalSq ≤ 1 := by
  obtain ⟨g, s, n, planes⟩ := camera
  simp only [FrustumCamera.cameraPlane] at hrx hry ⊢
  generalize InverseSqrt (g * g + s * s) = rx at hrx ⊢
  generalize InverseSqrt (g * g + 1) = ry at hry ⊢
  fin_cases k <;> simp [Plane.normalSq] <;> linarith

/-- The rational inverse square root is exact on squares. -/
theorem InverseSqrtRat_sq (q : ℚ) (hq : 0 ≤ q) : InverseSqrtRat (q * q) = 1 / q := by
  unfold InverseSqrtRat
  rw [Rat.sqrt_eq, abs_of_nonneg hq]

/-- The value both roots of `sampleCamera` take. -/
theorem InverseSqrtRat_sampleCamera : InverseSqrtRat (25 / 16) = 4 / 5 := by
  have h := InverseSqrtRat_sq (5 / 4) (by norm_num)
  norm_num at h
  exact h

/-- The camera of `plainCameraNode` after `UpdateNode` is `updatedPlainCamera`,
whose planes are `(3/5, 0, 4/5, 0)`, `(-3/5, 0, 4/5, 0)`, `(0, 3/5, 4/5, 0)`,
`(0, -3/5, 4/5, 0)` and `(0, 0, 1, -1/8)`. -/
theorem updatedPlainCamera_planes :
    (Node.UpdateNode InverseSqrtRat none plainCameraNode).nodeClass
      = .frustumCamera updatedPlainCamera ∧
    updatedPlainCamera.worldFrustumPlane 0 = ⟨3 / 5, 0, 4 / 5, 0⟩ ∧
    updatedPlainCamera.worldFrustumPlane 1 = ⟨-3 / 5, 0, 4 / 5, 0⟩ ∧
    updatedPlainCamera.worldFrustumPlane 2 = ⟨0, 3 / 5, 4 / 5, 0⟩ ∧
    updatedPlainCamera.worldFrustumPlane 3 = ⟨0, -3 / 5, 4 / 5, 0⟩ ∧
    updatedPlainCamera.worldFrustumPlane 4 = ⟨0, 0, 1, -1 / 8⟩ := by
  refine ⟨rfl, ?_, ?_, ?_, ?_, ?_⟩ <;>
    simp [updatedPlainCamera, FrustumCamera.UpdatePlanes, FrustumCamera.cameraPlane,
      sampleCamera, Transform4D.identity, Transform4D.Inverse, Plane.mulTransform,
      Transform4D.col, Vector3D.Cross, Vector3D.Dot, Vector3D.scale] <;>
    norm_num [InverseSqrtRat_sampleCamera]

/-! ### What `UpdateNode` leaves as it is -/

/-- The tree without its world data has the class without its world data, the
name, the local transform and the controller of the node, and the subnodes
without their world data. -/
theorem Node.clearWorld_eq (node : Node K) :
    node.clearWorld = .mk node.nodeClass.clearWorld node.nodeName node.nodeTransform
      node.nodeController ⟨Transform4D.identity, Transform4D.identity⟩
      (Node.clearWorldOfList node.subnodes) := by
  cases node with
  | mk c name t ctrl w subs => rfl

/-- The tree `UpdateNode` leaves, without its world data: the members of the
node apart from world transform pair and world planes are kept, and the
subnodes are the updated subnodes. -/
theorem Node.UpdateNode_clearWorld_eq (InverseSqrt : K → K)
    (superNode : Option (Transform4D K)) (node : Node K) :
    (node.UpdateNode InverseSqrt superNode).clearWorld
      = .mk node.nodeClass.clearWorld node.nodeName node.nodeTransform node.nodeController
          ⟨Transform4D.identity, Transform4D.identity⟩
          (Node.clearWorldOfList (Node.UpdateSubnodes InverseSqrt
            (Node.expectedWorld superNode node.nodeTransform) node.subnodes)) := by
  cases node with
  | mk c name t ctrl w subs =>
    cases c <;> cases superNode <;> rfl

/-- The loop `UpdateSubnodes` changes nothing in the trees of the list but world
transform pairs and world planes; by induction on a bound `n` for the number of
nodes of those trees. -/
theorem Node.UpdateSubnodes_clearWorldOfList (InverseSqrt : K → K) (n : Nat) :
    ∀ (subs : List (Node K)), (Node.preorderOfList subs).length ≤ n →
      ∀ (superWorld : Transform4D K),
        Node.clearWorldOfList (Node.UpdateSubnodes InverseSqrt superWorld subs)
          = Node.clearWorldOfList subs := by
  induction n with
  | zero =>
    intro subs hlen superWorld
    cases subs with
    | nil => rfl
    | cons node rest => simp [Node.preorderOfList] at hlen
  | succ n ih =>
    intro subs hlen superWorld
    cases subs with
    | nil => rfl
    | cons node rest =>
      simp only [Node.preorderOfList, List.length_cons, List.length_append] at hlen
      have h1 := ih node.subnodes (by rw [← Node.descendants_eq]; omega)
        (Node.expectedWorld (some superWorld) node.nodeTransform)
      have h2 := ih rest (by omega) superWorld
      simp only [Node.UpdateSubnodes, Node.clearWorldOfList]
      rw [h2, Node.UpdateNode_clearWorld_eq, Node.clearWorld_eq node, h1]

/-- The call `UpdateNode` changes nothing in the tree but world transform pairs
and world planes. -/
theorem Node.UpdateNode_clearWorld (InverseSqrt : K → K)
    (superNode : Option (Transform4D K)) (node : Node K) :
    (node.UpdateNode InverseSqrt superNode).clearWorld = node.clearWorld := by
  rw [Node.UpdateNode_clearWorld_eq, Node.clearWorld_eq node,
    Node.UpdateSubnodes_clearWorldOfList InverseSqrt _ node.subnodes (le_refl _)]

/-! ### Transform propagation invariant (C1) -/

/-- C1: `UpdateNode` on the root of any tree, frustum cameras included, keeps
the shape of the tree and the class, name, local transform and controller of
every node (it writes world transform pairs and the world planes of frustum
cameras only); after it the root has `worldTransform = nodeTransform` and every
node `N` with super node `P` has
`N.worldTransform = P.worldTransform * N.nodeTransform`. -/
theorem Node.UpdateNode_invariant (InverseSqrt : K → K) (root : Node K) :
    (root.UpdateNode InverseSqrt none).clearWorld = root.clearWorld ∧
    (root.UpdateNode InverseSqrt none).GetWorldTransform
        = (root.UpdateNode InverseSqrt none).nodeTransform ∧
    ∀ P N : Node K, (P, N) ∈ (root.UpdateNode InverseSqrt none).links →
      N.GetWorldTransform = P.GetWorldTransform.mul N.nodeTransform := by
  refine ⟨Node.UpdateNode_clearWorld InverseSqrt none root, ?_,
    Node.UpdateNode_links InverseSqrt none root⟩
  rw [Node.UpdateNode_GetWorldTransform, Node.UpdateNode_nodeTransform]
  rfl

/-- Witness for C1: `cameraScene` keeps its two nodes, the root ends with its
local transform as world transform, and the frustum camera below the root ends
with the product of the root's world transform and its own local transform. -/
theorem Node.UpdateNode_invariant_witness :
    (Node.UpdateNode InverseSqrtRat none cameraScene).clearWorld = cameraScene.clearWorld ∧
    (Node.UpdateNode InverseSqrtRat none cameraScene).GetWorldTransform = translation 1 2 3 ∧
    (Node.UpdateNode InverseSqrtRat (some (translation 1 2 3))
        scaledCameraNode).GetWorldTransform
      = (translation 1 2 3).mul halfScale :=
  ⟨(Node.UpdateNode_invariant InverseSqrtRat cameraScene).1,
   (Node.UpdateNode_invariant InverseSqrtRat cameraScene).2.1,
   (Node.UpdateNode_invariant InverseSqrtRat cameraScene).2.2
    (Node.UpdateNode InverseSqrtRat none cameraScene)
    (Node.UpdateNode InverseSqrtRat (some (translation 1 2 3)) scaledCameraNode)
    (List.Mem.head _)⟩

/-! ### Sphere and box tests (C2, C3) -/

/-- C2: `SphereVisible(c, r)` is true exactly when `Dot(worldFrustumPlane[k], c) >= -r`
for all five planes, and false exactly when some plane has `Dot(plane, c) < -r`. -/
theorem FrustumCamera.SphereVisible_iff (camera : FrustumCamera K) (c : Point3D K) (r : K) :
    (camera.SphereVisible c r = true ↔
        ∀ k : Fin 5, (camera.worldFrustumPlane k).DotPoint c ≥ -r) ∧
    (camera.SphereVisible c r = false ↔
        ∃ k : Fin 5, (camera.worldFrustumPlane k).DotPoint c < -r) :=
  ⟨FrustumCamera.SphereVisible_eq_true_iff camera c r,
   FrustumCamera.SphereVisible_eq_false_iff camera c r⟩

/-- C3: `BoxVisible(T, size)` is false exactly when some plane `k` has
`Dot(plane_k, center) <= -(|Dot(plane_k, hx)| + |Dot(plane_k, hy)| + |Dot(plane_k, hz)|)`
with `hx = T[0] * size.x / 2`, `hy = T[1] * size.y / 2`, `hz = T[2] * size.z / 2` and
`center = T.translation + hx + hy + hz`. -/
theorem FrustumCamera.BoxVisible_eq_false_iff (camera : FrustumCamera K) (T : Transform4D K)
    (size : Vector3D K) :
    camera.BoxVisible T size = false ↔
      ∃ k : Fin 5,
        (camera.worldFrustumPlane k).DotPoint
            (((T.GetTranslation.add ((T.col 0).scale (size.x / 2))).add
              ((T.col 1).scale (size.y / 2))).add ((T.col 2).scale (size.z / 2)))
          ≤ -(|(camera.worldFrustumPlane k).DotVector ((T.col 0).scale (size.x / 2))|
              + |(camera.worldFrustumPlane k).DotVector ((T.col 1).scale (size.y / 2))|
              + |(camera.worldFrustumPlane k).DotVector ((T.col 2).scale (size.z / 2))|) := by
  rw [FrustumCamera.BoxVisible_eq_false]
  simp only [FrustumCamera.BoxVisible.rg, FrustumCamera.BoxVisible.center,
    FrustumCamera.BoxVisible.halfAxisX, FrustumCamera.BoxVisible.halfAxisY,
    FrustumCamera.BoxVisible.halfAxisZ, mul_one_div]

/-! ### Conservatism of the sphere test (C4) -/

/-- C4 (amended): for a frustum camera whose planes were produced by
`FrustumCamera::UpdateNode` with a rigid world transform and plane normals at
most one long, every sphere of radius `r >= 0` around `c` that contains a point
`q` lying in all five half-spaces has `SphereVisible(c, r)` true. -/
theorem FrustumCamera.SphereVisible_conservative (InverseSqrt : K → K)
    (superNode : Option (Transform4D K)) (camera : FrustumCamera K) (name : String)
    (t : Transform4D K) (ctrl : Option (Controller K)) (w : Transformable K)
    (subs : List (Node K))
    (updated : FrustumCamera K)
    (hclass : (Node.UpdateNode InverseSqrt superNode
      (.mk (.frustumCamera camera) name t ctrl w subs)).nodeClass = .frustumCamera updated)
    (hrigid : (Node.expectedWorld superNode t).Orthonormal)
    (hrx : InverseSqrt (camera.projectionDistance * camera.projectionDistance
        + camera.aspectRatio * camera.aspectRatio)
      * InverseSqrt (camera.projectionDistance * camera.projectionDistance
        + camera.aspectRatio * camera.aspectRatio)
      * (camera.projectionDistance * camera.projectionDistance
        + camera.aspectRatio * camera.aspectRatio) ≤ 1)
    (hry : InverseSqrt (camera.projectionDistance * camera.projectionDistance + 1)
      * InverseSqrt (camera.projectionDistance * camera.projectionDistance + 1)
      * (camera.projectionDistance * camera.projectionDistance + 1) ≤ 1)
    (c q : Point3D K) (r : K) (hr : 0 ≤ r) (hq : (q.sub c).Dot (q.sub c) ≤ r * r)
    (hin : ∀ k : Fin 5, 0 ≤ (updated.worldFrustumPlane k).DotPoint q) :
    updated.SphereVisible c r = true := by
  have hu := FrustumCamera.UpdateNode_updated InverseSqrt superNode camera name t ctrl w subs
    updated hclass
  rw [FrustumCamera.SphereVisible_eq_true_iff]
  intro k
  have hn : (updated.worldFrustumPlane k).normalSq ≤ 1 := by
    have hplane : updated.worldFrustumPlane k
        = (camera.cameraPlane InverseSqrt k).mulTransform
            (Node.expectedWorld superNode t).Inverse := by
      rw [hu]; rfl
    rw [hplane, Transform4D.Orthonormal.normalSq_mulTransform_Inverse _ hrigid]
    exact FrustumCamera.cameraPlane_normalSq_le InverseSqrt camera hrx hry k
  exact Plane.DotPoint_ge_neg_radius _ hn c q r hr hq (hin k)

/-- Witness for C4 (amended): the camera of `plainCameraNode`, whose world
transform is the identity, and the unit sphere around `(0, 0, -1/2)`, which
contains the point `(0, 0, 1/2)` of the frustum. -/
theorem FrustumCamera.SphereVisible_conservative_witness :
    (Node.expectedWorld none (Transform4D.identity (K := ℚ))).Orthonormal ∧
    (∀ k : Fin 5, 0 ≤ (updatedPlainCamera.worldFrustumPlane k).DotPoint ⟨0, 0, 1 / 2⟩) ∧
    updatedPlainCamera.SphereVisible ⟨0, 0, -1 / 2⟩ 1 = true := by
  have hrigid : (Node.expectedWorld none (Transform4D.identity (K := ℚ))).Orthonormal := by
    simp [Node.expectedWorld, Transform4D.Orthonormal, Transform4D.identity, Transform4D.col,
      Vector3D.Dot]
  have hin : ∀ k : Fin 5, 0 ≤ (updatedPlainCamera.worldFrustumPlane k).DotPoint ⟨0, 0, 1 / 2⟩ := by
    intro k
    fin_cases k <;>
      simp [updatedPlainCamera, FrustumCamera.UpdatePlanes, FrustumCamera.cameraPlane,
        sampleCamera, Transform4D.identity, Transform4D.Inverse, Plane.mulTransform,
        Plane.DotPoint, Transform4D.col, Vector3D.Cross, Vector3D.Dot, Vector3D.scale] <;>
      norm_num [InverseSqrtRat_sampleCamera]
  refine ⟨hrigid, hin, ?_⟩
  exact FrustumCamera.SphereVisible_conservative InverseSqrtRat none sampleCamera "camera"
    Transform4D.identity none ⟨Transform4D.identity, Transform4D.identity⟩ [] updatedPlainCamera
    rfl hrigid
    (by norm_num [sampleCamera, InverseSqrtRat_sampleCamera])
    (by norm_num [sampleCamera, InverseSqrtRat_sampleCamera])
    ⟨0, 0, -1 / 2⟩ ⟨0, 0, 1 / 2⟩ 1 (by norm_num)
    (by norm_num [Point3D.sub, Vector3D.Dot]) hin

/-- Counterexample to C4 as stated: the camera of `scaledCameraNode`, whose
world transform scales by one half and is invertible.  The point
`(0, 0, 1/16)` lies in all five half-spaces and within distance `1` of
`(0, 0, -15/16)`, yet `SphereVisible((0, 0, -15/16), 1)` is false. -/
theorem FrustumCamera.SphereVisible_scaled_counterexample :
    (Node.UpdateNode InverseSqrtRat none scaledCameraNode).nodeClass
      = .frustumCamera updatedScaledCamera ∧
    halfScale.det ≠ 0 ∧
    (0 : ℚ) ≤ 1 ∧
    ((⟨0, 0, 1 / 16⟩ : Point3D ℚ).sub ⟨0, 0, -15 / 16⟩).Dot
      ((⟨0, 0, 1 / 16⟩ : Point3D ℚ).sub ⟨0, 0, -15 / 16⟩) ≤ 1 * 1 ∧
    (∀ k : Fin 5, 0 ≤ (updatedScaledCamera.worldFrustumPlane k).DotPoint ⟨0, 0, 1 / 16⟩) ∧
    updatedScaledCamera.SphereVisible ⟨0, 0, -15 / 16⟩ 1 = false := by
  refine ⟨rfl, ?_, by norm_num, by norm_num [Point3D.sub, Vector3D.Dot], ?_, ?_⟩
  · norm_num [halfScale, Transform4D.det, Transform4D.col, Vector3D.Cross, Vector3D.Dot]
  · intro k
    fin_cases k <;>
      simp [updatedScaledCamera, FrustumCamera.UpdatePlanes, FrustumCamera.cameraPlane,
        sampleCamera, halfScale, Transform4D.Inverse, Plane.mulTransform, Plane.DotPoint,
        Transform4D.col, Vector3D.Cross, Vector3D.Dot, Vector3D.scale] <;>
      norm_num [InverseSqrtRat_sampleCamera]
  · rw [FrustumCamera.SphereVisible_eq_false_iff]
    refine ⟨4, ?_⟩
    simp [updatedScaledCamera, FrustumCamera.UpdatePlanes, FrustumCamera.cameraPlane,
      sampleCamera, halfScale, Transform4D.Inverse, Plane.mulTransform, Plane.DotPoint,
      Transform4D.col, Vector3D.Cross, Vector3D.Dot, Vector3D.scale]
    norm_num

/-! ### Conservatism of the box test (C5) -/

/-- C5 (amended): for every camera state and every box, if some point of the box
lies strictly inside all five half-spaces (`Dot(worldFrustumPlane[k], q) > 0` for
every `k`), then `BoxVisible(T, size)` is true. -/
theorem FrustumCamera.BoxVisible_conservative (camera : FrustumCamera K) (T : Transform4D K)
    (size : Vector3D K) (u v w : K) (hu0 : 0 ≤ u) (hu1 : u ≤ 1) (hv0 : 0 ≤ v) (hv1 : v ≤ 1)
    (hw0 : 0 ≤ w) (hw1 : w ≤ 1)
    (hin : ∀ k : Fin 5, 0 < (camera.worldFrustumPlane k).DotPoint (boxPoint T size u v w)) :
    camera.BoxVisible T size = true := by
  rw [FrustumCamera.BoxVisible_iff]
  intro k
  have h := FrustumCamera.BoxVisible.DotPoint_boxPoint_le (camera.worldFrustumPlane k) T size
    u v w hu0 hu1 hv0 hv1 hw0 hw1
  have := hin k
  linarith

/-- Witness for C5 (amended): the unit box with minimal corner `(-1/2, -1/2, 2)`,
whose middle point `(0, 0, 5/2)` is strictly inside the frustum of
`updatedPlainCamera`. -/
theorem FrustumCamera.BoxVisible_conservative_witness :
    (∀ k : Fin 5, 0 < (updatedPlainCamera.worldFrustumPlane k).DotPoint
      (boxPoint (translation (-1 / 2) (-1 / 2) 2) ⟨1, 1, 1⟩ (1 / 2) (1 / 2) (1 / 2))) ∧
    updatedPlainCamera.BoxVisible (translation (-1 / 2) (-1 / 2) 2) ⟨1, 1, 1⟩ = true := by
  have hin : ∀ k : Fin 5, 0 < (updatedPlainCamera.worldFrustumPlane k).DotPoint
      (boxPoint (translation (-1 / 2) (-1 / 2) 2) ⟨1, 1, 1⟩ (1 / 2) (1 / 2) (1 / 2)) := by
    obtain ⟨-, h0, h1, h2, h3, h4⟩ := updatedPlainCamera_planes
    intro k
    fin_cases k <;>
      simp [h0, h1, h2, h3, h4, boxPoint, translation, Plane.DotPoint, Point3D.add,
        Vector3D.scale, Transform4D.GetTranslation, Transform4D.col] <;>
      norm_num
  exact ⟨hin, FrustumCamera.BoxVisible_conservative updatedPlainCamera
    (translation (-1 / 2) (-1 / 2) 2) ⟨1, 1, 1⟩ (1 / 2) (1 / 2) (1 / 2)
    (by norm_num) (by norm_num) (by norm_num) (by norm_num) (by norm_num) (by norm_num) hin⟩

/-- Counterexample to C5 as stated: the unit box with minimal corner
`(-1/2, -1/2, -7/8)` touches the near plane of `updatedPlainCamera` from
outside.  Its point `(0, 0, 1/8)` lies in all five half-spaces, yet
`BoxVisible` is false. -/
theorem FrustumCamera.BoxVisible_touching_counterexample :
    (Node.UpdateNode InverseSqrtRat none plainCameraNode).nodeClass
      = .frustumCamera updatedPlainCamera ∧
    ((0 : ℚ) ≤ (⟨1, 1, 1⟩ : Vector3D ℚ).x ∧ (0 : ℚ) ≤ (⟨1, 1, 1⟩ : Vector3D ℚ).y
      ∧ (0 : ℚ) ≤ (⟨1, 1, 1⟩ : Vector3D ℚ).z) ∧
    ((0 : ℚ) ≤ 1 / 2 ∧ (1 / 2 : ℚ) ≤ 1 ∧ (0 : ℚ) ≤ 1 ∧ (1 : ℚ) ≤ 1) ∧
    boxPoint (translation (-1 / 2) (-1 / 2) (-7 / 8)) ⟨1, 1, 1⟩ (1 / 2) (1 / 2) 1
      = ⟨0, 0, 1 / 8⟩ ∧
    (∀ k : Fin 5, 0 ≤ (updatedPlainCamera.worldFrustumPlane k).DotPoint
      (boxPoint (translation (-1 / 2) (-1 / 2) (-7 / 8)) ⟨1, 1, 1⟩ (1 / 2) (1 / 2) 1)) ∧
    updatedPlainCamera.BoxVisible (translation (-1 / 2) (-1 / 2) (-7 / 8)) ⟨1, 1, 1⟩ = false := by
  obtain ⟨-, h0, h1, h2, h3, h4⟩ := updatedPlainCamera_planes
  refine ⟨rfl, by norm_num, by norm_num, ?_, ?_, ?_⟩
  · simp [boxPoint, translation, Point3D.add, Vector3D.scale, Transform4D.GetTranslation,
      Transform4D.col]
    norm_num
  · intro k
    fin_cases k <;>
      simp [h0, h1, h2, h3, h4, boxPoint, translation, Plane.DotPoint, Point3D.add,
        Vector3D.scale, Transform4D.GetTranslation, Transform4D.col] <;>
      norm_num
  · rw [FrustumCamera.BoxVisible_eq_false]
    refine ⟨4, ?_⟩
    simp [h4, FrustumCamera.BoxVisible.center, FrustumCamera.BoxVisible.rg,
      FrustumCamera.BoxVisible.halfAxisX, FrustumCamera.BoxVisible.halfAxisY,
      FrustumCamera.BoxVisible.halfAxisZ, translation, Plane.DotPoint, Plane.DotVector,
      Point3D.add, Vector3D.scale, Transform4D.GetTranslation, Transform4D.col]
    norm_num [abs_of_pos]

/-! ### The sphere test on the example camera (C6) -/

/-- C6: for a frustum camera with `g = 1`, `s = 1`, `n = 1/10` at the origin whose
view axis `W[2]` is `(0, 0, -1)`, planes computed by `UpdateNode`,
`SphereVisible((0, 0, -5), 1/10)` is true and
`SphereVisible((1000, 1000, 1000), 1)` is false. -/
theorem FrustumCamera.SphereVisible_example (InverseSqrt : K → K)
    (superNode : Option (Transform4D K)) (planes : Fin 5 → Plane K) (name : String)
    (t : Transform4D K) (ctrl : Option (Controller K)) (w : Transformable K)
    (subs : List (Node K))
    (updated : FrustumCamera K)
    (hclass : (Node.UpdateNode InverseSqrt superNode
      (.mk (.frustumCamera ⟨1, 1, 1 / 10, planes⟩) name t ctrl w subs)).nodeClass
        = .frustumCamera updated)
    (hsqrt : 0 ≤ InverseSqrt 2)
    (hview : (Node.expectedWorld superNode t).col 2 = ⟨0, 0, -1⟩)
    (horigin : (Node.expectedWorld superNode t).GetTranslation = ⟨0, 0, 0⟩)
    (hright : ((Node.expectedWorld superNode t).col 0).z = 0)
    (hdown : ((Node.expectedWorld superNode t).col 1).z = 0)
    (hdet : (Node.expectedWorld superNode t).det ≠ 0) :
    updated.SphereVisible ⟨0, 0, -5⟩ (1 / 10) = true ∧
    updated.SphereVisible ⟨1000, 1000, 1000⟩ 1 = false := by
  have hu := FrustumCamera.UpdateNode_updated InverseSqrt superNode ⟨1, 1, 1 / 10, planes⟩
    name t ctrl w subs updated hclass
  have hdot : ∀ (k : Fin 5) (p : Point3D K), (updated.worldFrustumPlane k).DotPoint p
      = (FrustumCamera.cameraPlane InverseSqrt ⟨1, 1, 1 / 10, planes⟩ k).DotPoint
          ((Node.expectedWorld superNode t).Inverse.mulPoint p) := by
    intro k p
    rw [hu]
    exact FrustumCamera.UpdatePlanes_DotPoint InverseSqrt _ _ k p
  clear hu hclass
  generalize Node.expectedWorld superNode t = W at *
  have e2 : (1 : K) * 1 + 1 * 1 = 2 := by norm_num
  have e2' : (1 : K) * 1 + 1 = 2 := by norm_num
  constructor
  · rw [FrustumCamera.SphereVisible_eq_true_iff]
    intro k
    have hp : (⟨0, 0, -5⟩ : Point3D K) = W.mulPoint ⟨0, 0, 5⟩ := by
      obtain ⟨n00, n01, n02, n03, n10, n11, n12, n13, n20, n21, n22, n23⟩ := W
      simp only [Transform4D.col, Transform4D.GetTranslation, Vector3D.mk.injEq,
        Point3D.mk.injEq] at hview horigin
      obtain ⟨h02, h12, h22⟩ := hview
      obtain ⟨h03, h13, h23⟩ := horigin
      simp only [Transform4D.mulPoint, h02, h12, h22, h03, h13, h23, Point3D.mk.injEq]
      refine ⟨?_, ?_, ?_⟩ <;> ring
    rw [hdot k, hp, Transform4D.Inverse_mulPoint_mulPoint W hdet]
    fin_cases k <;>
      simp [FrustumCamera.cameraPlane, Plane.DotPoint, e2, e2'] <;>
      linarith
  · rw [FrustumCamera.SphereVisible_eq_false_iff]
    refine ⟨4, ?_⟩
    rw [hdot 4]
    have hq := Transform4D.mulPoint_Inverse_mulPoint W hdet ⟨1000, 1000, 1000⟩
    generalize W.Inverse.mulPoint ⟨1000, 1000, 1000⟩ = q at hq ⊢
    obtain ⟨qx, qy, qz⟩ := q
    obtain ⟨n00, n01, n02, n03, n10, n11, n12, n13, n20, n21, n22, n23⟩ := W
    simp only [Transform4D.col, Transform4D.GetTranslation, Vector3D.mk.injEq,
      Point3D.mk.injEq] at hview horigin hright hdown
    obtain ⟨h02, h12, h22⟩ := hview
    obtain ⟨h03, h13, h23⟩ := horigin
    simp only [Transform4D.mulPoint, Point3D.mk.injEq, hright, hdown, h22, h23] at hq
    obtain ⟨-, -, hz⟩ := hq
    simp [FrustumCamera.cameraPlane, Plane.DotPoint]
    linarith

/-- Witness for C6: the camera turned by `lookDownNegZ`, with the rational
inverse square root. -/
theorem FrustumCamera.SphereVisible_example_witness :
    (unitCamera.UpdatePlanes InverseSqrtRat lookDownNegZ.Inverse).SphereVisible
        ⟨0, 0, -5⟩ (1 / 10) = true ∧
    (unitCamera.UpdatePlanes InverseSqrtRat lookDownNegZ.Inverse).SphereVisible
        ⟨1000, 1000, 1000⟩ 1 = false :=
  FrustumCamera.SphereVisible_example InverseSqrtRat none (fun _ => ⟨0, 0, 0, 0⟩) "camera"
    lookDownNegZ none ⟨Transform4D.identity, Transform4D.identity⟩ []
    (unitCamera.UpdatePlanes InverseSqrtRat lookDownNegZ.Inverse) rfl
    (one_div_nonneg.mpr (Rat.sqrt_nonneg 2))
    (by simp [Node.expectedWorld, lookDownNegZ, Transform4D.col])
    (by simp [Node.expectedWorld, lookDownNegZ, Transform4D.GetTranslation])
    (by simp [Node.expectedWorld, lookDownNegZ, Transform4D.col])
    (by simp [Node.expectedWorld, lookDownNegZ, Transform4D.col])
    (by norm_num [Node.expectedWorld, lookDownNegZ, Transform4D.det, Transform4D.col,
      Vector3D.Cross, Vector3D.Dot])

/-- With the identity world transform the same camera looks down `+z`, and the
sphere around `(0, 0, -5)` is behind it: the near plane rejects it. -/
theorem FrustumCamera.SphereVisible_identity_example :
    (unitCamera.UpdatePlanes InverseSqrtRat
      (Transform4D.identity (K := ℚ)).Inverse).SphereVisible ⟨0, 0, -5⟩ (1 / 10) = false := by
  rw [FrustumCamera.SphereVisible_eq_false_iff]
  refine ⟨4, ?_⟩
  simp [unitCamera, FrustumCamera.UpdatePlanes, FrustumCamera.cameraPlane,
    Transform4D.identity, Transform4D.Inverse, Plane.mulTransform, Plane.DotPoint,
    Transform4D.col, Vector3D.Cross, Vector3D.Dot, Vector3D.scale]

/-! ### Boxes centred on a plane (C7) -/

/-- C7 (amended): the effective radius of every box for every plane is
non-negative; a box whose center lies exactly on plane `k` is rejected by that
plane exactly when its effective radius for the plane is zero; and when that
radius is positive and no other plane rejects the box, `BoxVisible` is true. -/
theorem FrustumCamera.BoxVisible_center_on_plane (camera : FrustumCamera K)
    (T : Transform4D K) (size : Vector3D K) :
    (∀ k : Fin 5, 0 ≤ FrustumCamera.BoxVisible.rg (camera.worldFrustumPlane k) T size) ∧
    (∀ k : Fin 5,
      (camera.worldFrustumPlane k).DotPoint (FrustumCamera.BoxVisible.center T size) = 0 →
      ((camera.worldFrustumPlane k).DotPoint (FrustumCamera.BoxVisible.center T size)
          ≤ -FrustumCamera.BoxVisible.rg (camera.worldFrustumPlane k) T size
        ↔ FrustumCamera.BoxVisible.rg (camera.worldFrustumPlane k) T size = 0)) ∧
    (∀ k : Fin 5,
      (camera.worldFrustumPlane k).DotPoint (FrustumCamera.BoxVisible.center T size) = 0 →
      0 < FrustumCamera.BoxVisible.rg (camera.worldFrustumPlane k) T size →
      (∀ j : Fin 5, j ≠ k →
        ¬ (camera.worldFrustumPlane j).DotPoint (FrustumCamera.BoxVisible.center T size)
          ≤ -FrustumCamera.BoxVisible.rg (camera.worldFrustumPlane j) T size) →
      camera.BoxVisible T size = true) := by
  refine ⟨fun k => FrustumCamera.BoxVisible.rg_nonneg _ T size, ?_, ?_⟩
  · intro k h0
    have hnn := FrustumCamera.BoxVisible.rg_nonneg (camera.worldFrustumPlane k) T size
    rw [h0]
    constructor
    · intro h; linarith
    · intro h; rw [h]; simp
  · intro k h0 hpos hothers
    rw [FrustumCamera.BoxVisible_iff]
    intro j
    by_cases hjk : j = k
    · rw [hjk, h0]; linarith
    · exact not_le.mp (hothers j hjk)

/-- Witness for C7 (amended): the unit box with minimal corner
`(-1/2, -1/2, -3/8)` has its center `(0, 0, 1/8)` on the near plane of
`updatedPlainCamera` and effective radius one half there; no other plane
rejects it and `BoxVisible` is true. -/
theorem FrustumCamera.BoxVisible_center_on_plane_witness :
    (updatedPlainCamera.worldFrustumPlane 4).DotPoint
      (FrustumCamera.BoxVisible.center (translation (-1 / 2) (-1 / 2) (-3 / 8)) ⟨1, 1, 1⟩) = 0 ∧
    FrustumCamera.BoxVisible.rg (updatedPlainCamera.worldFrustumPlane 4)
      (translation (-1 / 2) (-1 / 2) (-3 / 8)) ⟨1, 1, 1⟩ = 1 / 2 ∧
    updatedPlainCamera.BoxVisible (translation (-1 / 2) (-1 / 2) (-3 / 8)) ⟨1, 1, 1⟩ = true := by
  obtain ⟨-, h0, h1, h2, h3, h4⟩ := updatedPlainCamera_planes
  have hc : (updatedPlainCamera.worldFrustumPlane 4).DotPoint
      (FrustumCamera.BoxVisible.center (translation (-1 / 2) (-1 / 2) (-3 / 8)) ⟨1, 1, 1⟩) = 0 := by
    simp [h4, FrustumCamera.BoxVisible.center, FrustumCamera.BoxVisible.halfAxisX,
      FrustumCamera.BoxVisible.halfAxisY, FrustumCamera.BoxVisible.halfAxisZ, translation,
      Plane.DotPoint, Point3D.add, Vector3D.scale, Transform4D.GetTranslation, Transform4D.col]
    norm_num
  have hr : FrustumCamera.BoxVisible.rg (updatedPlainCamera.worldFrustumPlane 4)
      (translation (-1 / 2) (-1 / 2) (-3 / 8)) ⟨1, 1, 1⟩ = 1 / 2 := by
    simp [h4, FrustumCamera.BoxVisible.rg, FrustumCamera.BoxVisible.halfAxisX,
      FrustumCamera.BoxVisible.halfAxisY, FrustumCamera.BoxVisible.halfAxisZ, translation,
      Plane.DotVector, Vector3D.scale, Transform4D.col]
  refine ⟨hc, hr, ?_⟩
  refine (FrustumCamera.BoxVisible_center_on_plane updatedPlainCamera
    (translation (-1 / 2) (-1 / 2) (-3 / 8)) ⟨1, 1, 1⟩).2.2 4 hc (by rw [hr]; norm_num) ?_
  intro j hj
  fin_cases j <;>
    first
    | exact absurd rfl hj
    | (simp [h0, h1, h2, h3, FrustumCamera.BoxVisible.center, FrustumCamera.BoxVisible.rg,
        FrustumCamera.BoxVisible.halfAxisX, FrustumCamera.BoxVisible.halfAxisY,
        FrustumCamera.BoxVisible.halfAxisZ, translation, Plane.DotPoint, Plane.DotVector,
        Point3D.add, Vector3D.scale, Transform4D.GetTranslation, Transform4D.col]
       norm_num [abs_of_pos, abs_of_neg])

/-- Counterexample to C7 as stated: the flat box of size `(1, 1, 0)` with minimal
corner `(-1/2, -1/2, 1/8)` has its center `(0, 0, 1/8)` exactly on the near
plane of `updatedPlainCamera`; no other plane rejects it, yet the near plane
does and `BoxVisible` is false. -/
theorem FrustumCamera.BoxVisible_flat_counterexample :
    (updatedPlainCamera.worldFrustumPlane 4).DotPoint
      (FrustumCamera.BoxVisible.center (translation (-1 / 2) (-1 / 2) (1 / 8)) ⟨1, 1, 0⟩) = 0 ∧
    (∀ j : Fin 5, j ≠ 4 →
      ¬ (updatedPlainCamera.worldFrustumPlane j).DotPoint
          (FrustumCamera.BoxVisible.center (translation (-1 / 2) (-1 / 2) (1 / 8)) ⟨1, 1, 0⟩)
        ≤ -FrustumCamera.BoxVisible.rg (updatedPlainCamera.worldFrustumPlane j)
            (translation (-1 / 2) (-1 / 2) (1 / 8)) ⟨1, 1, 0⟩) ∧
    updatedPlainCamera.BoxVisible (translation (-1 / 2) (-1 / 2) (1 / 8)) ⟨1, 1, 0⟩ = false := by
  obtain ⟨-, h0, h1, h2, h3, h4⟩ := updatedPlainCamera_planes
  refine ⟨?_, ?_, ?_⟩
  · simp [h4, FrustumCamera.BoxVisible.center, FrustumCamera.BoxVisible.halfAxisX,
      FrustumCamera.BoxVisible.halfAxisY, FrustumCamera.BoxVisible.halfAxisZ, translation,
      Plane.DotPoint, Point3D.add, Vector3D.scale, Transform4D.GetTranslation, Transform4D.col]
    norm_num
  · intro j hj
    fin_cases j <;>
      first
      | exact absurd rfl hj
      | (simp [h0, h1, h2, h3, FrustumCamera.BoxVisible.center, FrustumCamera.BoxVisible.rg,
          FrustumCamera.BoxVisible.halfAxisX, FrustumCamera.BoxVisible.halfAxisY,
          FrustumCamera.BoxVisible.halfAxisZ, translation, Plane.DotPoint, Plane.DotVector,
          Point3D.add, Vector3D.scale, Transform4D.GetTranslation, Transform4D.col]
         norm_num [abs_of_pos, abs_of_neg])
  · rw [FrustumCamera.BoxVisible_eq_false]
    refine ⟨4, ?_⟩
    simp [h4, FrustumCamera.BoxVisible.center, FrustumCamera.BoxVisible.rg,
      FrustumCamera.BoxVisible.halfAxisX, FrustumCamera.BoxVisible.halfAxisY,
      FrustumCamera.BoxVisible.halfAxisZ, translation, Plane.DotPoint, Plane.DotVector,
      Point3D.add, Vector3D.scale, Transform4D.GetTranslation, Transform4D.col]
    norm_num

/-! ### World planes after the update (C8) -/

/-- C8: after `FrustumCamera::UpdateNode`, world plane `k` is camera-space plane `k`
times the inverse of the world transform `W` stored by that call; so
`Dot(worldFrustumPlane[k], p) = Dot(cameraPlane_k, W^-1 * p)` for every point `p`,
and for invertible `W` the point `W * q` is on the non-negative side of world
plane `k` exactly when `q` is on the non-negative side of camera plane `k`. -/
theorem FrustumCamera.UpdateNode_worldFrustumPlane (InverseSqrt : K → K)
    (superNode : Option (Transform4D K)) (camera : FrustumCamera K) (name : String)
    (t : Transform4D K) (ctrl : Option (Controller K)) (w : Transformable K)
    (subs : List (Node K)) :
    ∃ updated : FrustumCamera K,
      (Node.UpdateNode InverseSqrt superNode
          (.mk (.frustumCamera camera) name t ctrl w subs)).nodeClass = .frustumCamera updated ∧
      updated.projectionDistance = camera.projectionDistance ∧
      updated.aspectRatio = camera.aspectRatio ∧
      updated.nearDepth = camera.nearDepth ∧
      (Node.UpdateNode InverseSqrt superNode
          (.mk (.frustumCamera camera) name t ctrl w subs)).GetWorldTransform
        = Node.expectedWorld superNode t ∧
      (∀ k : Fin 5, updated.worldFrustumPlane k
        = (camera.cameraPlane InverseSqrt k).mulTransform
            (Node.expectedWorld superNode t).Inverse) ∧
      (∀ (k : Fin 5) (p : Point3D K), (updated.worldFrustumPlane k).DotPoint p
        = (camera.cameraPlane InverseSqrt k).DotPoint
            ((Node.expectedWorld superNode t).Inverse.mulPoint p)) ∧
      ((Node.expectedWorld superNode t).det ≠ 0 →
        ∀ (k : Fin 5) (q : Point3D K),
          0 ≤ (updated.worldFrustumPlane k).DotPoint ((Node.expectedWorld superNode t).mulPoint q)
            ↔ 0 ≤ (camera.cameraPlane InverseSqrt k).DotPoint q) := by
  have hW : (Node.UpdateNode InverseSqrt superNode
      (.mk (.frustumCamera camera) name t ctrl w subs)).GetWorldTransform
        = Node.expectedWorld superNode t := by
    rw [Node.UpdateNode_GetWorldTransform]; rfl
  refine ⟨_, FrustumCamera.UpdateNode_nodeClass InverseSqrt superNode camera name t ctrl w subs,
    rfl, rfl, rfl, hW, ?_, ?_, ?_⟩
  · intro k
    rw [hW]; rfl
  · intro k p
    rw [hW, ← Plane.mulTransform_DotPoint]; rfl
  · intro hdet k q
    rw [hW]
    have : ((camera.UpdatePlanes InverseSqrt (Node.expectedWorld superNode t).Inverse).worldFrustumPlane
        k).DotPoint ((Node.expectedWorld superNode t).mulPoint q)
        = (camera.cameraPlane InverseSqrt k).DotPoint q := by
      show ((camera.cameraPlane InverseSqrt k).mulTransform _).DotPoint _ = _
      rw [Plane.mulTransform_DotPoint, Transform4D.Inverse_mulPoint_mulPoint _ hdet]
    rw [this]

/-- Witness for C8: for `scaledCameraNode`, whose world transform is
invertible, the image of `(0, 0, 1)` is on the non-negative side of the world
near plane exactly when `(0, 0, 1)` is on that side of the camera-space near
plane. -/
theorem FrustumCamera.UpdateNode_worldFrustumPlane_witness :
    (0 ≤ (updatedScaledCamera.worldFrustumPlane 4).DotPoint (halfScale.mulPoint ⟨0, 0, 1⟩)
      ↔ 0 ≤ (sampleCamera.cameraPlane InverseSqrtRat 4).DotPoint ⟨0, 0, 1⟩) := by
  obtain ⟨u, hu, -, -, -, -, -, -, h⟩ :=
    FrustumCamera.UpdateNode_worldFrustumPlane InverseSqrtRat none sampleCamera "camera"
      halfScale none ⟨Transform4D.identity, Transform4D.identity⟩ []
  have hclass : (Node.UpdateNode InverseSqrtRat none
      (.mk (.frustumCamera sampleCamera) "camera" halfScale none
        ⟨Transform4D.identity, Transform4D.identity⟩ [])).nodeClass
      = .frustumCamera updatedScaledCamera := rfl
  rw [hclass] at hu
  cases hu
  exact h (by norm_num [Node.expectedWorld, halfScale, Transform4D.det, Transform4D.col,
    Vector3D.Cross, Vector3D.Dot]) 4 ⟨0, 0, 1⟩

end Theorems

section TraversalTheorems

variable {K : Type}

/-! ### `FindNode` (C9) -/

/-- The upward loop lands on the first of the nodes that follow. -/
theorem TreeCursor.remaining_climb (up : List (List (Node K))) :
    TreeCursor.remaining (TreeCursor.climb up) = TreeCursor.after up := by
  induction up with
  | nil => rfl
  | cons level up ih =>
    cases level with
    | nil => simpa [TreeCursor.climb, TreeCursor.after, Node.preorderOfList] using ih
    | cons next rest =>
      simp [TreeCursor.climb, TreeCursor.after, TreeCursor.remaining, Node.preorderOfList]

/-- One step of the traversal: what remains from a pointer on is its node
followed by what remains from the next pointer on. -/
theorem TreeCursor.remaining_GetNextTreeNode (c : TreeCursor K) :
    TreeCursor.remaining (some c) = c.node :: TreeCursor.remaining c.GetNextTreeNode := by
  obtain ⟨node, following⟩ := c
  obtain ⟨cl, name, t, ctrl, w, subs⟩ := node
  cases subs with
  | nil =>
    simp only [TreeCursor.GetNextTreeNode, Node.subnodes, TreeCursor.remaining_climb]
    simp [TreeCursor.remaining, Node.descendants, Node.preorderOfList]
  | cons sub rest =>
    simp [TreeCursor.GetNextTreeNode, Node.subnodes, TreeCursor.remaining, Node.descendants,
      Node.preorderOfList, TreeCursor.after]

/-- The traversal started at the first subnode visits the proper descendants. -/
theorem TreeCursor.remaining_GetFirstSubnode (this : Node K) :
    TreeCursor.remaining (TreeCursor.GetFirstSubnode ⟨this, []⟩) = this.descendants := by
  obtain ⟨cl, name, t, ctrl, w, subs⟩ := this
  cases subs with
  | nil => simp [TreeCursor.GetFirstSubnode, Node.subnodes, TreeCursor.remaining,
      Node.descendants, Node.preorderOfList]
  | cons sub rest =>
    simp [TreeCursor.GetFirstSubnode, Node.subnodes, TreeCursor.remaining, Node.descendants,
      Node.preorderOfList, TreeCursor.after]

/-- With fuel for every remaining node, the loop of `FindNode` returns the
first remaining node with the name. -/
theorem Node.FindNode.loop_eq_find (name : String) (fuel : Nat) (oc : Option (TreeCursor K))
    (h : (TreeCursor.remaining oc).length ≤ fuel) :
    Node.FindNode.loop name fuel oc
      = (TreeCursor.remaining oc).find? (fun n => decide (n.nodeName = name)) := by
  induction fuel generalizing oc with
  | zero =>
    cases oc with
    | none => rfl
    | some c => simp [TreeCursor.remaining] at h
  | succ fuel ih =>
    cases oc with
    | none => rfl
    | some c =>
      rw [TreeCursor.remaining_GetNextTreeNode] at h ⊢
      simp only [List.length_cons, Nat.add_le_add_iff_right] at h
      by_cases hname : c.node.nodeName = name
      · simp [Node.FindNode.loop, hname]
      · simp [Node.FindNode.loop, hname, ih _ h]

/-- A node of the pre-order of a list of trees has fewer proper descendants
than the pre-order has nodes; by induction on a bound `k` for that number. -/
theorem Node.preorderOfList_length_lt (k : Nat) :
    ∀ (l : List (Node K)), (Node.preorderOfList l).length ≤ k →
      ∀ n ∈ Node.preorderOfList l, n.descendants.length < (Node.preorderOfList l).length := by
  induction k with
  | zero =>
    intro l hlen n hn
    cases l with
    | nil => simp [Node.preorderOfList] at hn
    | cons node rest => simp [Node.preorderOfList] at hlen
  | succ k ih =>
    intro l hlen n hn
    cases l with
    | nil => simp [Node.preorderOfList] at hn
    | cons node rest =>
      simp only [Node.preorderOfList, List.mem_cons, List.mem_append] at hn
      simp only [Node.preorderOfList, List.length_cons, List.length_append] at hlen ⊢
      rcases hn with hn | hn | hn
      · subst hn; omega
      · rw [Node.descendants_eq] at hn
        have h1 := ih node.subnodes (by rw [← Node.descendants_eq]; omega) n hn
        rw [← Node.descendants_eq] at h1
        omega
      · have h2 := ih rest (by omega) n hn
        omega

/-- A proper descendant has fewer proper descendants than the node. -/
theorem Node.descendants_length_lt (this n : Node K) (h : n ∈ this.descendants) :
    n.descendants.length < this.descendants.length := by
  rw [Node.descendants_eq] at h
  have := Node.preorderOfList_length_lt _ this.subnodes (le_refl _) n h
  rw [← Node.descendants_eq] at this
  exact this

/-- C9: `X.FindNode(s)` is the first node, in depth-first pre-order over the
proper descendants of `X`, whose name is `s`; it is null exactly when no proper
descendant has that name; and `X` itself is never returned. -/
theorem Node.FindNode_spec (X : Node K) (s : String) :
    X.FindNode s = X.descendants.find? (fun n => decide (n.nodeName = s)) ∧
    (∀ n : Node K, X.FindNode s = some n →
      n.nodeName = s ∧
      ∃ before rest : List (Node K), X.descendants = before ++ n :: rest ∧
        ∀ m ∈ before, m.nodeName ≠ s) ∧
    (X.FindNode s = none ↔ ∀ n ∈ X.descendants, n.nodeName ≠ s) ∧
    X.FindNode s ≠ some X := by
  have hfind : X.FindNode s = X.descendants.find? (fun n => decide (n.nodeName = s)) := by
    unfold Node.FindNode
    rw [Node.FindNode.loop_eq_find, TreeCursor.remaining_GetFirstSubnode]
    rw [TreeCursor.remaining_GetFirstSubnode]
  refine ⟨hfind, ?_, ?_, ?_⟩
  · intro n hn
    rw [hfind] at hn
    refine ⟨by simpa using List.find?_some hn, ?_⟩
    obtain ⟨-, before, rest, hsplit, hbefore⟩ := List.find?_eq_some.mp hn
    exact ⟨before, rest, hsplit, fun m hm => by simpa using hbefore m hm⟩
  · rw [hfind, List.find?_eq_none]
    simp
  · intro hX
    rw [hfind] at hX
    have hmem : X ∈ X.descendants := List.mem_of_find?_eq_some hX
    exact absurd (Node.descendants_length_lt X X hmem) (lt_irrefl _)

/-- Witness for C9: in `sampleTree`, whose pre-order is `a`, `c`, `b`, `b`, `d`,
the search for `b` returns the first `b`, the subnode of `a`; the search for
`d` returns the node `d`; and the search for `root`, the name of the node
searched from, returns null. -/
theorem Node.FindNode_spec_witness :
    sampleTree.FindNode "b"
      = some (.mk .fogNode "b" Transform4D.identity none
          ⟨Transform4D.identity, Transform4D.identity⟩ []) ∧
    sampleTree.FindNode "d"
      = some (.mk .boneNode "d" Transform4D.identity none
          ⟨Transform4D.identity, Transform4D.identity⟩ []) ∧
    sampleTree.FindNode "root" = none ∧
    sampleTree.FindNode "root" ≠ some sampleTree :=
  ⟨rfl, rfl, rfl, (Node.FindNode_spec sampleTree "root").2.2.2⟩

end TraversalTheorems

section LightTheorems

variable {K : Type} [LinearOrderedField K]

/-! ### Visibility of lights (C10) -/

/-- C10: `LightVisible` of an infinite light is true for every camera, and
`LightVisible` of a point light is `SphereVisible` of the camera at the light's
world position, the translation of its world transform, with the light's range. -/
theorem Node.LightVisible_eq (camera : FrustumCamera K) :
    (∀ (name : String) (t : Transform4D K) (ctrl : Option (Controller K)) (w : Transformable K)
    (subs : List (Node K)),
      (Node.mk .infiniteLight name t ctrl w subs).LightVisible camera = true) ∧
    (∀ (lightRange : K) (name : String) (t : Transform4D K) (ctrl : Option (Controller K))
        (w : Transformable K) (subs : List (Node K)),
      (Node.mk (.pointLight lightRange) name t ctrl w subs).LightVisible camera
        = camera.SphereVisible
            ⟨w.worldTransform.n03, w.worldTransform.n13, w.worldTransform.n23⟩ lightRange) :=
  ⟨fun _ _ _ _ _ => rfl, fun _ _ _ _ _ _ => rfl⟩

end LightTheorems

section PointerTheorems

variable {K : Type}

/-! ### Writes through pointers -/

/-- A change of an element of the first of two appended lists. -/
theorem listModify_append_of_lt {α : Type} (f : α → α) :
    ∀ (n : Nat) (l₁ l₂ : List α), n < l₁.length → (l₁ ++ l₂).modify f n = l₁.modify f n ++ l₂
  | _, [], _, h => by simp at h
  | 0, a :: l₁, l₂, _ => by simp
  | n + 1, a :: l₁, l₂, h => by
    simp only [List.cons_append, List.modify_succ_cons, List.cons.injEq, true_and]
    exact listModify_append_of_lt f n l₁ l₂ (by simpa using h)

/-- A change of an element of the second of two appended lists. -/
theorem listModify_append_of_le {α : Type} (f : α → α) :
    ∀ (n : Nat) (l₁ l₂ : List α), l₁.length ≤ n →
      (l₁ ++ l₂).modify f n = l₁ ++ l₂.modify f (n - l₁.length)
  | n, [], l₂, _ => by simp
  | 0, a :: l₁, l₂, h => by simp at h
  | n + 1, a :: l₁, l₂, h => by
    simp only [List.cons_append, List.modify_succ_cons, List.length_cons,
      Nat.add_sub_add_right, List.cons.injEq, true_and]
    exact listModify_append_of_le f n l₁ l₂ (by simpa using h)

/-- The members of a node after they are replaced. -/
theorem Node.data_setData (d : NodeData K) (node : Node K) : (node.setData d).data = d := by
  cases node; rfl

/-- Replacing the members of a node keeps its proper descendants. -/
theorem Node.descendants_setData (d : NodeData K) (node : Node K) :
    (node.setData d).descendants = node.descendants := by
  cases node; rfl

/-- A write below a node keeps the members of the node. -/
theorem Node.data_modifyDescendant (g : NodeData K → NodeData K) (i : Nat) (node : Node K) :
    (Node.modifyDescendant g i node).data = node.data := by
  cases node; rfl

/-- The proper descendants after a write below a node. -/
theorem Node.descendants_modifyDescendant (g : NodeData K → NodeData K) (i : Nat)
    (node : Node K) :
    (Node.modifyDescendant g i node).descendants
      = Node.preorderOfList (Node.modifyInList g i node.subnodes) := by
  cases node; rfl

/-- A write through the pointer `i` into a list of trees changes the members at
position `i` of the pre-order and nothing else; by induction on a bound `n`
for the number of nodes. -/
theorem Node.modifyInList_dataList (g : NodeData K → NodeData K) (n : Nat) :
    ∀ (l : List (Node K)), (Node.preorderOfList l).length ≤ n → ∀ (i : Nat),
      (Node.preorderOfList (Node.modifyInList g i l)).map Node.data
        = ((Node.preorderOfList l).map Node.data).modify g i := by
  induction n with
  | zero =>
    intro l hlen i
    cases l with
    | nil => simp [Node.modifyInList, Node.preorderOfList]
    | cons node rest => simp [Node.preorderOfList] at hlen
  | succ n ih =>
    intro l hlen i
    cases l with
    | nil => simp [Node.modifyInList, Node.preorderOfList]
    | cons node rest =>
      simp only [Node.preorderOfList, List.length_cons, List.length_append] at hlen
      cases i with
      | zero =>
        simp [Node.modifyInList, Node.preorderOfList, Node.data_setData,
          Node.descendants_setData]
      | succ i =>
        by_cases hi : i < node.descendants.length
        · have h1 := ih node.subnodes (by rw [← Node.descendants_eq]; omega) i
          simp only [Node.modifyInList, hi, if_true, Node.preorderOfList, List.map_cons,
            List.map_append, Node.data_modifyDescendant, List.modify_succ_cons,
            Node.descendants_modifyDescendant, h1, ← Node.descendants_eq]
          rw [listModify_append_of_lt g i _ _ (by simpa using hi)]
        · have h2 := ih rest (by omega) (i - node.descendants.length)
          simp only [Node.modifyInList, hi, if_false, Node.preorderOfList, List.map_cons,
            List.map_append, List.modify_succ_cons, h2]
          rw [listModify_append_of_le g i _ _ (by simpa using hi)]
          simp

/-- A write through the pointer `i` changes the members of the node the pointer
refers to and nothing else. -/
theorem Node.dataList_modifyDescendant (g : NodeData K → NodeData K) (i : Nat)
    (root : Node K) :
    (Node.modifyDescendant g i root).dataList = root.dataList.modify g i := by
  unfold Node.dataList
  rw [Node.descendants_modifyDescendant, Node.descendants_eq]
  exact Node.modifyInList_dataList g _ root.subnodes (le_refl _) i

/-- The members read through `j` after a write through `i`. -/
theorem Node.dataAt_modifyDescendant (g : NodeData K → NodeData K) (i j : Nat)
    (root : Node K) :
    (Node.modifyDescendant g i root).dataAt j
      = if i = j then (root.dataAt j).map g else root.dataAt j := by
  unfold Node.dataAt
  rw [Node.dataList_modifyDescendant, List.getElem?_modify]
  by_cases h : i = j
  · simp [h]
  · simp [h]

/-- A write that keeps the value of `F` on the members it is given keeps the
values of `F` on every node. -/
theorem Node.dataAt_map_modifyDescendant {β : Type} (F : NodeData K → β)
    (g : NodeData K → NodeData K) (hg : ∀ d, F (g d) = F d) (i j : Nat) (root : Node K) :
    ((Node.modifyDescendant g i root).dataAt j).map F = (root.dataAt j).map F := by
  rw [Node.dataAt_modifyDescendant]
  by_cases h : i = j
  · simp [h, hg, Function.comp_def]
  · simp [h]

/-- The read of a controller is a read of the members. -/
theorem Node.controllerAt_eq (root : Node K) (c : Nat) :
    root.controllerAt c = (root.dataAt c).bind NodeData.nodeController := rfl

end PointerTheorems

section OccluderTheorems

variable {K : Type}

/-! ### Occluders (C11) -/

/-- C11: `CalculateOccluderPlanes` leaves the plane count zero for every
occluder and camera; `SphereOccluded` and `BoxOccluded` return false for every
occluder, whatever its plane count, and every input; and `GeometryOccluded`
returns false for every node, so for mesh, sphere, box and text geometry, and
every occluder. -/
theorem OccluderNode.GeometryOccluded_eq_false :
    (∀ (occluder : OccluderNode K) (camera : FrustumCamera K),
      (occluder.CalculateOccluderPlanes camera).planeCount = 0) ∧
    (∀ (occluder : OccluderNode K) (center : Point3D K) (radius : K),
      occluder.SphereOccluded center radius = false) ∧
    (∀ (occluder : OccluderNode K) (transform : Transform4D K) (size : Vector3D K),
      occluder.BoxOccluded transform size = false) ∧
    (∀ (geometry : NodeData K) (occluder : OccluderNode K),
      geometry.GeometryOccluded occluder = false) := by
  refine ⟨fun _ _ => rfl, fun _ _ _ => rfl, fun _ _ _ => rfl, ?_⟩
  intro geometry occluder
  unfold NodeData.GeometryOccluded
  split <;> rfl

end OccluderTheorems

section PreprocessTheorems

variable {K : Type}

/-! ### The loop of `PreprocessWorld` -/

/-- With fuel for every remaining node, the loop of `PreprocessWorld` runs its
body along the remaining nodes. -/
theorem WorldManager.PreprocessWorld.loop_eq_visit (fuel : Nat) (oc : Option (TreeCursor K))
    (pointer : Nat) (state : WorldManager K × List Event)
    (h : (TreeCursor.remaining oc).length ≤ fuel) :
    WorldManager.PreprocessWorld.loop fuel oc pointer state
      = WorldManager.PreprocessWorld.visit (TreeCursor.remaining oc) pointer state := by
  induction fuel generalizing oc pointer state with
  | zero =>
    cases oc with
    | none => rfl
    | some c => simp [TreeCursor.remaining] at h
  | succ fuel ih =>
    cases oc with
    | none => rfl
    | some c =>
      rw [TreeCursor.remaining_GetNextTreeNode] at h ⊢
      simp only [List.length_cons, Nat.add_le_add_iff_right] at h
      simp only [WorldManager.PreprocessWorld.loop, WorldManager.PreprocessWorld.visit]
      exact ih _ _ _ h

/-- The body of the loop appends a node to the geometry list exactly when its
type is `kNodeGeometry`. -/
theorem WorldManager.PreprocessWorld.body_geometryList (state : WorldManager K × List Event)
    (pointer : Nat) (node : Node K) :
    (WorldManager.PreprocessWorld.body state pointer node).1.geometryList
      = if decide (node.GetNodeType = kNodeGeometry) = true then
          AppendListElement state.1.geometryList pointer
        else state.1.geometryList := by
  unfold WorldManager.PreprocessWorld.body
  cases hctrl : node.nodeController <;> simp only [] <;> split_ifs <;> simp_all

/-- The body of the loop appends a node to the light list exactly when its
type is `kNodeLight`. -/
theorem WorldManager.PreprocessWorld.body_lightList (state : WorldManager K × List Event)
    (pointer : Nat) (node : Node K) :
    (WorldManager.PreprocessWorld.body state pointer node).1.lightList
      = if decide (node.GetNodeType = kNodeLight) = true then
          AppendListElement state.1.lightList pointer
        else state.1.lightList := by
  unfold WorldManager.PreprocessWorld.body
  cases hctrl : node.nodeController <;> simp only [] <;> split_ifs <;> simp_all [kNodeGeometry, kNodeLight]

/-- The body of the loop appends a node to the occluder list exactly when its
type is `kNodeOccluder`. -/
theorem WorldManager.PreprocessWorld.body_occluderList (state : WorldManager K × List Event)
    (pointer : Nat) (node : Node K) :
    (WorldManager.PreprocessWorld.body state pointer node).1.occluderList
      = if decide (node.GetNodeType = kNodeOccluder) = true then
          AppendListElement state.1.occluderList pointer
        else state.1.occluderList := by
  unfold WorldManager.PreprocessWorld.body
  cases hctrl : node.nodeController <;> simp only [] <;> split_ifs <;>
    simp_all [kNodeGeometry, kNodeLight, kNodeCamera, kNodeFog, kNodeOccluder]

/-- The body of the loop appends a node to the controller list exactly when
the node holds a controller. -/
theorem WorldManager.PreprocessWorld.body_controllerList (state : WorldManager K × List Event)
    (pointer : Nat) (node : Node K) :
    (WorldManager.PreprocessWorld.body state pointer node).1.controllerList
      = if node.nodeController.isSome = true then
          AppendListElement state.1.controllerList pointer
        else state.1.controllerList := by
  unfold WorldManager.PreprocessWorld.body
  cases hctrl : node.nodeController <;> simp only [] <;> split_ifs <;> simp_all

/-- The body of the loop calls `PreprocessController` exactly when the node
holds a controller. -/
theorem WorldManager.PreprocessWorld.body_trace (state : WorldManager K × List Event)
    (pointer : Nat) (node : Node K) :
    (WorldManager.PreprocessWorld.body state pointer node).2
      = if node.nodeController.isSome = true then
          state.2 ++ [Event.PreprocessController pointer]
        else state.2 := by
  unfold WorldManager.PreprocessWorld.body
  cases hctrl : node.nodeController <;> simp_all

/-- The body of the loop keeps the tree. -/
theorem WorldManager.PreprocessWorld.body_rootNode (state : WorldManager K × List Event)
    (pointer : Nat) (node : Node K) :
    (WorldManager.PreprocessWorld.body state pointer node).1.rootNode = state.1.rootNode := by
  unfold WorldManager.PreprocessWorld.body
  cases hctrl : node.nodeController <;> simp only [] <;> split_ifs <;> rfl

/-- The body of the loop keeps a camera that is set, and otherwise sets the
camera exactly when the node is a camera of the frustum type. -/
theorem WorldManager.PreprocessWorld.body_cameraNode (state : WorldManager K × List Event)
    (pointer : Nat) (node : Node K) :
    (WorldManager.PreprocessWorld.body state pointer node).1.cameraNode
      = match state.1.cameraNode with
        | some camera => some camera
        | none =>
          if (decide (node.GetNodeType = kNodeCamera)
              && decide (node.GetCameraType = kCameraFrustum)) = true then some pointer
          else none := by
  unfold WorldManager.PreprocessWorld.body
  cases hc : state.1.cameraNode <;>
  cases hctrl : node.nodeController <;> simp only [] <;> split_ifs <;>
    simp_all [kNodeGeometry, kNodeLight, kNodeCamera, kNodeFog, kNodeOccluder]

end PreprocessTheorems

section IndexTheorems

variable {K : Type}

/-! ### Pointer lists -/

/-- The pointers of `pointersWhere` are not below the start. -/
theorem Node.le_of_mem_pointersWhere (p : Node K → Bool) (l : List (Node K)) :
    ∀ (start i : Nat), i ∈ Node.pointersWhere p start l → start ≤ i := by
  induction l with
  | nil => intro start i h; simp [Node.pointersWhere] at h
  | cons node rest ih =>
    intro start i h
    unfold Node.pointersWhere at h
    split_ifs at h
    · rcases List.mem_cons.mp h with h | h
      · omega
      · have := ih _ _ h
        omega
    · have := ih _ _ h
      omega

/-- The pointers of `pointersWhere` are strictly ascending. -/
theorem Node.pointersWhere_pairwise (p : Node K → Bool) (l : List (Node K)) :
    ∀ (start : Nat), (Node.pointersWhere p start l).Pairwise (fun a b => a < b) := by
  induction l with
  | nil => intro start; simp [Node.pointersWhere]
  | cons node rest ih =>
    intro start
    unfold Node.pointersWhere
    split_ifs
    · refine List.pairwise_cons.mpr ⟨?_, ih _⟩
      intro i hi
      have := Node.le_of_mem_pointersWhere p rest _ _ hi
      omega
    · exact ih _

/-- No pointer is twice in `pointersWhere`. -/
theorem Node.pointersWhere_nodup (p : Node K → Bool) (l : List (Node K)) (start : Nat) :
    (Node.pointersWhere p start l).Nodup :=
  (Node.pointersWhere_pairwise p l start).imp (fun h => Nat.ne_of_lt h)

/-- A pointer is in `pointersWhere` exactly when it refers to a node of the
list that satisfies the predicate. -/
theorem Node.mem_pointersWhere (p : Node K → Bool) (l : List (Node K)) :
    ∀ (start i : Nat), i ∈ Node.pointersWhere p start l ↔
      start ≤ i ∧ ∃ node, l[i - start]? = some node ∧ p node = true := by
  induction l with
  | nil => intro start i; simp [Node.pointersWhere]
  | cons node rest ih =>
    intro start i
    unfold Node.pointersWhere
    by_cases hp : p node = true
    · rw [if_pos hp]
      simp only [List.mem_cons, ih]
      constructor
      · rintro (h | ⟨hle, m, hm, hpm⟩)
        · subst h
          exact ⟨le_refl _, node, by simp, hp⟩
        · refine ⟨by omega, m, ?_, hpm⟩
          have : i - start = (i - (start + 1)) + 1 := by omega
          rw [this, List.getElem?_cons_succ]
          exact hm
      · rintro ⟨hle, m, hm, hpm⟩
        by_cases hi : i = start
        · exact Or.inl hi
        · refine Or.inr ⟨by omega, m, ?_, hpm⟩
          have : i - start = (i - (start + 1)) + 1 := by omega
          rw [this, List.getElem?_cons_succ] at hm
          exact hm
    · rw [if_neg hp]
      simp only [ih]
      constructor
      · rintro ⟨hle, m, hm, hpm⟩
        refine ⟨by omega, m, ?_, hpm⟩
        have : i - start = (i - (start + 1)) + 1 := by omega
        rw [this, List.getElem?_cons_succ]
        exact hm
      · rintro ⟨hle, m, hm, hpm⟩
        by_cases hi : i = start
        · subst hi
          simp only [Nat.sub_self, List.getElem?_cons_zero, Option.some.injEq] at hm
          subst hm
          exact absurd hpm hp
        · refine ⟨by omega, m, ?_, hpm⟩
          have : i - start = (i - (start + 1)) + 1 := by omega
          rw [this, List.getElem?_cons_succ] at hm
          exact hm

/-- A pointer is in `pointers` exactly when it refers to a proper descendant
that satisfies the predicate. -/
theorem Node.mem_pointers (root : Node K) (p : Node K → Bool) (i : Nat) :
    i ∈ root.pointers p ↔ ∃ node, root.descendants[i]? = some node ∧ p node = true := by
  unfold Node.pointers
  rw [Node.mem_pointersWhere]
  simp

/-- The pointers of `pointers` are strictly ascending, which is the
depth-first pre-order of the nodes. -/
theorem Node.pointers_pairwise (root : Node K) (p : Node K → Bool) :
    (root.pointers p).Pairwise (fun a b => a < b) :=
  Node.pointersWhere_pairwise p _ 0

/-- No pointer is twice in `pointers`. -/
theorem Node.pointers_nodup (root : Node K) (p : Node K → Bool) : (root.pointers p).Nodup :=
  Node.pointersWhere_nodup p _ 0

/-- The first pointer of `pointers` refers to the first proper descendant, in
depth-first pre-order, that satisfies the predicate. -/
theorem Node.head?_pointers (root : Node K) (p : Node K → Bool) :
    ((root.pointers p).head? = none ↔ ∀ node ∈ root.descendants, p node = false) ∧
    (∀ first, (root.pointers p).head? = some first →
      (∃ node, root.descendants[first]? = some node ∧ p node = true) ∧
      ∀ earlier node, earlier < first → root.descendants[earlier]? = some node →
        p node = false) := by
  constructor
  · rw [List.head?_eq_none_iff]
    constructor
    · intro h node hnode
      obtain ⟨i, hi⟩ := List.getElem?_of_mem hnode
      by_contra hp
      have hmem : i ∈ root.pointers p :=
        (Node.mem_pointers root p i).mpr ⟨node, hi, by simpa using hp⟩
      rw [h] at hmem
      simp at hmem
    · intro h
      by_contra hne
      obtain ⟨i, hi⟩ := List.exists_mem_of_ne_nil _ hne
      obtain ⟨node, hnode, hp⟩ := (Node.mem_pointers root p i).mp hi
      have := h node (List.mem_iff_getElem?.mpr ⟨i, hnode⟩)
      rw [hp] at this
      cases this
  · intro first hfirst
    obtain ⟨tail, htail⟩ : ∃ tail, root.pointers p = first :: tail := by
      cases h : root.pointers p with
      | nil => rw [h] at hfirst; simp at hfirst
      | cons a tail =>
        rw [h] at hfirst
        simp only [List.head?_cons, Option.some.injEq] at hfirst
        exact ⟨tail, by rw [hfirst]⟩
    refine ⟨(Node.mem_pointers root p first).mp (by rw [htail]; simp), ?_⟩
    intro earlier node hlt hnode
    by_contra hp
    have hmem : earlier ∈ root.pointers p :=
      (Node.mem_pointers root p earlier).mpr ⟨node, hnode, by simpa using hp⟩
    have hpair := Node.pointers_pairwise root p
    rw [htail] at hmem hpair
    rcases List.mem_cons.mp hmem with h | h
    · omega
    · have := (List.pairwise_cons.mp hpair).1 earlier h
      omega

/-! ### Appending to an intrusive list -/

/-- Appending the elements of a list without repetition, one after the other,
moves them to the end, in the order of the list. -/
theorem foldl_AppendListElement (idx : List Nat) :
    idx.Nodup → ∀ (l : List Nat),
      idx.foldl AppendListElement l = l.filter (fun e => decide (e ∉ idx)) ++ idx := by
  induction idx with
  | nil => intro _ l; simp
  | cons a t ih =>
    intro h l
    have hat : a ∉ t := (List.nodup_cons.mp h).1
    rw [List.foldl_cons, ih (List.nodup_cons.mp h).2]
    simp only [AppendListElement, List.filter_append, List.filter_filter, List.append_assoc]
    have h1 : List.filter (fun e => decide (e ∉ t)) [a] = [a] := by simp [hat]
    rw [h1]
    simp only [List.singleton_append]
    congr 1
    apply List.filter_congr
    intro x _
    by_cases hxa : x = a <;> by_cases hxt : x ∈ t <;> simp [hxa, hxt]

/-- Appending the elements of a list without repetition to a list that ends
with them changes nothing. -/
theorem foldl_AppendListElement_twice (idx : List Nat) (h : idx.Nodup) (l : List Nat) :
    idx.foldl AppendListElement (idx.foldl AppendListElement l)
      = idx.foldl AppendListElement l := by
  rw [foldl_AppendListElement idx h (idx.foldl AppendListElement l),
    foldl_AppendListElement idx h l]
  simp [List.filter_append, List.filter_filter]

/-- On an empty list the appended elements are the list. -/
theorem foldl_AppendListElement_nil (idx : List Nat) (h : idx.Nodup) :
    idx.foldl AppendListElement [] = idx := by
  rw [foldl_AppendListElement idx h]
  simp

/-! ### The lists after the loop of `PreprocessWorld` -/

/-- A list of the world manager to which the body of the loop appends the
nodes that satisfy `p` receives, along a list of nodes, the pointers of the
nodes that satisfy `p`. -/
theorem WorldManager.PreprocessWorld.visit_list (proj : WorldManager K → List Nat)
    (p : Node K → Bool)
    (hbody : ∀ (state : WorldManager K × List Event) (pointer : Nat) (node : Node K),
      proj (WorldManager.PreprocessWorld.body state pointer node).1
        = if p node = true then AppendListElement (proj state.1) pointer else proj state.1)
    (l : List (Node K)) :
    ∀ (pointer : Nat) (state : WorldManager K × List Event),
      proj (WorldManager.PreprocessWorld.visit l pointer state).1
        = (Node.pointersWhere p pointer l).foldl AppendListElement (proj state.1) := by
  induction l with
  | nil => intro pointer state; rfl
  | cons node rest ih =>
    intro pointer state
    unfold WorldManager.PreprocessWorld.visit Node.pointersWhere
    rw [ih, hbody]
    by_cases hp : p node = true
    · simp [hp]
    · simp [hp]

/-- The calls of `PreprocessController` along a list of nodes. -/
theorem WorldManager.PreprocessWorld.visit_trace (l : List (Node K)) :
    ∀ (pointer : Nat) (state : WorldManager K × List Event),
      (WorldManager.PreprocessWorld.visit l pointer state).2
        = state.2 ++ (Node.pointersWhere (fun n => n.nodeController.isSome) pointer l).map
            Event.PreprocessController := by
  induction l with
  | nil => intro pointer state; simp [WorldManager.PreprocessWorld.visit, Node.pointersWhere]
  | cons node rest ih =>
    intro pointer state
    unfold WorldManager.PreprocessWorld.visit Node.pointersWhere
    rw [ih, WorldManager.PreprocessWorld.body_trace]
    by_cases hp : node.nodeController.isSome = true
    · simp [hp]
    · simp [hp]

/-- The loop of `PreprocessWorld` keeps the tree. -/
theorem WorldManager.PreprocessWorld.visit_rootNode (l : List (Node K)) :
    ∀ (pointer : Nat) (state : WorldManager K × List Event),
      (WorldManager.PreprocessWorld.visit l pointer state).1.rootNode = state.1.rootNode := by
  induction l with
  | nil => intro pointer state; rfl
  | cons node rest ih =>
    intro pointer state
    unfold WorldManager.PreprocessWorld.visit
    rw [ih, WorldManager.PreprocessWorld.body_rootNode]

/-- The camera after the loop of `PreprocessWorld`: a camera that is set is
kept, and otherwise the first camera of the frustum type among the nodes is
taken. -/
theorem WorldManager.PreprocessWorld.visit_cameraNode (l : List (Node K)) :
    ∀ (pointer : Nat) (state : WorldManager K × List Event),
      (WorldManager.PreprocessWorld.visit l pointer state).1.cameraNode
        = match state.1.cameraNode with
          | some camera => some camera
          | none =>
            (Node.pointersWhere
              (fun n => decide (n.GetNodeType = kNodeCamera)
                && decide (n.GetCameraType = kCameraFrustum)) pointer l).head? := by
  induction l with
  | nil =>
    intro pointer state
    cases h : state.1.cameraNode <;>
      simp [WorldManager.PreprocessWorld.visit, Node.pointersWhere, h]
  | cons node rest ih =>
    intro pointer state
    unfold WorldManager.PreprocessWorld.visit Node.pointersWhere
    rw [ih, WorldManager.PreprocessWorld.body_cameraNode]
    cases h : state.1.cameraNode with
    | some camera => rfl
    | none =>
      by_cases hp : (decide (node.GetNodeType = kNodeCamera)
          && decide (node.GetCameraType = kCameraFrustum)) = true
      · rw [if_pos hp, if_pos hp]
        rfl
      · rw [if_neg hp, if_neg hp]

end IndexTheorems

section PreprocessWorldTheorems

variable {K : Type} [LinearOrderedField K]

/-! ### `PreprocessWorld` (C12, C13, C14) -/

/-- The state after `PreprocessWorld` in terms of the loop body run along the
proper descendants of the root. -/
theorem WorldManager.PreprocessWorld_eq_visit (w : WorldManager K) :
    WorldManager.PreprocessWorld w
      = ({ (WorldManager.PreprocessWorld.visit w.rootNode.descendants 0 (w, [])).1 with
            overlayGeometryList :=
              (WorldManager.PreprocessWorld.visit w.rootNode.descendants 0
                (w, [])).1.overlayGeometryList.map
                (fun g => g.SetWorldTransform g.nodeTransform) },
          (WorldManager.PreprocessWorld.visit w.rootNode.descendants 0 (w, [])).2) := by
  unfold WorldManager.PreprocessWorld
  rw [WorldManager.PreprocessWorld.loop_eq_visit _ _ _ _
    (by rw [TreeCursor.remaining_GetFirstSubnode]), TreeCursor.remaining_GetFirstSubnode]

/-- The geometry list after `PreprocessWorld`. -/
theorem WorldManager.PreprocessWorld_geometryList (w : WorldManager K) :
    (WorldManager.PreprocessWorld w).1.geometryList
      = (w.rootNode.pointers (fun n => decide (n.GetNodeType = kNodeGeometry))).foldl
          AppendListElement w.geometryList := by
  rw [WorldManager.PreprocessWorld_eq_visit]
  exact WorldManager.PreprocessWorld.visit_list WorldManager.geometryList _
    WorldManager.PreprocessWorld.body_geometryList _ 0 (w, [])

/-- The light list after `PreprocessWorld`. -/
theorem WorldManager.PreprocessWorld_lightList (w : WorldManager K) :
    (WorldManager.PreprocessWorld w).1.lightList
      = (w.rootNode.pointers (fun n => decide (n.GetNodeType = kNodeLight))).foldl
          AppendListElement w.lightList := by
  rw [WorldManager.PreprocessWorld_eq_visit]
  exact WorldManager.PreprocessWorld.visit_list WorldManager.lightList _
    WorldManager.PreprocessWorld.body_lightList _ 0 (w, [])

/-- The occluder list after `PreprocessWorld`. -/
theorem WorldManager.PreprocessWorld_occluderList (w : WorldManager K) :
    (WorldManager.PreprocessWorld w).1.occluderList
      = (w.rootNode.pointers (fun n => decide (n.GetNodeType = kNodeOccluder))).foldl
          AppendListElement w.occluderList := by
  rw [WorldManager.PreprocessWorld_eq_visit]
  exact WorldManager.PreprocessWorld.visit_list WorldManager.occluderList _
    WorldManager.PreprocessWorld.body_occluderList _ 0 (w, [])

/-- The controller list after `PreprocessWorld`. -/
theorem WorldManager.PreprocessWorld_controllerList (w : WorldManager K) :
    (WorldManager.PreprocessWorld w).1.controllerList
      = (w.rootNode.pointers (fun n => n.nodeController.isSome)).foldl
          AppendListElement w.controllerList := by
  rw [WorldManager.PreprocessWorld_eq_visit]
  exact WorldManager.PreprocessWorld.visit_list WorldManager.controllerList _
    WorldManager.PreprocessWorld.body_controllerList _ 0 (w, [])

/-- The calls of `PreprocessController` made by `PreprocessWorld`. -/
theorem WorldManager.PreprocessWorld_trace (w : WorldManager K) :
    (WorldManager.PreprocessWorld w).2
      = (w.rootNode.pointers (fun n => n.nodeController.isSome)).map
          Event.PreprocessController := by
  rw [WorldManager.PreprocessWorld_eq_visit]
  simp only [WorldManager.PreprocessWorld.visit_trace, List.nil_append]
  rfl

/-- The function `PreprocessWorld` keeps the tree. -/
theorem WorldManager.PreprocessWorld_rootNode (w : WorldManager K) :
    (WorldManager.PreprocessWorld w).1.rootNode = w.rootNode := by
  rw [WorldManager.PreprocessWorld_eq_visit]
  exact WorldManager.PreprocessWorld.visit_rootNode _ 0 (w, [])

/-- The camera after `PreprocessWorld`. -/
theorem WorldManager.PreprocessWorld_cameraNode_eq (w : WorldManager K) :
    (WorldManager.PreprocessWorld w).1.cameraNode
      = match w.cameraNode with
        | some camera => some camera
        | none =>
          (w.rootNode.pointers (fun n => decide (n.GetNodeType = kNodeCamera)
            && decide (n.GetCameraType = kCameraFrustum))).head? := by
  rw [WorldManager.PreprocessWorld_eq_visit]
  exact WorldManager.PreprocessWorld.visit_cameraNode _ 0 (w, [])

/-- C12: after `PreprocessWorld` on a freshly constructed world manager with
the tree `root`, the geometry list holds the pointers of the proper descendants
of the root whose type is `kNodeGeometry`, in depth-first pre-order, the light
list those of type `kNodeLight`, the occluder list those of type
`kNodeOccluder`, and the controller list those of the nodes that hold a
controller; `PreprocessController` was called for the controllers of the list
in order, and for each of them once; a proper descendant of any other type is
in none of the three node lists (the root has no pointer, so it is in none of
them either); and the tree is unchanged. -/
theorem WorldManager.PreprocessWorld_index (root : Node K) :
    (WorldManager.PreprocessWorld (WorldManager.new root)).1.geometryList
      = root.pointers (fun n => decide (n.GetNodeType = kNodeGeometry)) ∧
    (WorldManager.PreprocessWorld (WorldManager.new root)).1.lightList
      = root.pointers (fun n => decide (n.GetNodeType = kNodeLight)) ∧
    (WorldManager.PreprocessWorld (WorldManager.new root)).1.occluderList
      = root.pointers (fun n => decide (n.GetNodeType = kNodeOccluder)) ∧
    (WorldManager.PreprocessWorld (WorldManager.new root)).1.controllerList
      = root.pointers (fun n => n.nodeController.isSome) ∧
    (WorldManager.PreprocessWorld (WorldManager.new root)).2
      = (WorldManager.PreprocessWorld (WorldManager.new root)).1.controllerList.map
          Event.PreprocessController ∧
    (∀ controller ∈ (WorldManager.PreprocessWorld (WorldManager.new root)).1.controllerList,
      (WorldManager.PreprocessWorld (WorldManager.new root)).2.count
        (Event.PreprocessController controller) = 1) ∧
    (∀ (pointer : Nat) (node : Node K), root.descendants[pointer]? = some node →
      (pointer ∈ (WorldManager.PreprocessWorld (WorldManager.new root)).1.geometryList
        ↔ node.GetNodeType = kNodeGeometry) ∧
      (pointer ∈ (WorldManager.PreprocessWorld (WorldManager.new root)).1.lightList
        ↔ node.GetNodeType = kNodeLight) ∧
      (pointer ∈ (WorldManager.PreprocessWorld (WorldManager.new root)).1.occluderList
        ↔ node.GetNodeType = kNodeOccluder) ∧
      (pointer ∈ (WorldManager.PreprocessWorld (WorldManager.new root)).1.controllerList
        ↔ node.nodeController ≠ none)) ∧
    (WorldManager.PreprocessWorld (WorldManager.new root)).1.rootNode = root := by
  have hg : (WorldManager.PreprocessWorld (WorldManager.new root)).1.geometryList
      = root.pointers (fun n => decide (n.GetNodeType = kNodeGeometry)) := by
    rw [WorldManager.PreprocessWorld_geometryList]
    exact foldl_AppendListElement_nil _ (Node.pointers_nodup _ _)
  have hl : (WorldManager.PreprocessWorld (WorldManager.new root)).1.lightList
      = root.pointers (fun n => decide (n.GetNodeType = kNodeLight)) := by
    rw [WorldManager.PreprocessWorld_lightList]
    exact foldl_AppendListElement_nil _ (Node.pointers_nodup _ _)
  have ho : (WorldManager.PreprocessWorld (WorldManager.new root)).1.occluderList
      = root.pointers (fun n => decide (n.GetNodeType = kNodeOccluder)) := by
    rw [WorldManager.PreprocessWorld_occluderList]
    exact foldl_AppendListElement_nil _ (Node.pointers_nodup _ _)
  have hc : (WorldManager.PreprocessWorld (WorldManager.new root)).1.controllerList
      = root.pointers (fun n => n.nodeController.isSome) := by
    rw [WorldManager.PreprocessWorld_controllerList]
    exact foldl_AppendListElement_nil _ (Node.pointers_nodup _ _)
  have ht : (WorldManager.PreprocessWorld (WorldManager.new root)).2
      = (root.pointers (fun n => n.nodeController.isSome)).map Event.PreprocessController :=
    WorldManager.PreprocessWorld_trace _
  refine ⟨hg, hl, ho, hc, by rw [ht, hc], ?_, ?_, WorldManager.PreprocessWorld_rootNode _⟩
  · intro controller hmem
    rw [ht]
    rw [hc] at hmem
    rw [List.count_eq_one_of_mem
      ((Node.pointers_nodup root _).map (fun a b h => by injection h))]
    exact List.mem_map_of_mem _ hmem
  · intro pointer node hnode
    rw [hg, hl, ho, hc]
    simp only [Node.mem_pointers, hnode, Option.some.injEq, exists_eq_left', decide_eq_true_eq,
      Option.isSome_iff_ne_none, and_self]

/-- C13: after `PreprocessWorld` on a freshly constructed world manager, the
active camera is the first proper descendant of the root, in depth-first
pre-order, whose type is `kNodeCamera` and whose camera type is
`kCameraFrustum`: every node before it, an orthographic camera included, is
no such node; there is no active camera exactly when the tree has no such
node; and on any world manager whose active camera is set, `PreprocessWorld`
keeps that camera. -/
theorem WorldManager.PreprocessWorld_cameraNode (root : Node K) :
    (WorldManager.PreprocessWorld (WorldManager.new root)).1.cameraNode
      = (root.pointers (fun n => decide (n.GetNodeType = kNodeCamera)
          && decide (n.GetCameraType = kCameraFrustum))).head? ∧
    (∀ camera : Nat,
      (WorldManager.PreprocessWorld (WorldManager.new root)).1.cameraNode = some camera →
      (∃ node, root.descendants[camera]? = some node ∧
        node.GetNodeType = kNodeCamera ∧ node.GetCameraType = kCameraFrustum) ∧
      ∀ (earlier : Nat) (node : Node K), earlier < camera →
        root.descendants[earlier]? = some node →
        ¬ (node.GetNodeType = kNodeCamera ∧ node.GetCameraType = kCameraFrustum)) ∧
    ((WorldManager.PreprocessWorld (WorldManager.new root)).1.cameraNode = none ↔
      ∀ node ∈ root.descendants,
        ¬ (node.GetNodeType = kNodeCamera ∧ node.GetCameraType = kCameraFrustum)) ∧
    (∀ (w : WorldManager K) (camera : Nat),
      (WorldManager.PreprocessWorld { w with cameraNode := some camera }).1.cameraNode
        = some camera) := by
  have hcam : (WorldManager.PreprocessWorld (WorldManager.new root)).1.cameraNode
      = (root.pointers (fun n => decide (n.GetNodeType = kNodeCamera)
          && decide (n.GetCameraType = kCameraFrustum))).head? := by
    rw [WorldManager.PreprocessWorld_cameraNode_eq]
    rfl
  have hhead := Node.head?_pointers root (fun n => decide (n.GetNodeType = kNodeCamera)
    && decide (n.GetCameraType = kCameraFrustum))
  refine ⟨hcam, ?_, ?_, ?_⟩
  · intro camera h
    rw [hcam] at h
    obtain ⟨⟨node, hnode, hp⟩, hearlier⟩ := hhead.2 camera h
    refine ⟨⟨node, hnode, by simpa using hp⟩, ?_⟩
    intro earlier m hlt hm
    simpa using hearlier earlier m hlt hm
  · rw [hcam, hhead.1]
    simp
  · intro w camera
    rw [WorldManager.PreprocessWorld_cameraNode_eq]

/-- C14: `PreprocessWorld` run a second time, on the state the first run left
and so on the same tree, leaves the light, occluder, geometry and controller
lists as they were after the first run; this holds from any state of the
lists, the empty lists of a fresh world manager included. -/
theorem WorldManager.PreprocessWorld_twice (w : WorldManager K) :
    (WorldManager.PreprocessWorld (WorldManager.PreprocessWorld w).1).1.lightList
      = (WorldManager.PreprocessWorld w).1.lightList ∧
    (WorldManager.PreprocessWorld (WorldManager.PreprocessWorld w).1).1.occluderList
      = (WorldManager.PreprocessWorld w).1.occluderList ∧
    (WorldManager.PreprocessWorld (WorldManager.PreprocessWorld w).1).1.geometryList
      = (WorldManager.PreprocessWorld w).1.geometryList ∧
    (WorldManager.PreprocessWorld (WorldManager.PreprocessWorld w).1).1.controllerList
      = (WorldManager.PreprocessWorld w).1.controllerList := by
  refine ⟨?_, ?_, ?_, ?_⟩
  · rw [WorldManager.PreprocessWorld_lightList (WorldManager.PreprocessWorld w).1,
      WorldManager.PreprocessWorld_rootNode, WorldManager.PreprocessWorld_lightList w]
    exact foldl_AppendListElement_twice _ (Node.pointers_nodup _ _) _
  · rw [WorldManager.PreprocessWorld_occluderList (WorldManager.PreprocessWorld w).1,
      WorldManager.PreprocessWorld_rootNode, WorldManager.PreprocessWorld_occluderList w]
    exact foldl_AppendListElement_twice _ (Node.pointers_nodup _ _) _
  · rw [WorldManager.PreprocessWorld_geometryList (WorldManager.PreprocessWorld w).1,
      WorldManager.PreprocessWorld_rootNode, WorldManager.PreprocessWorld_geometryList w]
    exact foldl_AppendListElement_twice _ (Node.pointers_nodup _ _) _
  · rw [WorldManager.PreprocessWorld_controllerList (WorldManager.PreprocessWorld w).1,
      WorldManager.PreprocessWorld_rootNode, WorldManager.PreprocessWorld_controllerList w]
    exact foldl_AppendListElement_twice _ (Node.pointers_nodup _ _) _

end PreprocessWorldTheorems

section ControllerTheorems

variable {K : Type}

/-! ### Controllers read through pointers -/

/-- The controller of the members of a node. -/
theorem Node.data_nodeController (node : Node K) :
    node.data.nodeController = node.nodeController := by
  cases node; rfl

/-- The controller read through `j` after a write through `i`. -/
theorem Node.controllerAt_modifyDescendant (g : NodeData K → NodeData K) (i j : Nat)
    (root : Node K) :
    (Node.modifyDescendant g i root).controllerAt j
      = if i = j then (root.dataAt j).bind (fun d => (g d).nodeController)
        else root.controllerAt j := by
  unfold Node.controllerAt
  rw [Node.dataAt_modifyDescendant]
  by_cases h : i = j
  · simp only [h, if_true]
    cases root.dataAt j <;> rfl
  · simp only [h, if_false]

/-- A write that keeps the controllers keeps the controller read through any
pointer. -/
theorem Node.controllerAt_modifyDescendant_of_keep (g : NodeData K → NodeData K)
    (hg : ∀ d, (g d).nodeController = d.nodeController) (i j : Nat) (root : Node K) :
    (Node.modifyDescendant g i root).controllerAt j = root.controllerAt j := by
  rw [Node.controllerAt_modifyDescendant]
  by_cases h : i = j
  · simp only [h, if_true, hg]
    rfl
  · simp only [h, if_false]

/-- The update flag read through a pointer, in terms of the controller. -/
theorem Node.updateFlagAt_eq (root : Node K) (c : Nat) :
    root.updateFlagAt c
      = match root.controllerAt c with
        | some controller => controller.updateFlag
        | none => false := rfl

/-- The controller read through a pointer, in terms of the proper
descendants. -/
theorem Node.controllerAt_eq_join (root : Node K) (c : Nat) :
    root.controllerAt c = ((root.descendants.map Node.nodeController)[c]?).join := by
  unfold Node.controllerAt Node.dataAt Node.dataList
  simp only [List.getElem?_map]
  cases root.descendants[c]? with
  | none => rfl
  | some node => simp [Node.data_nodeController]

/-- The hook `UpdateController` keeps the class of the controller. -/
theorem Controller.UpdateController_controllerClass (controller : Controller K) :
    controller.UpdateController.controllerClass = controller.controllerClass := by
  unfold Controller.UpdateController
  split <;> rfl

/-- The hook `UpdateController` of a controller of a class of the source
leaves the controller as it is. -/
theorem Controller.UpdateController_of_shipped (controller : Controller K)
    (h : controller.controllerClass.shipped = true) :
    controller.UpdateController = controller := by
  unfold Controller.UpdateController
  split
  · rename_i hclass
    rw [hclass] at h
    simp [ControllerClass.shipped] at h
  · rfl

/-! ### The loop that updates the controllers -/

/-- The controller read through `j` after the update step of the controller
`i`. -/
theorem Node.controllerAt_UpdateControllerStep (i j : Nat) (root : Node K) :
    (Node.modifyDescendant NodeData.UpdateControllerStep i root).controllerAt j
      = if i = j then
          (root.controllerAt j).map
            (fun controller => Controller.UpdateController { controller with updateFlag := false })
        else root.controllerAt j := by
  rw [Node.controllerAt_modifyDescendant]
  by_cases h : i = j
  · simp only [h, if_true, Node.controllerAt, NodeData.UpdateControllerStep]
    cases root.dataAt j with
    | none => rfl
    | some d => cases hd : d.nodeController <;> simp [hd]
  · simp only [h, if_false]

/-- The calls the loop over the controllers adds: `UpdateController` for the
controllers whose update flag is set when the loop starts, in the order of
the list, when no controller is twice in the list. -/
theorem WorldManager.RenderWorld.UpdateControllers_trace (l : List Nat) :
    l.Nodup → ∀ (state : Node K × List Event),
      (WorldManager.RenderWorld.UpdateControllers l state).2
        = state.2 ++ (l.filter (fun c => state.1.updateFlagAt c)).map Event.UpdateController := by
  induction l with
  | nil => intro _ state; simp [WorldManager.RenderWorld.UpdateControllers]
  | cons a t ih =>
    intro h state
    have hat : a ∉ t := (List.nodup_cons.mp h).1
    have ht : t.Nodup := (List.nodup_cons.mp h).2
    unfold WorldManager.RenderWorld.UpdateControllers
    by_cases hflag : state.1.updateFlagAt a = true
    · rw [if_pos hflag, ih ht]
      have hfilter : t.filter (fun c =>
            (Node.modifyDescendant NodeData.UpdateControllerStep a state.1).updateFlagAt c)
          = t.filter (fun c => state.1.updateFlagAt c) := by
        apply List.filter_congr
        intro c hc
        have hne : a ≠ c := fun e => hat (e ▸ hc)
        rw [Node.updateFlagAt_eq, Node.updateFlagAt_eq, Node.controllerAt_UpdateControllerStep,
          if_neg hne]
      simp [hfilter, List.filter_cons, hflag]
    · rw [if_neg hflag, ih ht]
      simp [List.filter_cons, hflag]

/-- The controllers after the loop over the controllers: a controller of the
list whose update flag was set when the loop started has had the flag cleared
and then `UpdateController` run; every other controller is as it was. -/
theorem WorldManager.RenderWorld.UpdateControllers_controllerAt (l : List Nat) :
    l.Nodup → ∀ (state : Node K × List Event) (c : Nat),
      (WorldManager.RenderWorld.UpdateControllers l state).1.controllerAt c
        = if c ∈ l ∧ state.1.updateFlagAt c = true then
            (state.1.controllerAt c).map
              (fun controller =>
                Controller.UpdateController { controller with updateFlag := false })
          else state.1.controllerAt c := by
  induction l with
  | nil => intro _ state c; simp [WorldManager.RenderWorld.UpdateControllers]
  | cons a t ih =>
    intro h state c
    have hat : a ∉ t := (List.nodup_cons.mp h).1
    have ht : t.Nodup := (List.nodup_cons.mp h).2
    unfold WorldManager.RenderWorld.UpdateControllers
    by_cases hflag : state.1.updateFlagAt a = true
    · rw [if_pos hflag, ih ht]
      by_cases hca : a = c
      · subst hca
        simp only [hat, false_and, if_false, Node.controllerAt_UpdateControllerStep, if_true,
          List.mem_cons, true_or, true_and, hflag]
      · have hca' : ¬ c = a := fun e => hca e.symm
        simp only [Node.updateFlagAt_eq, Node.controllerAt_UpdateControllerStep, if_neg hca,
          List.mem_cons, hca', false_or]
    · rw [if_neg hflag, ih ht]
      by_cases hca : a = c
      · subst hca
        simp [hat, hflag]
      · have hca' : ¬ c = a := fun e => hca e.symm
        simp only [List.mem_cons, hca', false_or]

/-- A loop over the controllers keeps every value of the members that the
update step of a controller keeps. -/
theorem WorldManager.RenderWorld.UpdateControllers_dataAt {β : Type} (F : NodeData K → β)
    (hF : ∀ d, F (NodeData.UpdateControllerStep d) = F d) (l : List Nat) :
    ∀ (state : Node K × List Event) (j : Nat),
      ((WorldManager.RenderWorld.UpdateControllers l state).1.dataAt j).map F
        = (state.1.dataAt j).map F := by
  induction l with
  | nil => intro state j; rfl
  | cons a t ih =>
    intro state j
    unfold WorldManager.RenderWorld.UpdateControllers
    split_ifs
    · rw [ih, Node.dataAt_map_modifyDescendant F _ hF]
    · rw [ih]

/-! ### The loop over the occluders -/

/-- The calls the loop over the occluders adds. -/
theorem WorldManager.RenderWorld.CalculateOccluderPlanes_trace (camera : FrustumCamera K)
    (l : List Nat) :
    ∀ (state : Node K × List Event),
      (WorldManager.RenderWorld.CalculateOccluderPlanes camera l state).2
        = state.2 ++ l.map Event.CalculateOccluderPlanes := by
  induction l with
  | nil => intro state; simp [WorldManager.RenderWorld.CalculateOccluderPlanes]
  | cons a t ih =>
    intro state
    unfold WorldManager.RenderWorld.CalculateOccluderPlanes
    rw [ih]
    simp

/-- The loop over the occluders keeps every value of the members that
`CalculateOccluderPlanes` keeps. -/
theorem WorldManager.RenderWorld.CalculateOccluderPlanes_dataAt {β : Type}
    (camera : FrustumCamera K) (F : NodeData K → β)
    (hF : ∀ d, F (NodeData.CalculateOccluderPlanes camera d) = F d) (l : List Nat) :
    ∀ (state : Node K × List Event) (j : Nat),
      ((WorldManager.RenderWorld.CalculateOccluderPlanes camera l state).1.dataAt j).map F
        = (state.1.dataAt j).map F := by
  induction l with
  | nil => intro state j; rfl
  | cons a t ih =>
    intro state j
    unfold WorldManager.RenderWorld.CalculateOccluderPlanes
    rw [ih, Node.dataAt_map_modifyDescendant F _ hF]

/-- The call `CalculateOccluderPlanes` keeps the controller of the node. -/
theorem NodeData.CalculateOccluderPlanes_nodeController (camera : FrustumCamera K)
    (d : NodeData K) :
    (NodeData.CalculateOccluderPlanes camera d).nodeController = d.nodeController := by
  unfold NodeData.CalculateOccluderPlanes
  split <;> rfl

/-- The controller read through a pointer is a value of the members. -/
theorem Node.controllerAt_eq_map (root : Node K) (c : Nat) :
    root.controllerAt c = ((root.dataAt c).map NodeData.nodeController).join := by
  unfold Node.controllerAt
  cases root.dataAt c <;> rfl

/-- The loop over the occluders keeps the controllers. -/
theorem WorldManager.RenderWorld.CalculateOccluderPlanes_controllerAt
    (camera : FrustumCamera K) (l : List Nat) (state : Node K × List Event) (c : Nat) :
    (WorldManager.RenderWorld.CalculateOccluderPlanes camera l state).1.controllerAt c
      = state.1.controllerAt c := by
  rw [Node.controllerAt_eq_map, Node.controllerAt_eq_map,
    WorldManager.RenderWorld.CalculateOccluderPlanes_dataAt camera NodeData.nodeController
      (NodeData.CalculateOccluderPlanes_nodeController camera)]

/-! ### The inner loop of the light passes -/

/-- The call `GeometryIlluminated` returns true for every node and light. -/
theorem NodeData.GeometryIlluminated_eq_true (geometry light : NodeData K) :
    geometry.GeometryIlluminated light = true := by
  unfold NodeData.GeometryIlluminated
  split <;> rfl

/-- The inner loop of the light passes in closed form. -/
theorem WorldManager.RenderWorld.LightDraws_eq (root : Node K) (light : Nat)
    (l : List Nat) :
    ∀ (state : Nat × List Event),
      WorldManager.RenderWorld.LightDraws root light l state
        = (state.1 + (l.filter (fun g => root.GeometryIlluminatedAt light g)).length,
            state.2 ++ (l.filter (fun g => root.GeometryIlluminatedAt light g)).flatMap
              (fun g => [Event.PrepareToRender g, Event.Render g 1])) := by
  induction l with
  | nil => intro state; simp [WorldManager.RenderWorld.LightDraws]
  | cons a t ih =>
    intro state
    unfold WorldManager.RenderWorld.LightDraws
    by_cases h : root.GeometryIlluminatedAt light a = true
    · rw [if_pos h, ih]
      simp [List.filter_cons, h, Nat.add_assoc, Nat.add_comm 1]
    · rw [if_neg h, ih]
      simp [List.filter_cons, h]

end ControllerTheorems

section RenderLoopTheorems

variable {K : Type} [LinearOrderedField K]

/-! ### The loop that moves the controllers -/

/-- The hook `MoveController` of a controller of a class of the source keeps
the controller. -/
theorem NodeData.MoveController_nodeController (MakeRotation : K → Vector3D K → Matrix3D K)
    (deltaTime : K) (d : NodeData K) (controller : Controller K)
    (hd : d.nodeController = some controller) (h : controller.controllerClass.shipped = true) :
    (NodeData.MoveController MakeRotation deltaTime d).nodeController = some controller := by
  obtain ⟨cls, flag⟩ := controller
  cases cls with
  | userController m u => simp [ControllerClass.shipped] at h
  | controller => simp [NodeData.MoveController, hd]
  | lightController axis => simp [NodeData.MoveController, hd]
  | skinController => simp [NodeData.MoveController, hd]

/-- The calls the loop over the controllers adds: `MoveController` for every
controller of the list, in order. -/
theorem WorldManager.RenderWorld.MoveControllers_trace
    (MakeRotation : K → Vector3D K → Matrix3D K) (deltaTime : K) (l : List Nat) :
    ∀ (state : Node K × List Event),
      (WorldManager.RenderWorld.MoveControllers MakeRotation deltaTime l state).2
        = state.2 ++ l.map Event.MoveController := by
  induction l with
  | nil => intro state; simp [WorldManager.RenderWorld.MoveControllers]
  | cons a t ih =>
    intro state
    unfold WorldManager.RenderWorld.MoveControllers
    rw [ih]
    simp

/-- The loop that moves the controllers keeps a controller of a class of the
source. -/
theorem WorldManager.RenderWorld.MoveControllers_controllerAt
    (MakeRotation : K → Vector3D K → Matrix3D K) (deltaTime : K) (l : List Nat) :
    ∀ (state : Node K × List Event) (c : Nat) (controller : Controller K),
      state.1.controllerAt c = some controller → controller.controllerClass.shipped = true →
      (WorldManager.RenderWorld.MoveControllers MakeRotation deltaTime l state).1.controllerAt c
        = some controller := by
  induction l with
  | nil => intro state c controller h _; exact h
  | cons a t ih =>
    intro state c controller h hs
    unfold WorldManager.RenderWorld.MoveControllers
    apply ih _ c controller _ hs
    rw [Node.controllerAt_modifyDescendant]
    by_cases hac : a = c
    · rw [if_pos hac]
      unfold Node.controllerAt at h
      cases hd : state.1.dataAt c with
      | none => rw [hd] at h; simp at h
      | some d =>
        rw [hd] at h
        exact NodeData.MoveController_nodeController MakeRotation deltaTime d controller h hs
    · rw [if_neg hac]
      exact h

/-! ### Transform propagation keeps the controllers -/

/-- The call `UpdateNode` keeps the controller of the node. -/
theorem Node.UpdateNode_nodeController (InverseSqrt : K → K)
    (superNode : Option (Transform4D K)) (node : Node K) :
    (node.UpdateNode InverseSqrt superNode).nodeController = node.nodeController := by
  cases node with
  | mk c name t ctrl w subs =>
    cases c <;> cases superNode <;> rfl

/-- The loop `UpdateSubnodes` keeps the controllers of the nodes of the trees
of the list, in pre-order; by induction on a bound `n` for the number of those
nodes. -/
theorem Node.UpdateSubnodes_nodeController (InverseSqrt : K → K) (n : Nat) :
    ∀ (subs : List (Node K)), (Node.preorderOfList subs).length ≤ n →
      ∀ (superWorld : Transform4D K),
        (Node.preorderOfList (Node.UpdateSubnodes InverseSqrt superWorld subs)).map
            Node.nodeController
          = (Node.preorderOfList subs).map Node.nodeController := by
  induction n with
  | zero =>
    intro subs hlen superWorld
    cases subs with
    | nil => rfl
    | cons node rest => simp [Node.preorderOfList] at hlen
  | succ n ih =>
    intro subs hlen superWorld
    cases subs with
    | nil => rfl
    | cons node rest =>
      simp only [Node.preorderOfList, List.length_cons, List.length_append] at hlen
      have h1 := ih node.subnodes (by rw [← Node.descendants_eq]; omega)
        (Node.expectedWorld (some superWorld) node.nodeTransform)
      have h2 := ih rest (by omega) superWorld
      simp only [Node.UpdateSubnodes, Node.preorderOfList, List.map_cons, List.map_append,
        Node.UpdateNode_nodeController]
      rw [Node.descendants_eq (Node.UpdateNode InverseSqrt (some superWorld) node),
        Node.UpdateNode_subnodes, h1, h2, ← Node.descendants_eq]

/-- The call `UpdateNode` keeps the controller read through any pointer. -/
theorem Node.UpdateNode_controllerAt (InverseSqrt : K → K)
    (superNode : Option (Transform4D K)) (root : Node K) (c : Nat) :
    (root.UpdateNode InverseSqrt superNode).controllerAt c = root.controllerAt c := by
  rw [Node.controllerAt_eq_join, Node.controllerAt_eq_join,
    Node.descendants_eq (root.UpdateNode InverseSqrt superNode), Node.UpdateNode_subnodes,
    Node.UpdateSubnodes_nodeController InverseSqrt _ root.subnodes (le_refl _),
    ← Node.descendants_eq]

/-! ### The ambient pass and the light passes -/

/-- The ambient pass in closed form. -/
theorem WorldManager.RenderWorld.AmbientPass_eq (root : Node K) (camera : FrustumCamera K)
    (l : List Nat) :
    ∀ (state : List Nat × List Event),
      WorldManager.RenderWorld.AmbientPass root camera l state
        = (state.1 ++ l.filter (fun g => root.GeometryVisibleAt camera g),
            state.2 ++ (l.filter (fun g => root.GeometryVisibleAt camera g)).flatMap
              (fun g => [Event.PrepareToRender g, Event.Render g 0])) := by
  induction l with
  | nil => intro state; simp [WorldManager.RenderWorld.AmbientPass]
  | cons a t ih =>
    intro state
    unfold WorldManager.RenderWorld.AmbientPass
    by_cases h : root.GeometryVisibleAt camera a = true
    · rw [if_pos h, ih]
      simp [List.filter_cons, h]
    · rw [if_neg h, ih]
      simp [List.filter_cons, h]

/-- The light passes in closed form. -/
theorem WorldManager.RenderWorld.LightPasses_eq (root : Node K) (camera : FrustumCamera K)
    (visible l : List Nat) :
    ∀ (state : Nat × Nat × List Event),
      WorldManager.RenderWorld.LightPasses root camera visible l state
        = (state.1 + (root.illuminatedPairs camera l visible).length,
            state.2.1 + (l.filter (fun light => root.PointLightVisibleAt camera light)).length,
            state.2.2 ++ (root.illuminatedPairs camera l visible).flatMap
              (fun pair => [Event.PrepareToRender pair.2, Event.Render pair.2 1])) := by
  induction l with
  | nil =>
    intro state
    simp [WorldManager.RenderWorld.LightPasses, Node.illuminatedPairs]
  | cons a t ih =>
    intro state
    unfold WorldManager.RenderWorld.LightPasses
    by_cases h : root.PointLightVisibleAt camera a = true
    · rw [if_pos h]
      simp only [ih, WorldManager.RenderWorld.LightDraws_eq]
      simp [Node.illuminatedPairs, List.filter_cons, h, Nat.add_assoc, Nat.add_comm 1,
        List.flatMap_map, Function.comp_def]
    · rw [if_neg h, ih]
      simp [Node.illuminatedPairs, List.filter_cons, h]

/-! ### The tests of the passes on the tree after transform propagation -/

/-- The update step of a controller keeps the result of `GeometryVisible`. -/
theorem NodeData.UpdateControllerStep_GeometryVisible (camera : FrustumCamera K)
    (d : NodeData K) :
    (NodeData.UpdateControllerStep d).GeometryVisible camera = d.GeometryVisible camera := rfl

/-- The call `CalculateOccluderPlanes` keeps the result of `GeometryVisible`. -/
theorem NodeData.CalculateOccluderPlanes_GeometryVisible (camera eye : FrustumCamera K)
    (d : NodeData K) :
    (NodeData.CalculateOccluderPlanes eye d).GeometryVisible camera
      = d.GeometryVisible camera := by
  obtain ⟨cls, name, t, ctrl, w⟩ := d
  cases cls <;> rfl

/-- The update step of a controller keeps the test of the light loop. -/
theorem NodeData.UpdateControllerStep_LightVisible (camera : FrustumCamera K)
    (d : NodeData K) :
    (decide ((NodeData.UpdateControllerStep d).nodeClass.GetLightType = kLightPoint)
        && (NodeData.UpdateControllerStep d).LightVisible camera)
      = (decide (d.nodeClass.GetLightType = kLightPoint) && d.LightVisible camera) := rfl

/-- The call `CalculateOccluderPlanes` keeps the test of the light loop. -/
theorem NodeData.CalculateOccluderPlanes_LightVisible (camera eye : FrustumCamera K)
    (d : NodeData K) :
    (decide ((NodeData.CalculateOccluderPlanes eye d).nodeClass.GetLightType = kLightPoint)
        && (NodeData.CalculateOccluderPlanes eye d).LightVisible camera)
      = (decide (d.nodeClass.GetLightType = kLightPoint) && d.LightVisible camera) := by
  obtain ⟨cls, name, t, ctrl, w⟩ := d
  cases cls <;> rfl

/-- The test of the ambient pass is a value of the members. -/
theorem Node.GeometryVisibleAt_eq (root : Node K) (camera : FrustumCamera K) (g : Nat) :
    root.GeometryVisibleAt camera g
      = ((root.dataAt g).map (fun d => d.GeometryVisible camera)).getD false := by
  unfold Node.GeometryVisibleAt
  cases root.dataAt g <;> rfl

/-- The test of the light loop is a value of the members. -/
theorem Node.PointLightVisibleAt_eq (root : Node K) (camera : FrustumCamera K) (l : Nat) :
    root.PointLightVisibleAt camera l
      = ((root.dataAt l).map (fun d =>
          decide (d.nodeClass.GetLightType = kLightPoint) && d.LightVisible camera)).getD
            false := by
  unfold Node.PointLightVisibleAt
  cases root.dataAt l <;> rfl

end RenderLoopTheorems

section IlluminationTheorems

variable {K : Type}

/-- The test of the inner loop of the light passes holds exactly when both
pointers refer to nodes. -/
theorem Node.GeometryIlluminatedAt_eq (root : Node K) (l g : Nat) :
    root.GeometryIlluminatedAt l g
      = (((root.dataAt l).map (fun _ => ())).isSome
          && ((root.dataAt g).map (fun _ => ())).isSome) := by
  unfold Node.GeometryIlluminatedAt
  cases root.dataAt l <;> cases root.dataAt g <;>
    simp [NodeData.GeometryIlluminated_eq_true]

end IlluminationTheorems

section TraceTheorems

/-! ### Calls picked from a sequence of calls -/

/-- No call of `MoveController` is a call of `UpdateController` or a draw. -/
theorem Event.filterMap_map_MoveController (l : List Nat) (programIndex : Nat) :
    (l.map Event.MoveController).filterMap Event.update = [] ∧
    (l.map Event.MoveController).filterMap (Event.draw programIndex) = [] := by
  induction l with
  | nil => exact ⟨rfl, rfl⟩
  | cons a t ih => simp [Event.update, Event.draw]

/-- The calls of `UpdateController` of a sequence of such calls, which holds
no draw. -/
theorem Event.filterMap_map_UpdateController (l : List Nat) (programIndex : Nat) :
    (l.map Event.UpdateController).filterMap Event.update = l ∧
    (l.map Event.UpdateController).filterMap (Event.draw programIndex) = [] := by
  induction l with
  | nil => exact ⟨rfl, rfl⟩
  | cons a t ih => simpa [Event.update, Event.draw] using ih

/-- No call of `CalculateOccluderPlanes` is a call of `UpdateController` or a
draw. -/
theorem Event.filterMap_map_CalculateOccluderPlanes (l : List Nat) (programIndex : Nat) :
    (l.map Event.CalculateOccluderPlanes).filterMap Event.update = [] ∧
    (l.map Event.CalculateOccluderPlanes).filterMap (Event.draw programIndex) = [] := by
  induction l with
  | nil => exact ⟨rfl, rfl⟩
  | cons a t ih => simp [Event.update, Event.draw]

/-- The calls of a pass that prepares and draws each element of a list with
the program `programIndex`: no call of `UpdateController`, and the draws with
the program `index` are those of the list when `index` is the program of the
pass and none otherwise. -/
theorem Event.filterMap_flatMap_Render {α : Type} (f : α → Nat) (l : List α)
    (programIndex index : Nat) :
    (l.flatMap (fun a => [Event.PrepareToRender (f a), Event.Render (f a) programIndex])).filterMap
        Event.update = [] ∧
    (l.flatMap (fun a => [Event.PrepareToRender (f a), Event.Render (f a) programIndex])).filterMap
        (Event.draw index) = if programIndex = index then l.map f else [] := by
  induction l with
  | nil => simp
  | cons a t ih =>
    by_cases h : programIndex = index
    · simpa [Event.update, Event.draw, h] using ih
    · simpa [Event.update, Event.draw, h] using ih

/-- The number of calls of `UpdateController` for a controller. -/
theorem Event.count_UpdateController (trace : List Event) (c : Nat) :
    trace.count (Event.UpdateController c) = (trace.filterMap Event.update).count c := by
  induction trace with
  | nil => rfl
  | cons e t ih =>
    cases e <;> simp [Event.update, List.count_cons, ih]

end TraceTheorems

section RenderWorldTheorems

variable {K : Type} [LinearOrderedField K]

/-! ### The stages of `RenderWorld` -/

/-- The calls made up to the end of the loop that updates the controllers. -/
theorem WorldManager.RenderWorld.updated_trace (InverseSqrt : K → K)
    (MakeRotation : K → Vector3D K → Matrix3D K) (deltaTime : K) (w : WorldManager K)
    (hnodup : w.controllerList.Nodup) :
    (WorldManager.RenderWorld.updated InverseSqrt MakeRotation deltaTime w).2
      = w.controllerList.map Event.MoveController
        ++ (w.controllerList.filter (fun c =>
            (WorldManager.RenderWorld.propagated InverseSqrt MakeRotation deltaTime
              w).updateFlagAt c)).map Event.UpdateController := by
  unfold WorldManager.RenderWorld.updated
  rw [WorldManager.RenderWorld.UpdateControllers_trace _ hnodup]
  unfold WorldManager.RenderWorld.moved
  rw [WorldManager.RenderWorld.MoveControllers_trace]
  rfl

/-- The controllers after the loop that updates the controllers. -/
theorem WorldManager.RenderWorld.updated_controllerAt (InverseSqrt : K → K)
    (MakeRotation : K → Vector3D K → Matrix3D K) (deltaTime : K) (w : WorldManager K)
    (hnodup : w.controllerList.Nodup) (c : Nat) :
    (WorldManager.RenderWorld.updated InverseSqrt MakeRotation deltaTime w).1.controllerAt c
      = if c ∈ w.controllerList ∧
            (WorldManager.RenderWorld.propagated InverseSqrt MakeRotation deltaTime
              w).updateFlagAt c = true then
          ((WorldManager.RenderWorld.propagated InverseSqrt MakeRotation deltaTime
              w).controllerAt c).map
            (fun controller =>
              Controller.UpdateController { controller with updateFlag := false })
        else (WorldManager.RenderWorld.propagated InverseSqrt MakeRotation deltaTime
              w).controllerAt c := by
  unfold WorldManager.RenderWorld.updated
  rw [WorldManager.RenderWorld.UpdateControllers_controllerAt _ hnodup]

/-- A controller of a class of the source is, at the update step, as it was
when `RenderWorld` was called. -/
theorem WorldManager.RenderWorld.propagated_controllerAt (InverseSqrt : K → K)
    (MakeRotation : K → Vector3D K → Matrix3D K) (deltaTime : K) (w : WorldManager K)
    (c : Nat) (controller : Controller K) (h : w.rootNode.controllerAt c = some controller)
    (hs : controller.controllerClass.shipped = true) :
    (WorldManager.RenderWorld.propagated InverseSqrt MakeRotation deltaTime w).controllerAt c
      = some controller := by
  unfold WorldManager.RenderWorld.propagated WorldManager.RenderWorld.moved
  rw [Node.UpdateNode_controllerAt]
  exact WorldManager.RenderWorld.MoveControllers_controllerAt MakeRotation deltaTime _ _ c
    controller h hs

/-- The function `RenderWorld` changes nothing of the world manager but the
tree. -/
theorem WorldManager.RenderWorld_lists (InverseSqrt : K → K)
    (MakeRotation : K → Vector3D K → Matrix3D K) (deltaTime : K) (w : WorldManager K) :
    (WorldManager.RenderWorld InverseSqrt MakeRotation deltaTime w).world.cameraNode
      = w.cameraNode ∧
    (WorldManager.RenderWorld InverseSqrt MakeRotation deltaTime w).world.controllerList
      = w.controllerList := by
  unfold WorldManager.RenderWorld
  split
  · rename_i h
    exact ⟨h.symm ▸ rfl, rfl⟩
  · simp only []
    split <;> exact ⟨rfl, rfl⟩

/-- With an active camera, the controllers after `RenderWorld` are those after
the loop that updates the controllers. -/
theorem WorldManager.RenderWorld_controllerAt (InverseSqrt : K → K)
    (MakeRotation : K → Vector3D K → Matrix3D K) (deltaTime : K) (w : WorldManager K)
    (cam : Nat) (hcam : w.cameraNode = some cam) (c : Nat) :
    (WorldManager.RenderWorld InverseSqrt MakeRotation deltaTime w).world.rootNode.controllerAt c
      = (WorldManager.RenderWorld.updated InverseSqrt MakeRotation deltaTime
          w).1.controllerAt c := by
  unfold WorldManager.RenderWorld
  rw [hcam]
  simp only []
  split
  · exact WorldManager.RenderWorld.CalculateOccluderPlanes_controllerAt _ _ _ c
  · rfl

/-- With an active camera, the calls of `UpdateController` of `RenderWorld` are
those of the loop that updates the controllers. -/
theorem WorldManager.RenderWorld_trace_update (InverseSqrt : K → K)
    (MakeRotation : K → Vector3D K → Matrix3D K) (deltaTime : K) (w : WorldManager K)
    (cam : Nat) (hcam : w.cameraNode = some cam) (hnodup : w.controllerList.Nodup) :
    (WorldManager.RenderWorld InverseSqrt MakeRotation deltaTime w).trace.filterMap Event.update
      = w.controllerList.filter (fun c =>
          (WorldManager.RenderWorld.propagated InverseSqrt MakeRotation deltaTime
            w).updateFlagAt c) := by
  have hupdated : (WorldManager.RenderWorld.updated InverseSqrt MakeRotation deltaTime
        w).2.filterMap Event.update
      = w.controllerList.filter (fun c =>
          (WorldManager.RenderWorld.propagated InverseSqrt MakeRotation deltaTime
            w).updateFlagAt c) := by
    rw [WorldManager.RenderWorld.updated_trace _ _ _ _ hnodup, List.filterMap_append,
      (Event.filterMap_map_MoveController _ 0).1, (Event.filterMap_map_UpdateController _ 0).1,
      List.nil_append]
  unfold WorldManager.RenderWorld
  rw [hcam]
  simp only []
  split
  · simp only [WorldManager.RenderWorld.LightPasses_eq, WorldManager.RenderWorld.AmbientPass_eq,
      WorldManager.RenderWorld.CalculateOccluderPlanes_trace, List.filterMap_append,
      (Event.filterMap_map_CalculateOccluderPlanes _ 0).1,
      (Event.filterMap_flatMap_Render (fun g : Nat => g) _ 0 0).1,
      (Event.filterMap_flatMap_Render (fun p : Nat × Nat => p.2) _ 1 0).1, List.append_nil,
      hupdated]
  · exact hupdated

end RenderWorldTheorems

section RenderPassTheorems

variable {K : Type} [LinearOrderedField K]

/-! ### The passes of `RenderWorld` -/

/-- The tests of the passes, made on the tree after the loops over the
controllers and the occluders, have the results they have on the tree those
loops started from. -/
theorem WorldManager.RenderWorld.occluded_tests (eye camera : FrustumCamera K)
    (controllers occluders : List Nat) (state : Node K × List Event) :
    (fun g => (WorldManager.RenderWorld.CalculateOccluderPlanes eye occluders
        (WorldManager.RenderWorld.UpdateControllers controllers state)).1.GeometryVisibleAt
          camera g)
      = (fun g => state.1.GeometryVisibleAt camera g) ∧
    (fun l => (WorldManager.RenderWorld.CalculateOccluderPlanes eye occluders
        (WorldManager.RenderWorld.UpdateControllers controllers state)).1.PointLightVisibleAt
          camera l)
      = (fun l => state.1.PointLightVisibleAt camera l) ∧
    (fun l g => (WorldManager.RenderWorld.CalculateOccluderPlanes eye occluders
        (WorldManager.RenderWorld.UpdateControllers controllers
          state)).1.GeometryIlluminatedAt l g)
      = (fun l g => state.1.GeometryIlluminatedAt l g) := by
  refine ⟨?_, ?_, ?_⟩
  · funext g
    rw [Node.GeometryVisibleAt_eq, Node.GeometryVisibleAt_eq,
      WorldManager.RenderWorld.CalculateOccluderPlanes_dataAt eye _
        (NodeData.CalculateOccluderPlanes_GeometryVisible camera eye),
      WorldManager.RenderWorld.UpdateControllers_dataAt _
        (NodeData.UpdateControllerStep_GeometryVisible camera)]
  · funext l
    rw [Node.PointLightVisibleAt_eq, Node.PointLightVisibleAt_eq,
      WorldManager.RenderWorld.CalculateOccluderPlanes_dataAt eye _
        (NodeData.CalculateOccluderPlanes_LightVisible camera eye),
      WorldManager.RenderWorld.UpdateControllers_dataAt _
        (NodeData.UpdateControllerStep_LightVisible camera)]
  · funext l g
    rw [Node.GeometryIlluminatedAt_eq, Node.GeometryIlluminatedAt_eq,
      WorldManager.RenderWorld.CalculateOccluderPlanes_dataAt eye (fun _ => ())
        (fun _ => rfl),
      WorldManager.RenderWorld.CalculateOccluderPlanes_dataAt eye (fun _ => ())
        (fun _ => rfl),
      WorldManager.RenderWorld.UpdateControllers_dataAt (fun _ => ()) (fun _ => rfl),
      WorldManager.RenderWorld.UpdateControllers_dataAt (fun _ => ()) (fun _ => rfl)]

/-- A call of `RenderWorld` whose active camera is, after transform
propagation, the frustum camera `camera`: the visible set, the three counts
and the calls, in terms of the tree after transform propagation. -/
theorem WorldManager.RenderWorld_frustum (InverseSqrt : K → K)
    (MakeRotation : K → Vector3D K → Matrix3D K) (deltaTime : K) (w : WorldManager K)
    (cam : Nat) (camera : FrustumCamera K) (hcam : w.cameraNode = some cam)
    (hfrustum :
      ((WorldManager.RenderWorld.propagated InverseSqrt MakeRotation deltaTime w).dataAt
        cam).map NodeData.nodeClass = some (.frustumCamera camera)) :
    (WorldManager.RenderWorld InverseSqrt MakeRotation deltaTime w).visibleGeometryArray
      = w.geometryList.filter (fun g =>
          (WorldManager.RenderWorld.propagated InverseSqrt MakeRotation deltaTime
            w).GeometryVisibleAt camera g) ∧
    (WorldManager.RenderWorld InverseSqrt MakeRotation deltaTime w).ambientDrawCount
      = (WorldManager.RenderWorld InverseSqrt MakeRotation deltaTime
          w).visibleGeometryArray.length ∧
    (WorldManager.RenderWorld InverseSqrt MakeRotation deltaTime w).lightDrawCount
      = ((WorldManager.RenderWorld.propagated InverseSqrt MakeRotation deltaTime
          w).illuminatedPairs camera w.lightList
            (WorldManager.RenderWorld InverseSqrt MakeRotation deltaTime
              w).visibleGeometryArray).length ∧
    (WorldManager.RenderWorld InverseSqrt MakeRotation deltaTime w).lightSourceCount
      = (w.lightList.filter (fun l =>
          (WorldManager.RenderWorld.propagated InverseSqrt MakeRotation deltaTime
            w).PointLightVisibleAt camera l)).length ∧
    (WorldManager.RenderWorld InverseSqrt MakeRotation deltaTime w).trace
      = (WorldManager.RenderWorld.updated InverseSqrt MakeRotation deltaTime w).2
        ++ w.occluderList.map Event.CalculateOccluderPlanes
        ++ ((WorldManager.RenderWorld InverseSqrt MakeRotation deltaTime
              w).visibleGeometryArray.flatMap
            (fun g => [Event.PrepareToRender g, Event.Render g 0])
          ++ ((WorldManager.RenderWorld.propagated InverseSqrt MakeRotation deltaTime
                w).illuminatedPairs camera w.lightList
                  (WorldManager.RenderWorld InverseSqrt MakeRotation deltaTime
                    w).visibleGeometryArray).flatMap
              (fun pair => [Event.PrepareToRender pair.2, Event.Render pair.2 1])) := by
  have hclass : ((WorldManager.RenderWorld.updated InverseSqrt MakeRotation deltaTime
      w).1.dataAt cam).map NodeData.nodeClass = some (.frustumCamera camera) := by
    unfold WorldManager.RenderWorld.updated
    rw [WorldManager.RenderWorld.UpdateControllers_dataAt NodeData.nodeClass (fun _ => rfl)]
    exact hfrustum
  obtain ⟨hv, hl, hi⟩ := WorldManager.RenderWorld.occluded_tests camera camera
    w.controllerList w.occluderList
    (WorldManager.RenderWorld.propagated InverseSqrt MakeRotation deltaTime w,
      (WorldManager.RenderWorld.moved MakeRotation deltaTime w).2)
  unfold WorldManager.RenderWorld
  rw [hcam]
  simp only [hclass, WorldManager.RenderWorld.LightPasses_eq,
    WorldManager.RenderWorld.AmbientPass_eq, WorldManager.RenderWorld.CalculateOccluderPlanes_trace,
    Node.illuminatedPairs, List.nil_append, Nat.zero_add]
  unfold WorldManager.RenderWorld.updated
  simp only [hv, hl, hi, List.append_assoc, and_self]

end RenderPassTheorems

section DrawTheorems

variable {K : Type}

/-- The loop that updates the controllers draws nothing. -/
theorem WorldManager.RenderWorld.UpdateControllers_draw (programIndex : Nat) (l : List Nat) :
    ∀ (state : Node K × List Event),
      (WorldManager.RenderWorld.UpdateControllers l state).2.filterMap
          (Event.draw programIndex)
        = state.2.filterMap (Event.draw programIndex) := by
  induction l with
  | nil => intro state; rfl
  | cons a t ih =>
    intro state
    unfold WorldManager.RenderWorld.UpdateControllers
    split_ifs
    · rw [ih]
      simp [Event.draw]
    · rw [ih]

end DrawTheorems

section StageDrawTheorems

variable {K : Type} [LinearOrderedField K]

/-- Nothing is drawn up to the end of the loop that updates the controllers. -/
theorem WorldManager.RenderWorld.updated_draw (InverseSqrt : K → K)
    (MakeRotation : K → Vector3D K → Matrix3D K) (deltaTime : K) (w : WorldManager K)
    (programIndex : Nat) :
    (WorldManager.RenderWorld.updated InverseSqrt MakeRotation deltaTime w).2.filterMap
        (Event.draw programIndex) = [] := by
  unfold WorldManager.RenderWorld.updated
  rw [WorldManager.RenderWorld.UpdateControllers_draw]
  unfold WorldManager.RenderWorld.moved
  rw [WorldManager.RenderWorld.MoveControllers_trace]
  exact (Event.filterMap_map_MoveController _ programIndex).2

end StageDrawTheorems

section RenderClaims

variable {K : Type} [LinearOrderedField K]

/-! ### `RenderWorld` without an active camera (C15) -/

/-- C15: when the world manager has no active camera, `RenderWorld` reports
the three counts zero, calls no controller hook and no graphics function, and
leaves the world manager with its tree, so every local transform, world
transform and update flag, as it was. -/
theorem WorldManager.RenderWorld_without_camera (InverseSqrt : K → K)
    (MakeRotation : K → Vector3D K → Matrix3D K) (deltaTime : K) (w : WorldManager K)
    (hcam : w.cameraNode = none) :
    (WorldManager.RenderWorld InverseSqrt MakeRotation deltaTime w).ambientDrawCount = 0 ∧
    (WorldManager.RenderWorld InverseSqrt MakeRotation deltaTime w).lightDrawCount = 0 ∧
    (WorldManager.RenderWorld InverseSqrt MakeRotation deltaTime w).lightSourceCount = 0 ∧
    (WorldManager.RenderWorld InverseSqrt MakeRotation deltaTime w).trace = [] ∧
    (WorldManager.RenderWorld InverseSqrt MakeRotation deltaTime w).world = w := by
  unfold WorldManager.RenderWorld
  rw [hcam]
  exact ⟨rfl, rfl, rfl, rfl, rfl⟩

/-- Witness for C15: a freshly constructed world manager has no active camera,
as when `RenderWorld` is called before `PreprocessWorld`; on `worldScene` the
call reports zero counts, makes no call and changes nothing. -/
theorem WorldManager.RenderWorld_without_camera_witness :
    (WorldManager.new worldScene).cameraNode = none ∧
    (WorldManager.RenderWorld InverseSqrtRat MakeRotationZero 0
      (WorldManager.new worldScene)).ambientDrawCount = 0 ∧
    (WorldManager.RenderWorld InverseSqrtRat MakeRotationZero 0
      (WorldManager.new worldScene)).lightDrawCount = 0 ∧
    (WorldManager.RenderWorld InverseSqrtRat MakeRotationZero 0
      (WorldManager.new worldScene)).lightSourceCount = 0 ∧
    (WorldManager.RenderWorld InverseSqrtRat MakeRotationZero 0
      (WorldManager.new worldScene)).trace = [] ∧
    (WorldManager.RenderWorld InverseSqrtRat MakeRotationZero 0
      (WorldManager.new worldScene)).world = WorldManager.new worldScene :=
  ⟨rfl, WorldManager.RenderWorld_without_camera InverseSqrtRat MakeRotationZero 0
    (WorldManager.new worldScene) rfl⟩

/-! ### The ambient pass (C16) -/

/-- C16: in a call of `RenderWorld` whose active camera is, after transform
propagation, the frustum camera `camera`, the visible set at the end is the
geometry list filtered, in order, by `GeometryVisible(camera)` evaluated on the
tree after transform propagation; it is a sublist of the geometry list;
`ambientDrawCount` is its length, a natural number that is at most the length
of the geometry list; and the draws with program 0 are, in order, one for each
member of the visible set. -/
theorem WorldManager.RenderWorld_ambient (InverseSqrt : K → K)
    (MakeRotation : K → Vector3D K → Matrix3D K) (deltaTime : K) (w : WorldManager K)
    (cam : Nat) (camera : FrustumCamera K) (hcam : w.cameraNode = some cam)
    (hfrustum :
      ((WorldManager.RenderWorld.propagated InverseSqrt MakeRotation deltaTime w).dataAt
        cam).map NodeData.nodeClass = some (.frustumCamera camera)) :
    (WorldManager.RenderWorld InverseSqrt MakeRotation deltaTime w).visibleGeometryArray
      = w.geometryList.filter (fun g =>
          (WorldManager.RenderWorld.propagated InverseSqrt MakeRotation deltaTime
            w).GeometryVisibleAt camera g) ∧
    (WorldManager.RenderWorld InverseSqrt MakeRotation deltaTime
      w).visibleGeometryArray.Sublist w.geometryList ∧
    (WorldManager.RenderWorld InverseSqrt MakeRotation deltaTime w).ambientDrawCount
      = (WorldManager.RenderWorld InverseSqrt MakeRotation deltaTime
          w).visibleGeometryArray.length ∧
    (WorldManager.RenderWorld InverseSqrt MakeRotation deltaTime w).ambientDrawCount
      ≤ w.geometryList.length ∧
    (WorldManager.RenderWorld InverseSqrt MakeRotation deltaTime w).trace.filterMap
        (Event.draw 0)
      = (WorldManager.RenderWorld InverseSqrt MakeRotation deltaTime
          w).visibleGeometryArray := by
  obtain ⟨hv, ha, -, -, ht⟩ := WorldManager.RenderWorld_frustum InverseSqrt MakeRotation
    deltaTime w cam camera hcam hfrustum
  have hsub : (WorldManager.RenderWorld InverseSqrt MakeRotation deltaTime
      w).visibleGeometryArray.Sublist w.geometryList := by
    rw [hv]
    exact List.filter_sublist _
  refine ⟨hv, hsub, ha, ?_, ?_⟩
  · rw [ha]
    exact hsub.length_le
  · rw [ht]
    simp only [List.filterMap_append, WorldManager.RenderWorld.updated_draw,
      (Event.filterMap_map_CalculateOccluderPlanes _ 0).2,
      (Event.filterMap_flatMap_Render (fun g : Nat => g) _ 0 0).2,
      (Event.filterMap_flatMap_Render (fun p : Nat × Nat => p.2) _ 1 0).2]
    simp

end RenderClaims

section SceneTheorems

/-! ### The world `preprocessedWorld` -/

/-- The lists and the camera of `preprocessedWorld`. -/
theorem preprocessedWorld_index :
    preprocessedWorld.geometryList = [4, 9, 10, 11] ∧
    preprocessedWorld.lightList = [5, 6] ∧
    preprocessedWorld.occluderList = [7] ∧
    preprocessedWorld.controllerList = [4, 5] ∧
    preprocessedWorld.cameraNode = some 2 ∧
    preprocessedWorld.fogNode = some 8 :=
  ⟨rfl, rfl, rfl, rfl, rfl, rfl⟩

/-- The planes of `mainCamera`: `(3/5, 0, 4/5, 0)`, `(-3/5, 0, 4/5, 0)`,
`(0, 3/5, 4/5, 0)`, `(0, -3/5, 4/5, 0)` and `(0, 0, 1, -1/8)`. -/
theorem mainCamera_planes :
    mainCamera.worldFrustumPlane 0 = ⟨3 / 5, 0, 4 / 5, 0⟩ ∧
    mainCamera.worldFrustumPlane 1 = ⟨-3 / 5, 0, 4 / 5, 0⟩ ∧
    mainCamera.worldFrustumPlane 2 = ⟨0, 3 / 5, 4 / 5, 0⟩ ∧
    mainCamera.worldFrustumPlane 3 = ⟨0, -3 / 5, 4 / 5, 0⟩ ∧
    mainCamera.worldFrustumPlane 4 = ⟨0, 0, 1, -1 / 8⟩ := by
  refine ⟨?_, ?_, ?_, ?_, ?_⟩ <;>
    simp [mainCamera, FrustumCamera.UpdatePlanes, FrustumCamera.cameraPlane,
      sampleCamera, Transform4D.identity, Transform4D.mul, Transform4D.Inverse,
      Plane.mulTransform, Transform4D.col, Vector3D.Cross, Vector3D.Dot, Vector3D.scale] <;>
    norm_num [InverseSqrtRat_sampleCamera]

/-- The sphere test of `mainCamera` in coordinates. -/
theorem mainCamera_SphereVisible_iff (c : Point3D ℚ) (r : ℚ) :
    mainCamera.SphereVisible c r = true ↔
      -r ≤ 3 / 5 * c.x + 4 / 5 * c.z ∧ -r ≤ -3 / 5 * c.x + 4 / 5 * c.z ∧
      -r ≤ 3 / 5 * c.y + 4 / 5 * c.z ∧ -r ≤ -3 / 5 * c.y + 4 / 5 * c.z ∧
      -r ≤ c.z - 1 / 8 := by
  rw [FrustumCamera.SphereVisible_eq_true_iff]
  obtain ⟨h0, h1, h2, h3, h4⟩ := mainCamera_planes
  constructor
  · intro h
    have a0 := h 0
    have a1 := h 1
    have a2 := h 2
    have a3 := h 3
    have a4 := h 4
    rw [h0] at a0
    rw [h1] at a1
    rw [h2] at a2
    rw [h3] at a3
    rw [h4] at a4
    simp only [Plane.DotPoint] at a0 a1 a2 a3 a4
    refine ⟨by linarith, by linarith, by linarith, by linarith, by linarith⟩
  · rintro ⟨a0, a1, a2, a3, a4⟩ k
    fin_cases k
    · show -r ≤ (mainCamera.worldFrustumPlane 0).DotPoint c
      rw [h0]; simp only [Plane.DotPoint]; linarith
    · show -r ≤ (mainCamera.worldFrustumPlane 1).DotPoint c
      rw [h1]; simp only [Plane.DotPoint]; linarith
    · show -r ≤ (mainCamera.worldFrustumPlane 2).DotPoint c
      rw [h2]; simp only [Plane.DotPoint]; linarith
    · show -r ≤ (mainCamera.worldFrustumPlane 3).DotPoint c
      rw [h3]; simp only [Plane.DotPoint]; linarith
    · show -r ≤ (mainCamera.worldFrustumPlane 4).DotPoint c
      rw [h4]; simp only [Plane.DotPoint]; linarith

/-- In `preprocessedWorld`, rendered with `deltaTime = 0`, the camera `main` is
`mainCamera` after transform propagation; the mesh, the sphere in front of the
camera and the text are visible and the sphere behind the camera is not; the
point light is visible and the infinite light fails the test of the light
loop; and the point light illuminates the three visible geometry nodes. -/
theorem preprocessedWorld_tests :
    ((WorldManager.RenderWorld.propagated InverseSqrtRat MakeRotationZero 0
      preprocessedWorld).dataAt 2).map NodeData.nodeClass
        = some (.frustumCamera mainCamera) ∧
    (fun g => (WorldManager.RenderWorld.propagated InverseSqrtRat MakeRotationZero 0
      preprocessedWorld).GeometryVisibleAt mainCamera g) 4 = true ∧
    (fun g => (WorldManager.RenderWorld.propagated InverseSqrtRat MakeRotationZero 0
      preprocessedWorld).GeometryVisibleAt mainCamera g) 9 = true ∧
    (fun g => (WorldManager.RenderWorld.propagated InverseSqrtRat MakeRotationZero 0
      preprocessedWorld).GeometryVisibleAt mainCamera g) 10 = false ∧
    (fun g => (WorldManager.RenderWorld.propagated InverseSqrtRat MakeRotationZero 0
      preprocessedWorld).GeometryVisibleAt mainCamera g) 11 = true ∧
    (fun l => (WorldManager.RenderWorld.propagated InverseSqrtRat MakeRotationZero 0
      preprocessedWorld).PointLightVisibleAt mainCamera l) 5 = true ∧
    (fun l => (WorldManager.RenderWorld.propagated InverseSqrtRat MakeRotationZero 0
      preprocessedWorld).PointLightVisibleAt mainCamera l) 6 = false ∧
    (fun g => (WorldManager.RenderWorld.propagated InverseSqrtRat MakeRotationZero 0
      preprocessedWorld).GeometryIlluminatedAt 5 g) 4 = true ∧
    (fun g => (WorldManager.RenderWorld.propagated InverseSqrtRat MakeRotationZero 0
      preprocessedWorld).GeometryIlluminatedAt 5 g) 9 = true ∧
    (fun g => (WorldManager.RenderWorld.propagated InverseSqrtRat MakeRotationZero 0
      preprocessedWorld).GeometryIlluminatedAt 5 g) 11 = true := by
  have d9 : (WorldManager.RenderWorld.propagated InverseSqrtRat MakeRotationZero 0
      preprocessedWorld).dataAt 9 = some ⟨.sphereGeometry 1, "ball", translation 0 0 4, none,
        Transformable.SetWorldTransform (Transform4D.identity.mul (translation 0 0 4))⟩ := rfl
  have d10 : (WorldManager.RenderWorld.propagated InverseSqrtRat MakeRotationZero 0
      preprocessedWorld).dataAt 10 = some ⟨.sphereGeometry 1, "behind", translation 0 0 (-4),
        none,
        Transformable.SetWorldTransform (Transform4D.identity.mul (translation 0 0 (-4)))⟩ :=
    rfl
  have d5 : (WorldManager.RenderWorld.propagated InverseSqrtRat MakeRotationZero 0
      preprocessedWorld).dataAt 5 = some ⟨.pointLight 1, "lamp",
        (translation 0 0 2).SetTranslation
          ((MakeRotationZero (0 * (1 / 5)) ⟨0, 0, 1⟩).mulPoint (translation 0 0 2).GetTranslation),
        some ⟨.lightController ⟨0, 0, 1⟩, false⟩,
        Transformable.SetWorldTransform (Transform4D.identity.mul
          ((translation 0 0 2).SetTranslation
            ((MakeRotationZero (0 * (1 / 5)) ⟨0, 0, 1⟩).mulPoint
              (translation 0 0 2).GetTranslation)))⟩ := rfl
  refine ⟨rfl, rfl, ?_, ?_, rfl, ?_, rfl, rfl, rfl, rfl⟩
  · show Node.GeometryVisibleAt _ mainCamera 9 = true
    unfold Node.GeometryVisibleAt
    rw [d9]
    show mainCamera.SphereVisible _ _ = true
    rw [mainCamera_SphereVisible_iff]
    simp [NodeData.GetWorldPosition, Transformable.SetWorldTransform, Transform4D.mul,
      Transform4D.identity, translation, Transform4D.GetTranslation]
    norm_num
  · show Node.GeometryVisibleAt _ mainCamera 10 = false
    unfold Node.GeometryVisibleAt
    rw [d10]
    show mainCamera.SphereVisible _ _ = false
    rw [← Bool.not_eq_true, mainCamera_SphereVisible_iff]
    simp [NodeData.GetWorldPosition, Transformable.SetWorldTransform, Transform4D.mul,
      Transform4D.identity, translation, Transform4D.GetTranslation]
    norm_num
  · show Node.PointLightVisibleAt _ mainCamera 5 = true
    unfold Node.PointLightVisibleAt
    rw [d5]
    show (decide (kLightPoint = kLightPoint) && mainCamera.SphereVisible _ _) = true
    rw [decide_eq_true rfl, Bool.true_and, mainCamera_SphereVisible_iff]
    simp [NodeData.GetWorldPosition, Transformable.SetWorldTransform, Transform4D.mul,
      Transform4D.identity, translation, Transform4D.GetTranslation,
      Transform4D.SetTranslation, MakeRotationZero, Matrix3D.mulPoint]
    norm_num

end SceneTheorems

section LightPassClaims

variable {K : Type} [LinearOrderedField K]

/-- Witness for C16: in `preprocessedWorld`, whose geometry list is the mesh 4,
the spheres 9 and 10 and the text 11, the visible set is 4, 9, 11, the sphere
behind the camera being culled; `ambientDrawCount` is 3; and the draws with
program 0 are those of 4, 9 and 11. -/
theorem WorldManager.RenderWorld_ambient_witness :
    (WorldManager.RenderWorld InverseSqrtRat MakeRotationZero 0
      preprocessedWorld).visibleGeometryArray = [4, 9, 11] ∧
    (WorldManager.RenderWorld InverseSqrtRat MakeRotationZero 0
      preprocessedWorld).ambientDrawCount = 3 ∧
    (WorldManager.RenderWorld InverseSqrtRat MakeRotationZero 0
      preprocessedWorld).trace.filterMap (Event.draw 0) = [4, 9, 11] := by
  obtain ⟨hcamera, h4, h9, h10, h11, -⟩ := preprocessedWorld_tests
  obtain ⟨hv, -, ha, -, ht⟩ := WorldManager.RenderWorld_ambient InverseSqrtRat MakeRotationZero
    0 preprocessedWorld 2 mainCamera rfl hcamera
  have hvisible : (WorldManager.RenderWorld InverseSqrtRat MakeRotationZero 0
      preprocessedWorld).visibleGeometryArray = [4, 9, 11] := by
    rw [hv, preprocessedWorld_index.1]
    simp only [List.filter, h4, h9, h10, h11]
  refine ⟨hvisible, ?_, ?_⟩
  · rw [ha, hvisible]
    rfl
  · rw [ht, hvisible]

/-! ### The light passes (C17) -/

/-- C17: in a call of `RenderWorld` whose active camera is, after transform
propagation, the frustum camera `camera`, `lightSourceCount` is the number of
lights of the light list whose light type is `kLightPoint` and for which
`LightVisible(camera)` is true, on the tree after transform propagation, so an
infinite light is never counted; `lightDrawCount` is the number of pairs of
such a light and a member of the visible set that `GeometryIlluminated` of the
light accepts; and the draws with program 1 are, in order, one for each such
pair. -/
theorem WorldManager.RenderWorld_light (InverseSqrt : K → K)
    (MakeRotation : K → Vector3D K → Matrix3D K) (deltaTime : K) (w : WorldManager K)
    (cam : Nat) (camera : FrustumCamera K) (hcam : w.cameraNode = some cam)
    (hfrustum :
      ((WorldManager.RenderWorld.propagated InverseSqrt MakeRotation deltaTime w).dataAt
        cam).map NodeData.nodeClass = some (.frustumCamera camera)) :
    (WorldManager.RenderWorld InverseSqrt MakeRotation deltaTime w).lightSourceCount
      = (w.lightList.filter (fun l =>
          (WorldManager.RenderWorld.propagated InverseSqrt MakeRotation deltaTime
            w).PointLightVisibleAt camera l)).length ∧
    (WorldManager.RenderWorld InverseSqrt MakeRotation deltaTime w).lightDrawCount
      = ((WorldManager.RenderWorld.propagated InverseSqrt MakeRotation deltaTime
          w).illuminatedPairs camera w.lightList
            (WorldManager.RenderWorld InverseSqrt MakeRotation deltaTime
              w).visibleGeometryArray).length ∧
    (WorldManager.RenderWorld InverseSqrt MakeRotation deltaTime w).trace.filterMap
        (Event.draw 1)
      = ((WorldManager.RenderWorld.propagated InverseSqrt MakeRotation deltaTime
          w).illuminatedPairs camera w.lightList
            (WorldManager.RenderWorld InverseSqrt MakeRotation deltaTime
              w).visibleGeometryArray).map (fun pair => pair.2) ∧
    (∀ (light geometry : Nat),
      (light, geometry) ∈ (WorldManager.RenderWorld.propagated InverseSqrt MakeRotation
          deltaTime w).illuminatedPairs camera w.lightList
            (WorldManager.RenderWorld InverseSqrt MakeRotation deltaTime
              w).visibleGeometryArray ↔
        (light ∈ w.lightList ∧
          (WorldManager.RenderWorld.propagated InverseSqrt MakeRotation deltaTime
            w).PointLightVisibleAt camera light = true) ∧
        geometry ∈ (WorldManager.RenderWorld InverseSqrt MakeRotation deltaTime
            w).visibleGeometryArray ∧
        (WorldManager.RenderWorld.propagated InverseSqrt MakeRotation deltaTime
          w).GeometryIlluminatedAt light geometry = true) ∧
    (∀ (light : Nat) (d : NodeData K),
      (WorldManager.RenderWorld.propagated InverseSqrt MakeRotation deltaTime w).dataAt light
        = some d →
      (WorldManager.RenderWorld.propagated InverseSqrt MakeRotation deltaTime
          w).PointLightVisibleAt camera light
        = (decide (d.nodeClass.GetLightType = kLightPoint) && d.LightVisible camera)) ∧
    (∀ (light : Nat) (d : NodeData K),
      (WorldManager.RenderWorld.propagated InverseSqrt MakeRotation deltaTime w).dataAt light
        = some d →
      d.nodeClass = .infiniteLight →
      (WorldManager.RenderWorld.propagated InverseSqrt MakeRotation deltaTime
          w).PointLightVisibleAt camera light = false) := by
  obtain ⟨-, -, hd, hs, ht⟩ := WorldManager.RenderWorld_frustum InverseSqrt MakeRotation
    deltaTime w cam camera hcam hfrustum
  refine ⟨hs, hd, ?_, ?_, ?_, ?_⟩
  · rw [ht]
    simp only [List.filterMap_append, WorldManager.RenderWorld.updated_draw,
      (Event.filterMap_map_CalculateOccluderPlanes _ 1).2,
      (Event.filterMap_flatMap_Render (fun g : Nat => g) _ 0 1).2,
      (Event.filterMap_flatMap_Render (fun p : Nat × Nat => p.2) _ 1 1).2]
    simp
  · intro light geometry
    simp only [Node.illuminatedPairs, List.mem_flatMap, List.mem_filter, List.mem_map,
      Prod.mk.injEq]
    constructor
    · rintro ⟨l, hl, g, hg, rfl, rfl⟩
      exact ⟨hl, hg⟩
    · rintro ⟨hl, hg⟩
      exact ⟨light, hl, geometry, hg, rfl, rfl⟩
  · intro light d hlight
    unfold Node.PointLightVisibleAt
    rw [hlight]
  · intro light d hlight hclass
    unfold Node.PointLightVisibleAt
    rw [hlight]
    simp [hclass, NodeClass.GetLightType, kLightPoint, kLightInfinite]

/-- Witness for C17: in `preprocessedWorld`, whose light list is the point
light 5 and the infinite light 6, `lightSourceCount` is 1, `lightDrawCount` is
3, and the draws with program 1 are those of the visible geometry nodes 4, 9
and 11. -/
theorem WorldManager.RenderWorld_light_witness :
    (WorldManager.RenderWorld InverseSqrtRat MakeRotationZero 0
      preprocessedWorld).lightSourceCount = 1 ∧
    (WorldManager.RenderWorld InverseSqrtRat MakeRotationZero 0
      preprocessedWorld).lightDrawCount = 3 ∧
    (WorldManager.RenderWorld InverseSqrtRat MakeRotationZero 0
      preprocessedWorld).trace.filterMap (Event.draw 1) = [4, 9, 11] := by
  obtain ⟨hcamera, h4, h9, h10, h11, h5, h6, i4, i9, i11⟩ := preprocessedWorld_tests
  obtain ⟨hs, hd, ht, -⟩ := WorldManager.RenderWorld_light InverseSqrtRat MakeRotationZero
    0 preprocessedWorld 2 mainCamera rfl hcamera
  have hvisible : (WorldManager.RenderWorld InverseSqrtRat MakeRotationZero 0
      preprocessedWorld).visibleGeometryArray = [4, 9, 11] := by
    rw [(WorldManager.RenderWorld_frustum InverseSqrtRat MakeRotationZero 0 preprocessedWorld 2
      mainCamera rfl hcamera).1, preprocessedWorld_index.1]
    simp only [List.filter, h4, h9, h10, h11]
  have hpairs : (WorldManager.RenderWorld.propagated InverseSqrtRat MakeRotationZero 0
      preprocessedWorld).illuminatedPairs mainCamera preprocessedWorld.lightList
        (WorldManager.RenderWorld InverseSqrtRat MakeRotationZero 0
          preprocessedWorld).visibleGeometryArray = [(5, 4), (5, 9), (5, 11)] := by
    rw [hvisible, preprocessedWorld_index.2.1]
    simp only [Node.illuminatedPairs, List.filter, h5, h6, i4, i9, i11, List.flatMap_cons,
      List.flatMap_nil, List.map_cons, List.map_nil, List.append_nil]
  refine ⟨?_, ?_, ?_⟩
  · rw [hs, preprocessedWorld_index.2.1]
    simp only [List.filter, h5, h6, List.length_cons, List.length_nil]
  · rw [hd, hpairs]
    rfl
  · rw [ht, hpairs]
    rfl

end LightPassClaims

section FrameTheorems

variable {K : Type} [LinearOrderedField K]

/-! ### Frames -/

/-- The frames unrolled at the last frame. -/
theorem WorldManager.RenderWorldFrames_succ (InverseSqrt : K → K)
    (MakeRotation : K → Vector3D K → Matrix3D K) (deltaTime : K) (count : Nat) :
    ∀ (w : WorldManager K),
      WorldManager.RenderWorldFrames InverseSqrt MakeRotation deltaTime (count + 1) w
        = (WorldManager.RenderWorld InverseSqrt MakeRotation deltaTime
            (WorldManager.RenderWorldFrames InverseSqrt MakeRotation deltaTime count w)).world := by
  induction count with
  | zero => intro w; rfl
  | succ n ih =>
    intro w
    rw [WorldManager.RenderWorldFrames, ih]
    rfl

/-- The frames keep the active camera and the controller list. -/
theorem WorldManager.RenderWorldFrames_lists (InverseSqrt : K → K)
    (MakeRotation : K → Vector3D K → Matrix3D K) (deltaTime : K) (count : Nat) :
    ∀ (w : WorldManager K),
      (WorldManager.RenderWorldFrames InverseSqrt MakeRotation deltaTime count w).cameraNode
        = w.cameraNode ∧
      (WorldManager.RenderWorldFrames InverseSqrt MakeRotation deltaTime count w).controllerList
        = w.controllerList := by
  induction count with
  | zero => intro w; exact ⟨rfl, rfl⟩
  | succ n ih =>
    intro w
    rw [WorldManager.RenderWorldFrames]
    obtain ⟨h1, h2⟩ := ih (WorldManager.RenderWorld InverseSqrt MakeRotation deltaTime w).world
    obtain ⟨h3, h4⟩ := WorldManager.RenderWorld_lists InverseSqrt MakeRotation deltaTime w
    exact ⟨h1.trans h3, h2.trans h4⟩

/-- After a call of `RenderWorld` with an active camera, the update flag of a
registered controller of a class of the source is false. -/
theorem WorldManager.RenderWorld_updateFlag_of_shipped (InverseSqrt : K → K)
    (MakeRotation : K → Vector3D K → Matrix3D K) (deltaTime : K) (w : WorldManager K)
    (cam : Nat) (hcam : w.cameraNode = some cam) (hnodup : w.controllerList.Nodup)
    (c : Nat) (hc : c ∈ w.controllerList) (controller : Controller K)
    (h : (WorldManager.RenderWorld InverseSqrt MakeRotation deltaTime
      w).world.rootNode.controllerAt c = some controller)
    (hs : controller.controllerClass.shipped = true) :
    controller.updateFlag = false := by
  rw [WorldManager.RenderWorld_controllerAt _ _ _ _ cam hcam,
    WorldManager.RenderWorld.updated_controllerAt _ _ _ _ hnodup] at h
  by_cases hflag : (WorldManager.RenderWorld.propagated InverseSqrt MakeRotation deltaTime
      w).updateFlagAt c = true
  · rw [if_pos ⟨hc, hflag⟩] at h
    cases hp : (WorldManager.RenderWorld.propagated InverseSqrt MakeRotation deltaTime
        w).controllerAt c with
    | none => rw [hp] at h; simp at h
    | some before =>
      rw [hp] at h
      simp only [Option.map_some', Option.some.injEq] at h
      have hclass : controller.controllerClass = before.controllerClass := by
        rw [← h, Controller.UpdateController_controllerClass]
      rw [Controller.UpdateController_of_shipped _ (by rw [← hclass]; exact hs)] at h
      rw [← h]
  · rw [if_neg (fun hh => hflag hh.2)] at h
    rw [Node.updateFlagAt_eq, h] at hflag
    simpa using hflag

/-- A call of `RenderWorld` with an active camera leaves a registered
controller of a class of the source as it was, the update flag cleared. -/
theorem WorldManager.RenderWorld_controllerAt_of_shipped (InverseSqrt : K → K)
    (MakeRotation : K → Vector3D K → Matrix3D K) (deltaTime : K) (w : WorldManager K)
    (cam : Nat) (hcam : w.cameraNode = some cam) (hnodup : w.controllerList.Nodup)
    (c : Nat) (hc : c ∈ w.controllerList) (controller : Controller K)
    (h : w.rootNode.controllerAt c = some controller)
    (hs : controller.controllerClass.shipped = true) :
    (WorldManager.RenderWorld InverseSqrt MakeRotation deltaTime w).world.rootNode.controllerAt c
      = some { controller with updateFlag := false } := by
  have hp := WorldManager.RenderWorld.propagated_controllerAt InverseSqrt MakeRotation
    deltaTime w c controller h hs
  rw [WorldManager.RenderWorld_controllerAt _ _ _ _ cam hcam,
    WorldManager.RenderWorld.updated_controllerAt _ _ _ _ hnodup, hp]
  by_cases hflag : (WorldManager.RenderWorld.propagated InverseSqrt MakeRotation deltaTime
      w).updateFlagAt c = true
  · rw [if_pos ⟨hc, hflag⟩]
    simp only [Option.map_some']
    rw [Controller.UpdateController_of_shipped { controller with updateFlag := false } hs]
  · rw [if_neg (fun hh => hflag hh.2)]
    rw [Node.updateFlagAt_eq, hp] at hflag
    have hfalse : controller.updateFlag = false := by simpa using hflag
    obtain ⟨cls, flag⟩ := controller
    simp only at hfalse
    rw [hfalse]

/-- In a call of `RenderWorld` with an active camera, `UpdateController` is not
called for a controller of a class of the source whose update flag is false
when `RenderWorld` is called. -/
theorem WorldManager.RenderWorld_not_updated (InverseSqrt : K → K)
    (MakeRotation : K → Vector3D K → Matrix3D K) (deltaTime : K) (w : WorldManager K)
    (cam : Nat) (hcam : w.cameraNode = some cam) (hnodup : w.controllerList.Nodup)
    (c : Nat) (controller : Controller K)
    (h : w.rootNode.controllerAt c = some controller)
    (hs : controller.controllerClass.shipped = true) (hflag : controller.updateFlag = false) :
    (WorldManager.RenderWorld.propagated InverseSqrt MakeRotation deltaTime w).updateFlagAt c
      = false ∧
    c ∉ (WorldManager.RenderWorld InverseSqrt MakeRotation deltaTime w).trace.filterMap
      Event.update := by
  have hp := WorldManager.RenderWorld.propagated_controllerAt InverseSqrt MakeRotation
    deltaTime w c controller h hs
  have hf : (WorldManager.RenderWorld.propagated InverseSqrt MakeRotation deltaTime
      w).updateFlagAt c = false := by
    rw [Node.updateFlagAt_eq, hp]
    exact hflag
  refine ⟨hf, ?_⟩
  rw [WorldManager.RenderWorld_trace_update _ _ _ _ cam hcam hnodup, List.mem_filter]
  intro hh
  rw [hf] at hh
  exact Bool.false_ne_true hh.2

end FrameTheorems

section UpdateClaims

variable {K : Type} [LinearOrderedField K]

/-! ### The update step (C18) -/

/-- C18: in a call of `RenderWorld` with an active camera, on a controller list
that holds no controller twice, the calls of `UpdateController` are, in the
order of the list and once each, those for the registered controllers whose
update flag is set after all `MoveController` calls and after transform
propagation; when the call returns, the update flag of every registered
controller of a class of the source (base, light, skin) is false; and after
any number of further calls of `RenderWorld`, with nothing else writing the
flags, it is still false and the next call of `RenderWorld` does not call
`UpdateController` for that controller. -/
theorem WorldManager.RenderWorld_UpdateController (InverseSqrt : K → K)
    (MakeRotation : K → Vector3D K → Matrix3D K) (deltaTime : K) (w : WorldManager K)
    (cam : Nat) (hcam : w.cameraNode = some cam) (hnodup : w.controllerList.Nodup) :
    (WorldManager.RenderWorld InverseSqrt MakeRotation deltaTime w).trace.filterMap Event.update
      = w.controllerList.filter (fun c =>
          (WorldManager.RenderWorld.propagated InverseSqrt MakeRotation deltaTime
            w).updateFlagAt c) ∧
    ((WorldManager.RenderWorld InverseSqrt MakeRotation deltaTime w).trace.filterMap
      Event.update).Nodup ∧
    (∀ c ∈ w.controllerList, ∀ controller : Controller K,
      (WorldManager.RenderWorld InverseSqrt MakeRotation deltaTime
        w).world.rootNode.controllerAt c = some controller →
      controller.controllerClass.shipped = true → controller.updateFlag = false) ∧
    (∀ (count : Nat), ∀ c ∈ w.controllerList, ∀ controller : Controller K,
      (WorldManager.RenderWorldFrames InverseSqrt MakeRotation deltaTime (count + 1)
        w).rootNode.controllerAt c = some controller →
      controller.controllerClass.shipped = true →
      controller.updateFlag = false ∧
      c ∉ (WorldManager.RenderWorld InverseSqrt MakeRotation deltaTime
        (WorldManager.RenderWorldFrames InverseSqrt MakeRotation deltaTime (count + 1)
          w)).trace.filterMap Event.update) := by
  have htrace := WorldManager.RenderWorld_trace_update InverseSqrt MakeRotation deltaTime w
    cam hcam hnodup
  refine ⟨htrace, ?_, ?_, ?_⟩
  · rw [htrace]
    exact hnodup.filter _
  · intro c hc controller h hs
    exact WorldManager.RenderWorld_updateFlag_of_shipped InverseSqrt MakeRotation deltaTime w
      cam hcam hnodup c hc controller h hs
  · intro count c hc controller h hs
    obtain ⟨hcam1, hlist1⟩ := WorldManager.RenderWorldFrames_lists InverseSqrt MakeRotation
      deltaTime count w
    obtain ⟨hcam2, hlist2⟩ := WorldManager.RenderWorldFrames_lists InverseSqrt MakeRotation
      deltaTime (count + 1) w
    have hflag : controller.updateFlag = false := by
      rw [WorldManager.RenderWorldFrames_succ] at h
      exact WorldManager.RenderWorld_updateFlag_of_shipped InverseSqrt MakeRotation deltaTime
        _ cam (hcam1.trans hcam) (hlist1 ▸ hnodup) c (hlist1 ▸ hc) controller h hs
    exact ⟨hflag, (WorldManager.RenderWorld_not_updated InverseSqrt MakeRotation deltaTime _
      cam (hcam2.trans hcam) (hlist2 ▸ hnodup) c controller h hs hflag).2⟩

/-- Witness for C18: in `preprocessedWorld`, whose controllers are the skin
controller 4, with its update flag set, and the light controller 5, with its
update flag clear, `UpdateController` is called for 4 only, and after the call
both update flags are false. -/
theorem WorldManager.RenderWorld_UpdateController_witness :
    (WorldManager.RenderWorld InverseSqrtRat MakeRotationZero 0
      preprocessedWorld).trace.filterMap Event.update = [4] ∧
    (WorldManager.RenderWorld InverseSqrtRat MakeRotationZero 0
      preprocessedWorld).world.rootNode.updateFlagAt 4 = false ∧
    (WorldManager.RenderWorld InverseSqrtRat MakeRotationZero 0
      preprocessedWorld).world.rootNode.updateFlagAt 5 = false := by
  have hnodup : preprocessedWorld.controllerList.Nodup := by
    rw [preprocessedWorld_index.2.2.2.1]
    decide
  obtain ⟨h, -⟩ := WorldManager.RenderWorld_UpdateController InverseSqrtRat MakeRotationZero
    0 preprocessedWorld 2 rfl hnodup
  have f4 : (fun c => (WorldManager.RenderWorld.propagated InverseSqrtRat MakeRotationZero 0
      preprocessedWorld).updateFlagAt c) 4 = true := rfl
  have f5 : (fun c => (WorldManager.RenderWorld.propagated InverseSqrtRat MakeRotationZero 0
      preprocessedWorld).updateFlagAt c) 5 = false := rfl
  refine ⟨?_, rfl, rfl⟩
  rw [h, preprocessedWorld_index.2.2.2.1]
  simp only [List.filter, f4, f5]

/-! ### The update flag after the update step (C19) -/

/-- C19 (amended): for a registered controller whose update flag is set at the
update step of a call of `RenderWorld` with an active camera, `UpdateController`
is called once, and when the call returns the controller is what
`UpdateController` makes of the controller with the flag cleared: the flag is
cleared before the hook runs, not after it.  So the flag is false for a
controller of a class of the source, and for a controller of another class it
is the value its `UpdateController` leaves when it finds the flag false. -/
theorem WorldManager.RenderWorld_updateFlag (InverseSqrt : K → K)
    (MakeRotation : K → Vector3D K → Matrix3D K) (deltaTime : K) (w : WorldManager K)
    (cam : Nat) (hcam : w.cameraNode = some cam) (hnodup : w.controllerList.Nodup)
    (c : Nat) (hc : c ∈ w.controllerList) (controller : Controller K)
    (hcontroller : (WorldManager.RenderWorld.propagated InverseSqrt MakeRotation deltaTime
      w).controllerAt c = some controller)
    (hflag : controller.updateFlag = true) :
    (WorldManager.RenderWorld InverseSqrt MakeRotation deltaTime w).trace.count
      (Event.UpdateController c) = 1 ∧
    (WorldManager.RenderWorld InverseSqrt MakeRotation deltaTime w).world.rootNode.controllerAt c
      = some (Controller.UpdateController { controller with updateFlag := false }) ∧
    (controller.controllerClass.shipped = true →
      (WorldManager.RenderWorld InverseSqrt MakeRotation deltaTime
        w).world.rootNode.updateFlagAt c = false) ∧
    (∀ (moveController updateController : Bool → Bool),
      controller.controllerClass = .userController moveController updateController →
      (WorldManager.RenderWorld InverseSqrt MakeRotation deltaTime
        w).world.rootNode.updateFlagAt c = updateController false) := by
  have hf : (WorldManager.RenderWorld.propagated InverseSqrt MakeRotation deltaTime
      w).updateFlagAt c = true := by
    rw [Node.updateFlagAt_eq, hcontroller]
    exact hflag
  have hfinal : (WorldManager.RenderWorld InverseSqrt MakeRotation deltaTime
      w).world.rootNode.controllerAt c
      = some (Controller.UpdateController { controller with updateFlag := false }) := by
    rw [WorldManager.RenderWorld_controllerAt _ _ _ _ cam hcam,
      WorldManager.RenderWorld.updated_controllerAt _ _ _ _ hnodup, if_pos ⟨hc, hf⟩,
      hcontroller]
    rfl
  refine ⟨?_, hfinal, ?_, ?_⟩
  · rw [Event.count_UpdateController,
      WorldManager.RenderWorld_trace_update _ _ _ _ cam hcam hnodup]
    exact List.count_eq_one_of_mem (hnodup.filter _) (List.mem_filter.mpr ⟨hc, hf⟩)
  · intro hs
    rw [Node.updateFlagAt_eq, hfinal,
      Controller.UpdateController_of_shipped { controller with updateFlag := false } hs]
  · intro moveController updateController hclass
    rw [Node.updateFlagAt_eq, hfinal]
    obtain ⟨cls, flag⟩ := controller
    simp only at hclass
    subst hclass
    rfl

/-- Witness for C19 (amended): in `flagWorld` the controller 1, of a class
whose `UpdateController` sets the update flag, has its flag set at the update
step; `UpdateController` is called once for it and the flag is true when
`RenderWorld` returns. -/
theorem WorldManager.RenderWorld_updateFlag_witness :
    (WorldManager.RenderWorld InverseSqrtRat MakeRotationZero 0 flagWorld).trace.count
      (Event.UpdateController 1) = 1 ∧
    (WorldManager.RenderWorld InverseSqrtRat MakeRotationZero 0
      flagWorld).world.rootNode.updateFlagAt 1 = true :=
  have hnodup : flagWorld.controllerList.Nodup := by
    rw [show flagWorld.controllerList = [1] from rfl]
    decide
  have h := WorldManager.RenderWorld_updateFlag InverseSqrtRat MakeRotationZero 0 flagWorld 0
    rfl hnodup 1 (by rw [show flagWorld.controllerList = [1] from rfl]; decide)
    ⟨.userController (fun flag => flag) (fun _ => true), true⟩ rfl rfl
  ⟨h.1, h.2.2.2 (fun flag => flag) (fun _ => true) rfl⟩

/-- Counterexample to C19: in `flagWorld` the active camera is set and the
controller 1 is registered with its update flag set at the update step; its
`UpdateController`, which sets the update flag, is called in the update step;
and once `RenderWorld` has returned, the update flag is true, not false. -/
theorem WorldManager.RenderWorld_updateFlag_counterexample :
    flagWorld.cameraNode = some 0 ∧
    flagWorld.controllerList = [1] ∧
    (WorldManager.RenderWorld.propagated InverseSqrtRat MakeRotationZero 0
      flagWorld).updateFlagAt 1 = true ∧
    (WorldManager.RenderWorld InverseSqrtRat MakeRotationZero 0 flagWorld).trace
      = [Event.MoveController 1, Event.UpdateController 1] ∧
    (WorldManager.RenderWorld InverseSqrtRat MakeRotationZero 0
      flagWorld).world.rootNode.updateFlagAt 1 = true :=
  ⟨rfl, rfl, rfl, rfl, rfl⟩

/-! ### The skin controller (C20) -/

/-- C20 (amended): for a registered skin controller whose update flag is set,
as its constructor leaves it, in a world with an active camera, the flag is set
at the update step of the first call of `RenderWorld` and `UpdateController` is
called once in that call; in every later call, with nothing else writing the
flag, the flag is false at the update step and `UpdateController` is not
called. -/
theorem WorldManager.RenderWorld_SkinController (InverseSqrt : K → K)
    (MakeRotation : K → Vector3D K → Matrix3D K) (deltaTime : K) (w : WorldManager K)
    (cam : Nat) (hcam : w.cameraNode = some cam) (hnodup : w.controllerList.Nodup)
    (c : Nat) (hc : c ∈ w.controllerList)
    (hskin : w.rootNode.controllerAt c = some ⟨.skinController, true⟩) :
    (WorldManager.RenderWorld.propagated InverseSqrt MakeRotation deltaTime w).updateFlagAt c
      = true ∧
    (WorldManager.RenderWorld InverseSqrt MakeRotation deltaTime w).trace.count
      (Event.UpdateController c) = 1 ∧
    (∀ count : Nat,
      (WorldManager.RenderWorld.propagated InverseSqrt MakeRotation deltaTime
        (WorldManager.RenderWorldFrames InverseSqrt MakeRotation deltaTime (count + 1)
          w)).updateFlagAt c = false ∧
      (WorldManager.RenderWorld InverseSqrt MakeRotation deltaTime
        (WorldManager.RenderWorldFrames InverseSqrt MakeRotation deltaTime (count + 1)
          w)).trace.count (Event.UpdateController c) = 0) := by
  have hp := WorldManager.RenderWorld.propagated_controllerAt InverseSqrt MakeRotation
    deltaTime w c ⟨.skinController, true⟩ hskin rfl
  have hf : (WorldManager.RenderWorld.propagated InverseSqrt MakeRotation deltaTime
      w).updateFlagAt c = true := by
    rw [Node.updateFlagAt_eq, hp]
  refine ⟨hf, ?_, ?_⟩
  · rw [Event.count_UpdateController,
      WorldManager.RenderWorld_trace_update _ _ _ _ cam hcam hnodup]
    exact List.count_eq_one_of_mem (hnodup.filter _) (List.mem_filter.mpr ⟨hc, hf⟩)
  · have hinv : ∀ count : Nat, ∃ flag : Bool,
        (WorldManager.RenderWorldFrames InverseSqrt MakeRotation deltaTime count
          w).rootNode.controllerAt c = some ⟨.skinController, flag⟩ := by
      intro count
      induction count with
      | zero => exact ⟨true, hskin⟩
      | succ n ih =>
        obtain ⟨flag, hn⟩ := ih
        obtain ⟨hcam1, hlist1⟩ := WorldManager.RenderWorldFrames_lists InverseSqrt
          MakeRotation deltaTime n w
        refine ⟨false, ?_⟩
        rw [WorldManager.RenderWorldFrames_succ]
        exact WorldManager.RenderWorld_controllerAt_of_shipped InverseSqrt MakeRotation
          deltaTime _ cam (hcam1.trans hcam) (hlist1 ▸ hnodup) c (hlist1 ▸ hc)
          ⟨.skinController, flag⟩ hn rfl
    intro count
    obtain ⟨flag, hn⟩ := hinv count
    obtain ⟨hcam1, hlist1⟩ := WorldManager.RenderWorldFrames_lists InverseSqrt MakeRotation
      deltaTime count w
    obtain ⟨hcam2, hlist2⟩ := WorldManager.RenderWorldFrames_lists InverseSqrt MakeRotation
      deltaTime (count + 1) w
    have hnext : (WorldManager.RenderWorldFrames InverseSqrt MakeRotation deltaTime (count + 1)
        w).rootNode.controllerAt c = some ⟨.skinController, false⟩ := by
      rw [WorldManager.RenderWorldFrames_succ]
      exact WorldManager.RenderWorld_controllerAt_of_shipped InverseSqrt MakeRotation
        deltaTime _ cam (hcam1.trans hcam) (hlist1 ▸ hnodup) c (hlist1 ▸ hc)
        ⟨.skinController, flag⟩ hn rfl
    obtain ⟨h1, h2⟩ := WorldManager.RenderWorld_not_updated InverseSqrt MakeRotation deltaTime
      _ cam (hcam2.trans hcam) (hlist2 ▸ hnodup) c ⟨.skinController, false⟩ hnext rfl rfl
    refine ⟨h1, ?_⟩
    rw [Event.count_UpdateController]
    exact List.count_eq_zero_of_not_mem h2

/-- Witness for C20 (amended): in `skinWorld`, whose controller 1 is a skin
controller with its update flag set, `UpdateController` is called once in the
first call of `RenderWorld`; at the update step of the second call the flag is
false and `UpdateController` is not called. -/
theorem WorldManager.RenderWorld_SkinController_witness :
    (WorldManager.RenderWorld.propagated InverseSqrtRat MakeRotationZero 0
      skinWorld).updateFlagAt 1 = true ∧
    (WorldManager.RenderWorld InverseSqrtRat MakeRotationZero 0 skinWorld).trace.count
      (Event.UpdateController 1) = 1 ∧
    (WorldManager.RenderWorld.propagated InverseSqrtRat MakeRotationZero 0
      (WorldManager.RenderWorldFrames InverseSqrtRat MakeRotationZero 0 1
        skinWorld)).updateFlagAt 1 = false ∧
    (WorldManager.RenderWorld InverseSqrtRat MakeRotationZero 0
      (WorldManager.RenderWorldFrames InverseSqrtRat MakeRotationZero 0 1
        skinWorld)).trace.count (Event.UpdateController 1) = 0 :=
  have hnodup : skinWorld.controllerList.Nodup := by
    rw [show skinWorld.controllerList = [1] from rfl]
    decide
  have h := WorldManager.RenderWorld_SkinController InverseSqrtRat MakeRotationZero 0 skinWorld
    0 rfl hnodup 1 (by rw [show skinWorld.controllerList = [1] from rfl]; decide) rfl
  ⟨h.1, h.2.1, h.2.2 0⟩

/-- Counterexample to C20: in `skinWorld` the skin controller 1 is registered by
`PreprocessWorld` and the active camera is set; the first call of `RenderWorld`
calls `UpdateController`; at the update step of the second call the update flag
is false, and the second call moves the controller and draws the mesh but does
not call `UpdateController`. -/
theorem WorldManager.RenderWorld_SkinController_counterexample :
    skinWorld.cameraNode = some 0 ∧
    skinWorld.controllerList = [1] ∧
    skinWorld.rootNode.controllerAt 1 = some ⟨.skinController, true⟩ ∧
    (WorldManager.RenderWorld InverseSqrtRat MakeRotationZero 0 skinWorld).trace
      = [Event.MoveController 1, Event.UpdateController 1, Event.PrepareToRender 1,
          Event.Render 1 0] ∧
    (WorldManager.RenderWorld.propagated InverseSqrtRat MakeRotationZero 0
      (WorldManager.RenderWorld InverseSqrtRat MakeRotationZero 0
        skinWorld).world).updateFlagAt 1 = false ∧
    (WorldManager.RenderWorld InverseSqrtRat MakeRotationZero 0
      (WorldManager.RenderWorld InverseSqrtRat MakeRotationZero 0 skinWorld).world).trace
      = [Event.MoveController 1, Event.PrepareToRender 1, Event.Render 1 0] :=
  ⟨rfl, rfl, rfl, rfl, rfl, rfl⟩

end UpdateClaims

section AgreementTheorems

variable {K : Type} [LinearOrderedField K]

/-- The call `LightVisible` on the members of a node is the call on the node. -/
theorem Node.data_LightVisible (light : Node K) (camera : FrustumCamera K) :
    light.data.LightVisible camera = light.LightVisible camera := by
  obtain ⟨cls, name, t, ctrl, w, subs⟩ := light
  cases cls <;> rfl

end AgreementTheorems

section CameraTypeTheorems

variable {K : Type}

/-- The camera type read through a pointer, in terms of the proper
descendants. -/
theorem Node.dataAt_GetCameraType (root : Node K) (j : Nat) :
    (root.dataAt j).map (fun d => d.nodeClass.GetCameraType)
      = (root.descendants.map Node.GetCameraType)[j]? := by
  unfold Node.dataAt Node.dataList
  simp only [List.getElem?_map]
  cases root.descendants[j]? with
  | none => rfl
  | some node => cases node; rfl

/-- A node whose camera type is `kCameraFrustum` is a frustum camera. -/
theorem NodeClass.eq_frustumCamera_of_GetCameraType (c : NodeClass K)
    (h : c.GetCameraType = kCameraFrustum) : ∃ camera, c = .frustumCamera camera := by
  cases c <;> simp [NodeClass.GetCameraType, kCameraFrustum, kCameraOrtho] at h
  exact ⟨_, rfl⟩

end CameraTypeTheorems

section ActiveCameraTheorems

variable {K : Type} [LinearOrderedField K]

/-! ### The active camera after transform propagation -/

/-- The hook `MoveController` keeps the class of the node. -/
theorem NodeData.MoveController_nodeClass (MakeRotation : K → Vector3D K → Matrix3D K)
    (deltaTime : K) (d : NodeData K) :
    (NodeData.MoveController MakeRotation deltaTime d).nodeClass = d.nodeClass := by
  unfold NodeData.MoveController
  split <;> rfl

/-- The loop that moves the controllers keeps every value of the members that
`MoveController` keeps. -/
theorem WorldManager.RenderWorld.MoveControllers_dataAt {β : Type}
    (MakeRotation : K → Vector3D K → Matrix3D K) (deltaTime : K) (F : NodeData K → β)
    (hF : ∀ d, F (NodeData.MoveController MakeRotation deltaTime d) = F d) (l : List Nat) :
    ∀ (state : Node K × List Event) (j : Nat),
      ((WorldManager.RenderWorld.MoveControllers MakeRotation deltaTime l state).1.dataAt
        j).map F = (state.1.dataAt j).map F := by
  induction l with
  | nil => intro state j; rfl
  | cons a t ih =>
    intro state j
    unfold WorldManager.RenderWorld.MoveControllers
    rw [ih, Node.dataAt_map_modifyDescendant F _ hF]

/-- The call `UpdateNode` keeps the camera type of the node. -/
theorem Node.UpdateNode_GetCameraType (InverseSqrt : K → K)
    (superNode : Option (Transform4D K)) (node : Node K) :
    (node.UpdateNode InverseSqrt superNode).GetCameraType = node.GetCameraType := by
  cases node with
  | mk c name t ctrl w subs =>
    cases c <;> cases superNode <;> rfl

/-- The loop `UpdateSubnodes` keeps the camera types of the nodes of the trees
of the list, in pre-order; by induction on a bound `n` for the number of those
nodes. -/
theorem Node.UpdateSubnodes_GetCameraType (InverseSqrt : K → K) (n : Nat) :
    ∀ (subs : List (Node K)), (Node.preorderOfList subs).length ≤ n →
      ∀ (superWorld : Transform4D K),
        (Node.preorderOfList (Node.UpdateSubnodes InverseSqrt superWorld subs)).map
            Node.GetCameraType
          = (Node.preorderOfList subs).map Node.GetCameraType := by
  induction n with
  | zero =>
    intro subs hlen superWorld
    cases subs with
    | nil => rfl
    | cons node rest => simp [Node.preorderOfList] at hlen
  | succ n ih =>
    intro subs hlen superWorld
    cases subs with
    | nil => rfl
    | cons node rest =>
      simp only [Node.preorderOfList, List.length_cons, List.length_append] at hlen
      have h1 := ih node.subnodes (by rw [← Node.descendants_eq]; omega)
        (Node.expectedWorld (some superWorld) node.nodeTransform)
      have h2 := ih rest (by omega) superWorld
      simp only [Node.UpdateSubnodes, Node.preorderOfList, List.map_cons, List.map_append,
        Node.UpdateNode_GetCameraType]
      rw [Node.descendants_eq (Node.UpdateNode InverseSqrt (some superWorld) node),
        Node.UpdateNode_subnodes, h1, h2, ← Node.descendants_eq]

/-- A pointer that refers to a camera of the frustum type when `RenderWorld` is
called refers to a frustum camera after transform propagation. -/
theorem WorldManager.RenderWorld.propagated_frustumCamera (InverseSqrt : K → K)
    (MakeRotation : K → Vector3D K → Matrix3D K) (deltaTime : K) (w : WorldManager K)
    (cam : Nat) (node : Node K) (hnode : w.rootNode.descendants[cam]? = some node)
    (htype : node.GetCameraType = kCameraFrustum) :
    ∃ camera : FrustumCamera K,
      ((WorldManager.RenderWorld.propagated InverseSqrt MakeRotation deltaTime w).dataAt
        cam).map NodeData.nodeClass = some (.frustumCamera camera) := by
  have h1 : ((WorldManager.RenderWorld.propagated InverseSqrt MakeRotation deltaTime
      w).dataAt cam).map (fun d => d.nodeClass.GetCameraType) = some kCameraFrustum := by
    unfold WorldManager.RenderWorld.propagated
    rw [Node.dataAt_GetCameraType, Node.descendants_eq (Node.UpdateNode _ _ _),
      Node.UpdateNode_subnodes,
      Node.UpdateSubnodes_GetCameraType InverseSqrt _ _ (le_refl _), ← Node.descendants_eq,
      ← Node.dataAt_GetCameraType]
    unfold WorldManager.RenderWorld.moved
    rw [WorldManager.RenderWorld.MoveControllers_dataAt MakeRotation deltaTime
      (fun d => d.nodeClass.GetCameraType)
      (fun d => by simp only [NodeData.MoveController_nodeClass]),
      Node.dataAt_GetCameraType, List.getElem?_map, hnode]
    simp [htype]
  cases hd : (WorldManager.RenderWorld.propagated InverseSqrt MakeRotation deltaTime
      w).dataAt cam with
  | none => rw [hd] at h1; simp at h1
  | some d =>
    rw [hd] at h1
    simp only [Option.map_some', Option.some.injEq] at h1
    obtain ⟨camera, hcamera⟩ := NodeClass.eq_frustumCamera_of_GetCameraType _ h1
    exact ⟨camera, by simp [hcamera]⟩

/-- The active camera that `PreprocessWorld` sets on a freshly constructed
world manager is a frustum camera after the transform propagation of
`RenderWorld`. -/
theorem WorldManager.PreprocessWorld_frustumCamera (InverseSqrt : K → K)
    (MakeRotation : K → Vector3D K → Matrix3D K) (deltaTime : K) (root : Node K) (cam : Nat)
    (hcam : (WorldManager.PreprocessWorld (WorldManager.new root)).1.cameraNode = some cam) :
    ∃ camera : FrustumCamera K,
      ((WorldManager.RenderWorld.propagated InverseSqrt MakeRotation deltaTime
        (WorldManager.PreprocessWorld (WorldManager.new root)).1).dataAt cam).map
          NodeData.nodeClass = some (.frustumCamera camera) := by
  rw [WorldManager.PreprocessWorld_cameraNode_eq] at hcam
  obtain ⟨⟨node, hnode, hp⟩, -⟩ := (Node.head?_pointers root _).2 cam hcam
  simp only [Bool.and_eq_true, decide_eq_true_eq] at hp
  exact WorldManager.RenderWorld.propagated_frustumCamera InverseSqrt MakeRotation deltaTime _
    cam node (by rw [WorldManager.PreprocessWorld_rootNode]; exact hnode) hp.2

/-- The controller list that `PreprocessWorld` builds on a freshly constructed
world manager holds no controller twice. -/
theorem WorldManager.PreprocessWorld_controllerList_nodup (root : Node K) :
    (WorldManager.PreprocessWorld (WorldManager.new root)).1.controllerList.Nodup := by
  rw [WorldManager.PreprocessWorld_controllerList]
  show ((root.pointers (fun n => n.nodeController.isSome)).foldl AppendListElement []).Nodup
  rw [foldl_AppendListElement_nil _ (Node.pointers_nodup _ _)]
  exact Node.pointers_nodup _ _

end ActiveCameraTheorems

section VertexParamTheorems

variable {K : Type} [LinearOrderedField K]

/-! ### Vertex parameters (C21, C22) -/

/-- The slots from 7 on are not written by `GeometryNode::PrepareToRender`. -/
theorem GeometryNode.PrepareToRender_vertexParam_of_le (viewProjectionMatrix : Matrix4D K)
    (geometry : Geometry K) (k : Fin 16) (hk : 7 ≤ k.val) :
    (GeometryNode.PrepareToRender viewProjectionMatrix geometry).renderable.vertexParam k
      = geometry.renderable.vertexParam k := by
  have h0 : k ≠ 0 := fun h => absurd (h ▸ hk) (by decide)
  have h1 : k ≠ 1 := fun h => absurd (h ▸ hk) (by decide)
  have h2 : k ≠ 2 := fun h => absurd (h ▸ hk) (by decide)
  have h3 : k ≠ 3 := fun h => absurd (h ▸ hk) (by decide)
  have h4 : k ≠ 4 := fun h => absurd (h ▸ hk) (by decide)
  have h5 : k ≠ 5 := fun h => absurd (h ▸ hk) (by decide)
  have h6 : k ≠ 6 := fun h => absurd (h ▸ hk) (by decide)
  simp [GeometryNode.PrepareToRender, Renderable.setVertexParam,
    Renderable.SetVertexParamCount, h0, h1, h2, h3, h4, h5, h6]

/-- C21: after `GeometryNode::PrepareToRender(VP)` the slots 0 to 3 hold the
rows 0 to 3 of `VP * worldTransform`, the slots 4 to 6 hold the rows 0 to 2 of
the world transform, the count is 7, the slots 7 to 15 are as they were, and
the members of the node, its transforms among them, are as they were. -/
theorem GeometryNode.PrepareToRender_vertexParam (viewProjectionMatrix : Matrix4D K)
    (geometry : Geometry K) :
    (GeometryNode.PrepareToRender viewProjectionMatrix geometry).renderable.vertexParam 0
      = (viewProjectionMatrix.mulTransform geometry.node.GetWorldTransform).row 0 ∧
    (GeometryNode.PrepareToRender viewProjectionMatrix geometry).renderable.vertexParam 1
      = (viewProjectionMatrix.mulTransform geometry.node.GetWorldTransform).row 1 ∧
    (GeometryNode.PrepareToRender viewProjectionMatrix geometry).renderable.vertexParam 2
      = (viewProjectionMatrix.mulTransform geometry.node.GetWorldTransform).row 2 ∧
    (GeometryNode.PrepareToRender viewProjectionMatrix geometry).renderable.vertexParam 3
      = (viewProjectionMatrix.mulTransform geometry.node.GetWorldTransform).row 3 ∧
    (GeometryNode.PrepareToRender viewProjectionMatrix geometry).renderable.vertexParam 4
      = geometry.node.GetWorldTransform.row 0 ∧
    (GeometryNode.PrepareToRender viewProjectionMatrix geometry).renderable.vertexParam 5
      = geometry.node.GetWorldTransform.row 1 ∧
    (GeometryNode.PrepareToRender viewProjectionMatrix geometry).renderable.vertexParam 6
      = geometry.node.GetWorldTransform.row 2 ∧
    (GeometryNode.PrepareToRender viewProjectionMatrix geometry).renderable.vertexParamCount
      = 7 ∧
    (∀ k : Fin 16, 7 ≤ k.val →
      (GeometryNode.PrepareToRender viewProjectionMatrix geometry).renderable.vertexParam k
        = geometry.renderable.vertexParam k) ∧
    (GeometryNode.PrepareToRender viewProjectionMatrix geometry).node = geometry.node :=
  ⟨rfl, rfl, rfl, rfl, rfl, rfl, rfl, rfl,
    GeometryNode.PrepareToRender_vertexParam_of_le viewProjectionMatrix geometry, rfl⟩

/-- C22 (amended): after `TextGeometry::PrepareToRender(VP)` the count is 5:
the slots 0 to 3 hold the four rows of `VP * worldTransform`, the slot 4 holds
the viewport size `(viewportWidth, viewportHeight, 0, 0)` in place of row 0 of
the world transform, the slots 5 and 6, which the count no longer covers, hold
the rows 1 and 2 of the world transform that the base function wrote, the
slots 7 to 15 are as they were, and the members of the node are as they
were. -/
theorem TextGeometry.PrepareToRender_viewport (viewportWidth viewportHeight : K)
    (viewProjectionMatrix : Matrix4D K) (geometry : Geometry K) :
    (TextGeometry.PrepareToRender viewportWidth viewportHeight viewProjectionMatrix
        geometry).renderable.vertexParamCount = 5 ∧
    (TextGeometry.PrepareToRender viewportWidth viewportHeight viewProjectionMatrix
        geometry).renderable.vertexParam 0
      = (viewProjectionMatrix.mulTransform geometry.node.GetWorldTransform).row 0 ∧
    (TextGeometry.PrepareToRender viewportWidth viewportHeight viewProjectionMatrix
        geometry).renderable.vertexParam 1
      = (viewProjectionMatrix.mulTransform geometry.node.GetWorldTransform).row 1 ∧
    (TextGeometry.PrepareToRender viewportWidth viewportHeight viewProjectionMatrix
        geometry).renderable.vertexParam 2
      = (viewProjectionMatrix.mulTransform geometry.node.GetWorldTransform).row 2 ∧
    (TextGeometry.PrepareToRender viewportWidth viewportHeight viewProjectionMatrix
        geometry).renderable.vertexParam 3
      = (viewProjectionMatrix.mulTransform geometry.node.GetWorldTransform).row 3 ∧
    (TextGeometry.PrepareToRender viewportWidth viewportHeight viewProjectionMatrix
        geometry).renderable.vertexParam 4
      = ⟨viewportWidth, viewportHeight, 0, 0⟩ ∧
    (TextGeometry.PrepareToRender viewportWidth viewportHeight viewProjectionMatrix
        geometry).renderable.vertexParam 5
      = geometry.node.GetWorldTransform.row 1 ∧
    (TextGeometry.PrepareToRender viewportWidth viewportHeight viewProjectionMatrix
        geometry).renderable.vertexParam 6
      = geometry.node.GetWorldTransform.row 2 ∧
    (∀ k : Fin 16, 7 ≤ k.val →
      (TextGeometry.PrepareToRender viewportWidth viewportHeight viewProjectionMatrix
          geometry).renderable.vertexParam k
        = geometry.renderable.vertexParam k) ∧
    (TextGeometry.PrepareToRender viewportWidth viewportHeight viewProjectionMatrix
        geometry).node = geometry.node := by
  refine ⟨rfl, rfl, rfl, rfl, rfl, rfl, rfl, rfl, ?_, rfl⟩
  intro k hk
  have h4 : k ≠ 4 := fun h => absurd (h ▸ hk) (by decide)
  have h := GeometryNode.PrepareToRender_vertexParam_of_le viewProjectionMatrix geometry k hk
  simp only [TextGeometry.PrepareToRender, Renderable.setVertexParam,
    Renderable.SetVertexParamCount, h4, if_false]
  exact h

/-- Counterexample to C22: for the text geometry `sampleText`, a viewport of
640 by 480 and the projection matrix of `sampleCamera`, the count after
`TextGeometry::PrepareToRender` is 5, not 8; the slot 7 is as it was, not the
viewport size; and the slot 4 holds the viewport size, not row 0 of the world
transform, which the base function had written there. -/
theorem TextGeometry.PrepareToRender_counterexample :
    (TextGeometry.PrepareToRender 640 480 sampleCamera.CalculateProjectionMatrix
      sampleText).renderable.vertexParamCount = 5 ∧
    (TextGeometry.PrepareToRender 640 480 sampleCamera.CalculateProjectionMatrix
      sampleText).renderable.vertexParamCount ≠ 8 ∧
    (TextGeometry.PrepareToRender 640 480 sampleCamera.CalculateProjectionMatrix
      sampleText).renderable.vertexParam 7 = ⟨0, 0, 0, 0⟩ ∧
    (TextGeometry.PrepareToRender 640 480 sampleCamera.CalculateProjectionMatrix
      sampleText).renderable.vertexParam 7 ≠ ⟨640, 480, 0, 0⟩ ∧
    (TextGeometry.PrepareToRender 640 480 sampleCamera.CalculateProjectionMatrix
      sampleText).renderable.vertexParam 4 = ⟨640, 480, 0, 0⟩ ∧
    (GeometryNode.PrepareToRender sampleCamera.CalculateProjectionMatrix
      sampleText).renderable.vertexParam 4 = ⟨1, 0, 0, 1⟩ ∧
    (TextGeometry.PrepareToRender 640 480 sampleCamera.CalculateProjectionMatrix
      sampleText).renderable.vertexParam 4
      ≠ (GeometryNode.PrepareToRender sampleCamera.CalculateProjectionMatrix
          sampleText).renderable.vertexParam 4 := by
  refine ⟨rfl, ?_, rfl, ?_, rfl, rfl, ?_⟩
  · show (5 : Int) ≠ 8
    decide
  · show (⟨0, 0, 0, 0⟩ : Vector4D ℚ) ≠ ⟨640, 480, 0, 0⟩
    intro h
    have hx := congrArg Vector4D.x h
    norm_num at hx
  · show (⟨640, 480, 0, 0⟩ : Vector4D ℚ) ≠ ⟨1, 0, 0, 1⟩
    intro h
    have hx := congrArg Vector4D.x h
    norm_num at hx

end VertexParamTheorems

section ProjectionTheorems

variable {K : Type} [LinearOrderedField K]

/-! ### The projection matrix (C25, C26) -/

/-- C25: the matrix of `FrustumCamera::CalculateProjectionMatrix` has the
entries `(0,0) = g/s`, `(1,1) = -g`, `(2,2) = 1 - 1/524288`,
`(2,3) = -n * (1 - 1/524288)`, `(3,2) = 1` and zero elsewhere; a view-space
point `(x, y, z, 1)` gets the clip coordinate `w = z` and the clip depth
`(1 - 1/524288) * (z - n)`; and for `n > 0` the depth divided by `w` is zero at
`z = n`, strictly increasing in `z` on the positive `z`, and strictly below
`1 - 1/524288` for every `z ≥ n`. -/
theorem FrustumCamera.CalculateProjectionMatrix_depth (camera : FrustumCamera K)
    (hn : 0 < camera.nearDepth) :
    camera.CalculateProjectionMatrix
      = ⟨camera.projectionDistance / camera.aspectRatio, 0, 0, 0,
          0, -camera.projectionDistance, 0, 0,
          0, 0, 1 - 1 / 524288, -camera.nearDepth * (1 - 1 / 524288),
          0, 0, 1, 0⟩ ∧
    (∀ x y z : K,
      (camera.CalculateProjectionMatrix.mulVector ⟨x, y, z, 1⟩).w = z ∧
      (camera.CalculateProjectionMatrix.mulVector ⟨x, y, z, 1⟩).z
        = (1 - 1 / 524288) * (z - camera.nearDepth)) ∧
    (∀ x y : K,
      (camera.CalculateProjectionMatrix.mulVector ⟨x, y, camera.nearDepth, 1⟩).z
        / (camera.CalculateProjectionMatrix.mulVector ⟨x, y, camera.nearDepth, 1⟩).w = 0) ∧
    (∀ x y x' y' z z' : K, 0 < z → z < z' →
      (camera.CalculateProjectionMatrix.mulVector ⟨x, y, z, 1⟩).z
          / (camera.CalculateProjectionMatrix.mulVector ⟨x, y, z, 1⟩).w
        < (camera.CalculateProjectionMatrix.mulVector ⟨x', y', z', 1⟩).z
          / (camera.CalculateProjectionMatrix.mulVector ⟨x', y', z', 1⟩).w) ∧
    (∀ x y z : K, camera.nearDepth ≤ z →
      (camera.CalculateProjectionMatrix.mulVector ⟨x, y, z, 1⟩).z
          / (camera.CalculateProjectionMatrix.mulVector ⟨x, y, z, 1⟩).w
        < 1 - 1 / 524288) := by
  have hmatrix : camera.CalculateProjectionMatrix
      = ⟨camera.projectionDistance / camera.aspectRatio, 0, 0, 0,
          0, -camera.projectionDistance, 0, 0,
          0, 0, 1 - 1 / 524288, -camera.nearDepth * (1 - 1 / 524288),
          0, 0, 1, 0⟩ := rfl
  have hclip : ∀ x y z : K,
      (camera.CalculateProjectionMatrix.mulVector ⟨x, y, z, 1⟩).w = z ∧
      (camera.CalculateProjectionMatrix.mulVector ⟨x, y, z, 1⟩).z
        = (1 - 1 / 524288) * (z - camera.nearDepth) := by
    intro x y z
    rw [hmatrix]
    constructor
    · simp [Matrix4D.mulVector]
    · simp only [Matrix4D.mulVector]
      ring
  have heps : (0 : K) < 1 - 1 / 524288 := by norm_num
  refine ⟨hmatrix, hclip, ?_, ?_, ?_⟩
  · intro x y
    rw [(hclip x y camera.nearDepth).1, (hclip x y camera.nearDepth).2]
    simp
  · intro x y x' y' z z' hz hzz'
    have hz' : 0 < z' := lt_trans hz hzz'
    rw [(hclip x y z).1, (hclip x y z).2, (hclip x' y' z').1, (hclip x' y' z').2]
    rw [div_lt_div_iff₀ hz hz']
    have h1 : (1 - 1 / 524288) * (z' - camera.nearDepth) * z
        - (1 - 1 / 524288) * (z - camera.nearDepth) * z'
        = (1 - 1 / 524288) * (camera.nearDepth * (z' - z)) := by ring
    have h2 : 0 < (1 - 1 / 524288) * (camera.nearDepth * (z' - z)) :=
      mul_pos heps (mul_pos hn (sub_pos.mpr hzz'))
    linarith
  · intro x y z hz
    have hz0 : 0 < z := lt_of_lt_of_le hn hz
    rw [(hclip x y z).1, (hclip x y z).2, div_lt_iff₀ hz0]
    have h2 : 0 < (1 - 1 / 524288) * camera.nearDepth := mul_pos heps hn
    have h1 : (1 - 1 / 524288) * z - (1 - 1 / 524288) * (z - camera.nearDepth)
        = (1 - 1 / 524288) * camera.nearDepth := by ring
    linarith

/-- Witness for C25: `sampleCamera` has the near depth `1/8`; its matrix has
`(0,0) = 3/4`, `(1,1) = -3/4`, and the point `(0, 0, 1/8, 1)` on the near plane
gets the depth zero. -/
theorem FrustumCamera.CalculateProjectionMatrix_depth_witness :
    sampleCamera.CalculateProjectionMatrix
      = ⟨sampleCamera.projectionDistance / sampleCamera.aspectRatio, 0, 0, 0,
          0, -sampleCamera.projectionDistance, 0, 0,
          0, 0, 1 - 1 / 524288, -sampleCamera.nearDepth * (1 - 1 / 524288),
          0, 0, 1, 0⟩ ∧
    (sampleCamera.CalculateProjectionMatrix.mulVector ⟨0, 0, sampleCamera.nearDepth, 1⟩).z
      / (sampleCamera.CalculateProjectionMatrix.mulVector ⟨0, 0, sampleCamera.nearDepth, 1⟩).w
        = 0 :=
  have h := FrustumCamera.CalculateProjectionMatrix_depth sampleCamera
    (by norm_num [sampleCamera])
  ⟨h.1, h.2.2.1 0 0⟩

/-- The value of the rational inverse square root for `wideCamera`. -/
theorem InverseSqrtRat_wideCamera : InverseSqrtRat (1521 / 400) = 20 / 39 := by
  have h := InverseSqrtRat_sq (39 / 20) (by norm_num)
  norm_num at h
  exact h

/-- C26 (amended): in `FrustumCamera`, `g` is the projection distance of the
vertical axis and the aspect ratio `s` sets the horizontal field of view
relative to `g`.  For two cameras with the same `g`, whatever their `s` and
`n`, the top and bottom camera-space planes and the entry `(1,1)` of the
projection matrix, which is `-g`, are the same.  The left and right planes are
`(g * rx, 0, s * rx, 0)` and `(-g * rx, 0, s * rx, 0)` with
`rx = InverseSqrt(g * g + s * s)` and the entry `(0,0)` is `g / s`; when `g` is
not zero and the two aspect ratios are different and not zero, the entries
`(0,0)` differ, and when moreover `rx` of the first camera is not zero, the
left planes differ and the right planes differ. -/
theorem FrustumCamera.cameraPlane_aspectRatio (InverseSqrt : K → K)
    (first second : FrustumCamera K)
    (hg : first.projectionDistance = second.projectionDistance) :
    first.cameraPlane InverseSqrt 2 = second.cameraPlane InverseSqrt 2 ∧
    first.cameraPlane InverseSqrt 3 = second.cameraPlane InverseSqrt 3 ∧
    first.CalculateProjectionMatrix.m11 = second.CalculateProjectionMatrix.m11 ∧
    first.CalculateProjectionMatrix.m11 = -first.projectionDistance ∧
    first.cameraPlane InverseSqrt 0
      = ⟨first.projectionDistance
            * InverseSqrt (first.projectionDistance * first.projectionDistance
              + first.aspectRatio * first.aspectRatio),
          0,
          first.aspectRatio
            * InverseSqrt (first.projectionDistance * first.projectionDistance
              + first.aspectRatio * first.aspectRatio),
          0⟩ ∧
    first.cameraPlane InverseSqrt 1
      = ⟨-first.projectionDistance
            * InverseSqrt (first.projectionDistance * first.projectionDistance
              + first.aspectRatio * first.aspectRatio),
          0,
          first.aspectRatio
            * InverseSqrt (first.projectionDistance * first.projectionDistance
              + first.aspectRatio * first.aspectRatio),
          0⟩ ∧
    first.CalculateProjectionMatrix.m00 = first.projectionDistance / first.aspectRatio ∧
    (first.projectionDistance ≠ 0 → first.aspectRatio ≠ 0 → second.aspectRatio ≠ 0 →
      first.aspectRatio ≠ second.aspectRatio →
      first.CalculateProjectionMatrix.m00 ≠ second.CalculateProjectionMatrix.m00 ∧
      (InverseSqrt (first.projectionDistance * first.projectionDistance
          + first.aspectRatio * first.aspectRatio) ≠ 0 →
        first.cameraPlane InverseSqrt 0 ≠ second.cameraPlane InverseSqrt 0 ∧
        first.cameraPlane InverseSqrt 1 ≠ second.cameraPlane InverseSqrt 1)) := by
  refine ⟨?_, ?_, ?_, rfl, ?_, ?_, rfl, ?_⟩
  · simp [FrustumCamera.cameraPlane, hg]
  · simp [FrustumCamera.cameraPlane, hg]
  · simp [FrustumCamera.CalculateProjectionMatrix, hg]
  · simp [FrustumCamera.cameraPlane]
  · simp [FrustumCamera.cameraPlane]
  · intro hg0 hs1 hs2 hs
    refine ⟨?_, ?_⟩
    · show first.projectionDistance / first.aspectRatio
        ≠ second.projectionDistance / second.aspectRatio
      rw [← hg]
      intro h
      rw [div_eq_div_iff hs1 hs2] at h
      exact hs (mul_left_cancel₀ hg0 h).symm
    · intro hrx
      have key : ∀ sign : K, sign ≠ 0 →
          (⟨sign * first.projectionDistance
              * InverseSqrt (first.projectionDistance * first.projectionDistance
                + first.aspectRatio * first.aspectRatio), 0,
            first.aspectRatio
              * InverseSqrt (first.projectionDistance * first.projectionDistance
                + first.aspectRatio * first.aspectRatio), 0⟩ : Plane K)
          ≠ ⟨sign * second.projectionDistance
              * InverseSqrt (second.projectionDistance * second.projectionDistance
                + second.aspectRatio * second.aspectRatio), 0,
            second.aspectRatio
              * InverseSqrt (second.projectionDistance * second.projectionDistance
                + second.aspectRatio * second.aspectRatio), 0⟩ := by
        intro sign hsign h
        have hx := congrArg Plane.x h
        have hz := congrArg Plane.z h
        simp only at hx hz
        rw [← hg] at hx hz
        have hrx2 : InverseSqrt (first.projectionDistance * first.projectionDistance
              + first.aspectRatio * first.aspectRatio)
            = InverseSqrt (first.projectionDistance * first.projectionDistance
              + second.aspectRatio * second.aspectRatio) :=
          mul_left_cancel₀ (mul_ne_zero hsign hg0) hx
        rw [← hrx2] at hz
        exact hs (mul_right_cancel₀ hrx hz)
      constructor
      · have h := key 1 one_ne_zero
        simpa [FrustumCamera.cameraPlane] using h
      · have h := key (-1) (by norm_num)
        simpa [FrustumCamera.cameraPlane] using h

/-- Witness for C26 (amended): `sampleCamera` and `wideCamera` have the same
`g = 3/4` and the aspect ratios `1` and `9/5`; their top planes and entries
`(1,1)` are the same, their entries `(0,0)` are `3/4` and `5/12`. -/
theorem FrustumCamera.cameraPlane_aspectRatio_witness :
    sampleCamera.cameraPlane InverseSqrtRat 2 = wideCamera.cameraPlane InverseSqrtRat 2 ∧
    sampleCamera.CalculateProjectionMatrix.m11 = wideCamera.CalculateProjectionMatrix.m11 ∧
    sampleCamera.CalculateProjectionMatrix.m00 ≠ wideCamera.CalculateProjectionMatrix.m00 :=
  have h := FrustumCamera.cameraPlane_aspectRatio InverseSqrtRat sampleCamera wideCamera rfl
  ⟨h.1, h.2.2.1,
    (h.2.2.2.2.2.2.2 (by norm_num [sampleCamera]) (by norm_num [sampleCamera])
      (by norm_num [wideCamera]) (by norm_num [sampleCamera, wideCamera])).1⟩

/-- Counterexample to C26: `sampleCamera` and `wideCamera` differ in the aspect
ratio `s` only.  Their top and bottom planes and their entries `(1,1)` are the
same, so these do not vary with `s`; their left planes, right planes and
entries `(0,0)` differ, so these are not determined by `g` alone. -/
theorem FrustumCamera.cameraPlane_aspectRatio_counterexample :
    sampleCamera.projectionDistance = wideCamera.projectionDistance ∧
    sampleCamera.aspectRatio ≠ wideCamera.aspectRatio ∧
    sampleCamera.cameraPlane InverseSqrtRat 2 = wideCamera.cameraPlane InverseSqrtRat 2 ∧
    sampleCamera.cameraPlane InverseSqrtRat 3 = wideCamera.cameraPlane InverseSqrtRat 3 ∧
    sampleCamera.CalculateProjectionMatrix.m11 = wideCamera.CalculateProjectionMatrix.m11 ∧
    sampleCamera.cameraPlane InverseSqrtRat 0 = ⟨3 / 5, 0, 4 / 5, 0⟩ ∧
    wideCamera.cameraPlane InverseSqrtRat 0 = ⟨5 / 13, 0, 12 / 13, 0⟩ ∧
    sampleCamera.cameraPlane InverseSqrtRat 1 = ⟨-3 / 5, 0, 4 / 5, 0⟩ ∧
    wideCamera.cameraPlane InverseSqrtRat 1 = ⟨-5 / 13, 0, 12 / 13, 0⟩ ∧
    sampleCamera.CalculateProjectionMatrix.m00 = 3 / 4 ∧
    wideCamera.CalculateProjectionMatrix.m00 = 5 / 12 := by
  refine ⟨rfl, by norm_num [sampleCamera, wideCamera], ?_, ?_, ?_, ?_, ?_, ?_, ?_, ?_, ?_⟩
  · simp [FrustumCamera.cameraPlane, sampleCamera, wideCamera]
  · simp [FrustumCamera.cameraPlane, sampleCamera, wideCamera]
  · simp [FrustumCamera.CalculateProjectionMatrix, sampleCamera, wideCamera]
  · simp [FrustumCamera.cameraPlane, sampleCamera]
    norm_num [InverseSqrtRat_sampleCamera]
  · simp [FrustumCamera.cameraPlane, wideCamera]
    norm_num [InverseSqrtRat_wideCamera]
  · simp [FrustumCamera.cameraPlane, sampleCamera]
    norm_num [InverseSqrtRat_sampleCamera]
  · simp [FrustumCamera.cameraPlane, wideCamera]
    norm_num [InverseSqrtRat_wideCamera]
  · norm_num [FrustumCamera.CalculateProjectionMatrix, sampleCamera]
  · norm_num [FrustumCamera.CalculateProjectionMatrix, wideCamera]

end ProjectionTheorems

section CountTheorems

variable {K : Type} [LinearOrderedField K]

/-! ### The counts of `RenderWorld` (C27) -/

/-- The length of a list of lists put end to end when all have one length. -/
theorem length_flatMap_of_const {α β : Type} (f : α → List β) (n : Nat) (l : List α)
    (h : ∀ a ∈ l, (f a).length = n) : (l.flatMap f).length = l.length * n := by
  induction l with
  | nil => simp
  | cons a t ih =>
    rw [List.flatMap_cons, List.length_append, h a (List.mem_cons_self _ _),
      ih (fun b hb => h b (List.mem_cons_of_mem _ hb)), List.length_cons]
    ring

/-- A call of `RenderWorld` without an active camera does nothing. -/
theorem WorldManager.RenderWorld_of_no_camera (InverseSqrt : K → K)
    (MakeRotation : K → Vector3D K → Matrix3D K) (deltaTime : K) (w : WorldManager K)
    (hcam : w.cameraNode = none) :
    WorldManager.RenderWorld InverseSqrt MakeRotation deltaTime w = ⟨w, [], 0, 0, 0, []⟩ := by
  unfold WorldManager.RenderWorld
  split
  · rfl
  · rename_i cam h
    rw [hcam] at h
    cases h

/-- A call of `RenderWorld` whose active camera pointer does not refer to a
frustum camera after transform propagation ends after the loop that updates
the controllers, with the counts zero. -/
theorem WorldManager.RenderWorld_of_not_frustum (InverseSqrt : K → K)
    (MakeRotation : K → Vector3D K → Matrix3D K) (deltaTime : K) (w : WorldManager K)
    (cam : Nat) (hcam : w.cameraNode = some cam)
    (hnot : ∀ camera : FrustumCamera K,
      ((WorldManager.RenderWorld.propagated InverseSqrt MakeRotation deltaTime w).dataAt
        cam).map NodeData.nodeClass ≠ some (.frustumCamera camera)) :
    WorldManager.RenderWorld InverseSqrt MakeRotation deltaTime w
      = ⟨{ w with rootNode :=
            (WorldManager.RenderWorld.updated InverseSqrt MakeRotation deltaTime w).1 },
          [], 0, 0, 0,
          (WorldManager.RenderWorld.updated InverseSqrt MakeRotation deltaTime w).2⟩ := by
  unfold WorldManager.RenderWorld
  rw [hcam]
  simp only []
  split
  · rename_i camera heq
    exfalso
    apply hnot camera
    rw [← heq]
    unfold WorldManager.RenderWorld.updated
    rw [WorldManager.RenderWorld.UpdateControllers_dataAt NodeData.nodeClass (fun _ => rfl)]
  · rfl

/-- The three cases of a call of `RenderWorld`: no active camera, an active
camera pointer that refers to no frustum camera, and a frustum camera. -/
theorem WorldManager.RenderWorld_cases (InverseSqrt : K → K)
    (MakeRotation : K → Vector3D K → Matrix3D K) (deltaTime : K) (w : WorldManager K) :
    w.cameraNode = none ∨
    (∃ cam, w.cameraNode = some cam ∧
      ∀ camera : FrustumCamera K,
        ((WorldManager.RenderWorld.propagated InverseSqrt MakeRotation deltaTime w).dataAt
          cam).map NodeData.nodeClass ≠ some (.frustumCamera camera)) ∨
    (∃ cam camera, w.cameraNode = some cam ∧
      ((WorldManager.RenderWorld.propagated InverseSqrt MakeRotation deltaTime w).dataAt
        cam).map NodeData.nodeClass = some (.frustumCamera camera)) := by
  cases hcam : w.cameraNode with
  | none => exact Or.inl rfl
  | some cam =>
    by_cases hex : ∃ camera : FrustumCamera K,
        ((WorldManager.RenderWorld.propagated InverseSqrt MakeRotation deltaTime w).dataAt
          cam).map NodeData.nodeClass = some (.frustumCamera camera)
    · obtain ⟨camera, h⟩ := hex
      exact Or.inr (Or.inr ⟨cam, camera, rfl, h⟩)
    · exact Or.inr (Or.inl ⟨cam, rfl, fun camera h => hex ⟨camera, h⟩⟩)

/-- A pointer that passes the test of the ambient pass or of the light loop
refers to a node. -/
theorem Node.dataAt_isSome_of_test (root : Node K) (camera : FrustumCamera K) (p : Nat) :
    (root.GeometryVisibleAt camera p = true → (root.dataAt p).isSome = true) ∧
    (root.PointLightVisibleAt camera p = true → (root.dataAt p).isSome = true) := by
  unfold Node.GeometryVisibleAt Node.PointLightVisibleAt
  cases root.dataAt p <;> simp

/-- C27: for every world and every call of `RenderWorld`, `lightDrawCount` is
`lightSourceCount * ambientDrawCount`: `GeometryIlluminated` is true for every
geometry node and light, so every counted light draws every member of the
visible set. -/
theorem WorldManager.RenderWorld_lightDrawCount (InverseSqrt : K → K)
    (MakeRotation : K → Vector3D K → Matrix3D K) (deltaTime : K) (w : WorldManager K) :
    (WorldManager.RenderWorld InverseSqrt MakeRotation deltaTime w).lightDrawCount
      = (WorldManager.RenderWorld InverseSqrt MakeRotation deltaTime w).lightSourceCount
        * (WorldManager.RenderWorld InverseSqrt MakeRotation deltaTime w).ambientDrawCount ∧
    (∀ geometry light : NodeData K, geometry.GeometryIlluminated light = true) := by
  refine ⟨?_, NodeData.GeometryIlluminated_eq_true⟩
  rcases WorldManager.RenderWorld_cases InverseSqrt MakeRotation deltaTime w with
    hnone | ⟨cam, hcam, hnot⟩ | ⟨cam, camera, hcam, hfrustum⟩
  · rw [WorldManager.RenderWorld_of_no_camera InverseSqrt MakeRotation deltaTime w hnone]
    rfl
  · rw [WorldManager.RenderWorld_of_not_frustum InverseSqrt MakeRotation deltaTime w cam hcam
      hnot]
    rfl
  · obtain ⟨hv, ha, hd, hs, -⟩ := WorldManager.RenderWorld_frustum InverseSqrt MakeRotation
      deltaTime w cam camera hcam hfrustum
    rw [hd, hs, ha]
    unfold Node.illuminatedPairs
    apply length_flatMap_of_const
    intro light hlight
    rw [List.length_map]
    congr 1
    rw [List.filter_eq_self]
    intro geometry hgeometry
    rw [hv] at hgeometry
    have h1 := (Node.dataAt_isSome_of_test _ camera light).2 (List.mem_filter.mp hlight).2
    have h2 := (Node.dataAt_isSome_of_test _ camera geometry).1
      (List.mem_filter.mp hgeometry).2
    rw [Node.GeometryIlluminatedAt_eq]
    simp only [Option.isSome_map'] at h1 h2 ⊢
    simp [h1, h2]

end CountTheorems

section AppendTheorems

variable {K : Type}

/-! ### Nodes outside the lists (C24) -/

/-- The pre-order of a list of trees with one more tree at the end. -/
theorem Node.preorderOfList_append_singleton (node : Node K) (l : List (Node K)) :
    Node.preorderOfList (l ++ [node])
      = Node.preorderOfList l ++ node :: node.descendants := by
  induction l with
  | nil => simp [Node.preorderOfList]
  | cons a t ih => simp [Node.preorderOfList, ih]

/-- The proper descendants after `AppendSubnode`: the old ones, then the new
node and its proper descendants. -/
theorem Node.descendants_AppendSubnode (this node : Node K) :
    (this.AppendSubnode node).descendants = this.descendants ++ node :: node.descendants := by
  cases this with
  | mk c name t ctrl w subs =>
    simp [Node.AppendSubnode, Node.descendants, Node.preorderOfList_append_singleton]

/-- Every pointer of `pointers` refers to a proper descendant. -/
theorem Node.lt_of_mem_pointers (root : Node K) (p : Node K → Bool) (i : Nat)
    (h : i ∈ root.pointers p) : i < root.descendants.length := by
  obtain ⟨node, hnode, -⟩ := (Node.mem_pointers root p i).mp h
  exact (List.getElem?_eq_some_iff.mp hnode).1

/-- The loop that updates the controllers adds calls of `UpdateController`
only. -/
theorem WorldManager.RenderWorld.UpdateControllers_mem (l : List Nat) :
    ∀ (state : Node K × List Event) (e : Event),
      e ∈ (WorldManager.RenderWorld.UpdateControllers l state).2 →
      e ∈ state.2 ∨ ∃ c, e = Event.UpdateController c := by
  induction l with
  | nil => intro state e h; exact Or.inl h
  | cons a t ih =>
    intro state e h
    unfold WorldManager.RenderWorld.UpdateControllers at h
    split_ifs at h
    · rcases ih _ e h with h1 | h1
      · simp only [List.mem_append, List.mem_singleton] at h1
        rcases h1 with h1 | h1
        · exact Or.inl h1
        · exact Or.inr ⟨a, h1⟩
      · exact Or.inr h1
    · exact ih _ e h

end AppendTheorems

section FrameClaims

variable {K : Type} [LinearOrderedField K]

/-- The calls made up to the end of the loop that updates the controllers are
calls of `MoveController` and `UpdateController`. -/
theorem WorldManager.RenderWorld.updated_mem (InverseSqrt : K → K)
    (MakeRotation : K → Vector3D K → Matrix3D K) (deltaTime : K) (w : WorldManager K)
    (e : Event)
    (h : e ∈ (WorldManager.RenderWorld.updated InverseSqrt MakeRotation deltaTime w).2) :
    (∃ c, e = Event.MoveController c) ∨ ∃ c, e = Event.UpdateController c := by
  unfold WorldManager.RenderWorld.updated at h
  rcases WorldManager.RenderWorld.UpdateControllers_mem _ _ e h with h1 | h1
  · unfold WorldManager.RenderWorld.moved at h1
    rw [WorldManager.RenderWorld.MoveControllers_trace] at h1
    simp only [List.nil_append, List.mem_map] at h1
    obtain ⟨c, -, hc⟩ := h1
    exact Or.inl ⟨c, hc.symm⟩
  · exact Or.inr h1

/-- The function `RenderWorld` keeps the four lists and the active camera. -/
theorem WorldManager.RenderWorld_world (InverseSqrt : K → K)
    (MakeRotation : K → Vector3D K → Matrix3D K) (deltaTime : K) (w : WorldManager K) :
    (WorldManager.RenderWorld InverseSqrt MakeRotation deltaTime w).world.lightList
      = w.lightList ∧
    (WorldManager.RenderWorld InverseSqrt MakeRotation deltaTime w).world.occluderList
      = w.occluderList ∧
    (WorldManager.RenderWorld InverseSqrt MakeRotation deltaTime w).world.geometryList
      = w.geometryList ∧
    (WorldManager.RenderWorld InverseSqrt MakeRotation deltaTime w).world.controllerList
      = w.controllerList ∧
    (WorldManager.RenderWorld InverseSqrt MakeRotation deltaTime w).world.cameraNode
      = w.cameraNode := by
  unfold WorldManager.RenderWorld
  split
  · rename_i h
    exact ⟨rfl, rfl, rfl, rfl, h.symm ▸ rfl⟩
  · simp only []
    split <;> exact ⟨rfl, rfl, rfl, rfl, rfl⟩

/-- What `RenderWorld` draws and counts comes from the lists: the visible set
is a sublist of the geometry list and `ambientDrawCount` is its length; the
counted lights are a sublist of the light list; `lightDrawCount` is the length
of a list of pairs of a counted light and a member of the visible set; and
every geometry node that is prepared or drawn is in the visible set. -/
theorem WorldManager.RenderWorld_from_lists (InverseSqrt : K → K)
    (MakeRotation : K → Vector3D K → Matrix3D K) (deltaTime : K) (w : WorldManager K) :
    (WorldManager.RenderWorld InverseSqrt MakeRotation deltaTime
      w).visibleGeometryArray.Sublist w.geometryList ∧
    (WorldManager.RenderWorld InverseSqrt MakeRotation deltaTime w).ambientDrawCount
      = (WorldManager.RenderWorld InverseSqrt MakeRotation deltaTime
          w).visibleGeometryArray.length ∧
    (∃ lights : List Nat, lights.Sublist w.lightList ∧
      (WorldManager.RenderWorld InverseSqrt MakeRotation deltaTime w).lightSourceCount
        = lights.length ∧
      ∃ pairs : List (Nat × Nat),
        (WorldManager.RenderWorld InverseSqrt MakeRotation deltaTime w).lightDrawCount
          = pairs.length ∧
        ∀ pair ∈ pairs, pair.1 ∈ lights ∧
          pair.2 ∈ (WorldManager.RenderWorld InverseSqrt MakeRotation deltaTime
            w).visibleGeometryArray) ∧
    (∀ (p : Nat),
      (Event.PrepareToRender p ∈ (WorldManager.RenderWorld InverseSqrt MakeRotation deltaTime
          w).trace ∨
        ∃ k, Event.Render p k ∈ (WorldManager.RenderWorld InverseSqrt MakeRotation deltaTime
          w).trace) →
      p ∈ (WorldManager.RenderWorld InverseSqrt MakeRotation deltaTime
        w).visibleGeometryArray) := by
  rcases WorldManager.RenderWorld_cases InverseSqrt MakeRotation deltaTime w with
    hnone | ⟨cam, hcam, hnot⟩ | ⟨cam, camera, hcam, hfrustum⟩
  · rw [WorldManager.RenderWorld_of_no_camera InverseSqrt MakeRotation deltaTime w hnone]
    refine ⟨List.nil_sublist _, rfl, ⟨[], List.nil_sublist _, rfl, [], rfl, ?_⟩, ?_⟩
    · intro pair h
      cases h
    · intro p h
      rcases h with h | ⟨k, h⟩ <;> cases h
  · rw [WorldManager.RenderWorld_of_not_frustum InverseSqrt MakeRotation deltaTime w cam hcam
      hnot]
    refine ⟨List.nil_sublist _, rfl, ⟨[], List.nil_sublist _, rfl, [], rfl, ?_⟩, ?_⟩
    · intro pair h
      cases h
    · intro p h
      exfalso
      rcases h with h | ⟨k, h⟩
      · rcases WorldManager.RenderWorld.updated_mem _ _ _ _ _ h with ⟨c, hc⟩ | ⟨c, hc⟩ <;>
          cases hc
      · rcases WorldManager.RenderWorld.updated_mem _ _ _ _ _ h with ⟨c, hc⟩ | ⟨c, hc⟩ <;>
          cases hc
  · obtain ⟨hv, ha, hd, hs, ht⟩ := WorldManager.RenderWorld_frustum InverseSqrt MakeRotation
      deltaTime w cam camera hcam hfrustum
    have hpairs : ∀ pair ∈ (WorldManager.RenderWorld.propagated InverseSqrt MakeRotation
        deltaTime w).illuminatedPairs camera w.lightList
          (WorldManager.RenderWorld InverseSqrt MakeRotation deltaTime w).visibleGeometryArray,
        pair.1 ∈ w.lightList.filter (fun l =>
          (WorldManager.RenderWorld.propagated InverseSqrt MakeRotation deltaTime
            w).PointLightVisibleAt camera l) ∧
        pair.2 ∈ (WorldManager.RenderWorld InverseSqrt MakeRotation deltaTime
          w).visibleGeometryArray := by
      intro pair hpair
      simp only [Node.illuminatedPairs, List.mem_flatMap, List.mem_map] at hpair
      obtain ⟨l, hl, g, hg, rfl⟩ := hpair
      exact ⟨hl, (List.mem_filter.mp hg).1⟩
    refine ⟨?_, ha, ⟨_, List.filter_sublist _, hs, _, hd, hpairs⟩, ?_⟩
    · rw [hv]
      exact List.filter_sublist _
    · intro p h
      have hmem : ∀ e : Event, (e = Event.PrepareToRender p ∨ ∃ k, e = Event.Render p k) →
          e ∈ (WorldManager.RenderWorld InverseSqrt MakeRotation deltaTime w).trace →
          p ∈ (WorldManager.RenderWorld InverseSqrt MakeRotation deltaTime
            w).visibleGeometryArray := by
        intro e he hin
        rw [ht] at hin
        simp only [List.mem_append, List.mem_map, List.mem_flatMap, List.mem_cons,
          List.mem_singleton, List.not_mem_nil, or_false] at hin
        rcases hin with (hin | ⟨c, -, hc⟩) | (⟨g, hg, hin⟩ | ⟨pair, hpair, hin⟩)
        · exfalso
          rcases WorldManager.RenderWorld.updated_mem _ _ _ _ _ hin with ⟨c, hc⟩ | ⟨c, hc⟩ <;>
            rcases he with he | ⟨k, he⟩ <;> rw [he] at hc <;> cases hc
        · exfalso
          rcases he with he | ⟨k, he⟩ <;> rw [he] at hc <;> cases hc
        · rcases he with he | ⟨k, he⟩ <;> rw [he] at hin <;> rcases hin with hin | hin <;>
            cases hin <;> exact hg
        · rcases he with he | ⟨k, he⟩ <;> rw [he] at hin <;> rcases hin with hin | hin <;>
            cases hin <;> exact (hpairs pair hpair).2
      rcases h with h | ⟨k, h⟩
      · exact hmem _ (Or.inl rfl) h
      · exact hmem _ (Or.inr ⟨k, rfl⟩) h

end FrameClaims

section TransformsKept

variable {K : Type}

/-- The call `CalculateOccluderPlanes` and the update step of a controller keep
the transforms of the node. -/
theorem NodeData.transforms_kept (camera : FrustumCamera K) (d : NodeData K) :
    ((NodeData.CalculateOccluderPlanes camera d).nodeTransform,
        (NodeData.CalculateOccluderPlanes camera d).transformable)
      = (d.nodeTransform, d.transformable) ∧
    ((NodeData.UpdateControllerStep d).nodeTransform,
        (NodeData.UpdateControllerStep d).transformable)
      = (d.nodeTransform, d.transformable) := by
  refine ⟨?_, rfl⟩
  unfold NodeData.CalculateOccluderPlanes
  split <;> rfl

end TransformsKept

/-! ### Insertion of a node after `PreprocessWorld` -/

section InsertionTheorems

variable {K : Type}

/-- The members of a node after `AppendSubnode` are its members. -/
theorem Node.AppendSubnode_data (this node : Node K) :
    (this.AppendSubnode node).data = this.data := by
  cases this; rfl

/-- The members of a node after `AppendSubnodeBelow` are its members. -/
theorem Node.AppendSubnodeBelow_data (node : Node K) (pointer : Nat) (this : Node K) :
    (Node.AppendSubnodeBelow node pointer this).data = this.data := by
  cases this; rfl

/-- The proper descendants after `AppendSubnodeBelow`. -/
theorem Node.descendants_AppendSubnodeBelow (node : Node K) (pointer : Nat) (this : Node K) :
    (Node.AppendSubnodeBelow node pointer this).descendants
      = Node.preorderOfList (Node.AppendSubnodeInList node pointer this.subnodes) := by
  cases this; rfl

/-- The insertion below the node at position `p` of the pre-order of a list of
trees puts the members of the new nodes behind those of the last proper
descendant of that node and keeps the members of the other nodes in their
order; by induction on a bound `n` for the number of nodes. -/
theorem Node.AppendSubnodeInList_dataList (node : Node K) (n : Nat) :
    ∀ (l : List (Node K)), (Node.preorderOfList l).length ≤ n →
      ∀ (p : Nat) (target : Node K), (Node.preorderOfList l)[p]? = some target →
        ∃ A B : List (NodeData K),
          (Node.preorderOfList l).map Node.data = A ++ B ∧
          A.length = p + 1 + target.descendants.length ∧
          (Node.preorderOfList (Node.AppendSubnodeInList node p l)).map Node.data
            = A ++ (node :: node.descendants).map Node.data ++ B := by
  induction n with
  | zero =>
    intro l hlen p target h
    cases l with
    | nil => simp [Node.preorderOfList] at h
    | cons first rest => simp [Node.preorderOfList] at hlen
  | succ n ih =>
    intro l hlen p target h
    cases l with
    | nil => simp [Node.preorderOfList] at h
    | cons first rest =>
      simp only [Node.preorderOfList, List.length_cons, List.length_append] at hlen
      cases p with
      | zero =>
        simp only [Node.preorderOfList, List.getElem?_cons_zero, Option.some.injEq] at h
        subst h
        refine ⟨first.data :: first.descendants.map Node.data,
          (Node.preorderOfList rest).map Node.data, ?_, ?_, ?_⟩
        · simp [Node.preorderOfList]
        · simp
          omega
        · simp [Node.AppendSubnodeInList, Node.preorderOfList, Node.AppendSubnode_data,
            Node.descendants_AppendSubnode]
      | succ p =>
        simp only [Node.preorderOfList, List.getElem?_cons_succ] at h
        by_cases hp : p < first.descendants.length
        · rw [List.getElem?_append_left hp, Node.descendants_eq] at h
          obtain ⟨A, B, h1, h2, h3⟩ := ih first.subnodes
            (by rw [← Node.descendants_eq]; omega) p target h
          refine ⟨first.data :: A, B ++ (Node.preorderOfList rest).map Node.data, ?_, ?_, ?_⟩
          · simp [Node.preorderOfList, Node.descendants_eq first, h1]
          · simp [h2]
            omega
          · simp [Node.AppendSubnodeInList, hp, Node.preorderOfList,
              Node.AppendSubnodeBelow_data, Node.descendants_AppendSubnodeBelow, h3]
        · rw [List.getElem?_append_right (not_lt.mp hp)] at h
          obtain ⟨A, B, h1, h2, h3⟩ := ih rest (by omega) (p - first.descendants.length)
            target h
          refine ⟨first.data :: (first.descendants.map Node.data ++ A), B, ?_, ?_, ?_⟩
          · simp [Node.preorderOfList, h1]
          · simp [h2]
            omega
          · simp [Node.AppendSubnodeInList, hp, Node.preorderOfList, h3]

/-- The insertion below `target` puts the members of the new nodes at the
position `subnodePointer` of the list of members and keeps the members of the
other nodes in their order. -/
theorem Node.dataList_AppendSubnodeAt (root : Node K) (target : Option Nat) (node : Node K)
    (htarget : ∀ p, target = some p → p < root.descendants.length) :
    ∃ A B : List (NodeData K),
      root.dataList = A ++ B ∧
      A.length = root.subnodePointer target ∧
      (root.AppendSubnodeAt target node).dataList
        = A ++ (node :: node.descendants).map Node.data ++ B := by
  cases target with
  | none =>
    refine ⟨root.dataList, [], by simp, by simp [Node.dataList, Node.subnodePointer], ?_⟩
    simp [Node.AppendSubnodeAt, Node.dataList, Node.descendants_AppendSubnode]
  | some p =>
    have hp := htarget p rfl
    obtain ⟨t, ht⟩ : ∃ t, root.descendants[p]? = some t :=
      ⟨_, List.getElem?_eq_getElem hp⟩
    have ht2 := ht
    rw [Node.descendants_eq] at ht2
    obtain ⟨A, B, h1, h2, h3⟩ := Node.AppendSubnodeInList_dataList node _ root.subnodes
      (le_refl _) p t ht2
    refine ⟨A, B, ?_, ?_, ?_⟩
    · rw [Node.dataList, Node.descendants_eq]
      exact h1
    · rw [h2]
      simp [Node.subnodePointer, ht]
    · rw [Node.dataList]
      show (Node.AppendSubnodeBelow node p root).descendants.map Node.data = _
      rw [Node.descendants_AppendSubnodeBelow]
      exact h3

/-- Old nodes after an insertion: the members read through the renamed pointer
are the members read through the pointer before. -/
theorem Node.dataAt_AppendSubnodeAt_movedPointer (root : Node K) (target : Option Nat)
    (node : Node K) (htarget : ∀ p, target = some p → p < root.descendants.length) (q : Nat) :
    (root.AppendSubnodeAt target node).dataAt
        (Node.movedPointer (root.subnodePointer target) (node.descendants.length + 1) q)
      = root.dataAt q := by
  obtain ⟨A, B, h1, h2, h3⟩ := Node.dataList_AppendSubnodeAt root target node htarget
  unfold Node.dataAt Node.movedPointer
  rw [h3, h1, ← h2]
  by_cases hq : q < A.length
  · rw [if_pos hq, List.append_assoc, List.getElem?_append_left hq,
      List.getElem?_append_left hq]
  · rw [if_neg hq, List.append_assoc, List.getElem?_append_right (by omega),
      List.getElem?_append_right (by simp; omega), List.getElem?_append_right (by omega)]
    congr 1
    simp
    omega

/-- New nodes after an insertion: the members of the inserted node and of its
proper descendants are read through the pointers from `subnodePointer` on. -/
theorem Node.dataAt_AppendSubnodeAt_subnodePointer (root : Node K) (target : Option Nat)
    (node : Node K) (htarget : ∀ p, target = some p → p < root.descendants.length)
    (j : Nat) (m : Node K) (hm : (node :: node.descendants)[j]? = some m) :
    (root.AppendSubnodeAt target node).dataAt (root.subnodePointer target + j)
      = some m.data := by
  obtain ⟨A, B, h1, h2, h3⟩ := Node.dataList_AppendSubnodeAt root target node htarget
  have hj : j < (node :: node.descendants).length := (List.getElem?_eq_some_iff.mp hm).1
  unfold Node.dataAt
  rw [h3, ← h2, List.getElem?_append_left (by simp at hj ⊢; omega),
    List.getElem?_append_right (by omega), Nat.add_sub_cancel_left, List.getElem?_map, hm]
  rfl

/-- A renamed pointer is never the pointer of an inserted node. -/
theorem Node.movedPointer_ne (position count pointer j : Nat) (hj : j < count) :
    Node.movedPointer position count pointer ≠ position + j := by
  unfold Node.movedPointer
  split <;> omega

end InsertionTheorems

section InsertionCommute

variable {K : Type}

/-- A write through a pointer keeps the number of proper descendants. -/
theorem Node.length_descendants_modifyDescendant (g : NodeData K → NodeData K) (i : Nat)
    (node : Node K) :
    (Node.modifyDescendant g i node).descendants.length = node.descendants.length := by
  have h := congrArg List.length (Node.dataList_modifyDescendant g i node)
  simpa [Node.dataList] using h

/-- A write through a pointer into a list of trees keeps the number of
nodes. -/
theorem Node.length_preorderOfList_modifyInList (g : NodeData K → NodeData K) (i : Nat)
    (l : List (Node K)) :
    (Node.preorderOfList (Node.modifyInList g i l)).length = (Node.preorderOfList l).length := by
  have h := congrArg List.length (Node.modifyInList_dataList g _ l (le_refl _) i)
  simpa using h

/-- A write through a pointer into a list of trees keeps the number of proper
descendants of every node; by induction on a bound `n` for the number of
nodes. -/
theorem Node.modifyInList_sizes (g : NodeData K → NodeData K) (n : Nat) :
    ∀ (l : List (Node K)), (Node.preorderOfList l).length ≤ n → ∀ (i : Nat),
      (Node.preorderOfList (Node.modifyInList g i l)).map (fun m => m.descendants.length)
        = (Node.preorderOfList l).map (fun m => m.descendants.length) := by
  induction n with
  | zero =>
    intro l hlen i
    cases l with
    | nil => simp [Node.modifyInList, Node.preorderOfList]
    | cons node rest => simp [Node.preorderOfList] at hlen
  | succ n ih =>
    intro l hlen i
    cases l with
    | nil => simp [Node.modifyInList, Node.preorderOfList]
    | cons node rest =>
      simp only [Node.preorderOfList, List.length_cons, List.length_append] at hlen
      cases i with
      | zero =>
        simp [Node.modifyInList, Node.preorderOfList, Node.descendants_setData]
      | succ i =>
        by_cases hi : i < node.descendants.length
        · have h1 := ih node.subnodes (by rw [← Node.descendants_eq]; omega) i
          simp only [Node.modifyInList, hi, if_true, Node.preorderOfList, List.map_cons,
            List.map_append, Node.length_descendants_modifyDescendant,
            Node.descendants_modifyDescendant, h1, ← Node.descendants_eq]
          rw [Node.length_preorderOfList_modifyInList, ← Node.descendants_eq]
        · have h2 := ih rest (by omega) (i - node.descendants.length)
          simp only [Node.modifyInList, hi, if_false, Node.preorderOfList, List.map_cons,
            List.map_append, h2]

/-- The subtree of a node of the pre-order of a list of trees lies within the
pre-order. -/
theorem Node.subtree_le_length (node : Node K) (l : List (Node K)) (p : Nat) (t : Node K)
    (h : (Node.preorderOfList l)[p]? = some t) :
    p + 1 + t.descendants.length ≤ (Node.preorderOfList l).length := by
  obtain ⟨A, B, h1, h2, -⟩ := Node.AppendSubnodeInList_dataList node _ l (le_refl _) p t h
  have h3 := congrArg List.length h1
  simp only [List.length_map, List.length_append] at h3
  omega

/-- The insertion below a node of a list of trees adds the new nodes to the
pre-order. -/
theorem Node.length_preorderOfList_AppendSubnodeInList (node : Node K) (l : List (Node K))
    (p : Nat) (hp : p < (Node.preorderOfList l).length) :
    (Node.preorderOfList (Node.AppendSubnodeInList node p l)).length
      = (Node.preorderOfList l).length + (node.descendants.length + 1) := by
  obtain ⟨t, ht⟩ : ∃ t, (Node.preorderOfList l)[p]? = some t :=
    ⟨_, List.getElem?_eq_getElem hp⟩
  obtain ⟨A, B, h1, -, h3⟩ := Node.AppendSubnodeInList_dataList node _ l (le_refl _) p t ht
  have h4 := congrArg List.length h1
  have h5 := congrArg List.length h3
  simp only [List.length_map, List.length_append, List.length_cons] at h4 h5
  omega

/-- The insertion below a proper descendant of a node adds the new nodes to
the proper descendants. -/
theorem Node.length_descendants_AppendSubnodeBelow (node : Node K) (p : Nat) (this : Node K)
    (hp : p < this.descendants.length) :
    (Node.AppendSubnodeBelow node p this).descendants.length
      = this.descendants.length + (node.descendants.length + 1) := by
  rw [Node.descendants_AppendSubnodeBelow, Node.descendants_eq this]
  rw [Node.descendants_eq] at hp
  exact Node.length_preorderOfList_AppendSubnodeInList node _ p hp

/-- A write through a pointer into a list of trees leaves a tree appended to
the list as it is. -/
theorem Node.modifyInList_append_singleton (g : NodeData K → NodeData K) (node : Node K) :
    ∀ (l : List (Node K)) (q : Nat), q < (Node.preorderOfList l).length →
      Node.modifyInList g q (l ++ [node]) = Node.modifyInList g q l ++ [node] := by
  intro l
  induction l with
  | nil => intro q hq; simp [Node.preorderOfList] at hq
  | cons first rest ih =>
    intro q hq
    simp only [Node.preorderOfList, List.length_cons, List.length_append] at hq
    cases q with
    | zero => simp [Node.modifyInList]
    | succ q =>
      by_cases h : q < first.descendants.length
      · simp [Node.modifyInList, h]
      · simp only [List.cons_append, Node.modifyInList, h, if_false]
        exact congrArg (List.cons first) (ih (q - first.descendants.length) (by omega))

/-- A write below a node and `AppendSubnode` on the node commute. -/
theorem Node.modifyDescendant_AppendSubnode (g : NodeData K → NodeData K) (node : Node K)
    (q : Nat) (this : Node K) (hq : q < this.descendants.length) :
    Node.modifyDescendant g q (this.AppendSubnode node)
      = (Node.modifyDescendant g q this).AppendSubnode node := by
  cases this with
  | mk c name t ctrl w subs =>
    simp only [Node.AppendSubnode, Node.modifyDescendant]
    rw [Node.modifyInList_append_singleton g node subs q hq]

/-- A write through a pointer and an insertion below a node of a list of trees
commute, the pointer of the write being renamed for the tree with the new
nodes; by induction on a bound `n` for the number of nodes. -/
theorem Node.modifyInList_AppendSubnodeInList (g : NodeData K → NodeData K) (node : Node K)
    (n : Nat) :
    ∀ (l : List (Node K)), (Node.preorderOfList l).length ≤ n →
      ∀ (p : Nat) (t : Node K), (Node.preorderOfList l)[p]? = some t → ∀ (q : Nat),
        Node.modifyInList g
            (Node.movedPointer (p + 1 + t.descendants.length) (node.descendants.length + 1) q)
            (Node.AppendSubnodeInList node p l)
          = Node.AppendSubnodeInList node p (Node.modifyInList g q l) := by
  induction n with
  | zero =>
    intro l hlen p t h
    cases l with
    | nil => simp [Node.preorderOfList] at h
    | cons first rest => simp [Node.preorderOfList] at hlen
  | succ n ih =>
    intro l hlen p t h q
    cases l with
    | nil => simp [Node.preorderOfList] at h
    | cons first rest =>
      simp only [Node.preorderOfList, List.length_cons, List.length_append] at hlen
      cases p with
      | zero =>
        simp only [Node.preorderOfList, List.getElem?_cons_zero, Option.some.injEq] at h
        subst h
        cases q with
        | zero =>
          have h0 : Node.movedPointer (0 + 1 + first.descendants.length)
              (node.descendants.length + 1) 0 = 0 := by
            unfold Node.movedPointer
            rw [if_pos (by omega)]
          rw [h0]
          cases first
          rfl
        | succ q =>
          by_cases hq : q < first.descendants.length
          · have h0 : Node.movedPointer (0 + 1 + first.descendants.length)
                (node.descendants.length + 1) (q + 1) = q + 1 := by
              unfold Node.movedPointer
              rw [if_pos (by omega)]
            rw [h0]
            have h1 : q < (first.AppendSubnode node).descendants.length := by
              rw [Node.descendants_AppendSubnode]
              simp
              omega
            simp only [Node.AppendSubnodeInList, Node.modifyInList, h1, hq, if_true]
            rw [Node.modifyDescendant_AppendSubnode g node q first hq]
          · have h0 : Node.movedPointer (0 + 1 + first.descendants.length)
                (node.descendants.length + 1) (q + 1)
                = (q + (node.descendants.length + 1)) + 1 := by
              unfold Node.movedPointer
              rw [if_neg (by omega)]
              omega
            rw [h0]
            have h1 : ¬ q + (node.descendants.length + 1)
                < (first.AppendSubnode node).descendants.length := by
              rw [Node.descendants_AppendSubnode]
              simp
              omega
            have h2 : q + (node.descendants.length + 1)
                  - (first.AppendSubnode node).descendants.length
                = q - first.descendants.length := by
              rw [Node.descendants_AppendSubnode]
              simp
              omega
            simp only [Node.AppendSubnodeInList, Node.modifyInList, h1, hq, if_false, h2]
      | succ p =>
        simp only [Node.preorderOfList, List.getElem?_cons_succ] at h
        by_cases hp : p < first.descendants.length
        · rw [List.getElem?_append_left hp, Node.descendants_eq] at h
          have hle := Node.subtree_le_length node first.subnodes p t h
          rw [← Node.descendants_eq] at hle
          cases q with
          | zero =>
            have h0 : Node.movedPointer (p + 1 + 1 + t.descendants.length)
                (node.descendants.length + 1) 0 = 0 := by
              unfold Node.movedPointer
              rw [if_pos (by omega)]
            rw [h0]
            have h1 : p < (first.setData (g first.data)).descendants.length := by
              rw [Node.descendants_setData]
              exact hp
            simp only [Node.AppendSubnodeInList, Node.modifyInList, hp, h1, if_true]
            cases first
            rfl
          | succ q =>
            by_cases hq : q < first.descendants.length
            · have h0 : Node.movedPointer (p + 1 + 1 + t.descendants.length)
                  (node.descendants.length + 1) (q + 1)
                  = Node.movedPointer (p + 1 + t.descendants.length)
                      (node.descendants.length + 1) q + 1 := by
                unfold Node.movedPointer
                split <;> split <;> omega
              rw [h0]
              have h1 : Node.movedPointer (p + 1 + t.descendants.length)
                  (node.descendants.length + 1) q
                  < (Node.AppendSubnodeBelow node p first).descendants.length := by
                rw [Node.length_descendants_AppendSubnodeBelow node p first hp]
                unfold Node.movedPointer
                split <;> omega
              have h2 : p < (Node.modifyDescendant g q first).descendants.length := by
                rw [Node.length_descendants_modifyDescendant]
                exact hp
              simp only [Node.AppendSubnodeInList, Node.modifyInList, hp, hq, h1, h2, if_true]
              have h3 := ih first.subnodes (by rw [← Node.descendants_eq]; omega) p t h q
              cases first with
              | mk c name tr ctrl w subs =>
                simp only [Node.AppendSubnodeBelow, Node.modifyDescendant]
                rw [show subs = (Node.mk c name tr ctrl w subs).subnodes from rfl, h3]
            · have h0 : Node.movedPointer (p + 1 + 1 + t.descendants.length)
                  (node.descendants.length + 1) (q + 1)
                  = (q + (node.descendants.length + 1)) + 1 := by
                unfold Node.movedPointer
                rw [if_neg (by omega)]
                omega
              rw [h0]
              have h1 : ¬ q + (node.descendants.length + 1)
                  < (Node.AppendSubnodeBelow node p first).descendants.length := by
                rw [Node.length_descendants_AppendSubnodeBelow node p first hp]
                omega
              have h2 : q + (node.descendants.length + 1)
                    - (Node.AppendSubnodeBelow node p first).descendants.length
                  = q - first.descendants.length := by
                rw [Node.length_descendants_AppendSubnodeBelow node p first hp]
                omega
              simp only [Node.AppendSubnodeInList, Node.modifyInList, hp, hq, h1, if_true,
                if_false, h2]
        · rw [List.getElem?_append_right (not_lt.mp hp)] at h
          cases q with
          | zero =>
            have h0 : Node.movedPointer (p + 1 + 1 + t.descendants.length)
                (node.descendants.length + 1) 0 = 0 := by
              unfold Node.movedPointer
              rw [if_pos (by omega)]
            rw [h0]
            have h1 : ¬ p < (first.setData (g first.data)).descendants.length := by
              rw [Node.descendants_setData]
              exact hp
            simp only [Node.AppendSubnodeInList, Node.modifyInList, hp, h1, if_false,
              Node.descendants_setData]
          | succ q =>
            by_cases hq : q < first.descendants.length
            · have h0 : Node.movedPointer (p + 1 + 1 + t.descendants.length)
                  (node.descendants.length + 1) (q + 1) = q + 1 := by
                unfold Node.movedPointer
                rw [if_pos (by omega)]
              rw [h0]
              have h2 : ¬ p < (Node.modifyDescendant g q first).descendants.length := by
                rw [Node.length_descendants_modifyDescendant]
                exact hp
              simp only [Node.AppendSubnodeInList, Node.modifyInList, hp, hq, h2, if_true,
                if_false, Node.length_descendants_modifyDescendant]
            · have h0 : Node.movedPointer (p + 1 + 1 + t.descendants.length)
                  (node.descendants.length + 1) (q + 1)
                  = (first.descendants.length
                      + Node.movedPointer (p - first.descendants.length + 1
                          + t.descendants.length)
                        (node.descendants.length + 1) (q - first.descendants.length)) + 1 := by
                unfold Node.movedPointer
                split <;> split <;> omega
              rw [h0]
              have h3 := ih rest (by omega) (p - first.descendants.length) t h
                (q - first.descendants.length)
              simp only [Node.AppendSubnodeInList, Node.modifyInList, hp, hq, if_false,
                Nat.not_lt.mpr (Nat.le_add_right _ _), Nat.add_sub_cancel_left, h3]

end InsertionCommute

section InsertionPointers

variable {K : Type}

/-- A write through a pointer that refers to no node of a list of trees leaves
the list as it is. -/
theorem Node.modifyInList_of_le (g : NodeData K → NodeData K) :
    ∀ (l : List (Node K)) (q : Nat), (Node.preorderOfList l).length ≤ q →
      Node.modifyInList g q l = l := by
  intro l
  induction l with
  | nil => intro q _; cases q <;> rfl
  | cons first rest ih =>
    intro q hq
    simp only [Node.preorderOfList, List.length_cons, List.length_append] at hq
    cases q with
    | zero => omega
    | succ q =>
      have h : ¬ q < first.descendants.length := by omega
      simp only [Node.modifyInList, h, if_false]
      rw [ih _ (by omega)]

/-- A write through a pointer that refers to no node leaves the tree as it
is. -/
theorem Node.modifyDescendant_of_le (g : NodeData K → NodeData K) (q : Nat) (root : Node K)
    (hq : root.descendants.length ≤ q) : Node.modifyDescendant g q root = root := by
  cases root with
  | mk c name t ctrl w subs =>
    simp only [Node.modifyDescendant]
    rw [Node.modifyInList_of_le g subs q hq]

/-- A write through a pointer keeps the position at which a node appended
below `target` comes to stand. -/
theorem Node.subnodePointer_modifyDescendant (g : NodeData K → NodeData K) (q : Nat)
    (root : Node K) (target : Option Nat) :
    (Node.modifyDescendant g q root).subnodePointer target = root.subnodePointer target := by
  cases target with
  | none =>
    simp only [Node.subnodePointer, Node.length_descendants_modifyDescendant]
  | some p =>
    have h := congrArg (fun l => l[p]?) (Node.modifyInList_sizes g _ root.subnodes (le_refl _) q)
    simp only [List.getElem?_map, ← Node.descendants_modifyDescendant,
      ← Node.descendants_eq] at h
    simp only [Node.subnodePointer, Node.length_descendants_modifyDescendant]
    cases h1 : (Node.modifyDescendant g q root).descendants[p]? <;>
      cases h2 : root.descendants[p]? <;> rw [h1, h2] at h <;> simp at h ⊢
    omega

/-- A write through a pointer and an insertion below `target` commute, the
pointer of the write being renamed for the tree with the new nodes. -/
theorem Node.modifyDescendant_AppendSubnodeAt (g : NodeData K → NodeData K) (root : Node K)
    (target : Option Nat) (node : Node K)
    (htarget : ∀ p, target = some p → p < root.descendants.length) (q : Nat) :
    Node.modifyDescendant g
        (Node.movedPointer (root.subnodePointer target) (node.descendants.length + 1) q)
        (root.AppendSubnodeAt target node)
      = (Node.modifyDescendant g q root).AppendSubnodeAt target node := by
  cases target with
  | none =>
    simp only [Node.AppendSubnodeAt, Node.subnodePointer, Node.movedPointer]
    by_cases hq : q < root.descendants.length
    · rw [if_pos hq, Node.modifyDescendant_AppendSubnode g node q root hq]
    · rw [if_neg hq, Node.modifyDescendant_of_le g q root (by omega),
        Node.modifyDescendant_of_le]
      rw [Node.descendants_AppendSubnode]
      simp
      omega
  | some p =>
    have hp := htarget p rfl
    obtain ⟨t, ht⟩ : ∃ t, root.descendants[p]? = some t :=
      ⟨_, List.getElem?_eq_getElem hp⟩
    have ht2 := ht
    rw [Node.descendants_eq] at ht2
    have h := Node.modifyInList_AppendSubnodeInList g node _ root.subnodes (le_refl _) p t
      ht2 q
    simp only [Node.AppendSubnodeAt, Node.subnodePointer, ht]
    cases root with
    | mk c name tr ctrl w subs =>
      simp only [Node.AppendSubnodeBelow, Node.modifyDescendant]
      rw [show subs = (Node.mk c name tr ctrl w subs).subnodes from rfl, h]

end InsertionPointers

section InsertionUpdate

variable {K : Type} [LinearOrderedField K]

/-- The call `UpdateNode` keeps the number of proper descendants. -/
theorem Node.length_descendants_UpdateNode (InverseSqrt : K → K)
    (superNode : Option (Transform4D K)) (node : Node K) :
    (node.UpdateNode InverseSqrt superNode).descendants.length = node.descendants.length := by
  have h := congrArg List.length (Node.UpdateNode_descendants InverseSqrt superNode node)
  simpa using h

/-- The loop `UpdateSubnodes` keeps the number of nodes of the trees of the
list. -/
theorem Node.length_preorderOfList_UpdateSubnodes (InverseSqrt : K → K)
    (superWorld : Transform4D K) (l : List (Node K)) :
    (Node.preorderOfList (Node.UpdateSubnodes InverseSqrt superWorld l)).length
      = (Node.preorderOfList l).length := by
  have h := congrArg List.length
    (Node.UpdateSubnodes_preorderOfList InverseSqrt _ l (le_refl _) superWorld)
  simpa using h

/-- The loop `UpdateSubnodes` keeps the number of proper descendants of every
node; by induction on a bound `n` for the number of nodes. -/
theorem Node.UpdateSubnodes_sizes (InverseSqrt : K → K) (n : Nat) :
    ∀ (l : List (Node K)), (Node.preorderOfList l).length ≤ n →
      ∀ (superWorld : Transform4D K),
        (Node.preorderOfList (Node.UpdateSubnodes InverseSqrt superWorld l)).map
            (fun m => m.descendants.length)
          = (Node.preorderOfList l).map (fun m => m.descendants.length) := by
  induction n with
  | zero =>
    intro l hlen superWorld
    cases l with
    | nil => rfl
    | cons node rest => simp [Node.preorderOfList] at hlen
  | succ n ih =>
    intro l hlen superWorld
    cases l with
    | nil => rfl
    | cons node rest =>
      simp only [Node.preorderOfList, List.length_cons, List.length_append] at hlen
      have h1 := ih node.subnodes (by rw [← Node.descendants_eq]; omega)
        (Node.expectedWorld (some superWorld) node.nodeTransform)
      have h2 := ih rest (by omega) superWorld
      simp only [Node.UpdateSubnodes, Node.preorderOfList, List.map_cons, List.map_append,
        Node.length_descendants_UpdateNode]
      rw [Node.descendants_eq (Node.UpdateNode InverseSqrt (some superWorld) node),
        Node.UpdateNode_subnodes, h1, h2, ← Node.descendants_eq]

/-- The call `UpdateNode` keeps the position at which a node appended below
`target` comes to stand. -/
theorem Node.subnodePointer_UpdateNode (InverseSqrt : K → K)
    (superNode : Option (Transform4D K)) (root : Node K) (target : Option Nat) :
    (root.UpdateNode InverseSqrt superNode).subnodePointer target
      = root.subnodePointer target := by
  cases target with
  | none =>
    simp only [Node.subnodePointer, Node.length_descendants_UpdateNode]
  | some p =>
    have h := congrArg (fun l => l[p]?)
      (Node.UpdateSubnodes_sizes InverseSqrt _ root.subnodes (le_refl _)
        (Node.expectedWorld superNode root.nodeTransform))
    simp only [List.getElem?_map, ← Node.UpdateNode_subnodes, ← Node.descendants_eq] at h
    simp only [Node.subnodePointer, Node.length_descendants_UpdateNode]
    cases h1 : (root.UpdateNode InverseSqrt superNode).descendants[p]? <;>
      cases h2 : root.descendants[p]? <;> rw [h1, h2] at h <;> simp at h ⊢
    omega

/-- The call `UpdateNode` on a node in terms of its members and subnodes: the
class it leaves does not depend on the subnodes. -/
theorem Node.UpdateNode_mk (InverseSqrt : K → K) (superNode : Option (Transform4D K))
    (c : NodeClass K) (name : String) (t : Transform4D K) (ctrl : Option (Controller K))
    (w : Transformable K) (subs : List (Node K)) :
    Node.UpdateNode InverseSqrt superNode (.mk c name t ctrl w subs)
      = .mk (Node.UpdateNode InverseSqrt superNode (.mk c name t ctrl w [])).nodeClass name t
          ctrl (Transformable.SetWorldTransform (Node.expectedWorld superNode t))
          (Node.UpdateSubnodes InverseSqrt (Node.expectedWorld superNode t) subs) := by
  cases c <;> cases superNode <;> rfl

/-- The loop `UpdateSubnodes` on a list with a tree appended. -/
theorem Node.UpdateSubnodes_append_singleton (InverseSqrt : K → K) (superWorld : Transform4D K)
    (node : Node K) (l : List (Node K)) :
    Node.UpdateSubnodes InverseSqrt superWorld (l ++ [node])
      = Node.UpdateSubnodes InverseSqrt superWorld l
        ++ [Node.UpdateNode InverseSqrt (some superWorld) node] := by
  induction l with
  | nil => rfl
  | cons first rest ih =>
    simp only [List.cons_append, Node.UpdateSubnodes]
    exact congrArg _ ih

/-- The call `UpdateNode` on a node with a tree appended below it updates the
appended tree below the world transform of the node. -/
theorem Node.UpdateNode_AppendSubnode (InverseSqrt : K → K)
    (superNode : Option (Transform4D K)) (this node : Node K) :
    (this.AppendSubnode node).UpdateNode InverseSqrt superNode
      = (this.UpdateNode InverseSqrt superNode).AppendSubnode
          (node.UpdateNode InverseSqrt
            (some (Node.expectedWorld superNode this.nodeTransform))) := by
  cases this with
  | mk c name t ctrl w subs =>
    simp only [Node.AppendSubnode]
    rw [Node.UpdateNode_mk InverseSqrt superNode c name t ctrl w (subs ++ [node]),
      Node.UpdateNode_mk InverseSqrt superNode c name t ctrl w subs,
      Node.UpdateSubnodes_append_singleton]
    rfl

/-- The loop `UpdateSubnodes` and an insertion below a node of the list
commute, the inserted tree being updated as well; by induction on a bound `n`
for the number of nodes. -/
theorem Node.UpdateSubnodes_AppendSubnodeInList (InverseSqrt : K → K) (node : Node K)
    (n : Nat) :
    ∀ (l : List (Node K)), (Node.preorderOfList l).length ≤ n →
      ∀ (p : Nat), p < (Node.preorderOfList l).length → ∀ (superWorld : Transform4D K),
        ∃ updatedNode : Node K,
          updatedNode.descendants.length = node.descendants.length ∧
          Node.UpdateSubnodes InverseSqrt superWorld (Node.AppendSubnodeInList node p l)
            = Node.AppendSubnodeInList updatedNode p
                (Node.UpdateSubnodes InverseSqrt superWorld l) := by
  induction n with
  | zero =>
    intro l hlen p hp
    cases l with
    | nil => simp [Node.preorderOfList] at hp
    | cons first rest => simp [Node.preorderOfList] at hlen
  | succ n ih =>
    intro l hlen p hp superWorld
    cases l with
    | nil => simp [Node.preorderOfList] at hp
    | cons first rest =>
      simp only [Node.preorderOfList, List.length_cons, List.length_append] at hlen hp
      cases p with
      | zero =>
        refine ⟨_, Node.length_descendants_UpdateNode InverseSqrt
          (some (Node.expectedWorld (some superWorld) first.nodeTransform)) node, ?_⟩
        simp only [Node.AppendSubnodeInList, Node.UpdateSubnodes, Node.UpdateNode_AppendSubnode]
      | succ p =>
        by_cases h : p < first.descendants.length
        · have h1 : p < (Node.UpdateNode InverseSqrt (some superWorld)
              first).descendants.length := by
            rw [Node.length_descendants_UpdateNode]
            exact h
          obtain ⟨updatedNode, hu1, hu2⟩ := ih first.subnodes
            (by rw [← Node.descendants_eq]; omega) p (by rw [← Node.descendants_eq]; exact h)
            (Node.expectedWorld (some superWorld) first.nodeTransform)
          refine ⟨updatedNode, hu1, ?_⟩
          simp only [Node.AppendSubnodeInList, Node.UpdateSubnodes, h, h1, if_true]
          cases first with
          | mk c name t ctrl w subs =>
            simp only [Node.AppendSubnodeBelow]
            rw [Node.UpdateNode_mk InverseSqrt (some superWorld) c name t ctrl w
                (Node.AppendSubnodeInList node p subs),
              Node.UpdateNode_mk InverseSqrt (some superWorld) c name t ctrl w subs]
            simp only [Node.AppendSubnodeBelow]
            simp only [Node.nodeTransform, Node.subnodes] at hu2
            rw [hu2]
        · have h1 : ¬ p < (Node.UpdateNode InverseSqrt (some superWorld)
              first).descendants.length := by
            rw [Node.length_descendants_UpdateNode]
            exact h
          obtain ⟨updatedNode, hu1, hu2⟩ := ih rest (by omega) (p - first.descendants.length)
            (by omega) superWorld
          refine ⟨updatedNode, hu1, ?_⟩
          simp only [Node.AppendSubnodeInList, Node.UpdateSubnodes, h, h1, if_false,
            Node.length_descendants_UpdateNode, hu2]

/-- The call `UpdateNode` and an insertion below `target` commute, the inserted
tree being updated as well. -/
theorem Node.UpdateNode_AppendSubnodeAt (InverseSqrt : K → K)
    (superNode : Option (Transform4D K)) (root : Node K) (target : Option Nat) (node : Node K)
    (htarget : ∀ p, target = some p → p < root.descendants.length) :
    ∃ updatedNode : Node K,
      updatedNode.descendants.length = node.descendants.length ∧
      (root.AppendSubnodeAt target node).UpdateNode InverseSqrt superNode
        = (root.UpdateNode InverseSqrt superNode).AppendSubnodeAt target updatedNode := by
  cases target with
  | none =>
    exact ⟨_, Node.length_descendants_UpdateNode InverseSqrt _ node,
      Node.UpdateNode_AppendSubnode InverseSqrt superNode root node⟩
  | some p =>
    have hp := htarget p rfl
    rw [Node.descendants_eq] at hp
    obtain ⟨updatedNode, hu1, hu2⟩ := Node.UpdateSubnodes_AppendSubnodeInList InverseSqrt node
      _ root.subnodes (le_refl _) p hp (Node.expectedWorld superNode root.nodeTransform)
    refine ⟨updatedNode, hu1, ?_⟩
    cases root with
    | mk c name t ctrl w subs =>
      simp only [Node.AppendSubnodeAt, Node.AppendSubnodeBelow]
      rw [Node.UpdateNode_mk InverseSqrt superNode c name t ctrl w
          (Node.AppendSubnodeInList node p subs),
        Node.UpdateNode_mk InverseSqrt superNode c name t ctrl w subs]
      simp only [Node.AppendSubnodeBelow]
      simp only [Node.nodeTransform, Node.subnodes] at hu2
      rw [hu2]

end InsertionUpdate

section InsertionRender

variable {K : Type} [LinearOrderedField K]

/-- The first loop of `RenderWorld` keeps the number of proper descendants and
the position at which a node appended below `target` comes to stand. -/
theorem WorldManager.RenderWorld.MoveControllers_subnodePointer
    (MakeRotation : K → Vector3D K → Matrix3D K) (deltaTime : K) (target : Option Nat)
    (l : List Nat) :
    ∀ (state : Node K × List Event),
      (WorldManager.RenderWorld.MoveControllers MakeRotation deltaTime l
          state).1.descendants.length = state.1.descendants.length ∧
      (WorldManager.RenderWorld.MoveControllers MakeRotation deltaTime l
          state).1.subnodePointer target = state.1.subnodePointer target := by
  induction l with
  | nil => intro state; exact ⟨rfl, rfl⟩
  | cons a t ih =>
    intro state
    unfold WorldManager.RenderWorld.MoveControllers
    rw [(ih _).1, (ih _).2, Node.length_descendants_modifyDescendant,
      Node.subnodePointer_modifyDescendant]
    exact ⟨rfl, rfl⟩

/-- The first loop of `RenderWorld` and an insertion below `target` commute:
on the tree with the new nodes, run for the renamed pointers, the loop leaves
the tree it leaves without them, with the new nodes inserted. -/
theorem WorldManager.RenderWorld.MoveControllers_AppendSubnodeAt
    (MakeRotation : K → Vector3D K → Matrix3D K) (deltaTime : K) (target : Option Nat)
    (node : Node K) (l : List Nat) :
    ∀ (root : Node K) (trace inserted : List Event),
      (∀ p, target = some p → p < root.descendants.length) →
      (WorldManager.RenderWorld.MoveControllers MakeRotation deltaTime
          (l.map (Node.movedPointer (root.subnodePointer target)
            (node.descendants.length + 1)))
          (root.AppendSubnodeAt target node, inserted)).1
        = (WorldManager.RenderWorld.MoveControllers MakeRotation deltaTime l
            (root, trace)).1.AppendSubnodeAt target node := by
  induction l with
  | nil => intro root trace inserted _; rfl
  | cons a t ih =>
    intro root trace inserted htarget
    simp only [List.map_cons, WorldManager.RenderWorld.MoveControllers]
    rw [Node.modifyDescendant_AppendSubnodeAt _ root target node htarget a]
    have h := ih (Node.modifyDescendant (NodeData.MoveController MakeRotation deltaTime) a root)
      (trace ++ [Event.MoveController a])
      (inserted ++ [Event.MoveController (Node.movedPointer (root.subnodePointer target)
        (node.descendants.length + 1) a)])
      (by
        intro p hp
        rw [Node.length_descendants_modifyDescendant]
        exact htarget p hp)
    rw [Node.subnodePointer_modifyDescendant] at h
    exact h

/-- Transform propagation in `RenderWorld` and an insertion below `target`
commute: the tree after propagation in the world with the new nodes is the tree
after propagation in the world without them, with a tree of as many nodes as
the new one inserted. -/
theorem WorldManager.RenderWorld.propagated_AppendSubnode (InverseSqrt : K → K)
    (MakeRotation : K → Vector3D K → Matrix3D K) (deltaTime : K) (w : WorldManager K)
    (target : Option Nat) (node : Node K)
    (htarget : ∀ p, target = some p → p < w.rootNode.descendants.length) :
    ∃ updatedNode : Node K,
      updatedNode.descendants.length = node.descendants.length ∧
      WorldManager.RenderWorld.propagated InverseSqrt MakeRotation deltaTime
          (w.AppendSubnode target node)
        = (WorldManager.RenderWorld.propagated InverseSqrt MakeRotation deltaTime
            w).AppendSubnodeAt target updatedNode := by
  have hlen := (WorldManager.RenderWorld.MoveControllers_subnodePointer MakeRotation deltaTime
    target w.controllerList (w.rootNode, [])).1
  obtain ⟨updatedNode, hu1, hu2⟩ := Node.UpdateNode_AppendSubnodeAt InverseSqrt none
    (WorldManager.RenderWorld.moved MakeRotation deltaTime w).1 target node
    (by
      intro p hp
      unfold WorldManager.RenderWorld.moved
      rw [hlen]
      exact htarget p hp)
  refine ⟨updatedNode, hu1, ?_⟩
  unfold WorldManager.RenderWorld.propagated
  rw [← hu2]
  congr 1
  exact WorldManager.RenderWorld.MoveControllers_AppendSubnodeAt MakeRotation deltaTime target
    node w.controllerList w.rootNode [] [] htarget

/-- After transform propagation in the world with the new nodes, the members
read through a renamed pointer are the members read through the pointer after
transform propagation in the world without them. -/
theorem WorldManager.RenderWorld.propagated_dataAt_movedPointer (InverseSqrt : K → K)
    (MakeRotation : K → Vector3D K → Matrix3D K) (deltaTime : K) (w : WorldManager K)
    (target : Option Nat) (node : Node K)
    (htarget : ∀ p, target = some p → p < w.rootNode.descendants.length) (q : Nat) :
    (WorldManager.RenderWorld.propagated InverseSqrt MakeRotation deltaTime
        (w.AppendSubnode target node)).dataAt
        (Node.movedPointer (w.rootNode.subnodePointer target) (node.descendants.length + 1) q)
      = (WorldManager.RenderWorld.propagated InverseSqrt MakeRotation deltaTime w).dataAt q := by
  obtain ⟨updatedNode, hu1, hu2⟩ := WorldManager.RenderWorld.propagated_AppendSubnode
    InverseSqrt MakeRotation deltaTime w target node htarget
  obtain ⟨hlen, hpos⟩ := WorldManager.RenderWorld.MoveControllers_subnodePointer MakeRotation
    deltaTime target w.controllerList (w.rootNode, [])
  have hpos2 : (WorldManager.RenderWorld.propagated InverseSqrt MakeRotation deltaTime
      w).subnodePointer target = w.rootNode.subnodePointer target := by
    unfold WorldManager.RenderWorld.propagated WorldManager.RenderWorld.moved
    rw [Node.subnodePointer_UpdateNode, hpos]
  have hlen2 : (WorldManager.RenderWorld.propagated InverseSqrt MakeRotation deltaTime
      w).descendants.length = w.rootNode.descendants.length := by
    unfold WorldManager.RenderWorld.propagated WorldManager.RenderWorld.moved
    rw [Node.length_descendants_UpdateNode, hlen]
  rw [hu2, ← hpos2, ← hu1]
  exact Node.dataAt_AppendSubnodeAt_movedPointer _ target updatedNode
    (fun p hp => by rw [hlen2]; exact htarget p hp) q

end InsertionRender

section InsertionCounts

variable {K : Type} [LinearOrderedField K]

/-- The tests of the passes of `RenderWorld` read the members of the nodes
only: trees whose members agree along a renaming of the pointers give the same
results. -/
theorem Node.tests_of_dataAt (tree renamed : Node K) (f : Nat → Nat)
    (h : ∀ q, renamed.dataAt (f q) = tree.dataAt q) (camera : FrustumCamera K) :
    (∀ g, renamed.GeometryVisibleAt camera (f g) = tree.GeometryVisibleAt camera g) ∧
    (∀ l, renamed.PointLightVisibleAt camera (f l) = tree.PointLightVisibleAt camera l) ∧
    (∀ l g, renamed.GeometryIlluminatedAt (f l) (f g) = tree.GeometryIlluminatedAt l g) := by
  refine ⟨?_, ?_, ?_⟩
  · intro g
    unfold Node.GeometryVisibleAt
    rw [h]
  · intro l
    unfold Node.PointLightVisibleAt
    rw [h]
  · intro l g
    unfold Node.GeometryIlluminatedAt
    rw [h, h]

/-- The pairs of the light passes in trees whose members agree along a
renaming of the pointers are the renamed pairs. -/
theorem Node.illuminatedPairs_map (tree renamed : Node K) (f : Nat → Nat)
    (h : ∀ q, renamed.dataAt (f q) = tree.dataAt q) (camera : FrustumCamera K)
    (lights visible : List Nat) :
    renamed.illuminatedPairs camera (lights.map f) (visible.map f)
      = (tree.illuminatedPairs camera lights visible).map (Prod.map f f) := by
  obtain ⟨-, hl, hi⟩ := Node.tests_of_dataAt tree renamed f h camera
  unfold Node.illuminatedPairs
  simp only [List.filter_map, List.flatMap_map, List.map_flatMap, List.map_map,
    Function.comp_def, hl, hi, Prod.map_apply]

/-- The visible set of the ambient pass in trees whose members agree along a
renaming of the pointers is the renamed visible set. -/
theorem Node.filter_GeometryVisibleAt_map (tree renamed : Node K) (f : Nat → Nat)
    (h : ∀ q, renamed.dataAt (f q) = tree.dataAt q) (camera : FrustumCamera K)
    (geometries : List Nat) :
    (geometries.map f).filter (fun g => renamed.GeometryVisibleAt camera g)
      = (geometries.filter (fun g => tree.GeometryVisibleAt camera g)).map f := by
  obtain ⟨hv, -, -⟩ := Node.tests_of_dataAt tree renamed f h camera
  simp only [List.filter_map, Function.comp_def, hv]

/-- The counted lights in trees whose members agree along a renaming of the
pointers are the renamed counted lights. -/
theorem Node.filter_PointLightVisibleAt_map (tree renamed : Node K) (f : Nat → Nat)
    (h : ∀ q, renamed.dataAt (f q) = tree.dataAt q) (camera : FrustumCamera K)
    (lights : List Nat) :
    (lights.map f).filter (fun l => renamed.PointLightVisibleAt camera l)
      = (lights.filter (fun l => tree.PointLightVisibleAt camera l)).map f := by
  obtain ⟨-, hl, -⟩ := Node.tests_of_dataAt tree renamed f h camera
  simp only [List.filter_map, Function.comp_def, hl]

/-- A node inserted into the tree changes none of the counts of `RenderWorld`,
and the visible set is the visible set without it, the pointers renamed. -/
theorem WorldManager.RenderWorld_AppendSubnode (InverseSqrt : K → K)
    (MakeRotation : K → Vector3D K → Matrix3D K) (deltaTime : K) (w : WorldManager K)
    (target : Option Nat) (node : Node K)
    (htarget : ∀ p, target = some p → p < w.rootNode.descendants.length) :
    (WorldManager.RenderWorld InverseSqrt MakeRotation deltaTime
        (w.AppendSubnode target node)).visibleGeometryArray
      = (WorldManager.RenderWorld InverseSqrt MakeRotation deltaTime
          w).visibleGeometryArray.map
        (Node.movedPointer (w.rootNode.subnodePointer target)
          (node.descendants.length + 1)) ∧
    (WorldManager.RenderWorld InverseSqrt MakeRotation deltaTime
        (w.AppendSubnode target node)).ambientDrawCount
      = (WorldManager.RenderWorld InverseSqrt MakeRotation deltaTime w).ambientDrawCount ∧
    (WorldManager.RenderWorld InverseSqrt MakeRotation deltaTime
        (w.AppendSubnode target node)).lightDrawCount
      = (WorldManager.RenderWorld InverseSqrt MakeRotation deltaTime w).lightDrawCount ∧
    (WorldManager.RenderWorld InverseSqrt MakeRotation deltaTime
        (w.AppendSubnode target node)).lightSourceCount
      = (WorldManager.RenderWorld InverseSqrt MakeRotation deltaTime w).lightSourceCount := by
  have hdata := WorldManager.RenderWorld.propagated_dataAt_movedPointer InverseSqrt
    MakeRotation deltaTime w target node htarget
  rcases WorldManager.RenderWorld_cases InverseSqrt MakeRotation deltaTime w with
    hnone | ⟨cam, hcam, hnot⟩ | ⟨cam, camera, hcam, hfrustum⟩
  · have hnone2 : (w.AppendSubnode target node).cameraNode = none := by
      show w.cameraNode.map _ = none
      rw [hnone]
      rfl
    rw [WorldManager.RenderWorld_of_no_camera InverseSqrt MakeRotation deltaTime w hnone,
      WorldManager.RenderWorld_of_no_camera InverseSqrt MakeRotation deltaTime _ hnone2]
    exact ⟨rfl, rfl, rfl, rfl⟩
  · have hcam2 : (w.AppendSubnode target node).cameraNode
        = some (Node.movedPointer (w.rootNode.subnodePointer target)
          (node.descendants.length + 1) cam) := by
      show w.cameraNode.map _ = _
      rw [hcam]
      rfl
    rw [WorldManager.RenderWorld_of_not_frustum InverseSqrt MakeRotation deltaTime w cam hcam
        hnot,
      WorldManager.RenderWorld_of_not_frustum InverseSqrt MakeRotation deltaTime _ _ hcam2
        (by rw [hdata]; exact hnot)]
    exact ⟨rfl, rfl, rfl, rfl⟩
  · have hcam2 : (w.AppendSubnode target node).cameraNode
        = some (Node.movedPointer (w.rootNode.subnodePointer target)
          (node.descendants.length + 1) cam) := by
      show w.cameraNode.map _ = _
      rw [hcam]
      rfl
    obtain ⟨hv, ha, hd, hs, -⟩ := WorldManager.RenderWorld_frustum InverseSqrt MakeRotation
      deltaTime w cam camera hcam hfrustum
    obtain ⟨hv2, ha2, hd2, hs2, -⟩ := WorldManager.RenderWorld_frustum InverseSqrt MakeRotation
      deltaTime (w.AppendSubnode target node) _ camera hcam2 (by rw [hdata]; exact hfrustum)
    have hvisible : (WorldManager.RenderWorld InverseSqrt MakeRotation deltaTime
        (w.AppendSubnode target node)).visibleGeometryArray
      = (WorldManager.RenderWorld InverseSqrt MakeRotation deltaTime
          w).visibleGeometryArray.map
        (Node.movedPointer (w.rootNode.subnodePointer target)
          (node.descendants.length + 1)) := by
      rw [hv2, hv]
      exact Node.filter_GeometryVisibleAt_map _ _ _ hdata camera w.geometryList
    refine ⟨hvisible, ?_, ?_, ?_⟩
    · rw [ha2, ha, hvisible, List.length_map]
    · rw [hd2, hd, hvisible]
      show (Node.illuminatedPairs _ camera (w.lightList.map _) _).length = _
      rw [Node.illuminatedPairs_map _ _ _ hdata camera, List.length_map]
    · rw [hs2, hs]
      show ((w.lightList.map _).filter _).length = _
      rw [Node.filter_PointLightVisibleAt_map _ _ _ hdata camera, List.length_map]

end InsertionCounts

section InsertionLinks

variable {K : Type}

/-- Every node of the pre-order of a list of trees is a member of the list or
the subnode of a link below the list; by induction on a bound `n` for the
number of nodes. -/
theorem Node.mem_preorderOfList_link (n : Nat) :
    ∀ (l : List (Node K)), (Node.preorderOfList l).length ≤ n →
      ∀ N : Node K, N ∈ Node.preorderOfList l →
        N ∈ l ∨ ∃ P, (P, N) ∈ Node.linksOfList l := by
  induction n with
  | zero =>
    intro l hlen N h
    cases l with
    | nil => simp [Node.preorderOfList] at h
    | cons first rest => simp [Node.preorderOfList] at hlen
  | succ n ih =>
    intro l hlen N h
    cases l with
    | nil => simp [Node.preorderOfList] at h
    | cons first rest =>
      simp only [Node.preorderOfList, List.length_cons, List.length_append] at hlen
      simp only [Node.preorderOfList, List.mem_cons, List.mem_append] at h
      rcases h with h | h | h
      · exact Or.inl (h ▸ List.mem_cons_self _ _)
      · rw [Node.descendants_eq] at h
        right
        rcases ih first.subnodes (by rw [← Node.descendants_eq]; omega) N h with h1 | ⟨P, h1⟩
        · refine ⟨first, ?_⟩
          simp only [Node.linksOfList, List.mem_append]
          left
          rw [Node.links_eq]
          exact List.mem_append_left _ (List.mem_map.mpr ⟨N, h1, rfl⟩)
        · refine ⟨P, ?_⟩
          simp only [Node.linksOfList, List.mem_append]
          left
          rw [Node.links_eq]
          exact List.mem_append_right _ h1
      · rcases ih rest (by omega) N h with h1 | ⟨P, h1⟩
        · exact Or.inl (List.mem_cons_of_mem _ h1)
        · right
          refine ⟨P, ?_⟩
          simp only [Node.linksOfList, List.mem_append]
          exact Or.inr h1

/-- Every proper descendant of a node is the subnode of a link of the tree. -/
theorem Node.exists_link_of_mem_descendants (root N : Node K) (h : N ∈ root.descendants) :
    ∃ P, (P, N) ∈ root.links := by
  rw [Node.descendants_eq] at h
  rw [Node.links_eq]
  rcases Node.mem_preorderOfList_link _ root.subnodes (le_refl _) N h with h1 | ⟨P, h1⟩
  · exact ⟨root, List.mem_append_left _ (List.mem_map.mpr ⟨N, h1, rfl⟩)⟩
  · exact ⟨P, List.mem_append_right _ h1⟩

/-- The world transform of a node is the world transform of its members. -/
theorem Node.data_worldTransform (node : Node K) :
    node.data.transformable.worldTransform = node.GetWorldTransform := by
  cases node; rfl

/-- The name of a node is the name of its members. -/
theorem Node.data_nodeName (node : Node K) : node.data.nodeName = node.nodeName := by
  cases node; rfl

/-- The local transform of a node is the local transform of its members. -/
theorem Node.data_nodeTransform (node : Node K) :
    node.data.nodeTransform = node.nodeTransform := by
  cases node; rfl

end InsertionLinks

section InsertionFrame

variable {K : Type} [LinearOrderedField K]

/-- The first loop of `RenderWorld` leaves the members of a node that holds no
controller of the list as they are. -/
theorem WorldManager.RenderWorld.MoveControllers_dataAt_of_not_mem
    (MakeRotation : K → Vector3D K → Matrix3D K) (deltaTime : K) (l : List Nat) :
    ∀ (state : Node K × List Event) (j : Nat), j ∉ l →
      (WorldManager.RenderWorld.MoveControllers MakeRotation deltaTime l state).1.dataAt j
        = state.1.dataAt j := by
  induction l with
  | nil => intro state j _; rfl
  | cons a t ih =>
    intro state j hj
    unfold WorldManager.RenderWorld.MoveControllers
    rw [ih _ j (fun h => hj (List.mem_cons_of_mem _ h)), Node.dataAt_modifyDescendant,
      if_neg (fun (h : a = j) => hj (h ▸ List.mem_cons_self _ _))]

/-- The call `UpdateNode` keeps the name and the local transform of the node
a pointer refers to. -/
theorem Node.UpdateNode_getElem?_descendants (InverseSqrt : K → K)
    (superNode : Option (Transform4D K)) (root : Node K) (i : Nat) :
    ((root.UpdateNode InverseSqrt superNode).descendants[i]?).map
        (fun m => (m.nodeName, m.nodeTransform))
      = (root.descendants[i]?).map (fun m => (m.nodeName, m.nodeTransform)) := by
  rw [← List.getElem?_map, ← List.getElem?_map, Node.UpdateNode_descendants]

/-- After transform propagation in `RenderWorld`, a node that holds no
registered controller has its name and local transform and the product of the
world transform of its super node with its local transform as world
transform. -/
theorem WorldManager.RenderWorld.propagated_of_not_controller (InverseSqrt : K → K)
    (MakeRotation : K → Vector3D K → Matrix3D K) (deltaTime : K) (w : WorldManager K)
    (x : Nat) (d : NodeData K) (hx : x ∉ w.controllerList)
    (hd : w.rootNode.dataAt x = some d) :
    ∃ P N : Node K,
      (P, N) ∈ (WorldManager.RenderWorld.propagated InverseSqrt MakeRotation deltaTime
        w).links ∧
      (WorldManager.RenderWorld.propagated InverseSqrt MakeRotation deltaTime
        w).descendants[x]? = some N ∧
      N.nodeName = d.nodeName ∧ N.nodeTransform = d.nodeTransform ∧
      N.GetWorldTransform = P.GetWorldTransform.mul d.nodeTransform := by
  have hmoved : (WorldManager.RenderWorld.moved MakeRotation deltaTime w).1.dataAt x
      = some d := by
    unfold WorldManager.RenderWorld.moved
    rw [WorldManager.RenderWorld.MoveControllers_dataAt_of_not_mem _ _ _ _ x hx]
    exact hd
  unfold Node.dataAt Node.dataList at hmoved
  rw [List.getElem?_map] at hmoved
  cases hM : (WorldManager.RenderWorld.moved MakeRotation deltaTime w).1.descendants[x]? with
  | none => rw [hM] at hmoved; cases hmoved
  | some M =>
    rw [hM] at hmoved
    have hMd : M.data = d := Option.some.inj hmoved
    have hkeep := Node.UpdateNode_getElem?_descendants InverseSqrt none
      (WorldManager.RenderWorld.moved MakeRotation deltaTime w).1 x
    rw [hM] at hkeep
    cases hN : (Node.UpdateNode InverseSqrt none
        (WorldManager.RenderWorld.moved MakeRotation deltaTime w).1).descendants[x]? with
    | none => rw [hN] at hkeep; cases hkeep
    | some N =>
      rw [hN] at hkeep
      have hpair : (N.nodeName, N.nodeTransform) = (M.nodeName, M.nodeTransform) :=
        Option.some.inj hkeep
      have hname : N.nodeName = d.nodeName := by
        rw [← hMd, Node.data_nodeName]
        exact congrArg Prod.fst hpair
      have hlocal : N.nodeTransform = d.nodeTransform := by
        rw [← hMd, Node.data_nodeTransform]
        exact congrArg Prod.snd hpair
      obtain ⟨P, hP⟩ := Node.exists_link_of_mem_descendants _ N (List.getElem?_mem hN)
      refine ⟨P, N, hP, hN, hname, hlocal, ?_⟩
      rw [← hlocal]
      exact Node.UpdateNode_links InverseSqrt none _ P N hP

end InsertionFrame

section IndexFrameClaims

variable {K : Type} [LinearOrderedField K]

/-- With an active camera, the transforms of every node after `RenderWorld`
are those after the transform propagation of the call. -/
theorem WorldManager.RenderWorld_transforms (InverseSqrt : K → K)
    (MakeRotation : K → Vector3D K → Matrix3D K) (deltaTime : K) (w : WorldManager K)
    (cam : Nat) (hcam : w.cameraNode = some cam) (p : Nat) :
    ((WorldManager.RenderWorld InverseSqrt MakeRotation deltaTime w).world.rootNode.dataAt
        p).map (fun d => (d.nodeTransform, d.transformable))
      = ((WorldManager.RenderWorld.propagated InverseSqrt MakeRotation deltaTime w).dataAt
        p).map (fun d => (d.nodeTransform, d.transformable)) := by
  have hupdated : ((WorldManager.RenderWorld.updated InverseSqrt MakeRotation deltaTime
        w).1.dataAt p).map (fun d => (d.nodeTransform, d.transformable))
      = ((WorldManager.RenderWorld.propagated InverseSqrt MakeRotation deltaTime w).dataAt
        p).map (fun d => (d.nodeTransform, d.transformable)) := by
    unfold WorldManager.RenderWorld.updated
    rw [WorldManager.RenderWorld.UpdateControllers_dataAt
      (fun d => (d.nodeTransform, d.transformable)) (fun _ => rfl)]
  unfold WorldManager.RenderWorld
  rw [hcam]
  simp only []
  split
  · rename_i camera heq
    rw [WorldManager.RenderWorld.CalculateOccluderPlanes_dataAt camera _
      (fun d => (NodeData.transforms_kept camera d).1)]
    exact hupdated
  · exact hupdated

/-- C24: `RenderWorld` keeps the light, occluder, geometry and controller lists
and the active camera, and `RenderOverlay` keeps the whole state.  What is
drawn and counted comes from the lists: a pointer outside the geometry list is
never in the visible set, prepared or drawn, `ambientDrawCount` is the length
of the visible set, the counted lights are members of the light list and the
pairs counted by `lightDrawCount` pair a member of the light list with a member
of the geometry list.  With an active camera the transforms `RenderWorld`
leaves are those of `rootNode->UpdateNode()`, which satisfy the invariant at
every link of the tree.  So for a tree `node` appended below the root or below
any proper descendant `target` of the tree of any state `w`: the nodes that
were in the tree keep their members and the lists, which are not written, name
the same nodes; `RenderWorld` leaves the same three counts and the same visible
set as without the new nodes; every new node is in none of the lists, is not
the active camera, is never in the visible set, prepared or drawn; and with an
active camera every new node ends with the product of the world transform of
its super node and its local transform as world transform. -/
theorem WorldManager.RenderWorld_index_frame (InverseSqrt : K → K)
    (MakeRotation : K → Vector3D K → Matrix3D K) (deltaTime : K) (w : WorldManager K) :
    ((WorldManager.RenderWorld InverseSqrt MakeRotation deltaTime w).world.lightList
        = w.lightList ∧
      (WorldManager.RenderWorld InverseSqrt MakeRotation deltaTime w).world.occluderList
        = w.occluderList ∧
      (WorldManager.RenderWorld InverseSqrt MakeRotation deltaTime w).world.geometryList
        = w.geometryList ∧
      (WorldManager.RenderWorld InverseSqrt MakeRotation deltaTime w).world.controllerList
        = w.controllerList ∧
      (WorldManager.RenderWorld InverseSqrt MakeRotation deltaTime w).world.cameraNode
        = w.cameraNode) ∧
    (WorldManager.RenderOverlay w).1 = w ∧
    (∀ p : Nat, p ∉ w.geometryList →
      p ∉ (WorldManager.RenderWorld InverseSqrt MakeRotation deltaTime
        w).visibleGeometryArray ∧
      Event.PrepareToRender p ∉ (WorldManager.RenderWorld InverseSqrt MakeRotation deltaTime
        w).trace ∧
      ∀ k, Event.Render p k ∉ (WorldManager.RenderWorld InverseSqrt MakeRotation deltaTime
        w).trace) ∧
    ((WorldManager.RenderWorld InverseSqrt MakeRotation deltaTime w).ambientDrawCount
        = (WorldManager.RenderWorld InverseSqrt MakeRotation deltaTime
            w).visibleGeometryArray.length ∧
      ∃ lights : List Nat, lights.Sublist w.lightList ∧
        (WorldManager.RenderWorld InverseSqrt MakeRotation deltaTime w).lightSourceCount
          = lights.length ∧
        ∃ pairs : List (Nat × Nat),
          (WorldManager.RenderWorld InverseSqrt MakeRotation deltaTime w).lightDrawCount
            = pairs.length ∧
          ∀ pair ∈ pairs, pair.1 ∈ w.lightList ∧ pair.2 ∈ w.geometryList) ∧
    (∀ cam : Nat, w.cameraNode = some cam →
      (∀ p : Nat,
        ((WorldManager.RenderWorld InverseSqrt MakeRotation deltaTime
            w).world.rootNode.dataAt p).map (fun d => (d.nodeTransform, d.transformable))
          = ((WorldManager.RenderWorld.propagated InverseSqrt MakeRotation deltaTime
            w).dataAt p).map (fun d => (d.nodeTransform, d.transformable))) ∧
      ∀ P N : Node K,
        (P, N) ∈ (WorldManager.RenderWorld.propagated InverseSqrt MakeRotation deltaTime
          w).links →
        N.GetWorldTransform = P.GetWorldTransform.mul N.nodeTransform) ∧
    (∀ (target : Option Nat) (node : Node K),
      (∀ p, target = some p → p < w.rootNode.descendants.length) →
      (∀ q : Nat,
        (w.AppendSubnode target node).rootNode.dataAt
            (Node.movedPointer (w.rootNode.subnodePointer target) (node.descendants.length + 1) q)
          = w.rootNode.dataAt q) ∧
      ((w.AppendSubnode target node).lightList = w.lightList.map
            (Node.movedPointer (w.rootNode.subnodePointer target) (node.descendants.length + 1)) ∧
        (w.AppendSubnode target node).occluderList = w.occluderList.map
            (Node.movedPointer (w.rootNode.subnodePointer target) (node.descendants.length + 1)) ∧
        (w.AppendSubnode target node).geometryList = w.geometryList.map
            (Node.movedPointer (w.rootNode.subnodePointer target) (node.descendants.length + 1)) ∧
        (w.AppendSubnode target node).controllerList = w.controllerList.map
            (Node.movedPointer (w.rootNode.subnodePointer target) (node.descendants.length + 1)) ∧
        (w.AppendSubnode target node).cameraNode = w.cameraNode.map
            (Node.movedPointer (w.rootNode.subnodePointer target) (node.descendants.length + 1))) ∧
      ((WorldManager.RenderWorld InverseSqrt MakeRotation deltaTime
          (w.AppendSubnode target node)).visibleGeometryArray
          = (WorldManager.RenderWorld InverseSqrt MakeRotation deltaTime
              w).visibleGeometryArray.map
            (Node.movedPointer (w.rootNode.subnodePointer target) (node.descendants.length + 1)) ∧
        (WorldManager.RenderWorld InverseSqrt MakeRotation deltaTime
          (w.AppendSubnode target node)).ambientDrawCount
          = (WorldManager.RenderWorld InverseSqrt MakeRotation deltaTime w).ambientDrawCount ∧
        (WorldManager.RenderWorld InverseSqrt MakeRotation deltaTime
          (w.AppendSubnode target node)).lightDrawCount
          = (WorldManager.RenderWorld InverseSqrt MakeRotation deltaTime w).lightDrawCount ∧
        (WorldManager.RenderWorld InverseSqrt MakeRotation deltaTime
          (w.AppendSubnode target node)).lightSourceCount
          = (WorldManager.RenderWorld InverseSqrt MakeRotation deltaTime
              w).lightSourceCount) ∧
      ∀ (j : Nat) (m : Node K), (node :: node.descendants)[j]? = some m →
        (w.AppendSubnode target node).rootNode.dataAt (w.rootNode.subnodePointer target + j)
          = some m.data ∧
        (w.rootNode.subnodePointer target + j) ∉ (w.AppendSubnode target node).geometryList ∧
        (w.rootNode.subnodePointer target + j) ∉ (w.AppendSubnode target node).lightList ∧
        (w.rootNode.subnodePointer target + j) ∉ (w.AppendSubnode target node).occluderList ∧
        (w.rootNode.subnodePointer target + j) ∉ (w.AppendSubnode target node).controllerList ∧
        (w.AppendSubnode target node).cameraNode ≠ some (w.rootNode.subnodePointer target + j) ∧
        (w.rootNode.subnodePointer target + j) ∉ (WorldManager.RenderWorld InverseSqrt MakeRotation deltaTime
          (w.AppendSubnode target node)).visibleGeometryArray ∧
        Event.PrepareToRender (w.rootNode.subnodePointer target + j) ∉ (WorldManager.RenderWorld InverseSqrt MakeRotation deltaTime
          (w.AppendSubnode target node)).trace ∧
        (∀ k, Event.Render (w.rootNode.subnodePointer target + j) k ∉ (WorldManager.RenderWorld InverseSqrt MakeRotation deltaTime
          (w.AppendSubnode target node)).trace) ∧
        (∀ cam : Nat, w.cameraNode = some cam →
          ∃ P N : Node K,
            (P, N) ∈ (WorldManager.RenderWorld.propagated InverseSqrt MakeRotation deltaTime
            (w.AppendSubnode target node)).links ∧
            (WorldManager.RenderWorld.propagated InverseSqrt MakeRotation deltaTime
            (w.AppendSubnode target node)).descendants[w.rootNode.subnodePointer target + j]? = some N ∧
            N.nodeName = m.nodeName ∧ N.nodeTransform = m.nodeTransform ∧
            N.GetWorldTransform = P.GetWorldTransform.mul m.nodeTransform ∧
            ((WorldManager.RenderWorld InverseSqrt MakeRotation deltaTime
          (w.AppendSubnode target node)).world.rootNode.dataAt
                (w.rootNode.subnodePointer target + j)).map
                (fun d => d.transformable.worldTransform)
              = some (P.GetWorldTransform.mul m.nodeTransform))) := by
  obtain ⟨hsub, ha, ⟨lights, hlights, hs, pairs, hd, hpairs⟩, hdrawn⟩ :=
    WorldManager.RenderWorld_from_lists InverseSqrt MakeRotation deltaTime w
  refine ⟨WorldManager.RenderWorld_world InverseSqrt MakeRotation deltaTime w, ?_, ?_,
    ⟨ha, lights, hlights, hs, pairs, hd, ?_⟩, ?_, ?_⟩
  · unfold WorldManager.RenderOverlay
    split <;> rfl
  · intro p hp
    have hv : p ∉ (WorldManager.RenderWorld InverseSqrt MakeRotation deltaTime
        w).visibleGeometryArray := fun h => hp (hsub.subset h)
    exact ⟨hv, fun h => hv (hdrawn p (Or.inl h)), fun k h => hv (hdrawn p (Or.inr ⟨k, h⟩))⟩
  · intro pair hpair
    exact ⟨hlights.subset (hpairs pair hpair).1, hsub.subset (hpairs pair hpair).2⟩
  · intro cam hcam
    refine ⟨WorldManager.RenderWorld_transforms InverseSqrt MakeRotation deltaTime w cam hcam,
      ?_⟩
    intro P N h
    exact Node.UpdateNode_links InverseSqrt none _ P N h
  · intro target node htarget
    refine ⟨Node.dataAt_AppendSubnodeAt_movedPointer w.rootNode target node htarget,
      ⟨rfl, rfl, rfl, rfl, rfl⟩,
      WorldManager.RenderWorld_AppendSubnode InverseSqrt MakeRotation deltaTime w target node
        htarget, ?_⟩
    intro j m hm
    have hj : j < node.descendants.length + 1 := by
      have h := (List.getElem?_eq_some_iff.mp hm).1
      simpa using h
    have hnot : ∀ l : List Nat, w.rootNode.subnodePointer target + j
        ∉ l.map (Node.movedPointer (w.rootNode.subnodePointer target)
          (node.descendants.length + 1)) := by
      intro l h
      obtain ⟨q, -, hq⟩ := List.mem_map.mp h
      exact Node.movedPointer_ne _ _ q j hj hq
    have hdata : (w.AppendSubnode target node).rootNode.dataAt (w.rootNode.subnodePointer target + j)
        = some m.data :=
      Node.dataAt_AppendSubnodeAt_subnodePointer w.rootNode target node htarget j m hm
    obtain ⟨hsub2, -, -, hdrawn2⟩ := WorldManager.RenderWorld_from_lists InverseSqrt
      MakeRotation deltaTime (w.AppendSubnode target node)
    have hv : (w.rootNode.subnodePointer target + j) ∉ (WorldManager.RenderWorld InverseSqrt MakeRotation deltaTime
          (w.AppendSubnode target node)).visibleGeometryArray :=
      fun h => hnot w.geometryList (hsub2.subset h)
    refine ⟨hdata, hnot _, hnot _, hnot _, hnot _, ?_, hv,
      fun h => hv (hdrawn2 _ (Or.inl h)), fun k h => hv (hdrawn2 _ (Or.inr ⟨k, h⟩)), ?_⟩
    · show w.cameraNode.map _ ≠ _
      intro h
      obtain ⟨q, -, hq⟩ := Option.map_eq_some'.mp h
      exact Node.movedPointer_ne _ _ q j hj hq
    · intro cam hcam
      obtain ⟨P, N, hP, hN, hname, hlocal, hworld⟩ :=
        WorldManager.RenderWorld.propagated_of_not_controller InverseSqrt MakeRotation
          deltaTime (w.AppendSubnode target node) (w.rootNode.subnodePointer target + j) m.data
          (hnot w.controllerList) hdata
      rw [Node.data_nodeName] at hname
      rw [Node.data_nodeTransform] at hlocal hworld
      refine ⟨P, N, hP, hN, hname, hlocal, hworld, ?_⟩
      have hcam2 : (w.AppendSubnode target node).cameraNode
          = some (Node.movedPointer (w.rootNode.subnodePointer target)
            (node.descendants.length + 1) cam) := by
        show w.cameraNode.map _ = _
        rw [hcam]
        rfl
      have ht := congrArg (Option.map (fun p : Transform4D K × Transformable K =>
          p.2.worldTransform))
        (WorldManager.RenderWorld_transforms InverseSqrt MakeRotation deltaTime
          (w.AppendSubnode target node) _ hcam2 (w.rootNode.subnodePointer target + j))
      simp only [Option.map_map, Function.comp_def] at ht
      rw [ht]
      unfold Node.dataAt Node.dataList
      rw [List.getElem?_map, hN, Option.map_some', Option.map_some', Node.data_worldTransform,
        hworld]

/-- Witness for C24: `lateSphere` appended below the bone `rig` of
`preprocessedWorld`, pointer 1, which has the camera `main` below it, comes to
stand at pointer 3; the geometry list `[4, 9, 10, 11]` becomes
`[5, 10, 11, 12]` and names the same nodes; the sphere is read through pointer
3, is not in the geometry list and not in the visible set, and the three
counts are those of the world without it. -/
theorem WorldManager.RenderWorld_index_frame_witness :
    preprocessedWorld.rootNode.subnodePointer (some 1) = 3 ∧
    (preprocessedWorld.AppendSubnode (some 1) lateSphere).geometryList = [5, 10, 11, 12] ∧
    (preprocessedWorld.AppendSubnode (some 1) lateSphere).rootNode.dataAt
        (preprocessedWorld.rootNode.subnodePointer (some 1) + 0) = some lateSphere.data ∧
    preprocessedWorld.rootNode.subnodePointer (some 1) + 0
      ∉ (preprocessedWorld.AppendSubnode (some 1) lateSphere).geometryList ∧
    preprocessedWorld.rootNode.subnodePointer (some 1) + 0
      ∉ (WorldManager.RenderWorld InverseSqrtRat MakeRotationZero 0
          (preprocessedWorld.AppendSubnode (some 1) lateSphere)).visibleGeometryArray ∧
    (WorldManager.RenderWorld InverseSqrtRat MakeRotationZero 0
        (preprocessedWorld.AppendSubnode (some 1) lateSphere)).ambientDrawCount
      = (WorldManager.RenderWorld InverseSqrtRat MakeRotationZero 0
          preprocessedWorld).ambientDrawCount ∧
    (WorldManager.RenderWorld InverseSqrtRat MakeRotationZero 0
        (preprocessedWorld.AppendSubnode (some 1) lateSphere)).lightDrawCount
      = (WorldManager.RenderWorld InverseSqrtRat MakeRotationZero 0
          preprocessedWorld).lightDrawCount ∧
    (WorldManager.RenderWorld InverseSqrtRat MakeRotationZero 0
        (preprocessedWorld.AppendSubnode (some 1) lateSphere)).lightSourceCount
      = (WorldManager.RenderWorld InverseSqrtRat MakeRotationZero 0
          preprocessedWorld).lightSourceCount :=
  have hroot : preprocessedWorld.rootNode = worldScene :=
    WorldManager.PreprocessWorld_rootNode (WorldManager.new worldScene)
  have htarget : ∀ p, some 1 = some p → p < preprocessedWorld.rootNode.descendants.length := by
    intro p hp
    cases hp
    rw [hroot]
    decide
  have h := (WorldManager.RenderWorld_index_frame InverseSqrtRat MakeRotationZero 0
    preprocessedWorld).2.2.2.2.2 (some 1) lateSphere htarget
  have hnew := h.2.2.2 0 lateSphere rfl
  ⟨by rw [hroot]; rfl,
   by rw [h.2.1.2.2.1, preprocessedWorld_index.1, hroot]; rfl,
   hnew.1, hnew.2.1, hnew.2.2.2.2.2.2.1, h.2.2.1.2.1, h.2.2.1.2.2.1, h.2.2.1.2.2.2⟩

end IndexFrameClaims

section BoxExampleTheorems

variable {K : Type} [LinearOrderedField K]

/-! ### The box example (C23) -/

/-- The inverse of the product of two identity transforms is the identity. -/
theorem Transform4D.identity_mul_identity_Inverse :
    ((Transform4D.identity (K := K)).mul Transform4D.identity).Inverse
      = Transform4D.identity := by
  simp [Transform4D.Inverse, Transform4D.mul, Transform4D.identity, Transform4D.col,
    Vector3D.Cross, Vector3D.Dot, Vector3D.scale]

/-- A plane times the identity transform is the plane. -/
theorem Plane.mulTransform_identity (f : Plane K) :
    f.mulTransform Transform4D.identity = f := by
  simp [Plane.mulTransform, Transform4D.identity]

/-- The planes of a camera at the identity after `UpdateNode` are its
camera-space planes, also when the update runs a second time. -/
theorem FrustumCamera.UpdatePlanes_identity (InverseSqrt : K → K) (camera : FrustumCamera K)
    (k : Fin 5) :
    (camera.UpdatePlanes InverseSqrt
        ((Transform4D.identity.mul Transform4D.identity).Inverse)).worldFrustumPlane k
      = camera.cameraPlane InverseSqrt k ∧
    ((camera.UpdatePlanes InverseSqrt
        ((Transform4D.identity.mul Transform4D.identity).Inverse)).UpdatePlanes InverseSqrt
        ((Transform4D.identity.mul Transform4D.identity).Inverse)).worldFrustumPlane k
      = camera.cameraPlane InverseSqrt k := by
  rw [Transform4D.identity_mul_identity_Inverse]
  exact ⟨Plane.mulTransform_identity _, Plane.mulTransform_identity _⟩

/-- The center and the effective radius of the box of size `(1, 1, 1)` whose
world transform is a translation under an identity super node. -/
theorem FrustumCamera.BoxVisible.unit_translate (plane : Plane K) (t : Transform4D K)
    (x y z : K) (ht : t = Transform4D.translate x y z) :
    FrustumCamera.BoxVisible.center (Transform4D.identity.mul t) ⟨1, 1, 1⟩
      = ⟨x + 1 / 2, y + 1 / 2, z + 1 / 2⟩ ∧
    FrustumCamera.BoxVisible.rg plane (Transform4D.identity.mul t) ⟨1, 1, 1⟩
      = (|plane.x| + |plane.y| + |plane.z|) / 2 := by
  subst ht
  constructor
  · simp [FrustumCamera.BoxVisible.center, FrustumCamera.BoxVisible.halfAxisX,
      FrustumCamera.BoxVisible.halfAxisY, FrustumCamera.BoxVisible.halfAxisZ,
      Transform4D.mul, Transform4D.identity, Transform4D.translate, Transform4D.col,
      Transform4D.GetTranslation, Vector3D.scale, Point3D.add]
  · simp [FrustumCamera.BoxVisible.rg, FrustumCamera.BoxVisible.halfAxisX,
      FrustumCamera.BoxVisible.halfAxisY, FrustumCamera.BoxVisible.halfAxisZ,
      Transform4D.mul, Transform4D.identity, Transform4D.translate, Transform4D.col,
      Vector3D.scale, Plane.DotVector, abs_mul]
    rw [show |(2 : K)⁻¹| = 2⁻¹ from abs_of_pos (by norm_num)]
    ring

/-- The box moved by 1000 along the x axis has the local transform that moves
by `(1000 - 1/2, -1/2, -1/2)`. -/
theorem Transform4D.translate_mul_translate (a b c x y z : K) :
    (Transform4D.translate a b c).mul (Transform4D.translate x y z)
      = Transform4D.translate (a + x) (b + y) (c + z) := by
  simp [Transform4D.mul, Transform4D.translate, add_comm]

end BoxExampleTheorems

/-! ### The box example -/

section BoxExampleClaims

variable {K : Type} [LinearOrderedField K]

/-- The proper descendants of `exampleScene`: the camera, the box and the light. -/
theorem exampleScene_descendants (camera : FrustumCamera K) (boxTransform : Transform4D K)
    (boxSize : Vector3D K) (lightTransform : Transform4D K) (lightRange : K) :
    (exampleScene camera boxTransform boxSize lightTransform lightRange).descendants
      = [.mk (.frustumCamera camera) "camera" Transform4D.identity none
          ⟨Transform4D.identity, Transform4D.identity⟩ [],
         .mk (.boxGeometry boxSize) "box" boxTransform none
          ⟨Transform4D.identity, Transform4D.identity⟩ [],
         .mk (.pointLight lightRange) "light" lightTransform none
          ⟨Transform4D.identity, Transform4D.identity⟩ []] := rfl

/-- The pointers of `exampleScene` by node type: the box is the only geometry
node, the light the only light, the camera the only frustum camera, and there
is no occluder and no controller. -/
theorem exampleScene_pointers (camera : FrustumCamera K) (boxTransform : Transform4D K)
    (boxSize : Vector3D K) (lightTransform : Transform4D K) (lightRange : K) :
    (exampleScene camera boxTransform boxSize lightTransform lightRange).pointers
        (fun n => decide (n.GetNodeType = kNodeGeometry)) = [1] ∧
    (exampleScene camera boxTransform boxSize lightTransform lightRange).pointers
        (fun n => decide (n.GetNodeType = kNodeLight)) = [2] ∧
    (exampleScene camera boxTransform boxSize lightTransform lightRange).pointers
        (fun n => decide (n.GetNodeType = kNodeOccluder)) = [] ∧
    (exampleScene camera boxTransform boxSize lightTransform lightRange).pointers
        (fun n => n.nodeController.isSome) = [] ∧
    (exampleScene camera boxTransform boxSize lightTransform lightRange).pointers
        (fun n => decide (n.GetNodeType = kNodeCamera)
            && decide (n.GetCameraType = kCameraFrustum)) = [0] := by
  simp [Node.pointers, exampleScene_descendants, Node.pointersWhere, Node.GetNodeType,
    Node.GetCameraType, Node.nodeClass, Node.nodeController, NodeClass.GetNodeType,
    NodeClass.GetCameraType, kNodeGeometry, kNodeLight, kNodeOccluder, kNodeCamera,
    kCameraFrustum]

/-- The tree, the active camera and the lists of `exampleWorld`. -/
theorem exampleWorld_index (camera : FrustumCamera K) (boxTransform : Transform4D K)
    (boxSize : Vector3D K) (lightTransform : Transform4D K) (lightRange : K) :
    (exampleWorld camera boxTransform boxSize lightTransform lightRange).rootNode
      = exampleScene camera boxTransform boxSize lightTransform lightRange ∧
    (exampleWorld camera boxTransform boxSize lightTransform lightRange).cameraNode = some 0 ∧
    (exampleWorld camera boxTransform boxSize lightTransform lightRange).geometryList = [1] ∧
    (exampleWorld camera boxTransform boxSize lightTransform lightRange).lightList = [2] ∧
    (exampleWorld camera boxTransform boxSize lightTransform lightRange).controllerList = [] ∧
    (exampleWorld camera boxTransform boxSize lightTransform lightRange).occluderList = [] := by
  obtain ⟨hg, hl, ho, hc, hcam⟩ :=
    exampleScene_pointers camera boxTransform boxSize lightTransform lightRange
  unfold exampleWorld
  rw [WorldManager.PreprocessWorld_rootNode, WorldManager.PreprocessWorld_cameraNode_eq,
    WorldManager.PreprocessWorld_geometryList, WorldManager.PreprocessWorld_lightList,
    WorldManager.PreprocessWorld_controllerList, WorldManager.PreprocessWorld_occluderList]
  simp only [WorldManager.new, hg, hl, ho, hc, hcam]
  exact ⟨trivial, rfl, rfl, rfl, rfl, rfl⟩

/-- The tree of `exampleWorld` after the transform propagation of a frame. -/
theorem exampleWorld_propagated (InverseSqrt : K → K)
    (MakeRotation : K → Vector3D K → Matrix3D K) (deltaTime : K)
    (camera : FrustumCamera K) (boxTransform : Transform4D K)
    (boxSize : Vector3D K) (lightTransform : Transform4D K) (lightRange : K) :
    WorldManager.RenderWorld.propagated InverseSqrt MakeRotation deltaTime
        (exampleWorld camera boxTransform boxSize lightTransform lightRange)
      = Node.UpdateNode InverseSqrt none
          (exampleScene camera boxTransform boxSize lightTransform lightRange) := by
  obtain ⟨hroot, -, -, -, hctrl, -⟩ :=
    exampleWorld_index camera boxTransform boxSize lightTransform lightRange
  unfold WorldManager.RenderWorld.propagated WorldManager.RenderWorld.moved
  rw [hctrl, hroot]
  rfl

/-- The three nodes of `exampleScene` after `UpdateNode` of the root: the
camera holds the planes computed from the inverse of its world transform, and
every world transform is the identity times the local transform. -/
theorem exampleScene_UpdateNode (InverseSqrt : K → K)
    (camera : FrustumCamera K) (boxTransform : Transform4D K)
    (boxSize : Vector3D K) (lightTransform : Transform4D K) (lightRange : K) :
    (Node.UpdateNode InverseSqrt none
      (exampleScene camera boxTransform boxSize lightTransform lightRange)).dataAt 0
      = some ⟨.frustumCamera (camera.UpdatePlanes InverseSqrt
            ((Transform4D.identity.mul Transform4D.identity).Inverse)), "camera",
          Transform4D.identity, none,
          Transformable.SetWorldTransform (Transform4D.identity.mul Transform4D.identity)⟩ ∧
    (Node.UpdateNode InverseSqrt none
      (exampleScene camera boxTransform boxSize lightTransform lightRange)).dataAt 1
      = some ⟨.boxGeometry boxSize, "box", boxTransform, none,
          Transformable.SetWorldTransform (Transform4D.identity.mul boxTransform)⟩ ∧
    (Node.UpdateNode InverseSqrt none
      (exampleScene camera boxTransform boxSize lightTransform lightRange)).dataAt 2
      = some ⟨.pointLight lightRange, "light", lightTransform, none,
          Transformable.SetWorldTransform (Transform4D.identity.mul lightTransform)⟩ :=
  ⟨rfl, rfl, rfl⟩

/-- The five camera-space planes of a frustum camera. -/
theorem FrustumCamera.cameraPlane_eq (InverseSqrt : K → K) (camera : FrustumCamera K) :
    camera.cameraPlane InverseSqrt 0
      = ⟨camera.projectionDistance
          * InverseSqrt (camera.projectionDistance * camera.projectionDistance
              + camera.aspectRatio * camera.aspectRatio), 0,
        camera.aspectRatio
          * InverseSqrt (camera.projectionDistance * camera.projectionDistance
              + camera.aspectRatio * camera.aspectRatio), 0⟩ ∧
    camera.cameraPlane InverseSqrt 1
      = ⟨-camera.projectionDistance
          * InverseSqrt (camera.projectionDistance * camera.projectionDistance
              + camera.aspectRatio * camera.aspectRatio), 0,
        camera.aspectRatio
          * InverseSqrt (camera.projectionDistance * camera.projectionDistance
              + camera.aspectRatio * camera.aspectRatio), 0⟩ ∧
    camera.cameraPlane InverseSqrt 2
      = ⟨0, camera.projectionDistance
          * InverseSqrt (camera.projectionDistance * camera.projectionDistance + 1),
        InverseSqrt (camera.projectionDistance * camera.projectionDistance + 1), 0⟩ ∧
    camera.cameraPlane InverseSqrt 3
      = ⟨0, -camera.projectionDistance
          * InverseSqrt (camera.projectionDistance * camera.projectionDistance + 1),
        InverseSqrt (camera.projectionDistance * camera.projectionDistance + 1), 0⟩ ∧
    camera.cameraPlane InverseSqrt 4 = ⟨0, 0, 1, -camera.nearDepth⟩ :=
  ⟨rfl, rfl, rfl, rfl, rfl⟩

theorem exampleWorld_updated (InverseSqrt : K → K)
    (MakeRotation : K → Vector3D K → Matrix3D K) (deltaTime : K)
    (camera : FrustumCamera K) (boxTransform : Transform4D K)
    (boxSize : Vector3D K) (lightTransform : Transform4D K) (lightRange : K) :
    WorldManager.RenderWorld.updated InverseSqrt MakeRotation deltaTime
        (exampleWorld camera boxTransform boxSize lightTransform lightRange)
      = (Node.UpdateNode InverseSqrt none
          (exampleScene camera boxTransform boxSize lightTransform lightRange), []) := by
  obtain ⟨hroot, -, -, -, hctrl, -⟩ :=
    exampleWorld_index camera boxTransform boxSize lightTransform lightRange
  unfold WorldManager.RenderWorld.updated
  rw [exampleWorld_propagated]
  unfold WorldManager.RenderWorld.moved
  rw [hctrl, hroot]
  rfl

/-- With a frustum camera active, the tree after `RenderWorld` is the tree
after the loop over the occluders. -/
theorem WorldManager.RenderWorld_rootNode (InverseSqrt : K → K)
    (MakeRotation : K → Vector3D K → Matrix3D K) (deltaTime : K) (w : WorldManager K)
    (cam : Nat) (camera : FrustumCamera K) (hcam : w.cameraNode = some cam)
    (hfrustum :
      ((WorldManager.RenderWorld.propagated InverseSqrt MakeRotation deltaTime w).dataAt
        cam).map NodeData.nodeClass = some (.frustumCamera camera)) :
    (WorldManager.RenderWorld InverseSqrt MakeRotation deltaTime w).world.rootNode
      = (WorldManager.RenderWorld.CalculateOccluderPlanes camera w.occluderList
          (WorldManager.RenderWorld.updated InverseSqrt MakeRotation deltaTime w)).1 := by
  have hclass : ((WorldManager.RenderWorld.updated InverseSqrt MakeRotation deltaTime
      w).1.dataAt cam).map NodeData.nodeClass = some (.frustumCamera camera) := by
    unfold WorldManager.RenderWorld.updated
    rw [WorldManager.RenderWorld.UpdateControllers_dataAt NodeData.nodeClass (fun _ => rfl)]
    exact hfrustum
  unfold WorldManager.RenderWorld
  rw [hcam]
  simp only [hclass]

/-- The tree of `exampleWorld` after one call of `RenderWorld`. -/
theorem exampleWorld_frame (InverseSqrt : K → K)
    (MakeRotation : K → Vector3D K → Matrix3D K) (deltaTime : K)
    (camera : FrustumCamera K) (boxTransform : Transform4D K)
    (boxSize : Vector3D K) (lightTransform : Transform4D K) (lightRange : K) :
    (WorldManager.RenderWorld InverseSqrt MakeRotation deltaTime
        (exampleWorld camera boxTransform boxSize lightTransform lightRange)).world.rootNode
      = Node.UpdateNode InverseSqrt none
          (exampleScene camera boxTransform boxSize lightTransform lightRange) := by
  obtain ⟨-, hcam, -, -, -, hocc⟩ :=
    exampleWorld_index camera boxTransform boxSize lightTransform lightRange
  obtain ⟨h0, -, -⟩ := exampleScene_UpdateNode InverseSqrt camera boxTransform boxSize
    lightTransform lightRange
  rw [WorldManager.RenderWorld_rootNode InverseSqrt MakeRotation deltaTime _ 0
    (camera.UpdatePlanes InverseSqrt ((Transform4D.identity.mul Transform4D.identity).Inverse))
    hcam (by rw [exampleWorld_propagated, h0]; rfl), hocc, exampleWorld_updated]
  rfl

/-- Moving a node changes the tree only. -/
theorem WorldManager.moveNode_index (x y z : K) (pointer : Nat) (w : WorldManager K) :
    (WorldManager.moveNode x y z pointer w).rootNode
      = Node.modifyDescendant (NodeData.move x y z) pointer w.rootNode ∧
    (WorldManager.moveNode x y z pointer w).cameraNode = w.cameraNode ∧
    (WorldManager.moveNode x y z pointer w).geometryList = w.geometryList ∧
    (WorldManager.moveNode x y z pointer w).lightList = w.lightList ∧
    (WorldManager.moveNode x y z pointer w).controllerList = w.controllerList ∧
    (WorldManager.moveNode x y z pointer w).occluderList = w.occluderList :=
  ⟨rfl, rfl, rfl, rfl, rfl, rfl⟩

/-- The tree, the active camera and the lists of `movedExampleWorld`. -/
theorem movedExampleWorld_index (InverseSqrt : K → K)
    (MakeRotation : K → Vector3D K → Matrix3D K) (deltaTime : K)
    (camera : FrustumCamera K) (boxTransform : Transform4D K)
    (boxSize : Vector3D K) (lightTransform : Transform4D K) (lightRange : K) (x y z : K) :
    (movedExampleWorld InverseSqrt MakeRotation deltaTime camera boxTransform boxSize
        lightTransform lightRange x y z).rootNode
      = Node.modifyDescendant (NodeData.move x y z) 1
          (Node.UpdateNode InverseSqrt none
            (exampleScene camera boxTransform boxSize lightTransform lightRange)) ∧
    (movedExampleWorld InverseSqrt MakeRotation deltaTime camera boxTransform boxSize
        lightTransform lightRange x y z).cameraNode = some 0 ∧
    (movedExampleWorld InverseSqrt MakeRotation deltaTime camera boxTransform boxSize
        lightTransform lightRange x y z).geometryList = [1] ∧
    (movedExampleWorld InverseSqrt MakeRotation deltaTime camera boxTransform boxSize
        lightTransform lightRange x y z).lightList = [2] ∧
    (movedExampleWorld InverseSqrt MakeRotation deltaTime camera boxTransform boxSize
        lightTransform lightRange x y z).controllerList = [] ∧
    (movedExampleWorld InverseSqrt MakeRotation deltaTime camera boxTransform boxSize
        lightTransform lightRange x y z).occluderList = [] := by
  obtain ⟨hl, ho, hg, hc, hcam⟩ := WorldManager.RenderWorld_world InverseSqrt MakeRotation
    deltaTime (exampleWorld camera boxTransform boxSize lightTransform lightRange)
  obtain ⟨-, hcam0, hg0, hl0, hc0, ho0⟩ :=
    exampleWorld_index camera boxTransform boxSize lightTransform lightRange
  have hframe := exampleWorld_frame InverseSqrt MakeRotation deltaTime camera boxTransform
    boxSize lightTransform lightRange
  obtain ⟨mroot, mcam, mg, ml, mc, mo⟩ := WorldManager.moveNode_index x y z 1
    (WorldManager.RenderWorld InverseSqrt MakeRotation deltaTime
      (exampleWorld camera boxTransform boxSize lightTransform lightRange)).world
  unfold movedExampleWorld
  rw [mroot, mcam, mg, ml, mc, mo, hframe, hcam, hg, hl, hc, ho, hcam0, hg0, hl0, hc0, ho0]
  exact ⟨rfl, rfl, rfl, rfl, rfl, rfl⟩

/-- The tree of `movedExampleWorld` after the transform propagation of a
frame. -/
theorem movedExampleWorld_propagated (InverseSqrt : K → K)
    (MakeRotation : K → Vector3D K → Matrix3D K) (deltaTime : K)
    (camera : FrustumCamera K) (boxTransform : Transform4D K)
    (boxSize : Vector3D K) (lightTransform : Transform4D K) (lightRange : K) (x y z : K) :
    WorldManager.RenderWorld.propagated InverseSqrt MakeRotation deltaTime
        (movedExampleWorld InverseSqrt MakeRotation deltaTime camera boxTransform boxSize
          lightTransform lightRange x y z)
      = Node.UpdateNode InverseSqrt none
          (Node.modifyDescendant (NodeData.move x y z) 1
            (Node.UpdateNode InverseSqrt none
              (exampleScene camera boxTransform boxSize lightTransform lightRange))) := by
  obtain ⟨hroot, -, -, -, hctrl, -⟩ := movedExampleWorld_index InverseSqrt MakeRotation
    deltaTime camera boxTransform boxSize lightTransform lightRange x y z
  unfold WorldManager.RenderWorld.propagated WorldManager.RenderWorld.moved
  rw [hctrl, hroot]
  rfl

/-- The three nodes of the moved tree after `UpdateNode` of the root: the
planes of the camera are computed a second time, and the world transform of
the box is the identity times its new local transform. -/
theorem movedExampleScene_UpdateNode (InverseSqrt : K → K)
    (camera : FrustumCamera K) (boxTransform : Transform4D K)
    (boxSize : Vector3D K) (lightTransform : Transform4D K) (lightRange : K) (x y z : K) :
    ((Node.UpdateNode InverseSqrt none
      (Node.modifyDescendant (NodeData.move x y z) 1
        (Node.UpdateNode InverseSqrt none
          (exampleScene camera boxTransform boxSize lightTransform lightRange)))).dataAt 0).map
        NodeData.nodeClass
      = some (.frustumCamera ((camera.UpdatePlanes InverseSqrt
            ((Transform4D.identity.mul Transform4D.identity).Inverse)).UpdatePlanes InverseSqrt
            ((Transform4D.identity.mul Transform4D.identity).Inverse))) ∧
    (Node.UpdateNode InverseSqrt none
      (Node.modifyDescendant (NodeData.move x y z) 1
        (Node.UpdateNode InverseSqrt none
          (exampleScene camera boxTransform boxSize lightTransform lightRange)))).dataAt 1
      = some ⟨.boxGeometry boxSize, "box", (Transform4D.translate x y z).mul boxTransform, none,
          Transformable.SetWorldTransform
            (Transform4D.identity.mul ((Transform4D.translate x y z).mul boxTransform))⟩ ∧
    (Node.UpdateNode InverseSqrt none
      (Node.modifyDescendant (NodeData.move x y z) 1
        (Node.UpdateNode InverseSqrt none
          (exampleScene camera boxTransform boxSize lightTransform lightRange)))).dataAt 2
      = some ⟨.pointLight lightRange, "light", lightTransform, none,
          Transformable.SetWorldTransform (Transform4D.identity.mul lightTransform)⟩ :=
  ⟨rfl, rfl, rfl⟩

/-- The box test of one plane for the box of size `(1, 1, 1)` whose world
transform is a translation under an identity super node. -/
theorem FrustumCamera.BoxVisible.unit_plane (plane : Plane K) (x y z : K) :
    (-FrustumCamera.BoxVisible.rg plane
          (Transform4D.identity.mul (Transform4D.translate x y z)) ⟨1, 1, 1⟩
        < plane.DotPoint (FrustumCamera.BoxVisible.center
            (Transform4D.identity.mul (Transform4D.translate x y z)) ⟨1, 1, 1⟩))
      ↔ -((|plane.x| + |plane.y| + |plane.z|) / 2)
          < plane.x * (x + 1 / 2) + plane.y * (y + 1 / 2) + plane.z * (z + 1 / 2) + plane.w := by
  obtain ⟨hc, hr⟩ := FrustumCamera.BoxVisible.unit_translate plane
    (Transform4D.translate x y z) x y z rfl
  rw [hc, hr]
  rfl

/-- The three tests of the box example for a camera whose world-space planes
are the camera-space planes of `camera`. -/
theorem FrustumCamera.box_example_tests (InverseSqrt : K → K) (camera cam : FrustumCamera K)
    (hplanes : ∀ k : Fin 5, cam.worldFrustumPlane k = camera.cameraPlane InverseSqrt k)
    (hg : 0 < camera.projectionDistance) (hs : 0 < camera.aspectRatio)
    (hrx : 0 < InverseSqrt (camera.projectionDistance * camera.projectionDistance
      + camera.aspectRatio * camera.aspectRatio))
    (hry : 0 < InverseSqrt (camera.projectionDistance * camera.projectionDistance + 1)) :
    (cam.BoxVisible (Transform4D.identity.mul
        (Transform4D.translate (-(1 / 2)) (-(1 / 2)) (-(1 / 2)))) ⟨1, 1, 1⟩ = true
      ↔ camera.nearDepth < 1 / 2) ∧
    (cam.BoxVisible (Transform4D.identity.mul
        ((Transform4D.translate 1000 0 0).mul
          (Transform4D.translate (-(1 / 2)) (-(1 / 2)) (-(1 / 2))))) ⟨1, 1, 1⟩ = true
      ↔ 1999 * camera.projectionDistance < camera.aspectRatio ∧ camera.nearDepth < 1 / 2) ∧
    (cam.SphereVisible (Transform4D.identity.mul
        (Transform4D.translate 0 0 5)).GetTranslation 10 = true
      ↔ camera.nearDepth ≤ 15) := by
  obtain ⟨p0, p1, p2, p3, p4⟩ := FrustumCamera.cameraPlane_eq InverseSqrt camera
  have hgx := mul_pos hg hrx
  have hsx := mul_pos hs hrx
  have hgy := mul_pos hg hry
  have h0 := hplanes 0
  have h1 := hplanes 1
  have h2 := hplanes 2
  have h3 := hplanes 3
  have h4 := hplanes 4
  rw [p0] at h0
  rw [p1] at h1
  rw [p2] at h2
  rw [p3] at h3
  rw [p4] at h4
  have hall : ∀ P : Fin 5 → Prop, (∀ k, P k) ↔ P 0 ∧ P 1 ∧ P 2 ∧ P 3 ∧ P 4 := by
    intro P
    constructor
    · intro h
      exact ⟨h 0, h 1, h 2, h 3, h 4⟩
    · rintro ⟨a0, a1, a2, a3, a4⟩ k
      fin_cases k
      exacts [a0, a1, a2, a3, a4]
  refine ⟨?_, ?_, ?_⟩
  · rw [FrustumCamera.BoxVisible_iff, hall]
    simp only [FrustumCamera.BoxVisible.unit_plane, h0, h1, h2, h3, h4, abs_zero, abs_one,
      abs_of_pos hgx, abs_of_pos hsx, abs_of_pos hgy, abs_of_pos hry, neg_mul, abs_neg]
    constructor
    · rintro ⟨-, -, -, -, h⟩
      linarith
    · intro hn
      refine ⟨?_, ?_, ?_, ?_, ?_⟩ <;> linarith
  · rw [Transform4D.translate_mul_translate, FrustumCamera.BoxVisible_iff, hall]
    simp only [FrustumCamera.BoxVisible.unit_plane, h0, h1, h2, h3, h4, abs_zero, abs_one,
      abs_of_pos hgx, abs_of_pos hsx, abs_of_pos hgy, abs_of_pos hry, neg_mul, abs_neg]
    constructor
    · rintro ⟨-, h, -, -, hn⟩
      refine ⟨?_, by linarith⟩
      have : (1999 * camera.projectionDistance - camera.aspectRatio)
          * InverseSqrt (camera.projectionDistance * camera.projectionDistance
            + camera.aspectRatio * camera.aspectRatio) < 0 := by linarith
      by_contra hle
      have := mul_nonneg (sub_nonneg.mpr (not_lt.mp hle)) hrx.le
      linarith
    · rintro ⟨hlt, hn⟩
      have := mul_pos (sub_pos.mpr hlt) hrx
      refine ⟨?_, ?_, ?_, ?_, ?_⟩ <;> linarith
  · rw [FrustumCamera.SphereVisible_eq_true_iff, hall]
    simp only [h0, h1, h2, h3, h4, Plane.DotPoint, Transform4D.GetTranslation,
      Transform4D.mul, Transform4D.identity, Transform4D.translate]
    constructor
    · rintro ⟨-, -, -, -, h⟩
      linarith
    · intro hn
      refine ⟨?_, ?_, ?_, ?_, ?_⟩ <;> linarith

/-- The counts of a frame over a tree whose lists are the box at pointer 1 and
the point light at pointer 2. -/
theorem WorldManager.RenderWorld_one_box (InverseSqrt : K → K)
    (MakeRotation : K → Vector3D K → Matrix3D K) (deltaTime : K) (w : WorldManager K)
    (cam : FrustumCamera K) (box light : NodeData K) (boxSize : Vector3D K) (lightRange : K)
    (hcam : w.cameraNode = some 0) (hgeometry : w.geometryList = [1])
    (hlight : w.lightList = [2])
    (h0 : ((WorldManager.RenderWorld.propagated InverseSqrt MakeRotation deltaTime w).dataAt
      0).map NodeData.nodeClass = some (.frustumCamera cam))
    (h1 : (WorldManager.RenderWorld.propagated InverseSqrt MakeRotation deltaTime w).dataAt 1
      = some box)
    (h2 : (WorldManager.RenderWorld.propagated InverseSqrt MakeRotation deltaTime w).dataAt 2
      = some light)
    (hbox : box.nodeClass = .boxGeometry boxSize)
    (hpoint : light.nodeClass = .pointLight lightRange) :
    (WorldManager.RenderWorld InverseSqrt MakeRotation deltaTime w).ambientDrawCount
      = (if cam.BoxVisible box.GetWorldTransform boxSize = true then 1 else 0) ∧
    (WorldManager.RenderWorld InverseSqrt MakeRotation deltaTime w).lightSourceCount
      = (if cam.SphereVisible light.GetWorldPosition lightRange = true then 1 else 0) ∧
    (WorldManager.RenderWorld InverseSqrt MakeRotation deltaTime w).lightDrawCount
      = (if cam.SphereVisible light.GetWorldPosition lightRange = true then
          (if cam.BoxVisible box.GetWorldTransform boxSize = true then 1 else 0) else 0) := by
  obtain ⟨hv, ha, hld, hls, -⟩ := WorldManager.RenderWorld_frustum InverseSqrt MakeRotation
    deltaTime w 0 cam hcam h0
  have hvis : (WorldManager.RenderWorld.propagated InverseSqrt MakeRotation deltaTime
      w).GeometryVisibleAt cam 1 = cam.BoxVisible box.GetWorldTransform boxSize := by
    unfold Node.GeometryVisibleAt
    rw [h1]
    simp only [NodeData.GeometryVisible, hbox, BoxGeometry.GeometryVisible]
  have hlit : (WorldManager.RenderWorld.propagated InverseSqrt MakeRotation deltaTime
      w).PointLightVisibleAt cam 2 = cam.SphereVisible light.GetWorldPosition lightRange := by
    unfold Node.PointLightVisibleAt
    rw [h2]
    simp [NodeData.LightVisible, hpoint, NodeClass.GetLightType]
  have hill : (WorldManager.RenderWorld.propagated InverseSqrt MakeRotation deltaTime
      w).GeometryIlluminatedAt 2 1 = true := by
    unfold Node.GeometryIlluminatedAt
    rw [h1, h2]
    simp [NodeData.GeometryIlluminated, hbox, BoxGeometry.GeometryIlluminated,
      PointLight.BoxIlluminated]
  rw [hgeometry] at hv
  rw [hlight] at hld hls
  rw [ha, hls, hld, hv]
  unfold Node.illuminatedPairs
  simp only [List.filter, hvis, hlit]
  cases cam.BoxVisible box.GetWorldTransform boxSize <;>
    cases cam.SphereVisible light.GetWorldPosition lightRange <;>
    simp [hill]

/-- The counts of the two frames of the box example in terms of the camera. -/
theorem boxWorld_counts (InverseSqrt : K → K)
    (MakeRotation : K → Vector3D K → Matrix3D K) (deltaTime : K) (camera : FrustumCamera K)
    (hg : 0 < camera.projectionDistance) (hs : 0 < camera.aspectRatio)
    (hrx : 0 < InverseSqrt (camera.projectionDistance * camera.projectionDistance
      + camera.aspectRatio * camera.aspectRatio))
    (hry : 0 < InverseSqrt (camera.projectionDistance * camera.projectionDistance + 1)) :
    (WorldManager.RenderWorld InverseSqrt MakeRotation deltaTime
        (boxWorld camera)).ambientDrawCount
      = (if camera.nearDepth < 1 / 2 then 1 else 0) ∧
    (WorldManager.RenderWorld InverseSqrt MakeRotation deltaTime
        (boxWorld camera)).lightSourceCount
      = (if camera.nearDepth ≤ 15 then 1 else 0) ∧
    (WorldManager.RenderWorld InverseSqrt MakeRotation deltaTime
        (boxWorld camera)).lightDrawCount
      = (if camera.nearDepth ≤ 15 then (if camera.nearDepth < 1 / 2 then 1 else 0) else 0) ∧
    (WorldManager.RenderWorld InverseSqrt MakeRotation deltaTime
        (movedBoxWorld InverseSqrt MakeRotation deltaTime camera)).ambientDrawCount
      = (if 1999 * camera.projectionDistance < camera.aspectRatio ∧ camera.nearDepth < 1 / 2
          then 1 else 0) := by
  obtain ⟨-, icam, igeometry, ilight, -, -⟩ := exampleWorld_index camera
    (Transform4D.translate (-(1 / 2)) (-(1 / 2)) (-(1 / 2))) ⟨1, 1, 1⟩
    (Transform4D.translate 0 0 5) 10
  obtain ⟨u0, u1, u2⟩ := exampleScene_UpdateNode InverseSqrt camera
    (Transform4D.translate (-(1 / 2)) (-(1 / 2)) (-(1 / 2))) ⟨1, 1, 1⟩
    (Transform4D.translate 0 0 5) 10
  obtain ⟨-, mcam, mgeometry, mlight, -, -⟩ := movedExampleWorld_index InverseSqrt MakeRotation
    deltaTime camera (Transform4D.translate (-(1 / 2)) (-(1 / 2)) (-(1 / 2))) ⟨1, 1, 1⟩
    (Transform4D.translate 0 0 5) 10 1000 0 0
  obtain ⟨v0, v1, v2⟩ := movedExampleScene_UpdateNode InverseSqrt camera
    (Transform4D.translate (-(1 / 2)) (-(1 / 2)) (-(1 / 2))) ⟨1, 1, 1⟩
    (Transform4D.translate 0 0 5) 10 1000 0 0
  obtain ⟨a1, s1, d1⟩ := WorldManager.RenderWorld_one_box InverseSqrt MakeRotation deltaTime
    _ _ _ _ ⟨1, 1, 1⟩ 10 icam igeometry ilight
    (by rw [exampleWorld_propagated, u0]; rfl) (by rw [exampleWorld_propagated]; exact u1)
    (by rw [exampleWorld_propagated]; exact u2) rfl rfl
  obtain ⟨a2, -, -⟩ := WorldManager.RenderWorld_one_box InverseSqrt MakeRotation deltaTime
    _ _ _ _ ⟨1, 1, 1⟩ 10 mcam mgeometry mlight
    (by rw [movedExampleWorld_propagated]; exact v0)
    (by rw [movedExampleWorld_propagated]; exact v1)
    (by rw [movedExampleWorld_propagated]; exact v2) rfl rfl
  obtain ⟨t1, -, t3⟩ := FrustumCamera.box_example_tests InverseSqrt camera
    (camera.UpdatePlanes InverseSqrt ((Transform4D.identity.mul Transform4D.identity).Inverse))
    (fun k => (FrustumCamera.UpdatePlanes_identity InverseSqrt camera k).1) hg hs hrx hry
  obtain ⟨-, t2, -⟩ := FrustumCamera.box_example_tests InverseSqrt camera
    ((camera.UpdatePlanes InverseSqrt
      ((Transform4D.identity.mul Transform4D.identity).Inverse)).UpdatePlanes InverseSqrt
      ((Transform4D.identity.mul Transform4D.identity).Inverse))
    (fun k => (FrustumCamera.UpdatePlanes_identity InverseSqrt camera k).2) hg hs hrx hry
  unfold boxWorld movedBoxWorld
  refine ⟨a1.trans ?_, s1.trans ?_, d1.trans ?_, a2.trans ?_⟩
  · exact if_congr t1 rfl rfl
  · exact if_congr t3 rfl rfl
  · exact if_congr t3 (if_congr t1 rfl rfl) rfl
  · exact if_congr t2 rfl rfl

/-- C23 (amended): the tree holds, directly below the root, one frustum
camera with the identity as local transform, one box geometry of size
`(1, 1, 1)` centered at the origin and one point light of range 10 at
`(0, 0, 5)`.  When the camera has `0 < g`, `0 < s <= 1999 * g` and a near depth
below `1/2`, and `InverseSqrt` is positive at `g * g + s * s` and at
`g * g + 1`, then after `PreprocessWorld` and one call of `RenderWorld`,
`ambientDrawCount`, `lightDrawCount` and `lightSourceCount` are one, and after
the box is moved 1000 units along the x axis the next call of `RenderWorld`
reports `ambientDrawCount = 0`. -/
theorem WorldManager.RenderWorld_box_example (InverseSqrt : K → K)
    (MakeRotation : K → Vector3D K → Matrix3D K) (deltaTime : K) (camera : FrustumCamera K)
    (hg : 0 < camera.projectionDistance) (hs : 0 < camera.aspectRatio)
    (hwide : camera.aspectRatio ≤ 1999 * camera.projectionDistance)
    (hn : camera.nearDepth < 1 / 2)
    (hrx : 0 < InverseSqrt (camera.projectionDistance * camera.projectionDistance
      + camera.aspectRatio * camera.aspectRatio))
    (hry : 0 < InverseSqrt (camera.projectionDistance * camera.projectionDistance + 1)) :
    (WorldManager.RenderWorld InverseSqrt MakeRotation deltaTime
        (boxWorld camera)).ambientDrawCount = 1 ∧
    (WorldManager.RenderWorld InverseSqrt MakeRotation deltaTime
        (boxWorld camera)).lightDrawCount = 1 ∧
    (WorldManager.RenderWorld InverseSqrt MakeRotation deltaTime
        (boxWorld camera)).lightSourceCount = 1 ∧
    (WorldManager.RenderWorld InverseSqrt MakeRotation deltaTime
        (movedBoxWorld InverseSqrt MakeRotation deltaTime camera)).ambientDrawCount = 0 := by
  obtain ⟨a1, s1, d1, a2⟩ := boxWorld_counts InverseSqrt MakeRotation deltaTime camera hg hs
    hrx hry
  have hfar : camera.nearDepth ≤ 15 := by linarith
  rw [a1, s1, d1, a2, if_pos hn, if_pos hfar,
    if_neg (fun h => absurd h.1 (not_lt.mpr hwide))]
  exact ⟨rfl, rfl, rfl, rfl⟩

/-- Witness for C23 (amended): `sampleCamera` has `g = 3/4`, `s = 1` and
`n = 1/8`, and `InverseSqrtRat` is `4/5` at `g * g + s * s = g * g + 1 = 25/16`. -/
theorem WorldManager.RenderWorld_box_example_witness :
    (WorldManager.RenderWorld InverseSqrtRat MakeRotationZero 0
        (boxWorld sampleCamera)).ambientDrawCount = 1 ∧
    (WorldManager.RenderWorld InverseSqrtRat MakeRotationZero 0
        (boxWorld sampleCamera)).lightDrawCount = 1 ∧
    (WorldManager.RenderWorld InverseSqrtRat MakeRotationZero 0
        (boxWorld sampleCamera)).lightSourceCount = 1 ∧
    (WorldManager.RenderWorld InverseSqrtRat MakeRotationZero 0
        (movedBoxWorld InverseSqrtRat MakeRotationZero 0 sampleCamera)).ambientDrawCount = 0 :=
  WorldManager.RenderWorld_box_example InverseSqrtRat MakeRotationZero 0 sampleCamera
    (by norm_num [sampleCamera]) (by norm_num [sampleCamera]) (by norm_num [sampleCamera])
    (by norm_num [sampleCamera])
    (by norm_num [sampleCamera, InverseSqrtRat_sampleCamera])
    (by norm_num [sampleCamera, InverseSqrtRat_sampleCamera])

/-- Counterexample to C23: `nearCamera` is a frustum camera with the near depth
one.  The box of size `(1, 1, 1)` centered at the origin, where the camera
stands, lies behind its near plane: the center has the distance `-1` to the
plane and the effective radius is `1/2`.  The first frame draws nothing,
`ambientDrawCount` and `lightDrawCount` are zero, and `lightSourceCount` is
one. -/
theorem WorldManager.RenderWorld_box_example_counterexample :
    nearCamera.nearDepth = 1 ∧
    (WorldManager.RenderWorld InverseSqrtRat MakeRotationZero 0
        (boxWorld nearCamera)).ambientDrawCount = 0 ∧
    (WorldManager.RenderWorld InverseSqrtRat MakeRotationZero 0
        (boxWorld nearCamera)).lightDrawCount = 0 ∧
    (WorldManager.RenderWorld InverseSqrtRat MakeRotationZero 0
        (boxWorld nearCamera)).lightSourceCount = 1 := by
  obtain ⟨a1, s1, d1, -⟩ := boxWorld_counts InverseSqrtRat MakeRotationZero 0 nearCamera
    (by norm_num [nearCamera]) (by norm_num [nearCamera])
    (by norm_num [nearCamera, InverseSqrtRat_sampleCamera])
    (by norm_num [nearCamera, InverseSqrtRat_sampleCamera])
  rw [a1, s1, d1]
  norm_num [nearCamera]

end BoxExampleClaims

section MeshTheorems

variable {K : Type} [LinearOrderedField K]

/-- The center that `BoxVisible` computes is the image of the midpoint of the
box `[0, size.x] x [0, size.y] x [0, size.z]` under the world transform. -/
theorem FrustumCamera.BoxVisible.center_eq (T : Transform4D K) (size : Vector3D K) :
    FrustumCamera.BoxVisible.center T size
      = T.mulPoint ⟨size.x / 2, size.y / 2, size.z / 2⟩ := by
  simp only [FrustumCamera.BoxVisible.center, FrustumCamera.BoxVisible.halfAxisX,
    FrustumCamera.BoxVisible.halfAxisY, FrustumCamera.BoxVisible.halfAxisZ,
    Transform4D.GetTranslation, Transform4D.col, Vector3D.scale, Point3D.add,
    Transform4D.mulPoint, Point3D.mk.injEq]
  refine ⟨by ring, by ring, by ring⟩

/-- C28: for every size with positive components, the mesh that
`BoxGeometry(size)` builds is the outward-wound surface of the box
`[0, size.x] x [0, size.y] x [0, size.z]` that `BoxVisible` tests.  Every one of
the 24 vertex positions is a corner of that box, and every corner of the box
is among them, so the bounding box of the positions is that box; the center
`BoxVisible` computes is the image of its midpoint `size / 2` under the world
transform, the node origin being the minimal corner.  All 36 triangle indices
are below 24; the three vertices of each of the 12 triangles store the same
normal; and the cross product `(v1 - v0) x (v2 - v0)` of each triangle is a
positive multiple of that normal. -/
theorem BoxGeometry.boxVertex_outward (size : Vector3D K) (hx : 0 < size.x) (hy : 0 < size.y)
    (hz : 0 < size.z) :
    (∀ i : Fin 24,
      ((BoxGeometry.boxVertex size i).position.x = 0
        ∨ (BoxGeometry.boxVertex size i).position.x = size.x) ∧
      ((BoxGeometry.boxVertex size i).position.y = 0
        ∨ (BoxGeometry.boxVertex size i).position.y = size.y) ∧
      ((BoxGeometry.boxVertex size i).position.z = 0
        ∨ (BoxGeometry.boxVertex size i).position.z = size.z)) ∧
    (∀ a b c : Bool, ∃ i : Fin 24, (BoxGeometry.boxVertex size i).position
      = ⟨if a then size.x else 0, if b then size.y else 0, if c then size.z else 0⟩) ∧
    (∀ T : Transform4D K, FrustumCamera.BoxVisible.center T size
      = T.mulPoint ⟨size.x / 2, size.y / 2, size.z / 2⟩) ∧
    (∀ (t : Fin 12) (k : Fin 3), (BoxGeometry.boxTriangle t).index k < 24) ∧
    (∀ t : Fin 12, ∃ v0 v1 v2 : Vertex K,
      BoxGeometry.vertexAt size ((BoxGeometry.boxTriangle t).index 0) = some v0 ∧
      BoxGeometry.vertexAt size ((BoxGeometry.boxTriangle t).index 1) = some v1 ∧
      BoxGeometry.vertexAt size ((BoxGeometry.boxTriangle t).index 2) = some v2 ∧
      v1.normal = v0.normal ∧ v2.normal = v0.normal ∧
      ∃ c : K, 0 < c ∧
        (v1.position.sub v0.position).Cross (v2.position.sub v0.position)
          = v0.normal.scale c) := by
  refine ⟨?_, ?_, fun T => FrustumCamera.BoxVisible.center_eq T size, ?_, ?_⟩
  · intro i
    fin_cases i <;> refine ⟨?_, ?_, ?_⟩ <;> first | exact Or.inl rfl | exact Or.inr rfl
  · intro a b c
    cases a <;> cases b <;> cases c
    · exact ⟨9, rfl⟩
    · exact ⟨10, rfl⟩
    · exact ⟨8, rfl⟩
    · exact ⟨11, rfl⟩
    · exact ⟨0, rfl⟩
    · exact ⟨3, rfl⟩
    · exact ⟨1, rfl⟩
    · exact ⟨2, rfl⟩
  · intro t k
    fin_cases t <;> fin_cases k <;> decide
  · intro t
    have hyz := mul_pos hy hz
    have hxz := mul_pos hx hz
    have hxy := mul_pos hx hy
    fin_cases t
    · exact ⟨⟨⟨size.x, 0, 0⟩, ⟨1, 0, 0⟩, ⟨0, 1, 0, 1⟩, ⟨0, 0⟩⟩,
        ⟨⟨size.x, size.y, 0⟩, ⟨1, 0, 0⟩, ⟨0, 1, 0, 1⟩, ⟨size.y, 0⟩⟩,
        ⟨⟨size.x, size.y, size.z⟩, ⟨1, 0, 0⟩, ⟨0, 1, 0, 1⟩, ⟨size.y, size.z⟩⟩,
        rfl, rfl, rfl, rfl, rfl, size.y * size.z, hyz, by
          simp [Point3D.sub, Vector3D.Cross, Vector3D.scale]⟩
    · exact ⟨⟨⟨size.x, 0, 0⟩, ⟨1, 0, 0⟩, ⟨0, 1, 0, 1⟩, ⟨0, 0⟩⟩,
        ⟨⟨size.x, size.y, size.z⟩, ⟨1, 0, 0⟩, ⟨0, 1, 0, 1⟩, ⟨size.y, size.z⟩⟩,
        ⟨⟨size.x, 0, size.z⟩, ⟨1, 0, 0⟩, ⟨0, 1, 0, 1⟩, ⟨0, size.z⟩⟩,
        rfl, rfl, rfl, rfl, rfl, size.y * size.z, hyz, by
          simp [Point3D.sub, Vector3D.Cross, Vector3D.scale]⟩
    · exact ⟨⟨⟨size.x, size.y, 0⟩, ⟨0, 1, 0⟩, ⟨-1, 0, 0, 1⟩, ⟨0, 0⟩⟩,
        ⟨⟨0, size.y, 0⟩, ⟨0, 1, 0⟩, ⟨-1, 0, 0, 1⟩, ⟨size.x, 0⟩⟩,
        ⟨⟨0, size.y, size.z⟩, ⟨0, 1, 0⟩, ⟨-1, 0, 0, 1⟩, ⟨size.x, size.z⟩⟩,
        rfl, rfl, rfl, rfl, rfl, size.x * size.z, hxz, by
          simp [Point3D.sub, Vector3D.Cross, Vector3D.scale]⟩
    · exact ⟨⟨⟨size.x, size.y, 0⟩, ⟨0, 1, 0⟩, ⟨-1, 0, 0, 1⟩, ⟨0, 0⟩⟩,
        ⟨⟨0, size.y, size.z⟩, ⟨0, 1, 0⟩, ⟨-1, 0, 0, 1⟩, ⟨size.x, size.z⟩⟩,
        ⟨⟨size.x, size.y, size.z⟩, ⟨0, 1, 0⟩, ⟨-1, 0, 0, 1⟩, ⟨0, size.z⟩⟩,
        rfl, rfl, rfl, rfl, rfl, size.x * size.z, hxz, by
          simp [Point3D.sub, Vector3D.Cross, Vector3D.scale]⟩
    · exact ⟨⟨⟨0, size.y, 0⟩, ⟨-1, 0, 0⟩, ⟨0, -1, 0, 1⟩, ⟨0, 0⟩⟩,
        ⟨⟨0, 0, 0⟩, ⟨-1, 0, 0⟩, ⟨0, -1, 0, 1⟩, ⟨size.y, 0⟩⟩,
        ⟨⟨0, 0, size.z⟩, ⟨-1, 0, 0⟩, ⟨0, -1, 0, 1⟩, ⟨size.y, size.z⟩⟩,
        rfl, rfl, rfl, rfl, rfl, size.y * size.z, hyz, by
          simp [Point3D.sub, Vector3D.Cross, Vector3D.scale]⟩
    · exact ⟨⟨⟨0, size.y, 0⟩, ⟨-1, 0, 0⟩, ⟨0, -1, 0, 1⟩, ⟨0, 0⟩⟩,
        ⟨⟨0, 0, size.z⟩, ⟨-1, 0, 0⟩, ⟨0, -1, 0, 1⟩, ⟨size.y, size.z⟩⟩,
        ⟨⟨0, size.y, size.z⟩, ⟨-1, 0, 0⟩, ⟨0, -1, 0, 1⟩, ⟨0, size.z⟩⟩,
        rfl, rfl, rfl, rfl, rfl, size.y * size.z, hyz, by
          simp [Point3D.sub, Vector3D.Cross, Vector3D.scale]⟩
    · exact ⟨⟨⟨0, 0, 0⟩, ⟨0, -1, 0⟩, ⟨1, 0, 0, 1⟩, ⟨0, 0⟩⟩,
        ⟨⟨size.x, 0, 0⟩, ⟨0, -1, 0⟩, ⟨1, 0, 0, 1⟩, ⟨size.x, 0⟩⟩,
        ⟨⟨size.x, 0, size.z⟩, ⟨0, -1, 0⟩, ⟨1, 0, 0, 1⟩, ⟨size.x, size.z⟩⟩,
        rfl, rfl, rfl, rfl, rfl, size.x * size.z, hxz, by
          simp [Point3D.sub, Vector3D.Cross, Vector3D.scale]⟩
    · exact ⟨⟨⟨0, 0, 0⟩, ⟨0, -1, 0⟩, ⟨1, 0, 0, 1⟩, ⟨0, 0⟩⟩,
        ⟨⟨size.x, 0, size.z⟩, ⟨0, -1, 0⟩, ⟨1, 0, 0, 1⟩, ⟨size.x, size.z⟩⟩,
        ⟨⟨0, 0, size.z⟩, ⟨0, -1, 0⟩, ⟨1, 0, 0, 1⟩, ⟨0, size.z⟩⟩,
        rfl, rfl, rfl, rfl, rfl, size.x * size.z, hxz, by
          simp [Point3D.sub, Vector3D.Cross, Vector3D.scale]⟩
    · exact ⟨⟨⟨0, 0, size.z⟩, ⟨0, 0, 1⟩, ⟨1, 0, 0, 1⟩, ⟨0, 0⟩⟩,
        ⟨⟨size.x, 0, size.z⟩, ⟨0, 0, 1⟩, ⟨1, 0, 0, 1⟩, ⟨size.x, 0⟩⟩,
        ⟨⟨size.x, size.y, size.z⟩, ⟨0, 0, 1⟩, ⟨1, 0, 0, 1⟩, ⟨size.x, size.y⟩⟩,
        rfl, rfl, rfl, rfl, rfl, size.x * size.y, hxy, by
          simp [Point3D.sub, Vector3D.Cross, Vector3D.scale]⟩
    · exact ⟨⟨⟨0, 0, size.z⟩, ⟨0, 0, 1⟩, ⟨1, 0, 0, 1⟩, ⟨0, 0⟩⟩,
        ⟨⟨size.x, size.y, size.z⟩, ⟨0, 0, 1⟩, ⟨1, 0, 0, 1⟩, ⟨size.x, size.y⟩⟩,
        ⟨⟨0, size.y, size.z⟩, ⟨0, 0, 1⟩, ⟨1, 0, 0, 1⟩, ⟨0, size.y⟩⟩,
        rfl, rfl, rfl, rfl, rfl, size.x * size.y, hxy, by
          simp [Point3D.sub, Vector3D.Cross, Vector3D.scale]⟩
    · exact ⟨⟨⟨size.x, 0, 0⟩, ⟨0, 0, -1⟩, ⟨-1, 0, 0, 1⟩, ⟨0, 0⟩⟩,
        ⟨⟨0, 0, 0⟩, ⟨0, 0, -1⟩, ⟨-1, 0, 0, 1⟩, ⟨size.x, 0⟩⟩,
        ⟨⟨0, size.y, 0⟩, ⟨0, 0, -1⟩, ⟨-1, 0, 0, 1⟩, ⟨size.x, size.y⟩⟩,
        rfl, rfl, rfl, rfl, rfl, size.x * size.y, hxy, by
          simp [Point3D.sub, Vector3D.Cross, Vector3D.scale]⟩
    · exact ⟨⟨⟨size.x, 0, 0⟩, ⟨0, 0, -1⟩, ⟨-1, 0, 0, 1⟩, ⟨0, 0⟩⟩,
        ⟨⟨0, size.y, 0⟩, ⟨0, 0, -1⟩, ⟨-1, 0, 0, 1⟩, ⟨size.x, size.y⟩⟩,
        ⟨⟨size.x, size.y, 0⟩, ⟨0, 0, -1⟩, ⟨-1, 0, 0, 1⟩, ⟨0, size.y⟩⟩,
        rfl, rfl, rfl, rfl, rfl, size.x * size.y, hxy, by
          simp [Point3D.sub, Vector3D.Cross, Vector3D.scale]⟩

/-- Witness for C28: the box of size `(2, 3, 4)`. -/
theorem BoxGeometry.boxVertex_outward_witness :
    (∀ a b c : Bool, ∃ i : Fin 24,
      (BoxGeometry.boxVertex (⟨2, 3, 4⟩ : Vector3D ℚ) i).position
        = ⟨if a then 2 else 0, if b then 3 else 0, if c then 4 else 0⟩) ∧
    (∀ t : Fin 12, ∃ v0 v1 v2 : Vertex ℚ,
      BoxGeometry.vertexAt ⟨2, 3, 4⟩ ((BoxGeometry.boxTriangle t).index 0) = some v0 ∧
      BoxGeometry.vertexAt ⟨2, 3, 4⟩ ((BoxGeometry.boxTriangle t).index 1) = some v1 ∧
      BoxGeometry.vertexAt ⟨2, 3, 4⟩ ((BoxGeometry.boxTriangle t).index 2) = some v2 ∧
      v1.normal = v0.normal ∧ v2.normal = v0.normal ∧
      ∃ c : ℚ, 0 < c ∧
        (v1.position.sub v0.position).Cross (v2.position.sub v0.position)
          = v0.normal.scale c) :=
  have h := BoxGeometry.boxVertex_outward (⟨2, 3, 4⟩ : Vector3D ℚ) (by norm_num) (by norm_num)
    (by norm_num)
  ⟨h.2.1, h.2.2.2.2⟩

end MeshTheorems

/-! ### The mesh of a sphere -/

section LoopTheorems

/-- A loop whose body keeps an invariant, and does not fail when the invariant
holds, ends with the invariant. -/
theorem forLoop_invariant {σ : Type} (Inv : Nat → σ → Prop) (body : Nat → σ → Option σ)
    (count : Nat) : ∀ (start : Nat) (state : σ), Inv start state →
      (∀ j s, start ≤ j → j < start + count → Inv j s →
        ∃ s', body j s = some s' ∧ Inv (j + 1) s') →
      ∃ s', forLoop start (start + count) body state = some s' ∧ Inv (start + count) s' := by
  induction count with
  | zero =>
    intro start state h0 _
    exact ⟨state, by simp [forLoop], h0⟩
  | succ n ih =>
    intro start state h0 hstep
    obtain ⟨s1, hs1, hinv1⟩ := hstep start state (le_refl _) (by omega) h0
    obtain ⟨s2, hs2, hinv2⟩ := ih (start + 1) s1 hinv1
      (fun j s hj hlt hinv => hstep j s (by omega) (by omega) hinv)
    refine ⟨s2, ?_, ?_⟩
    · have hloop : forLoop (start + 1) (start + 1 + n) body s1 = some s2 := hs2
      unfold forLoop at hloop ⊢
      have e1 : start + (n + 1) - start = n + 1 := by omega
      have e2 : start + 1 + n - (start + 1) = n := by omega
      rw [e2] at hloop
      rw [e1, List.range'_succ, List.foldlM_cons, hs1]
      exact hloop
    · have e : start + (n + 1) = start + 1 + n := by omega
      rw [e]
      exact hinv2

end LoopTheorems

section SphereTheorems

/-- An integer that `int32` holds is kept by the conversion. -/
theorem toInt32_of_lt (value : Int) (h0 : 0 ≤ value) (h1 : value < 2 ^ 31) :
    toInt32 value = value := by
  unfold toInt32
  omega

/-- An index that `uint16` holds is kept by the two conversions of
`Triangle::Set`. -/
theorem toUInt16_toUInt32 (value : Int) (h0 : 0 ≤ value) (h1 : value < 2 ^ 16) :
    ((toUInt16 (toUInt32 value) : Nat) : Int) = value := by
  unfold toUInt16 toUInt32
  omega

/-- A call of `Triangle::Set` on an element of the array. -/
theorem SphereGeometry.TriangleState.Set_eq (shift : Nat) (i0 i1 i2 : Int)
    (state : SphereGeometry.TriangleState) (h : state.triangle + shift < 960) :
    state.Set shift i0 i1 i2
      = some ⟨state.triangle, state.calls ++ [(state.triangle + shift, i0, i1, i2)]⟩ := by
  unfold SphereGeometry.TriangleState.Set
  rw [if_pos (by simpa [SphereGeometry.kSphereTriangleCount, SphereGeometry.xdiv,
    SphereGeometry.zdiv] using h)]

/-- One more valid call at the next offset. -/
theorem SphereGeometry.TriangleState.filled_append (count : Nat)
    (state : SphereGeometry.TriangleState) (i0 i1 i2 : Int) (triangle : Nat)
    (h : state.filled count)
    (h0 : 0 ≤ i0 ∧ i0 < 559) (h1 : 0 ≤ i1 ∧ i1 < 559) (h2 : 0 ≤ i2 ∧ i2 < 559) :
    SphereGeometry.TriangleState.filled (count + 1)
      ⟨triangle, state.calls ++ [(count, i0, i1, i2)]⟩ := by
  obtain ⟨hmap, hvalid⟩ := h
  refine ⟨?_, ?_⟩
  · simp [hmap, List.range_succ]
  · intro call hcall
    rcases List.mem_append.mp hcall with hin | hin
    · exact hvalid call hin
    · rw [List.mem_singleton.mp hin]
      exact ⟨h0, h1, h2⟩

/-- The body of the loop over `j` makes two valid calls, on the two elements
from the pointer on. -/
theorem SphereGeometry.quadBody_filled (i : Nat) (hi : i < 32) (j : Nat) (hj : j < 14)
    (state : SphereGeometry.TriangleState)
    (ht : state.triangle = 30 * i + 1 + 2 * j) (h : state.filled (30 * i + 1 + 2 * j)) :
    ∃ s', SphereGeometry.quadBody i (17 * i) j state = some s' ∧
      s'.triangle = 30 * i + 1 + 2 * (j + 1) ∧ s'.filled (30 * i + 1 + 2 * (j + 1)) := by
  obtain ⟨triangle, calls⟩ := state
  simp only at ht
  subst ht
  have e : 30 * i + 1 + 2 * (j + 1) = 30 * i + 1 + 2 * j + 1 + 1 := by omega
  unfold SphereGeometry.quadBody
  simp only [SphereGeometry.zdiv, Nat.cast_ofNat]
  by_cases hpar : (i + j) &&& 1 = 0
  · simp only [hpar, if_true]
    rw [SphereGeometry.TriangleState.Set_eq _ _ _ _ _ (by simp only []; omega)]
    simp only [Option.bind_eq_bind, Option.some_bind]
    rw [SphereGeometry.TriangleState.Set_eq _ _ _ _ _ (by simp only []; omega)]
    refine ⟨_, rfl, by simp only [SphereGeometry.TriangleState.advance]; omega, ?_⟩
    simp only [SphereGeometry.TriangleState.advance, Nat.add_zero]
    rw [e]
    exact SphereGeometry.TriangleState.filled_append _ _ _ _ _ _
      (SphereGeometry.TriangleState.filled_append _ ⟨30 * i + 1 + 2 * j, calls⟩ _ _ _
        (30 * i + 1 + 2 * j) h (by omega) (by omega) (by omega))
      (by omega) (by omega) (by omega)
  · simp only [hpar, if_false]
    rw [SphereGeometry.TriangleState.Set_eq _ _ _ _ _ (by simp only []; omega)]
    simp only [Option.bind_eq_bind, Option.some_bind]
    rw [SphereGeometry.TriangleState.Set_eq _ _ _ _ _ (by simp only []; omega)]
    refine ⟨_, rfl, by simp only [SphereGeometry.TriangleState.advance]; omega, ?_⟩
    simp only [SphereGeometry.TriangleState.advance, Nat.add_zero]
    rw [e]
    exact SphereGeometry.TriangleState.filled_append _ _ _ _ _ _
      (SphereGeometry.TriangleState.filled_append _ ⟨30 * i + 1 + 2 * j, calls⟩ _ _ _
        (30 * i + 1 + 2 * j) h (by omega) (by omega) (by omega))
      (by omega) (by omega) (by omega)

/-- The body of the loop over `i` that fills `sphereTriangle` makes thirty
valid calls, on the thirty elements from the pointer on. -/
theorem SphereGeometry.triangleBody_filled (i : Nat) (hi : i < 32)
    (state : SphereGeometry.TriangleState)
    (ht : state.triangle = 30 * i) (h : state.filled (30 * i)) :
    ∃ s', SphereGeometry.triangleBody i state = some s' ∧
      s'.triangle = 30 * (i + 1) ∧ s'.filled (30 * (i + 1)) := by
  have hk : toInt32 ((i : Int) * (((SphereGeometry.zdiv : Nat) : Int) + 1)) = 17 * i := by
    rw [toInt32_of_lt _ (by simp [SphereGeometry.zdiv])
      (by simp [SphereGeometry.zdiv]; omega)]
    simp only [SphereGeometry.zdiv, Nat.cast_ofNat]
    ring
  obtain ⟨triangle, calls⟩ := state
  simp only at ht
  subst ht
  obtain ⟨s1, hs1, ht1, hf1⟩ := forLoop_invariant
    (fun j (s : SphereGeometry.TriangleState) =>
      s.triangle = 30 * i + 1 + 2 * j ∧ s.filled (30 * i + 1 + 2 * j))
    (SphereGeometry.quadBody i (17 * i)) 14 0
    ⟨30 * i + 1, calls ++ [(30 * i, 17 * (i : Int) + 16 - 1, 17 * (i : Int) + 16 + 1,
      17 * (i : Int))]⟩
    ⟨rfl, SphereGeometry.TriangleState.filled_append (30 * i) ⟨30 * i, calls⟩ _ _ _ _ h
      (by omega) (by omega) (by omega)⟩
    (fun j s _ hj hs => SphereGeometry.quadBody_filled i hi j (by omega) s hs.1 hs.2)
  obtain ⟨triangle1, calls1⟩ := s1
  simp only at ht1
  subst ht1
  unfold SphereGeometry.triangleBody
  simp only [hk]
  rw [SphereGeometry.TriangleState.Set_eq _ _ _ _ _ (by simp only []; omega)]
  simp only [Option.bind_eq_bind, Option.some_bind, SphereGeometry.TriangleState.advance,
    SphereGeometry.zdiv, Nat.cast_ofNat, Nat.add_zero]
  have hloop : forLoop 0 (16 - 2) (SphereGeometry.quadBody i (17 * i))
      ⟨30 * i + 1, calls ++ [(30 * i, 17 * (i : Int) + 16 - 1, 17 * (i : Int) + 16 + 1,
        17 * (i : Int))]⟩ = some ⟨30 * i + 1 + 2 * (0 + 14), calls1⟩ := hs1
  rw [hloop]
  simp only [Option.some_bind]
  rw [SphereGeometry.TriangleState.Set_eq _ _ _ _ _ (by simp only []; omega)]
  refine ⟨_, rfl, by simp only []; omega, ?_⟩
  simp only [Nat.add_zero]
  have e : 30 * (i + 1) = 30 * i + 1 + 2 * (0 + 14) + 1 := by omega
  rw [e]
  exact SphereGeometry.TriangleState.filled_append _ ⟨30 * i + 1 + 2 * (0 + 14), calls1⟩ _ _ _ _
    hf1 (by omega) (by omega) (by omega)

/-- The loop that fills `sphereTriangle` does not fail, and makes 960 valid
calls, one on each element of the array, in the order of the array. -/
theorem SphereGeometry.fillTriangles_filled :
    ∃ s', SphereGeometry.fillTriangles = some s' ∧ s'.triangle = 960 ∧ s'.filled 960 := by
  obtain ⟨s1, hs1, ht1, hf1⟩ := forLoop_invariant
    (fun i (s : SphereGeometry.TriangleState) => s.triangle = 30 * i ∧ s.filled (30 * i))
    SphereGeometry.triangleBody 32 0 ⟨0, []⟩
    ⟨rfl, rfl, fun _ h => absurd h (List.not_mem_nil _)⟩
    (fun i s _ hi hs => SphereGeometry.triangleBody_filled i (by omega) s hs.1 hs.2)
  exact ⟨s1, hs1, ht1, hf1⟩

end SphereTheorems

section SphereVertexTheorems

variable {K : Type}

/-- A write through `vertex` inside of the array goes to the next offset. -/
theorem SphereGeometry.VertexState.put_filled (count : Nat) (hcount : count < 559)
    (value : Vertex K) (state : SphereGeometry.VertexState K) (h : state.filled count) :
    ∃ s', state.put value = some s' ∧ s'.filled (count + 1) := by
  obtain ⟨hv, hmap⟩ := h
  unfold SphereGeometry.VertexState.put
  rw [if_pos (by
    simp only [SphereGeometry.kSphereVertexCount, SphereGeometry.xdiv, SphereGeometry.zdiv]
    omega)]
  refine ⟨_, rfl, ?_, ?_⟩
  · simp only [hv]
  · simp [hmap, hv, List.range_succ]

/-- A read of an element that was written does not fail. -/
theorem SphereGeometry.VertexState.read_filled (count : Nat) (index : Nat)
    (hindex : index < count) (state : SphereGeometry.VertexState K) (h : state.filled count) :
    ∃ value, state.read index = some value := by
  obtain ⟨-, hmap⟩ := h
  have hmem : index ∈ state.written.map Prod.fst := by
    rw [hmap]
    exact List.mem_range.mpr hindex
  obtain ⟨entry, hentry, hfst⟩ := List.mem_map.mp hmem
  unfold SphereGeometry.VertexState.read
  cases hfind : state.written.reverse.find? (fun entry => entry.1 == index) with
  | some found => exact ⟨found.2, rfl⟩
  | none =>
    rw [List.find?_eq_none] at hfind
    have := hfind entry (List.mem_reverse.mpr hentry)
    simp [hfst] at this

/-- A loop that writes one vertex in every round, all inside of the array,
does not fail. -/
theorem SphereGeometry.VertexState.put_loop_filled (f : Nat → Vertex K)
    (base start count : Nat) (hbase : base + count ≤ 559)
    (state : SphereGeometry.VertexState K) (h : state.filled base) :
    ∃ s', forLoop start (start + count) (fun j s => SphereGeometry.VertexState.put (f j) s)
        state = some s' ∧ s'.filled (base + count) := by
  obtain ⟨s1, hs1, hf1⟩ := forLoop_invariant
    (fun j (s : SphereGeometry.VertexState K) => s.filled (base + (j - start)))
    (fun j s => SphereGeometry.VertexState.put (f j) s) count start state
    (by simpa using h)
    (fun j s hj1 hj2 hs => by
      have e : base + (j + 1 - start) = base + (j - start) + 1 := by omega
      show ∃ s', SphereGeometry.VertexState.put (f j) s = some s' ∧
        s'.filled (base + (j + 1 - start))
      rw [e]
      exact SphereGeometry.VertexState.put_filled _ (by omega) _ s hs)
  refine ⟨s1, hs1, ?_⟩
  have e : base + count = base + (start + count - start) := by omega
  rw [e]
  exact hf1

end SphereVertexTheorems

section SphereFillTheorems

variable {K : Type} [LinearOrderedField K]

/-- The body of the first loop over `i` writes seventeen vertices, to the
seventeen offsets from the pointer on. -/
theorem SphereGeometry.vertexBody_filled (CosSin : K → Vector2D K) (tau tau_over_2 radius : K)
    (i : Nat) (hi : i < 32) (state : SphereGeometry.VertexState K)
    (h : state.filled (17 * i)) :
    ∃ s', SphereGeometry.vertexBody CosSin tau tau_over_2 radius i state = some s' ∧
      s'.filled (17 * (i + 1)) := by
  unfold SphereGeometry.vertexBody
  simp only []
  obtain ⟨s1, hs1, hf1⟩ := SphereGeometry.VertexState.put_loop_filled
    (SphereGeometry.ringVertex CosSin tau_over_2 radius ((i : K) * (1 / (SphereGeometry.xdiv : K)))
      (CosSin ((i : K) * (1 / (SphereGeometry.xdiv : K)) * tau)))
    (17 * i) 1 15 (by omega) state h
  have hloop : forLoop 1 SphereGeometry.zdiv _ state = some s1 := hs1
  rw [hloop]
  simp only [Option.bind_eq_bind, Option.some_bind]
  obtain ⟨s2, hs2, hf2⟩ := SphereGeometry.VertexState.put_filled (17 * i + 15) (by omega)
    ⟨⟨0, 0, -radius⟩, ⟨0, 0, -1⟩,
      ⟨-(CosSin ((i : K) * (1 / (SphereGeometry.xdiv : K)) * tau)).y,
        (CosSin ((i : K) * (1 / (SphereGeometry.xdiv : K)) * tau)).x, 0, 1⟩,
      ⟨(i : K) * (1 / (SphereGeometry.xdiv : K)) * 4, 0⟩⟩ s1 hf1
  rw [hs2]
  simp only [Option.some_bind]
  have e : 17 * (i + 1) = 17 * i + 15 + 1 + 1 := by omega
  rw [e]
  exact SphereGeometry.VertexState.put_filled _ (by omega) _ s2 hf2

/-- The body of the second loop reads a vertex that was written and writes
one vertex, to the offset at the pointer. -/
theorem SphereGeometry.seamBody_filled (j : Nat) (hj : j < 15)
    (state : SphereGeometry.VertexState K) (h : state.filled (544 + j)) :
    ∃ s', SphereGeometry.seamBody j state = some s' ∧ s'.filled (544 + (j + 1)) := by
  obtain ⟨source, hsource⟩ := SphereGeometry.VertexState.read_filled (544 + j) j (by omega)
    state h
  unfold SphereGeometry.seamBody
  simp only [hsource, Option.bind_eq_bind, Option.some_bind]
  exact SphereGeometry.VertexState.put_filled (544 + j) (by omega) _ state h

/-- The loops that fill `sphereVertex` do not fail, and write 559 vertices,
one to each element of the array, in the order of the array. -/
theorem SphereGeometry.fillVertices_filled (CosSin : K → Vector2D K)
    (tau tau_over_2 radius : K) :
    ∃ s', SphereGeometry.fillVertices CosSin tau tau_over_2 radius = some s' ∧
      s'.filled 559 := by
  obtain ⟨s1, hs1, hf1⟩ := forLoop_invariant
    (fun i (s : SphereGeometry.VertexState K) => s.filled (17 * i))
    (SphereGeometry.vertexBody CosSin tau tau_over_2 radius) 32 0 ⟨0, []⟩ ⟨rfl, rfl⟩
    (fun i s _ hi hs => SphereGeometry.vertexBody_filled CosSin tau tau_over_2 radius i
      (by omega) s hs)
  obtain ⟨s2, hs2, hf2⟩ := forLoop_invariant
    (fun j (s : SphereGeometry.VertexState K) => s.filled (544 + j))
    SphereGeometry.seamBody 15 0 s1 hf1
    (fun j s _ hj hs => SphereGeometry.seamBody_filled j (by omega) s hs)
  have h1 : forLoop 0 SphereGeometry.xdiv
      (SphereGeometry.vertexBody CosSin tau tau_over_2 radius) ⟨0, []⟩ = some s1 := hs1
  have h2 : forLoop 0 (SphereGeometry.zdiv - 1) SphereGeometry.seamBody s1 = some s2 := hs2
  unfold SphereGeometry.fillVertices
  simp only [h1, h2, Option.bind_eq_bind, Option.some_bind]
  exact ⟨s2, rfl, hf2⟩

end SphereFillTheorems

section SphereClaims

variable {K : Type} [LinearOrderedField K]

/-- C29: with `xdiv = 32` and `zdiv = 16` the constants `kSphereVertexCount`
and `kSphereTriangleCount`, the lengths of the two arrays, are 559 and 960.
The constructor of `SphereGeometry` does not fail, so it writes inside of the
two arrays only: it writes 559 vertices, one to each of the offsets 0, ..., 558
of `sphereVertex`, and calls `Triangle::Set` 960 times, once on each of the
offsets 0, ..., 959 of `sphereTriangle`.  Each of the three arguments of each
call, 2880 in all, is an integer from 0 to 558, so it is the index of a vertex
that was written, and the index of type `uint16` that the call stores is the
argument itself. -/
theorem SphereGeometry.constructor_mesh (CosSin : K → Vector2D K)
    (tau tau_over_2 radius : K) :
    SphereGeometry.xdiv = 32 ∧ SphereGeometry.zdiv = 16 ∧
    SphereGeometry.kSphereVertexCount = 559 ∧ SphereGeometry.kSphereTriangleCount = 960 ∧
    (∃ vertices, SphereGeometry.fillVertices CosSin tau tau_over_2 radius = some vertices ∧
      vertices.written.map Prod.fst = List.range 559 ∧ vertices.written.length = 559) ∧
    (∃ triangles, SphereGeometry.fillTriangles = some triangles ∧
      triangles.calls.map Prod.fst = List.range 960 ∧ triangles.calls.length = 960 ∧
      (triangles.calls.flatMap (fun call => [call.2.1, call.2.2.1, call.2.2.2])).length
        = 2880 ∧
      ∀ call ∈ triangles.calls,
        (0 ≤ call.2.1 ∧ call.2.1 ≤ 558 ∧
          (((Triangle.Set call.2.1 call.2.2.1 call.2.2.2).index 0 : Nat) : Int) = call.2.1) ∧
        (0 ≤ call.2.2.1 ∧ call.2.2.1 ≤ 558 ∧
          (((Triangle.Set call.2.1 call.2.2.1 call.2.2.2).index 1 : Nat) : Int)
            = call.2.2.1) ∧
        (0 ≤ call.2.2.2 ∧ call.2.2.2 ≤ 558 ∧
          (((Triangle.Set call.2.1 call.2.2.1 call.2.2.2).index 2 : Nat) : Int)
            = call.2.2.2)) := by
  obtain ⟨vertices, hv, -, hvmap⟩ := SphereGeometry.fillVertices_filled CosSin tau tau_over_2
    radius
  obtain ⟨triangles, ht, -, htmap, hvalid⟩ := SphereGeometry.fillTriangles_filled
  have hvlen : vertices.written.length = 559 := by
    have := congrArg List.length hvmap
    simpa using this
  have htlen : triangles.calls.length = 960 := by
    have := congrArg List.length htmap
    simpa using this
  refine ⟨rfl, rfl, rfl, rfl, ⟨vertices, hv, hvmap, hvlen⟩,
    ⟨triangles, ht, htmap, htlen, ?_, ?_⟩⟩
  · rw [length_flatMap_of_const (fun call : Nat × Int × Int × Int =>
      [call.2.1, call.2.2.1, call.2.2.2]) 3 _ (fun _ _ => rfl), htlen]
  · intro call hcall
    obtain ⟨⟨h0, h0'⟩, ⟨h1, h1'⟩, ⟨h2, h2'⟩⟩ := hvalid call hcall
    simp only [SphereGeometry.kSphereVertexCount, SphereGeometry.xdiv, SphereGeometry.zdiv,
      Nat.reduceAdd, Nat.reduceMul, Nat.reduceSub, Nat.cast_ofNat] at h0' h1' h2'
    refine ⟨⟨h0, by omega, ?_⟩, ⟨h1, by omega, ?_⟩, ⟨h2, by omega, ?_⟩⟩
    · exact toUInt16_toUInt32 _ h0 (by omega)
    · exact toUInt16_toUInt32 _ h1 (by omega)
    · exact toUInt16_toUInt32 _ h2 (by omega)

end SphereClaims

/-! ### The horizon map -/

section HorizonLemmas

/-- A loop over signed integers whose body keeps an invariant, and does not
fail when the invariant holds, ends with the invariant; the invariant is
indexed by the number of rounds made. -/
theorem forLoopInt_invariant {σ : Type} (Inv : Nat → σ → Prop) (body : Int → σ → Option σ)
    (start stop : Int) (state : σ) (h0 : Inv 0 state)
    (hstep : ∀ (t : Nat) (s : σ), t < (stop - start).toNat → Inv t s →
      ∃ s', body (start + t) s = some s' ∧ Inv (t + 1) s') :
    ∃ s', forLoopInt start stop body state = some s' ∧ Inv (stop - start).toNat s' := by
  obtain ⟨s', hs', hinv⟩ := forLoop_invariant Inv (fun t s => body (start + t) s)
    (stop - start).toNat 0 state h0 (fun t s _ ht hs => hstep t s (by omega) hs)
  refine ⟨s', ?_, by simpa using hinv⟩
  unfold forLoopInt
  have e : (stop - start).toNat = 0 + (stop - start).toNat := by omega
  rw [e]
  exact hs'

/-- A loop over signed integers whose body keeps a property of the state, and
does not fail when the property holds, ends with the property. -/
theorem forLoopInt_kept {σ : Type} (P : σ → Prop) (body : Int → σ → Option σ)
    (start stop : Int) (state : σ) (h0 : P state)
    (hstep : ∀ (j : Int) (s : σ), start ≤ j → j < stop → P s →
      ∃ s', body j s = some s' ∧ P s') :
    ∃ s', forLoopInt start stop body state = some s' ∧ P s' :=
  forLoopInt_invariant (fun _ s => P s) body start stop state h0
    (fun t s ht hs => hstep (start + t) s (by omega) (by omega) hs)

/-- The conversion to `uint32` keeps a value that `int32` holds and that is
not negative. -/
theorem toUInt32_of_nonneg (value : Int) (h0 : 0 ≤ value) (h1 : value < 2 ^ 31) :
    toUInt32 value = value.toNat := by
  unfold toUInt32
  omega

/-- The bitwise and with a mask that is not negative lies between zero and
the mask, whatever the other operand is. -/
theorem andInt32_bounds (n mask : Int) (h0 : 0 ≤ mask) (h1 : mask < 2 ^ 31) :
    0 ≤ andInt32 n mask ∧ andInt32 n mask ≤ mask := by
  unfold andInt32
  rw [toUInt32_of_nonneg mask h0 h1]
  have h := Nat.and_le_right (n := toUInt32 n) (m := mask.toNat)
  generalize toUInt32 n &&& mask.toNat = k at h
  unfold toInt32
  omega

/-- A read inside of the array does not fail. -/
theorem readAt_of_lt {α : Type} (array : List α) (index : Int) (h0 : 0 ≤ index)
    (h1 : index < array.length) :
    ∃ value, readAt array index = some value ∧ array[index.toNat]? = some value := by
  have h : index.toNat < array.length := by omega
  refine ⟨array[index.toNat], ?_, ?_⟩
  · unfold readAt
    rw [if_pos h0]
    exact List.getElem?_eq_getElem h
  · exact List.getElem?_eq_getElem h

/-- A write inside of the array does not fail. -/
theorem writeAt_of_lt {α : Type} (array : List α) (index : Int) (value : α) (h0 : 0 ≤ index)
    (h1 : index < array.length) :
    writeAt array index value = some (array.set index.toNat value) := by
  unfold writeAt
  rw [if_pos ⟨h0, by omega⟩]

end HorizonLemmas

section HorizonSearch

variable {K : Type} [LinearOrderedField K]

/-- The mask of the index into `maxTan2`. -/
theorem WorldManager.ConstructHorizonMap.kAngleCount_sub_one :
    WorldManager.ConstructHorizonMap.kAngleCount - 1 = 31 := by
  unfold WorldManager.ConstructHorizonMap.kAngleCount
  omega

/-- The body of the loop over `n` does not fail and keeps the length of
`maxTan2`, whatever `n` is. -/
theorem WorldManager.ConstructHorizonMap.mark_length (t : K) (n : Int) (maxTan2 : List K)
    (h : maxTan2.length = 32) :
    ∃ array, WorldManager.ConstructHorizonMap.mark t n maxTan2 = some array ∧
      array.length = 32 := by
  obtain ⟨hm0, hm1⟩ := andInt32_bounds n 31 (by omega) (by omega)
  have hm2 : andInt32 n 31 < maxTan2.length := by
    rw [h]
    omega
  obtain ⟨old, hold, -⟩ := readAt_of_lt maxTan2 _ hm0 hm2
  unfold WorldManager.ConstructHorizonMap.mark
  rw [WorldManager.ConstructHorizonMap.kAngleCount_sub_one]
  show ∃ array, (readAt maxTan2 (andInt32 n 31) >>= fun old =>
    writeAt maxTan2 (andInt32 n 31) (max old t)) = some array ∧ _
  rw [hold, Option.bind_eq_bind, Option.some_bind, writeAt_of_lt maxTan2 _ _ hm0 hm2]
  exact ⟨_, rfl, by rw [List.length_set, h]⟩

/-- The body of the loop over `i` does not fail when the row lies inside of
the height map, and keeps the length of `maxTan2`; over a flat height map it
keeps `maxTan2` as it is. -/
theorem WorldManager.ConstructHorizonMap.neighbor_kept (atan2 : K → K → K) (atan sqrt : K → K)
    (floorInt32 ceilInt32 : K → Int) (heightMap : List Color4U) (width : Int) (h0 : K)
    (x j row i : Int) (hwidth0 : 0 < width) (hwidth1 : width < 2 ^ 31)
    (hrow0 : 0 ≤ row) (hrow1 : row + width ≤ heightMap.length)
    (flat : Prop) (hflat : flat → ∀ c ∈ heightMap, (c.red : K) = h0)
    (maxTan2 : List K) (h : maxTan2.length = 32 ∧ (flat → maxTan2 = List.replicate 32 0)) :
    ∃ array, WorldManager.ConstructHorizonMap.neighbor atan2 atan sqrt floorInt32 ceilInt32
        heightMap width h0 x j row i maxTan2 = some array ∧
      array.length = 32 ∧ (flat → array = List.replicate 32 0) := by
  unfold WorldManager.ConstructHorizonMap.neighbor
  simp only []
  split
  · have hmask : toInt32 (width - 1) = width - 1 := toInt32_of_lt _ (by omega) (by omega)
    obtain ⟨hc0, hc1⟩ := andInt32_bounds (toInt32 (x + i)) (width - 1) (by omega) (by omega)
    rw [hmask]
    obtain ⟨texel, htexel, hget⟩ := readAt_of_lt heightMap
      (row + andInt32 (toInt32 (x + i)) (width - 1)) (by omega) (by omega)
    simp only [htexel, Option.bind_eq_bind, Option.some_bind]
    split
    · rename_i hdh
      have hnot : ¬ flat := by
        intro hf
        have := hflat hf texel (List.mem_iff_getElem?.mpr ⟨_, hget⟩)
        rw [this, sub_self] at hdh
        exact lt_irrefl _ hdh
      obtain ⟨array, harray, hlen⟩ := forLoopInt_kept (fun a : List K => a.length = 32)
        (WorldManager.ConstructHorizonMap.mark
          (((texel.red : K) - h0) * ((texel.red : K) - h0)
            / ((toInt32 (toInt32 (i * i) + toInt32 (j * j)) : Int) : K)))
        _ _ maxTan2 h.1
        (fun n s _ _ hs => WorldManager.ConstructHorizonMap.mark_length _ n s hs)
      exact ⟨array, harray, hlen, fun hf => absurd hf hnot⟩
    · exact ⟨maxTan2, rfl, h⟩
  · exact ⟨maxTan2, rfl, h⟩

/-- The search of the neighborhood of a texel does not fail when the rows of
the height map lie inside of the array and their offsets inside of `int32`,
and ends with 32 entries in `maxTan2`; over a flat height map they are 32
zeros. -/
theorem WorldManager.ConstructHorizonMap.search_kept (atan2 : K → K → K) (atan sqrt : K → K)
    (floorInt32 ceilInt32 : K → Int) (heightMap : List Color4U) (width height : Int) (h0 : K)
    (x y : Int) (hwidth0 : 0 < width) (hwidth1 : width < 2 ^ 31) (hheight0 : 0 < height)
    (hheight1 : height < 2 ^ 31) (hrows : (height - 1) * width < 2 ^ 31)
    (hlength : width * height ≤ heightMap.length)
    (flat : Prop) (hflat : flat → ∀ c ∈ heightMap, (c.red : K) = h0) :
    ∃ array, WorldManager.ConstructHorizonMap.search atan2 atan sqrt floorInt32 ceilInt32
        heightMap width height h0 x y = some array ∧
      array.length = 32 ∧ (flat → array = List.replicate 32 0) := by
  unfold WorldManager.ConstructHorizonMap.search
  simp only []
  refine forLoopInt_kept
    (fun a : List K => a.length = 32 ∧ (flat → a = List.replicate 32 0)) _ _ _ _
    ⟨List.length_replicate _ _, fun _ => rfl⟩ ?_
  intro j s _ _ hs
  have hmask : toInt32 (height - 1) = height - 1 := toInt32_of_lt _ (by omega) (by omega)
  obtain ⟨hr0, hr1⟩ := andInt32_bounds (toInt32 (y + j)) (height - 1) (by omega) (by omega)
  rw [hmask]
  have hprod0 : 0 ≤ andInt32 (toInt32 (y + j)) (height - 1) * width :=
    mul_nonneg hr0 hwidth0.le
  have hprod1 : andInt32 (toInt32 (y + j)) (height - 1) * width ≤ (height - 1) * width :=
    mul_le_mul_of_nonneg_right hr1 hwidth0.le
  have hprod2 : (height - 1) * width + width = width * height := by ring
  rw [toInt32_of_lt _ hprod0 (by linarith)]
  exact forLoopInt_kept
    (fun a : List K => a.length = 32 ∧ (flat → a = List.replicate 32 0)) _ _ _ s hs
    (fun i a _ _ ha => WorldManager.ConstructHorizonMap.neighbor_kept atan2 atan sqrt floorInt32
      ceilInt32 heightMap width h0 x j _ i hwidth0 hwidth1 hprod0 (by linarith) flat hflat a ha)

end HorizonSearch


section HorizonLayers

variable {K : Type} [LinearOrderedField K]

/-- An entry of an array of zeros is zero. -/
theorem eq_zero_of_getElem?_replicate (count index : Nat) (value : K)
    (h : (List.replicate count (0 : K))[index]? = some value) : value = 0 := by
  rw [List.getElem?_replicate] at h
  split at h
  · exact (Option.some.inj h).symm
  · exact absurd h (by simp)

/-- The constants that `ConstructHorizonMap` derives from `kAngleCount`. -/
theorem WorldManager.ConstructHorizonMap.kAngleCount_div :
    WorldManager.ConstructHorizonMap.kAngleCount / 16 = 2 ∧
    WorldManager.ConstructHorizonMap.kAngleCount / 8 = 4 ∧
    WorldManager.ConstructHorizonMap.kAngleCount / 4 = 8 ∧
    WorldManager.ConstructHorizonMap.kAngleCount / 2 = 16 := by
  unfold WorldManager.ConstructHorizonMap.kAngleCount
  omega

/-- The body of the loop over `index` does not fail for an index from 2 to 22;
with 32 zeros in `maxTan2` and `sqrt 0 = 0` it keeps a color of four zeros. -/
theorem WorldManager.ConstructHorizonMap.channels_kept (sqrt : K → K) (maxTan2 : List K)
    (index : Int) (color : ColorRgba K) (hlength : maxTan2.length = 32)
    (h0 : 2 ≤ index) (h1 : index ≤ 22) :
    ∃ result, WorldManager.ConstructHorizonMap.channels sqrt maxTan2 index color
        = some result ∧
      (maxTan2 = List.replicate 32 0 → sqrt 0 = 0 → color = ⟨0, 0, 0, 0⟩ →
        result = ⟨0, 0, 0, 0⟩) := by
  obtain ⟨-, h8, h4, -⟩ := WorldManager.ConstructHorizonMap.kAngleCount_div
  obtain ⟨hr0, hr1⟩ := andInt32_bounds (toInt32 (index - 4)) 31 (by omega) (by omega)
  obtain ⟨ha0, ha1⟩ := andInt32_bounds (toInt32 (index + 8)) 31 (by omega) (by omega)
  have hb : toInt32 (index + 4) = index + 4 := toInt32_of_lt _ (by omega) (by omega)
  obtain ⟨tr, htr, gtr⟩ := readAt_of_lt maxTan2 (andInt32 (toInt32 (index - 4)) 31) hr0
    (by rw [hlength]; omega)
  obtain ⟨tg, htg, gtg⟩ := readAt_of_lt maxTan2 index (by omega) (by rw [hlength]; omega)
  obtain ⟨tb, htb, gtb⟩ := readAt_of_lt maxTan2 (index + 4) (by omega)
    (by rw [hlength]; omega)
  obtain ⟨ta, hta, gta⟩ := readAt_of_lt maxTan2 (andInt32 (toInt32 (index + 8)) 31) ha0
    (by rw [hlength]; omega)
  unfold WorldManager.ConstructHorizonMap.channels
  simp only []
  rw [WorldManager.ConstructHorizonMap.kAngleCount_sub_one, h8, h4, hb, htr,
    Option.bind_eq_bind, Option.some_bind, htg, Option.some_bind, htb, Option.some_bind, hta,
    Option.some_bind]
  refine ⟨_, rfl, ?_⟩
  intro hzero hsqrt hcolor
  rw [hzero] at gtr gtg gtb gta
  rw [eq_zero_of_getElem?_replicate _ _ _ gtr, eq_zero_of_getElem?_replicate _ _ _ gtg,
    eq_zero_of_getElem?_replicate _ _ _ gtb, eq_zero_of_getElem?_replicate _ _ _ gta, hcolor]
  simp only [zero_div, hsqrt, add_zero]

/-- A write at a negative index fails. -/
theorem writeAt_of_neg {α : Type} (array : List α) (index : Int) (value : α)
    (h : index < 0) : writeAt array index value = none := by
  unfold writeAt
  rw [if_neg (fun hc => absurd hc.1 (not_le.mpr h))]

/-- The body of the loop over `layer` writes one texel, at the offset of
`layerData` plus `x`, and moves `layerData` on by `width * height`; it fails
when this write fails, and for no other reason.  With 32 zeros in `maxTan2`,
`sqrt 0 = 0` and `truncate 0 = 0` the texel is four zeros. -/
theorem WorldManager.ConstructHorizonMap.layerBody_eq (sqrt : K → K) (truncate : K → Nat)
    (width height x : Int) (maxTan2 : List K) (layer : Nat) (horizonMap : List Color4U)
    (layerData : Int) (hlength : maxTan2.length = 32) (hlayer : layer < 2) :
    ∃ texel, WorldManager.ConstructHorizonMap.layerBody sqrt truncate width height x maxTan2
        layer (horizonMap, layerData)
        = (writeAt horizonMap (layerData + x) texel).bind
            (fun array => some (array, layerData + toInt32 (width * height))) ∧
      (maxTan2 = List.replicate 32 0 → sqrt 0 = 0 → truncate 0 = 0 →
        texel = ⟨0, 0, 0, 0⟩) := by
  obtain ⟨h16, h8, -, h2⟩ := WorldManager.ConstructHorizonMap.kAngleCount_div
  have hmul : toInt32 ((layer : Int) * 16) = (layer : Int) * 16 :=
    toInt32_of_lt _ (by omega) (by omega)
  have hfirst : toInt32 (2 + (layer : Int) * 16) = 2 + (layer : Int) * 16 :=
    toInt32_of_lt _ (by omega) (by omega)
  have hlast : toInt32 (2 + (layer : Int) * 16 + 4) = 2 + (layer : Int) * 16 + 4 :=
    toInt32_of_lt _ (by omega) (by omega)
  obtain ⟨color, hcolor, hzero⟩ := forLoopInt_kept
    (fun c : ColorRgba K => maxTan2 = List.replicate 32 0 → sqrt 0 = 0 → c = ⟨0, 0, 0, 0⟩)
    (WorldManager.ConstructHorizonMap.channels sqrt maxTan2)
    (2 + (layer : Int) * 16) (2 + (layer : Int) * 16 + 4 + 1) ⟨0, 0, 0, 0⟩ (fun _ _ => rfl)
    (fun index c hi0 hi1 hc => by
      obtain ⟨result, hresult, hkept⟩ := WorldManager.ConstructHorizonMap.channels_kept sqrt
        maxTan2 index c hlength (by omega) (by omega)
      exact ⟨result, hresult, fun hz hs => hkept hz hs (hc hz hs)⟩)
  refine ⟨Color4U.ofColorRgba truncate (color.div ((toInt32 (4 + 1) : Int) : K)), ?_, ?_⟩
  · unfold WorldManager.ConstructHorizonMap.layerBody
    simp only []
    rw [h16, h8, h2, hmul, hfirst, hlast, hcolor, Option.bind_eq_bind, Option.some_bind,
      Option.bind_eq_bind]
    rfl
  · intro hz hs ht
    rw [hzero hz hs]
    simp only [Color4U.ofColorRgba, ColorRgba.div, zero_mul, ht]

end HorizonLayers

section HorizonTexel

/-- A loop of two rounds. -/
theorem forLoop_two {σ : Type} (body : Nat → σ → Option σ) (state : σ) :
    forLoop 0 2 body state = (body 0 state).bind (body 1) := by
  unfold forLoop
  show ([0, 1] : List Nat).foldlM (fun s j => body j s) state = _
  rw [List.foldlM_cons]
  cases body 0 state with
  | none => rfl
  | some s1 =>
    rw [Option.bind_eq_bind, Option.some_bind, Option.some_bind, List.foldlM_cons]
    cases body 1 s1 <;> rfl

/-- A loop whose first round fails, fails. -/
theorem forLoop_of_first_none {σ : Type} (body : Nat → σ → Option σ) (state : σ)
    (start count : Nat) (h : body start state = none) :
    forLoop start (start + (count + 1)) body state = none := by
  unfold forLoop
  have e : start + (count + 1) - start = count + 1 := by omega
  rw [e, List.range'_succ, List.foldlM_cons, h]
  rfl

variable {K : Type} [LinearOrderedField K]

/-- The body of the loop over `x`, for a texel of the height map, up to the
two writes: it fails when one of the two writes fails, and for no other
reason.  Over a flat height map, with `sqrt 0 = 0` and `truncate 0 = 0`, both
texels written are four zeros. -/
theorem WorldManager.ConstructHorizonMap.texelBody_writes (atan2 : K → K → K)
    (atan sqrt : K → K) (floorInt32 ceilInt32 : K → Int) (truncate : K → Nat)
    (heightMap : List Color4U) (width height y rowOffset x : Int) (horizonMap : List Color4U)
    (hwidth0 : 0 < width) (hwidth1 : width < 2 ^ 31) (hheight0 : 0 < height)
    (hheight1 : height < 2 ^ 31) (hrows : (height - 1) * width < 2 ^ 31)
    (hlength : width * height ≤ heightMap.length)
    (hy0 : 0 ≤ y) (hy1 : y < height) (hx0 : 0 ≤ x) (hx1 : x < width) :
    ∃ first second, WorldManager.ConstructHorizonMap.texelBody atan2 atan sqrt floorInt32
        ceilInt32 truncate heightMap width height y rowOffset x horizonMap
        = ((writeAt horizonMap (rowOffset + x) first).bind (fun array =>
            writeAt array (rowOffset + toInt32 (width * height) + x) second)) ∧
      (WorldManager.ConstructHorizonMap.flat heightMap → sqrt 0 = 0 → truncate 0 = 0 →
        first = ⟨0, 0, 0, 0⟩ ∧ second = ⟨0, 0, 0, 0⟩) := by
  have hyw0 : 0 ≤ y * width := mul_nonneg hy0 hwidth0.le
  have hyw1 : y * width ≤ (height - 1) * width :=
    mul_le_mul_of_nonneg_right (by omega) hwidth0.le
  have hyw2 : (height - 1) * width + width = width * height := by ring
  have hyw : toInt32 (y * width) = y * width := toInt32_of_lt _ hyw0 (by linarith)
  obtain ⟨center, hcenter, gcenter⟩ := readAt_of_lt heightMap (y * width + x) (by linarith)
    (by linarith)
  have hmem : center ∈ heightMap := List.mem_iff_getElem?.mpr ⟨_, gcenter⟩
  obtain ⟨maxTan2, hsearch, hmax, hzero⟩ := WorldManager.ConstructHorizonMap.search_kept atan2
    atan sqrt floorInt32 ceilInt32 heightMap width height (center.red : K) x y hwidth0 hwidth1
    hheight0 hheight1 hrows hlength (WorldManager.ConstructHorizonMap.flat heightMap)
    (fun hflat c hc => by rw [hflat c hc center hmem])
  obtain ⟨sum, hsum, -⟩ := forLoopInt_kept (fun _ : K => True)
    (fun k (sum : K) => do
      let value ← readAt maxTan2 k
      pure (sum + 1 / sqrt (value + 1)))
    0 WorldManager.ConstructHorizonMap.kAngleCount 0 trivial
    (fun k s hk0 hk1 _ => by
      obtain ⟨value, hvalue, -⟩ := readAt_of_lt maxTan2 k hk0 (by
        unfold WorldManager.ConstructHorizonMap.kAngleCount at hk1
        rw [hmax]
        omega)
      refine ⟨s + 1 / sqrt (value + 1), ?_, trivial⟩
      show (readAt maxTan2 k >>= fun value => pure (s + 1 / sqrt (value + 1))) = _
      rw [hvalue]
      rfl)
  obtain ⟨first, hfirst, zfirst⟩ := WorldManager.ConstructHorizonMap.layerBody_eq sqrt truncate
    width height x maxTan2 0 horizonMap rowOffset hmax (by omega)
  refine ⟨first, ?_⟩
  cases hw : writeAt horizonMap (rowOffset + x) first with
  | none =>
    refine ⟨⟨0, 0, 0, 0⟩, ?_, fun hflat hs ht => ⟨zfirst (hzero hflat) hs ht, rfl⟩⟩
    rw [hw] at hfirst
    unfold WorldManager.ConstructHorizonMap.texelBody
    simp only []
    rw [hyw, hcenter, Option.bind_eq_bind, Option.some_bind, hsearch, Option.bind_eq_bind,
      Option.some_bind, forLoop_two, hfirst]
    rfl
  | some array =>
    obtain ⟨second, hsecond, zsecond⟩ := WorldManager.ConstructHorizonMap.layerBody_eq sqrt
      truncate width height x maxTan2 1 array (rowOffset + toInt32 (width * height)) hmax
      (by omega)
    refine ⟨second, ?_, fun hflat hs ht =>
      ⟨zfirst (hzero hflat) hs ht, zsecond (hzero hflat) hs ht⟩⟩
    rw [hw, Option.some_bind] at hfirst
    unfold WorldManager.ConstructHorizonMap.texelBody
    simp only []
    rw [hyw, hcenter, Option.bind_eq_bind, Option.some_bind, hsearch, Option.bind_eq_bind,
      Option.some_bind, forLoop_two, hfirst, Option.some_bind, hsecond, Option.some_bind]
    cases writeAt array (rowOffset + toInt32 (width * height) + x) second with
    | none => rfl
    | some array2 =>
      rw [Option.some_bind, Option.bind_eq_bind, Option.some_bind, hsum, Option.bind_eq_bind,
        Option.some_bind]
      rfl

/-- The body of the loop over `x` does not fail for a texel of the height map
when the product `width * height` is inside of `int32`: it writes the texel of
the first layer and the texel of the second layer. -/
theorem WorldManager.ConstructHorizonMap.texelBody_eq (atan2 : K → K → K) (atan sqrt : K → K)
    (floorInt32 ceilInt32 : K → Int) (truncate : K → Nat) (heightMap : List Color4U)
    (width height y rowOffset x : Int) (horizonMap : List Color4U) (p q : Nat)
    (hwidth0 : 0 < width) (hheight0 : 0 < height) (hsize : width * height < 2 ^ 31)
    (hlength : (heightMap.length : Int) = width * height)
    (hout : (horizonMap.length : Int) = 2 * (width * height))
    (hy0 : 0 ≤ y) (hy1 : y < height) (hx0 : 0 ≤ x) (hx1 : x < width)
    (hrow : rowOffset = y * width) (hp : (p : Int) = y * width + x)
    (hq : (q : Int) = width * height + y * width + x) :
    ∃ first second, WorldManager.ConstructHorizonMap.texelBody atan2 atan sqrt floorInt32
        ceilInt32 truncate heightMap width height y rowOffset x horizonMap
        = some ((horizonMap.set p first).set q second) ∧
      (WorldManager.ConstructHorizonMap.flat heightMap → sqrt 0 = 0 → truncate 0 = 0 →
        first = ⟨0, 0, 0, 0⟩ ∧ second = ⟨0, 0, 0, 0⟩) := by
  have hyw0 : 0 ≤ y * width := mul_nonneg hy0 hwidth0.le
  have hyw1 : y * width + width ≤ width * height := by nlinarith
  have hwh0 : 0 ≤ width * height := mul_nonneg hwidth0.le hheight0.le
  have hwidth1 : width < 2 ^ 31 := by nlinarith
  have hheight1 : height < 2 ^ 31 := by nlinarith
  have hrows : (height - 1) * width < 2 ^ 31 := by nlinarith
  have hwh : toInt32 (width * height) = width * height := toInt32_of_lt _ hwh0 hsize
  obtain ⟨first, second, hbody, hzero⟩ := WorldManager.ConstructHorizonMap.texelBody_writes
    atan2 atan sqrt floorInt32 ceilInt32 truncate heightMap width height y rowOffset x
    horizonMap hwidth0 hwidth1 hheight0 hheight1 hrows (by rw [hlength]) hy0 hy1 hx0 hx1
  have hp' : (rowOffset + x).toNat = p := by omega
  have hq' : (rowOffset + width * height + x).toNat = q := by omega
  refine ⟨first, second, ?_, hzero⟩
  rw [hbody, hwh, writeAt_of_lt _ _ _ (by linarith) (by linarith), Option.some_bind,
    writeAt_of_lt _ _ _ (by linarith) (by rw [List.length_set]; linarith), hp', hq']

end HorizonTexel

section HorizonRows

/-- Two more texels of zeros: when the texels at all offsets below `p` and at
all offsets from `base` to below `base + p` are zeros, then after the writes
of zeros to `p` and to `base + p` the same holds for `p + 1`. -/
theorem getElem?_set_set_zero (array : List Color4U) (first second : Color4U) (base p q : Int)
    (pN qN : Nat) (hp : (pN : Int) = p) (hq : (qN : Int) = q) (hqp : q = base + p)
    (hbase : p < base) (hlength : q < array.length)
    (hfirst : first = ⟨0, 0, 0, 0⟩) (hsecond : second = ⟨0, 0, 0, 0⟩)
    (h : ∀ o : Nat, ((o : Int) < p ∨ (base ≤ o ∧ (o : Int) < base + p)) →
      array[o]? = some ⟨0, 0, 0, 0⟩)
    (o : Nat) (ho : (o : Int) < p + 1 ∨ (base ≤ o ∧ (o : Int) < base + (p + 1))) :
    ((array.set pN first).set qN second)[o]? = some ⟨0, 0, 0, 0⟩ := by
  by_cases hoq : qN = o
  · subst hoq
    rw [List.getElem?_set_self (by rw [List.length_set]; omega), hsecond]
  · rw [List.getElem?_set_ne hoq]
    by_cases hop : pN = o
    · subst hop
      rw [List.getElem?_set_self (by omega), hfirst]
    · rw [List.getElem?_set_ne hop]
      exact h o (by omega)

end HorizonRows

section HorizonClaims

variable {K : Type} [LinearOrderedField K]

/-- The loop over `x` for the row `y` does not fail: it writes the texels of
the row in both layers.  Over a flat height map, with `sqrt 0 = 0` and
`truncate 0 = 0`, the texels are zeros; `zeros` stands for these three
conditions. -/
theorem WorldManager.ConstructHorizonMap.row_kept (atan2 : K → K → K) (atan sqrt : K → K)
    (floorInt32 ceilInt32 : K → Int) (truncate : K → Nat) (heightMap : List Color4U)
    (width height : Int) (y : Nat) (horizonMap : List Color4U) (size : Nat)
    (hwidth0 : 0 < width) (hheight0 : 0 < height) (hsize : width * height < 2 ^ 31)
    (hlength : (heightMap.length : Int) = width * height)
    (hout : (size : Int) = 2 * (width * height)) (hy : (y : Int) < height)
    (zeros : Prop)
    (hzeros : zeros → WorldManager.ConstructHorizonMap.flat heightMap ∧ sqrt 0 = 0 ∧
      truncate 0 = 0)
    (h : horizonMap.length = size ∧ (zeros → ∀ o : Nat,
      ((o : Int) < y * width ∨ (width * height ≤ o ∧ (o : Int) < width * height + y * width)) →
        horizonMap[o]? = some ⟨0, 0, 0, 0⟩)) :
    ∃ result, forLoopInt 0 width
        (WorldManager.ConstructHorizonMap.texelBody atan2 atan sqrt floorInt32 ceilInt32 truncate
          heightMap width height (0 + y) (y * width)) horizonMap = some result ∧
      result.length = size ∧ (zeros → ∀ o : Nat,
        ((o : Int) < (y + 1 : Nat) * width
          ∨ (width * height ≤ o ∧ (o : Int) < width * height + (y + 1 : Nat) * width)) →
        result[o]? = some ⟨0, 0, 0, 0⟩) := by
  have hyw0 : 0 ≤ (y : Int) * width := mul_nonneg (Int.ofNat_nonneg _) hwidth0.le
  have hyw1 : (y : Int) * width + width ≤ width * height := by nlinarith
  obtain ⟨result, hresult, hlen, hkept⟩ := forLoopInt_invariant
    (fun (x : Nat) (array : List Color4U) => array.length = size ∧ (zeros → ∀ o : Nat,
      ((o : Int) < y * width + x
        ∨ (width * height ≤ o ∧ (o : Int) < width * height + (y * width + x))) →
      array[o]? = some ⟨0, 0, 0, 0⟩))
    (WorldManager.ConstructHorizonMap.texelBody atan2 atan sqrt floorInt32 ceilInt32 truncate
      heightMap width height (0 + y) (y * width)) 0 width horizonMap
    ⟨h.1, fun hz o ho => h.2 hz o (by
      simp only [Nat.cast_zero, add_zero] at ho
      exact ho)⟩
    (fun x array hx harray => by
      have hxw : (x : Int) < width := by omega
      obtain ⟨first, second, hbody, hzero⟩ := WorldManager.ConstructHorizonMap.texelBody_eq
        atan2 atan sqrt floorInt32 ceilInt32 truncate heightMap width height (0 + y)
        (y * width) (0 + x) array ((y : Int) * width + x).toNat
        (width * height + ((y : Int) * width + x)).toNat hwidth0 hheight0 hsize hlength
        (by rw [harray.1, hout]) (by omega) (by omega) (by omega) (by omega)
        (by rw [zero_add]) (by rw [zero_add, zero_add]; omega)
        (by rw [zero_add, zero_add]; omega)
      refine ⟨_, hbody, by rw [List.length_set, List.length_set]; exact harray.1, ?_⟩
      intro hz o ho
      obtain ⟨hflat, hs, ht⟩ := hzeros hz
      obtain ⟨hfirst, hsecond⟩ := hzero hflat hs ht
      exact getElem?_set_set_zero array first second (width * height) ((y : Int) * width + x)
        (width * height + ((y : Int) * width + x)) _ _ (by omega) (by omega) rfl (by omega)
        (by rw [harray.1]; omega) hfirst hsecond (harray.2 hz) o (by
          push_cast at ho
          omega))
  refine ⟨result, hresult, hlen, ?_⟩
  intro hz o ho
  refine hkept hz o ?_
  have e : ((width - 0).toNat : Int) = width := by omega
  rw [e]
  push_cast at ho
  rcases ho with ho | ho
  · exact Or.inl (by linarith)
  · exact Or.inr ⟨ho.1, by linarith⟩

/-- The function `ConstructHorizonMap` does not fail when `width * height` is
inside of `int32`, and keeps the length of the output array; over a flat
height map, with `sqrt 0 = 0` and `truncate 0 = 0`, every texel of the output
is four zeros. -/
theorem WorldManager.ConstructHorizonMap_kept (atan2 : K → K → K) (atan sqrt : K → K)
    (floorInt32 ceilInt32 : K → Int) (truncate : K → Nat) (heightMap horizonMap : List Color4U)
    (width height : Int) (hwidth0 : 0 < width) (hheight0 : 0 < height)
    (hsize : width * height < 2 ^ 31)
    (hlength : (heightMap.length : Int) = width * height)
    (hout : (horizonMap.length : Int) = 2 * (width * height)) :
    ∃ result, WorldManager.ConstructHorizonMap atan2 atan sqrt floorInt32 ceilInt32 truncate
        heightMap horizonMap width height = some result ∧
      result.length = horizonMap.length ∧
      (WorldManager.ConstructHorizonMap.flat heightMap → sqrt 0 = 0 → truncate 0 = 0 →
        result = List.replicate horizonMap.length ⟨0, 0, 0, 0⟩) := by
  obtain ⟨state, hstate, hrow, hlen, hkept⟩ := forLoopInt_invariant
    (fun (y : Nat) (state : List Color4U × Int) =>
      state.2 = y * width ∧ state.1.length = horizonMap.length ∧
      (WorldManager.ConstructHorizonMap.flat heightMap ∧ sqrt 0 = 0 ∧ truncate 0 = 0 →
        ∀ o : Nat, ((o : Int) < y * width
          ∨ (width * height ≤ o ∧ (o : Int) < width * height + y * width)) →
        state.1[o]? = some ⟨0, 0, 0, 0⟩))
    (fun y (state : List Color4U × Int) => do
      let horizonMap ← forLoopInt 0 width
        (WorldManager.ConstructHorizonMap.texelBody atan2 atan sqrt floorInt32 ceilInt32
          truncate heightMap width height y state.2)
        state.1
      pure (horizonMap, state.2 + width)) 0 height (horizonMap, 0)
    ⟨by simp, rfl, fun _ o ho => by
      simp only [Nat.cast_zero, zero_mul, add_zero] at ho
      omega⟩
    (fun y state hy hstate => by
      obtain ⟨array, rowOffset⟩ := state
      obtain ⟨hrow, hlen, hkept⟩ := hstate
      simp only at hrow hlen hkept
      subst hrow
      obtain ⟨result, hresult, hlen', hkept'⟩ := WorldManager.ConstructHorizonMap.row_kept
        atan2 atan sqrt floorInt32 ceilInt32 truncate heightMap width height y array
        horizonMap.length hwidth0 hheight0 hsize hlength hout (by omega)
        (WorldManager.ConstructHorizonMap.flat heightMap ∧ sqrt 0 = 0 ∧ truncate 0 = 0)
        (fun h => h) ⟨hlen, hkept⟩
      refine ⟨(result, (y : Int) * width + width), ?_, ?_, hlen', hkept'⟩
      · show (forLoopInt 0 width
          (WorldManager.ConstructHorizonMap.texelBody atan2 atan sqrt floorInt32 ceilInt32
            truncate heightMap width height (0 + y) (y * width)) array >>= fun horizonMap =>
          pure (horizonMap, (y : Int) * width + width)) = _
        rw [hresult]
        rfl
      · show (y : Int) * width + width = ((y + 1 : Nat) : Int) * width
        push_cast
        ring)
  have hH : ((height - 0).toNat : Int) = height := by omega
  have hwh0 : 0 ≤ width * height := mul_nonneg hwidth0.le hheight0.le
  refine ⟨state.1, ?_, hlen, ?_⟩
  · unfold WorldManager.ConstructHorizonMap
    rw [hstate]
    rfl
  · intro hflat hs ht
    apply List.ext_getElem?
    intro o
    by_cases ho : o < horizonMap.length
    · rw [List.getElem?_replicate, if_pos ho]
      refine hkept ⟨hflat, hs, ht⟩ o ?_
      rw [hH]
      by_cases hlow : (o : Int) < height * width
      · exact Or.inl hlow
      · refine Or.inr ⟨by linarith [mul_comm width height], ?_⟩
        have : (o : Int) < 2 * (width * height) := by
          rw [← hout]
          exact_mod_cast ho
        linarith [mul_comm width height]
    · rw [List.getElem?_replicate, if_neg ho]
      exact List.getElem?_eq_none (by omega)

end HorizonClaims

section HorizonOverflow

variable {K : Type} [LinearOrderedField K]

/-- When the product `width * height` wraps to a negative `int32`, the write
of the second layer of the first texel goes to a negative offset, so
`ConstructHorizonMap` fails. -/
theorem WorldManager.ConstructHorizonMap_of_overflow (atan2 : K → K → K) (atan sqrt : K → K)
    (floorInt32 ceilInt32 : K → Int) (truncate : K → Nat) (heightMap horizonMap : List Color4U)
    (width height : Int) (hwidth0 : 0 < width) (hwidth1 : width < 2 ^ 31)
    (hheight0 : 0 < height) (hheight1 : height < 2 ^ 31)
    (hrows : (height - 1) * width < 2 ^ 31) (hlength : width * height ≤ heightMap.length)
    (hneg : toInt32 (width * height) < 0) :
    WorldManager.ConstructHorizonMap atan2 atan sqrt floorInt32 ceilInt32 truncate heightMap
      horizonMap width height = none := by
  obtain ⟨first, second, hbody, -⟩ := WorldManager.ConstructHorizonMap.texelBody_writes
    atan2 atan sqrt floorInt32 ceilInt32 truncate heightMap width height (0 + (0 : Nat)) 0
    (0 + (0 : Nat)) horizonMap hwidth0 hwidth1 hheight0 hheight1 hrows hlength (by omega)
    (by omega) (by omega) (by omega)
  have htexel : WorldManager.ConstructHorizonMap.texelBody atan2 atan sqrt floorInt32
      ceilInt32 truncate heightMap width height (0 + (0 : Nat)) 0 (0 + (0 : Nat)) horizonMap
      = none := by
    rw [hbody]
    cases writeAt horizonMap (0 + (0 + ((0 : Nat) : Int))) first with
    | none => rfl
    | some array =>
      rw [Option.some_bind]
      exact writeAt_of_neg _ _ _ (by omega)
  have hwidth : (width - 0).toNat = 0 + ((width.toNat - 1) + 1) := by omega
  have hheight : (height - 0).toNat = 0 + ((height.toNat - 1) + 1) := by omega
  have hrow : forLoopInt 0 width
      (WorldManager.ConstructHorizonMap.texelBody atan2 atan sqrt floorInt32 ceilInt32 truncate
        heightMap width height (0 + (0 : Nat)) 0) horizonMap = none := by
    unfold forLoopInt
    rw [hwidth]
    exact forLoop_of_first_none _ _ 0 _ htexel
  unfold WorldManager.ConstructHorizonMap forLoopInt
  rw [hheight, forLoop_of_first_none _ _ 0 _ (by
    show (forLoopInt 0 width
      (WorldManager.ConstructHorizonMap.texelBody atan2 atan sqrt floorInt32 ceilInt32 truncate
        heightMap width height (0 + (0 : Nat)) 0) horizonMap >>= fun array =>
      pure (array, (0 : Int) + width)) = none
    rw [hrow]
    rfl)]
  rfl

/-- C30 (amended): in `ConstructHorizonMap`, for every width and height that
are powers of two with `width * height < 2^31`, every height map of
`width * height` texels, whatever it holds, and every output array of
`2 * width * height` texels, all array accesses are in bounds; the call
returns, and the output array keeps its length.  The index `n & 31` into the
32 entries of `maxTan2` lies in 0..31 for every `n`, negative or not, and the
row `n & (height - 1)` and the column `n & (width - 1)` of a read of the height
map lie in `0..height-1` and `0..width-1`.  For a constant height map, when
`sqrt 0 = 0` and the conversion to `uint8` takes zero to zero, every texel of
both layers of the output is `(0, 0, 0, 0)`. -/
theorem WorldManager.ConstructHorizonMap_bounds (atan2 : K → K → K) (atan sqrt : K → K)
    (floorInt32 ceilInt32 : K → Int) (truncate : K → Nat) (heightMap horizonMap : List Color4U)
    (width height : Int) (hwidth : ∃ a : Nat, width = 2 ^ a) (hheight : ∃ b : Nat, height = 2 ^ b)
    (hsize : width * height < 2 ^ 31)
    (hlength : (heightMap.length : Int) = width * height)
    (hout : (horizonMap.length : Int) = 2 * (width * height)) :
    (∀ n : Int,
      0 ≤ andInt32 n (WorldManager.ConstructHorizonMap.kAngleCount - 1) ∧
      andInt32 n (WorldManager.ConstructHorizonMap.kAngleCount - 1) ≤ 31) ∧
    (∀ n : Int,
      0 ≤ andInt32 n (toInt32 (height - 1)) ∧ andInt32 n (toInt32 (height - 1)) ≤ height - 1) ∧
    (∀ n : Int,
      0 ≤ andInt32 n (toInt32 (width - 1)) ∧ andInt32 n (toInt32 (width - 1)) ≤ width - 1) ∧
    (∃ result, WorldManager.ConstructHorizonMap atan2 atan sqrt floorInt32 ceilInt32 truncate
        heightMap horizonMap width height = some result ∧
      result.length = horizonMap.length ∧
      (WorldManager.ConstructHorizonMap.flat heightMap → sqrt 0 = 0 → truncate 0 = 0 →
        result = List.replicate horizonMap.length ⟨0, 0, 0, 0⟩)) := by
  have hwidth0 : 0 < width := by
    obtain ⟨a, rfl⟩ := hwidth
    positivity
  have hheight0 : 0 < height := by
    obtain ⟨b, rfl⟩ := hheight
    positivity
  have hwidth1 : width < 2 ^ 31 := by nlinarith
  have hheight1 : height < 2 ^ 31 := by nlinarith
  refine ⟨fun n => ?_, fun n => ?_, fun n => ?_,
    WorldManager.ConstructHorizonMap_kept atan2 atan sqrt floorInt32 ceilInt32 truncate
      heightMap horizonMap width height hwidth0 hheight0 hsize hlength hout⟩
  · rw [WorldManager.ConstructHorizonMap.kAngleCount_sub_one]
    exact andInt32_bounds n 31 (by omega) (by omega)
  · rw [toInt32_of_lt _ (by omega) (by omega)]
    exact andInt32_bounds n (height - 1) (by omega) (by omega)
  · rw [toInt32_of_lt _ (by omega) (by omega)]
    exact andInt32_bounds n (width - 1) (by omega) (by omega)

/-- Witness for C30 (amended): a flat height map of 2 by 2 texels. -/
theorem WorldManager.ConstructHorizonMap_bounds_witness :
    ∃ result, WorldManager.ConstructHorizonMap flatAtan2 flatRoot flatRoot flatIndex flatIndex
        truncateRat flatHeightMap staleHorizonMap 2 2 = some result ∧
      result = List.replicate 8 ⟨0, 0, 0, 0⟩ := by
  obtain ⟨-, -, -, result, hresult, -, hzero⟩ := WorldManager.ConstructHorizonMap_bounds
    flatAtan2 flatRoot flatRoot flatIndex flatIndex truncateRat flatHeightMap staleHorizonMap
    2 2 ⟨1, rfl⟩ ⟨1, rfl⟩ (by norm_num) rfl rfl
  refine ⟨result, hresult, ?_⟩
  exact hzero (fun a ha b hb => by
      rw [List.eq_of_mem_replicate ha, List.eq_of_mem_replicate hb]) rfl
    (by simp [truncateRat])

/-- Counterexample to C30: the width `2^30` and the height 2 are powers of
two, and the height map has `2^31` texels and the output array `2^32`.  The
product `width * height` is `2^31`, which wraps to `-2^31` in `int32`, so the
pointer `layerData` of the second layer lies `2^31` texels before the output
array, and the write of the first texel of the second layer is out of
bounds. -/
theorem WorldManager.ConstructHorizonMap_counterexample :
    ((2 : Int) ^ 30 = 2 ^ 30 ∧ (2 : Int) = 2 ^ 1) ∧
    toInt32 (2 ^ 30 * 2) = -2 ^ 31 ∧
    WorldManager.ConstructHorizonMap flatAtan2 flatRoot flatRoot flatIndex flatIndex
      truncateRat (List.replicate (2 ^ 31) ⟨7, 7, 7, 255⟩)
      (List.replicate (2 ^ 32) ⟨0, 0, 0, 0⟩) (2 ^ 30) 2 = none := by
  have hwrap : toInt32 (2 ^ 30 * 2) = -2 ^ 31 := by
    unfold toInt32
    omega
  refine ⟨⟨rfl, rfl⟩, hwrap, ?_⟩
  exact WorldManager.ConstructHorizonMap_of_overflow flatAtan2 flatRoot flatRoot flatIndex
    flatIndex truncateRat _ _ (2 ^ 30) 2 (by omega) (by omega) (by omega) (by omega) (by omega)
    (by rw [List.length_replicate]; omega) (by rw [hwrap]; omega)

end HorizonOverflow

end Framework
